import Mathlib

/-! # ASOFI3D: arrays, grid partition, receiver sampling and seismogram collection

A shallow embedding of `src/util.c`, `src/catseis.c`, `src/model_acoustic.c`
and `src/seismo_ssg.c`.

* C `int` values are mathematical integers (`Int`); signed overflow, which is
  undefined behaviour in C, is outside the model.
* `float`/`double` values are elements of a type `α` carrying the algebraic
  structure each routine needs (exact arithmetic).
* Heap memory is a family of blocks, one per `malloc` call.  Block sizes are
  counted in elements.  What a freshly allocated block contains is arbitrary.
  Any access outside a live block is a `fault` (undefined behaviour in C).
* `err` ends the program (`MPI_Abort`); it is the `abort` outcome.
-/

namespace ASOFI3D

/-! ## Memory model -/

/-- A C pointer: the allocation it points into and an element offset, which
may lie outside the allocation while the pointer is only being computed. -/
structure Ptr where
  blk : Nat
  off : Int
deriving DecidableEq, Repr

instance : HAdd Ptr Int Ptr := ⟨fun p i => ⟨p.blk, p.off + i⟩⟩

instance : HSub Ptr Int Ptr := ⟨fun p i => ⟨p.blk, p.off - i⟩⟩

/-- The contents of one memory cell: a floating value, an integer value or a
pointer (`none` is `NULL`). -/
inductive Word (α : Type) where
  | flt (a : α)
  | int (n : Int)
  | ptr (p : Option Ptr)
deriving DecidableEq, Repr

/-- The ways a run can end without returning. -/
inductive Err where
  | fault
  | abort (msg : String)
  | fuel
deriving DecidableEq, Repr

/-- The heap of one process.  `next` counts the `malloc` calls made so far and
is the number of the next block; `size b` is the element count of block `b`;
`cell b o` is the content of element `o` of block `b` (for `b ≥ next` this is
what `malloc` will hand out, uninitialised); `oom n` tells whether the `n`-th
`malloc` call returns `NULL`; `freed` logs the arguments of `free`. -/
structure Heap (α : Type) where
  next : Nat
  size : Nat → Int
  cell : Nat → Int → Word α
  oom : Nat → Bool
  freed : List Ptr

/-- State-and-failure monad of the embedded C code. -/
abbrev M (α : Type) (β : Type) := StateT (Heap α) (Except Err) β

variable {α : Type}

/-- The pointer addresses an element of a live block. -/
def Heap.inb (h : Heap α) (p : Ptr) : Prop :=
  p.blk < h.next ∧ 0 ≤ p.off ∧ p.off < h.size p.blk

instance (h : Heap α) (p : Ptr) : Decidable (h.inb p) := by
  unfold Heap.inb; infer_instance

/-- The heap after writing `w` at `p`. -/
def Heap.set (h : Heap α) (p : Ptr) (w : Word α) : Heap α :=
  { h with cell := fun b o => if b = p.blk ∧ o = p.off then w else h.cell b o }

/-- The heap after a successful `malloc` of `n` elements. -/
def Heap.alloc (h : Heap α) (n : Int) : Heap α :=
  { h with next := h.next + 1,
           size := fun b => if b = h.next then n else h.size b }

/-- The next `k` calls of `malloc` succeed. -/
def Heap.mallocOk (h : Heap α) (k : Nat) : Prop :=
  ∀ n, h.next ≤ n → n < h.next + k → h.oom n = false

/-- Read of `*p`. -/
def load (p : Ptr) : M α (Word α) := fun h =>
  if h.inb p then .ok (h.cell p.blk p.off, h) else .error .fault

/-- Assignment `*p = w`. -/
def store (p : Ptr) (w : Word α) : M α Unit := fun h =>
  if h.inb p then .ok ((), h.set p w) else .error .fault

/-- Read of a pointer-typed cell that may hold `NULL`. -/
def loadPtrOpt (p : Ptr) : M α (Option Ptr) := fun h =>
  if h.inb p then
    match h.cell p.blk p.off with
    | .ptr q => .ok (q, h)
    | _ => .error .fault
  else .error .fault

/-- Read of a pointer-typed cell whose value is then used as an address. -/
def loadPtr (p : Ptr) : M α Ptr := fun h =>
  if h.inb p then
    match h.cell p.blk p.off with
    | .ptr (some q) => .ok (q, h)
    | _ => .error .fault
  else .error .fault

/-- Read of a `float`/`double` cell. -/
def loadFlt (p : Ptr) : M α α := fun h =>
  if h.inb p then
    match h.cell p.blk p.off with
    | .flt a => .ok (a, h)
    | _ => .error .fault
  else .error .fault

/-- Read of an integer cell. -/
def loadInt (p : Ptr) : M α Int := fun h =>
  if h.inb p then
    match h.cell p.blk p.off with
    | .int n => .ok (n, h)
    | _ => .error .fault
  else .error .fault

/-- Call `malloc` for `n` elements: `NULL` when the oracle says so or when the
request is negative (a huge `size_t`), else the base of a fresh block whose
contents are whatever `cell` already holds there. -/
def malloc (n : Int) : M α (Option Ptr) := fun h =>
  if h.oom h.next ∨ n < 0 then .ok (none, { h with next := h.next + 1 })
  else .ok (some ⟨h.next, 0⟩, h.alloc n)

/-- Call `free(p)`: `p` must be the base of a block not freed before. -/
def free (p : Ptr) : M α Unit := fun h =>
  if p.off = 0 ∧ p.blk < h.next ∧ p ∉ h.freed then
    .ok ((), { h with freed := p :: h.freed,
                      size := fun b => if b = p.blk then 0 else h.size b })
  else .error .fault

/-- Function `err` of util.c: prints the message and calls `MPI_Abort`. -/
def err {β : Type} (format : String) : M α β := fun _ => .error (.abort format)

/-- Body `body lo`, `body (lo+1)`, ... run `n` times in sequence, threading the
local variables `s` that the body assigns. -/
def forRange {m : Type → Type} [Monad m] {σ : Type} (body : Int → σ → m σ) :
    Int → Nat → σ → m σ
  | _, 0, s => pure s
  | lo, n + 1, s => body lo s >>= forRange body (lo + 1) n

/-- A counted loop `for (i = lo; i <= hi; i++) body`, whose body assigns neither
`i` nor `hi`; `s` holds the local variables that the body assigns. -/
def forLoop {m : Type → Type} [Monad m] {σ : Type} (lo hi : Int) (s : σ)
    (body : Int → σ → m σ) : m σ :=
  forRange body lo (hi + 1 - lo).toNat s

/-- A counted loop whose body assigns no local variable. -/
def forEach {m : Type → Type} [Monad m] (lo hi : Int) (body : Int → m Unit) : m Unit :=
  forLoop lo hi () fun i _ => body i

/-- A loop `for (v = v0; cond; v++) body` whose condition does not bound `v`
by itself; at most `fuel` iterations are run, after which the run ends in
`Err.fuel`. -/
def forCond (cond : Int → Bool) (body : Int → M α Unit) : Nat → Int → M α Unit
  | 0, v => if cond v then throw .fuel else pure ()
  | fuel + 1, v => if cond v then body v >>= fun _ => forCond cond body fuel (v + 1) else pure ()

/-! ## util.c -/

/-- Macro `NR_END` of util.c. -/
def NR_END : Int := 1

/-- Address of `t[i][j]` for a pointer-to-pointer `t`. -/
def at2 (t : Ptr) (i j : Int) : M α Ptr := do
  return (← loadPtr (t + i)) + j

/-- Address of `t[i][j][d]`. -/
def at3 (t : Ptr) (i j d : Int) : M α Ptr := do
  return (← loadPtr (← at2 t i j)) + d

/-- Address of `t[i][j][d][v]`. -/
def at4 (t : Ptr) (i j d v : Int) : M α Ptr := do
  return (← loadPtr (← at3 t i j d)) + v

/-- The shared body of `vector`, `ivector`, `usvector`, `lvector` and `dvector`,
which differ in the element type (hence in the zero stored) and in the
diagnostic. -/
def vectorOf (zero : Word α) (msg : String) (nl nh : Int) : M α Ptr := do
  let some v ← malloc (nh - nl + 1 + NR_END) | err msg
  forEach 0 (nh - nl + 1 + NR_END - 1) fun i => store (v + i) zero
  return v - nl + NR_END

/-- Function `vector` of util.c. -/
def vector [Zero α] (nl nh : Int) : M α Ptr :=
  vectorOf (.flt 0) "allocation failure in function vector()" nl nh

/-- Function `ivector` of util.c. -/
def ivector (nl nh : Int) : M α Ptr :=
  vectorOf (.int 0) "allocation failure in function ivector()" nl nh

/-- Function `usvector` of util.c. -/
def usvector (nl nh : Int) : M α Ptr :=
  vectorOf (.int 0) "allocation failure in function usvector()" nl nh

/-- Function `cvector` of util.c: no element is written. -/
def cvector (nl nh : Int) : M α Ptr := do
  let some v ← malloc (nh - nl + 1 + NR_END) | err "allocation failure in function cvector()"
  return v - nl + NR_END

/-- Function `lvector` of util.c. -/
def lvector (nl nh : Int) : M α Ptr :=
  vectorOf (.int 0) "allocation failure in function lvector()" nl nh

/-- Function `dvector` of util.c. -/
def dvector [Zero α] (nl nh : Int) : M α Ptr :=
  vectorOf (.flt 0) "allocation failure in function dvector()" nl nh

/-- The shared body of `fmatrix`, `dmatrix`, `imatrix` and `usmatrix`. -/
def matrixOf (zero : Word α) (msg1 msg2 : String) (nrl nrh ncl nch : Int) : M α Ptr := do
  let nrow := nrh - nrl + 1
  let ncol := nch - ncl + 1
  -- allocate pointers to rows
  let some m ← malloc (nrow + NR_END) | err msg1
  let m := m + NR_END
  let m := m - nrl
  -- allocation rows and set pointers to them
  store (m + nrl) (.ptr (← malloc (nrow * ncol + NR_END)))
  if (← loadPtrOpt (m + nrl)).isNone then err msg2
  store (m + nrl) (.ptr (some ((← loadPtr (m + nrl)) + NR_END)))
  store (m + nrl) (.ptr (some ((← loadPtr (m + nrl)) - ncl)))
  forEach (nrl + 1) nrh fun i => do
    store (m + i) (.ptr (some ((← loadPtr (m + (i - 1))) + ncol)))
  -- initializing matrix
  forEach nrl nrh fun i =>
    forEach ncl nch fun j => do
      store (← at2 m i j) zero
  return m

/-- Function `fmatrix` of util.c. -/
def fmatrix [Zero α] (nrl nrh ncl nch : Int) : M α Ptr :=
  matrixOf (.flt 0) "allocation failure 1 in function fmatrix() "
    "allocation failure 2 in function fmatrix() " nrl nrh ncl nch

/-- Function `dmatrix` of util.c. -/
def dmatrix [Zero α] (nrl nrh ncl nch : Int) : M α Ptr :=
  matrixOf (.flt 0) "allocation failure 1 in function matrix() "
    "allocation failure 2 in function dmatrix() " nrl nrh ncl nch

/-- Function `imatrix` of util.c. -/
def imatrix (nrl nrh ncl nch : Int) : M α Ptr :=
  matrixOf (.int 0) "allocation failure 1 in function imatrix() "
    "allocation failure 2 in function imatrix() " nrl nrh ncl nch

/-- Function `usmatrix` of util.c. -/
def usmatrix (nrl nrh ncl nch : Int) : M α Ptr :=
  matrixOf (.int 0) "allocation failure 1 in function usmatrix() "
    "allocation failure 2 in function usmatrix() " nrl nrh ncl nch

/-- The shared body of `f3tensor` and `i3tensor`. -/
def tensor3Of (zero : Word α) (msg1 msg2 msg3 : String)
    (nrl nrh ncl nch ndl ndh : Int) : M α Ptr := do
  let nrow := nrh - nrl + 1
  let ncol := nch - ncl + 1
  let ndep := ndh - ndl + 1
  -- allocate pointers to pointers to rows
  let some t ← malloc (nrow + NR_END) | err msg1
  let t := t + NR_END
  let t := t - nrl
  -- allocate pointers to rows and set pointers to them
  store (t + nrl) (.ptr (← malloc (nrow * ncol + NR_END)))
  if (← loadPtrOpt (t + nrl)).isNone then err msg2
  store (t + nrl) (.ptr (some ((← loadPtr (t + nrl)) + NR_END)))
  store (t + nrl) (.ptr (some ((← loadPtr (t + nrl)) - ncl)))
  -- allocate rows and set pointers to them
  store (← at2 t nrl ncl) (.ptr (← malloc (nrow * ncol * ndep + NR_END)))
  if (← loadPtrOpt (← at2 t nrl ncl)).isNone then err msg3
  store (← at2 t nrl ncl) (.ptr (some ((← loadPtr (← at2 t nrl ncl)) + NR_END)))
  store (← at2 t nrl ncl) (.ptr (some ((← loadPtr (← at2 t nrl ncl)) - ndl)))
  forEach (ncl + 1) nch fun j => do
    store (← at2 t nrl j) (.ptr (some ((← loadPtr (← at2 t nrl (j - 1))) + ndep)))
  forEach (nrl + 1) nrh fun i => do
    store (t + i) (.ptr (some ((← loadPtr (t + (i - 1))) + ncol)))
    store (← at2 t i ncl) (.ptr (some ((← loadPtr (← at2 t (i - 1) ncl)) + ncol * ndep)))
    forEach (ncl + 1) nch fun j => do
      store (← at2 t i j) (.ptr (some ((← loadPtr (← at2 t i (j - 1))) + ndep)))
  -- initializing 3tensor
  forEach nrl nrh fun i =>
    forEach ncl nch fun j =>
      forEach ndl ndh fun d => do
        store (← at3 t i j d) zero
  return t

/-- Function `f3tensor` of util.c. -/
def f3tensor [Zero α] (nrl nrh ncl nch ndl ndh : Int) : M α Ptr :=
  tensor3Of (.flt 0) "allocation failure 1 in function f3tensor() "
    "allocation failure 2 in function f3tensor() "
    "allocation failure 3 in function f3tensor() " nrl nrh ncl nch ndl ndh

/-- Function `i3tensor` of util.c. -/
def i3tensor (nrl nrh ncl nch ndl ndh : Int) : M α Ptr :=
  tensor3Of (.int 0) "allocation failure 1 in function i3tensor() "
    "allocation failure 2 in function i3tensor() "
    "allocation failure 3 in function i3tensor() " nrl nrh ncl nch ndl ndh

/-- Function `f4tensor` of util.c.  The innermost loop of the initialisation is
`for (v=nvl;d<=nvh;v++)`: its condition tests `d`, so it is a `forCond` loop and
`fuel` bounds the iterations of each of its runs.  Block sizes are element
counts (the third block is requested with `sizeof(float)` per element). -/
def f4tensor [Zero α] (fuel : Nat) (nrl nrh ncl nch ndl ndh nvl nvh : Int) : M α Ptr := do
  let nrow := nrh - nrl + 1
  let ncol := nch - ncl + 1
  let ndep := ndh - ndl + 1
  let nval := nvh - nvl + 1
  -- allocate pointers to pointers to rows
  let some t ← malloc (nrow + NR_END) | err "allocation failure 1 in function f4tensor() "
  let t := t + NR_END
  let t := t - nrl
  -- allocate pointers to rows and set pointers to them
  store (t + nrl) (.ptr (← malloc (nrow * ncol + NR_END)))
  if (← loadPtrOpt (t + nrl)).isNone then err "allocation failure 2 in function f4tensor() "
  store (t + nrl) (.ptr (some ((← loadPtr (t + nrl)) + NR_END)))
  store (t + nrl) (.ptr (some ((← loadPtr (t + nrl)) - ncl)))
  -- allocate rows and set pointers to them
  store (← at2 t nrl ncl) (.ptr (← malloc (nrow * ncol * ndep + NR_END)))
  if (← loadPtrOpt (← at2 t nrl ncl)).isNone then err "allocation failure 3 in function f4tensor() "
  store (← at2 t nrl ncl) (.ptr (some ((← loadPtr (← at2 t nrl ncl)) + NR_END)))
  store (← at2 t nrl ncl) (.ptr (some ((← loadPtr (← at2 t nrl ncl)) - ndl)))
  -- allocate values and set pointers to them
  store (← at3 t nrl ncl ndl) (.ptr (← malloc (nrow * ncol * ndep * nval + NR_END)))
  if (← loadPtrOpt (← at3 t nrl ncl ndl)).isNone then
    err "allocation failure 4 in function f4tensor() "
  store (← at3 t nrl ncl ndl) (.ptr (some ((← loadPtr (← at3 t nrl ncl ndl)) + NR_END)))
  store (← at3 t nrl ncl ndl) (.ptr (some ((← loadPtr (← at3 t nrl ncl ndl)) - nvl)))
  forEach (ndl + 1) ndh fun d => do
    store (← at3 t nrl ncl d) (.ptr (some ((← loadPtr (← at3 t nrl ncl (d - 1))) + nval)))
  forEach (nrl + 1) nrh fun i => do
    store (t + i) (.ptr (some ((← loadPtr (t + (i - 1))) + ncol)))
    store (← at2 t i ncl) (.ptr (some ((← loadPtr (← at2 t (i - 1) ncl)) + ncol * ndep)))
    store (← at3 t i ncl ndl)
      (.ptr (some ((← loadPtr (← at3 t (i - 1) ncl ndl)) + ncol * ndep * nval)))
    forEach (ncl + 1) nch fun j => do
      store (← at2 t i j) (.ptr (some ((← loadPtr (← at2 t i (j - 1))) + ndep)))
      store (← at3 t i j ndl) (.ptr (some ((← loadPtr (← at3 t i (j - 1) ndl)) + ndep * nval)))
      forEach (ndl + 1) ndh fun d => do
        store (← at3 t i j d) (.ptr (some ((← loadPtr (← at3 t i j (d - 1))) + nval)))
  -- initializing 4tensor
  forEach nrl nrh fun i =>
    forEach ncl nch fun j =>
      forEach ndl ndh fun d =>
        forCond (fun _ => decide (d ≤ nvh)) (fun v => do store (← at4 t i j d v) (.flt 0))
          fuel nvl
  return t

/-- Function `free_vector` of util.c. -/
def free_vector (v : Ptr) (nl _nh : Int) : M α Unit :=
  free (v + nl - NR_END)

/-- Function `free_ivector` of util.c. -/
def free_ivector (v : Ptr) (nl _nh : Int) : M α Unit :=
  free (v + nl - NR_END)

/-- Function `free_cvector` of util.c. -/
def free_cvector (v : Ptr) (nl _nh : Int) : M α Unit :=
  free (v + nl - NR_END)

/-- Function `free_dvector` of util.c. -/
def free_dvector (v : Ptr) (nl _nh : Int) : M α Unit :=
  free (v + nl - NR_END)

/-- Function `free_matrix` of util.c. -/
def free_matrix (m : Ptr) (nrl _nrh ncl _nch : Int) : M α Unit := do
  free ((← loadPtr (m + nrl)) + ncl - NR_END)
  free (m + nrl - NR_END)

/-- Function `free_imatrix` of util.c. -/
def free_imatrix (m : Ptr) (nrl _nrh ncl _nch : Int) : M α Unit := do
  free ((← loadPtr (m + nrl)) + ncl - NR_END)
  free (m + nrl - NR_END)

/-- Function `free_usmatrix` of util.c. -/
def free_usmatrix (m : Ptr) (nrl _nrh ncl _nch : Int) : M α Unit := do
  free ((← loadPtr (m + nrl)) + ncl - NR_END)
  free (m + nrl - NR_END)

/-- Function `free_f3tensor` of util.c. -/
def free_f3tensor (t : Ptr) (nrl _nrh ncl _nch ndl _ndh : Int) : M α Unit := do
  free ((← loadPtr (← at2 t nrl ncl)) + ndl - NR_END)
  free ((← loadPtr (t + nrl)) + ncl - NR_END)
  free (t + nrl - NR_END)

/-- Function `free_i3tensor` of util.c. -/
def free_i3tensor (t : Ptr) (nrl _nrh ncl _nch ndl _ndh : Int) : M α Unit := do
  free ((← loadPtr (← at2 t nrl ncl)) + ndl - NR_END)
  free ((← loadPtr (t + nrl)) + ncl - NR_END)
  free (t + nrl - NR_END)

/-- Function `free_f4tensor` of util.c. -/
def free_f4tensor (t : Ptr) (nrl _nrh ncl _nch ndl _ndh nvl _nvh : Int) : M α Unit := do
  free ((← loadPtr (← at3 t nrl ncl ndl)) + nvl - NR_END)
  free ((← loadPtr (← at2 t nrl ncl)) + ndl - NR_END)
  free ((← loadPtr (t + nrl)) + ncl - NR_END)
  free (t + nrl - NR_END)

/-! ## catseis.c -/

/-- Read of `count` consecutive `float`s starting at `p` (a message buffer). -/
def readBuf (p : Ptr) : Nat → M α (List α)
  | 0 => pure []
  | n + 1 => do
    let a ← loadFlt p
    let rest ← readBuf (p + (1 : Int)) n
    return a :: rest

/-- Write of the `float`s of `xs` to consecutive cells starting at `p`. -/
def writeBuf (p : Ptr) : List α → M α Unit
  | [] => pure ()
  | a :: rest => do
    store p (.flt a)
    writeBuf (p + (1 : Int)) rest

/-- Element-wise sum (`MPI_SUM`) of the send buffers, each of `count` elements. -/
def sumBufs [AddCommMonoid α] (count : Nat) (bufs : List (List α)) : List α :=
  bufs.foldr (fun buf acc => List.zipWith (fun x y => x + y) buf acc) (List.replicate count 0)

/-- All runs of a collective step succeed, or the first failure. -/
def allOk {β : Type} : List (Except Err β) → Except Err (List β)
  | [] => .ok []
  | x :: xs => do
    let a ← x
    let rest ← allOk xs
    return a :: rest

/-- `MPI_Allreduce(sendbuf, recvbuf, count, MPI_FLOAT, MPI_SUM, MPI_COMM_WORLD)`,
called by every process of the communicator: each entry of `calls` is the heap
of one process with its `sendbuf` and `recvbuf`.  Every process receives the
element-wise sum of all send buffers. -/
def MPI_Allreduce [AddCommMonoid α] (calls : List (Heap α × Ptr × Ptr)) (count : Int) :
    Except Err (List (Heap α)) := do
  let sends ← allOk (calls.map fun c => (readBuf c.2.1 count.toNat).run' c.1)
  let total := sumBufs count.toNat sends
  allOk (calls.map fun c => (writeBuf c.2.2 total).run c.1 |>.map Prod.snd)

/-- One process calling `catseis`: its heap and its arguments `data`,
`fulldata` and `recswitch`. -/
structure Proc (α : Type) where
  heap : Heap α
  data : Ptr
  fulldata : Ptr
  recswitch : Ptr

/-- Function `catseis` of catseis.c up to the call of `MPI_Allreduce`
(lines 15-29): returns `fulldata2` and the two buffer addresses
`&fulldata2[1][1]` and `&fulldata[1][1]`. -/
def catseisSend [Zero α] (data fulldata recswitch : Ptr) (ntr_glob ns : Int) :
    M α (Ptr × Ptr × Ptr) := do
  -- temporary global data array for MPI-exchange
  let fulldata2 ← fmatrix 1 ntr_glob 1 ns
  -- trace counter for local data array
  let k : Int := 0
  -- loop over global traces: copy traces of local array
  -- to appropriate locations in the global array
  let _ ← forLoop 1 ntr_glob k fun i k => do
    if (← loadInt (recswitch + i)) ≠ 0 then
      let k := k + 1
      forEach 1 ns fun j => do
        store (← at2 fulldata2 i j) (.flt (← loadFlt (← at2 data k j)))
      return k
    else
      return k
  return (fulldata2, ← at2 fulldata2 1 1, ← at2 fulldata 1 1)

/-- The scatter loop of `catseis` (catseis.c, lines 21-27) for the rounds
`i = lo..hi`, entered with the trace counter `k`: returns the trace counter
after the last round.  `catseis` runs it with `lo = 1`, `hi = ntr_glob` and
`k = 0`. -/
def scatterLoop (data fulldata2 recswitch : Ptr) (lo hi k ns : Int) : M α Int :=
  forLoop lo hi k fun i k => do
    if (← loadInt (recswitch + i)) ≠ 0 then
      let k := k + 1
      forEach 1 ns fun j => do
        store (← at2 fulldata2 i j) (.flt (← loadFlt (← at2 data k j)))
      return k
    else
      return k

/-- Function `catseis` of catseis.c, run by all processes `procs` of
`MPI_COMM_WORLD` with the same `ntr_glob` and `ns`: the final heap of each. -/
def catseis [AddCommMonoid α] (procs : List (Proc α)) (ntr_glob ns : Int) :
    Except Err (List (Heap α)) := do
  let sent ← allOk (procs.map fun p =>
    (catseisSend p.data p.fulldata p.recswitch ntr_glob ns).run p.heap)
  let hs ← MPI_Allreduce (sent.map fun r => (r.2, r.1.2.1, r.1.2.2)) (ntr_glob * ns)
  allOk ((sent.zip hs).map fun r =>
    (free_matrix r.1.1.1 1 ntr_glob 1 ns).run r.2 |>.map Prod.snd)

/-- Value of `m[i][j]` for a `float **m`. -/
def getFlt2 (m : Ptr) (i j : Int) : M α α := do
  loadFlt (← at2 m i j)

/-- Number of indices `l` in `1..n` with `flag l` set (non-zero). -/
def countFlags (flag : Int → Int) : Nat → Int
  | 0 => 0
  | n + 1 => countFlags flag n + (if flag (n + 1) ≠ 0 then 1 else 0)

/-- The `k`-th flagged index in ascending order, searched in `1..n`
(`k = 1` is the first; `none` when fewer than `k` indices are flagged). -/
def kthFlagged (flag : Int → Int) (k : Int) : Nat → Option Int
  | 0 => none
  | n + 1 =>
    match kthFlagged flag k n with
    | some i => some i
    | none => if flag (n + 1) ≠ 0 ∧ countFlags flag (n + 1) = k then some (n + 1) else none

/-- Content of an integer cell as a value (0 for a cell of another type). -/
def Heap.intAt (h : Heap α) (p : Ptr) : Int :=
  match h.cell p.blk p.off with
  | .int n => n
  | _ => 0

/-- The value that `m[i][j]` reads in heap `h`, when both reads succeed. -/
def Heap.matAt (h : Heap α) (m : Ptr) (i j : Int) : Option α :=
  match getFlt2 m i j h with
  | .ok (a, _) => some a
  | .error _ => none

/-- The flags of a process: `recswitch[i]` in its heap. -/
def Proc.flag (p : Proc α) (i : Int) : Int :=
  p.heap.intAt (p.recswitch + i)

/-- Every pointer passed to `free` so far was the base of an allocated block. -/
def Heap.wf (h : Heap α) : Prop :=
  ∀ p ∈ h.freed, p.blk < h.next

/-- The vector `recswitch[1..n]` is readable and holds integers. -/
def FlagsOk (h : Heap α) (recswitch : Ptr) (n : Int) : Prop :=
  ∀ i, 1 ≤ i → i ≤ n →
    h.inb (recswitch + i) ∧ ∃ m, h.cell recswitch.blk (recswitch.off + i) = .int m

/-- The matrix `data[1..rows][1..ns]` is readable and holds floats. -/
def DataOk (h : Heap α) (data : Ptr) (rows ns : Int) : Prop :=
  ∀ k j, 1 ≤ k → k ≤ rows → 1 ≤ j → j ≤ ns → (h.matAt data k j).isSome = true

/-- The matrix `fulldata[1..n][1..ns]` is laid out as `fmatrix(1,n,1,ns)` does:
its row pointers point at stride `ns` into one block other than their own,
which holds the `n*ns` elements. -/
def FullOk (h : Heap α) (fulldata : Ptr) (n ns : Int) : Prop :=
  ∃ b o, b ≠ fulldata.blk ∧
    (∀ i, 1 ≤ i → i ≤ n → h.inb (fulldata + i) ∧
      h.cell fulldata.blk (fulldata.off + i) = .ptr (some ⟨b, o + (i - 1) * ns⟩)) ∧
    ∀ f, 0 ≤ f → f < n * ns → h.inb ⟨b, o + 1 + f⟩

/-- The arguments of one process are valid for `catseis`: `recswitch[1..ntr_glob]`,
`data` with one row of `ns` samples per set flag, `fulldata[1..ntr_glob][1..ns]`,
and memory for the scratch matrix. -/
def ProcOk (p : Proc α) (ntr_glob ns : Int) : Prop :=
  p.heap.wf ∧ p.heap.mallocOk 2 ∧ FlagsOk p.heap p.recswitch ntr_glob ∧
    DataOk p.heap p.data (countFlags p.flag ntr_glob.toNat) ns ∧
    FullOk p.heap p.fulldata ntr_glob ns

/-- Content of a `float` cell as a value (0 for a cell of another type). -/
def Heap.fltAt [Zero α] (h : Heap α) (p : Ptr) : α :=
  match h.cell p.blk p.off with
  | .flt a => a
  | _ => 0

/-- The cells `c` after writing the floats `xs` to consecutive cells of block
`b` from offset `o` on. -/
def writeCells [Zero α] (c : Nat → Int → Word α) (b : Nat) (o : Int) (xs : List α) :
    Nat → Int → Word α :=
  fun b1 o1 =>
    if b1 = b ∧ o ≤ o1 ∧ o1 < o + xs.length then .flt (xs.getD (o1 - o).toNat 0) else c b1 o1

/-- What the scatter loop of `catseis` puts at `fulldata2[i][j]`: the sample
`data[k][j]` with `k` the number of set flags among `recswitch[1..i]` when
`recswitch[i]` is set, else zero. -/
def scatter [Zero α] (h : Heap α) (data recswitch : Ptr) (i j : Int) : α :=
  if h.intAt (recswitch + i) ≠ 0 then
    (h.matAt data (countFlags (fun l => h.intAt (recswitch + l)) i.toNat) j).getD 0
  else 0

/-! ## model_acoustic.c -/

/-- A three-dimensional array seen through its index range: `inb` tells which
index triples are inside the allocation, `val` gives the contents. -/
structure Arr3 (α : Type) where
  inb : Int → Int → Int → Bool
  val : Int → Int → Int → α

/-- A two-dimensional array seen through its index range. -/
structure Arr2 (α : Type) where
  inb : Int → Int → Bool
  val : Int → Int → α

/-- Read `a[i][j][k]`. -/
def Arr3.read (a : Arr3 α) (i j k : Int) : Except Err α :=
  if a.inb i j k then .ok (a.val i j k) else .error .fault

/-- Assignment `a[i][j][k] = x`. -/
def Arr3.write (a : Arr3 α) (i j k : Int) (x : α) : Except Err (Arr3 α) :=
  if a.inb i j k then
    .ok { a with val := fun i1 j1 k1 => if i1 = i ∧ j1 = j ∧ k1 = k then x else a.val i1 j1 k1 }
  else .error .fault

/-- Read `a[i][j]`. -/
def Arr2.read (a : Arr2 α) (i j : Int) : Except Err α :=
  if a.inb i j then .ok (a.val i j) else .error .fault

/-- Assignment `a[i][j] = x`. -/
def Arr2.write (a : Arr2 α) (i j : Int) (x : α) : Except Err (Arr2 α) :=
  if a.inb i j then
    .ok { a with val := fun i1 j1 => if i1 = i ∧ j1 = j then x else a.val i1 j1 }
  else .error .fault

/-- The ownership test of model_acoustic.c (lines 50-52), with C integer
division (truncation); `POS` is the array `POS[4]` of rank coordinates. -/
def owns (NX NY NZ : Int) (POS : Int → Int) (i j k : Int) : Bool :=
  POS 1 == (i - 1).tdiv NX && POS 2 == (j - 1).tdiv NY && POS 3 == (k - 1).tdiv NZ

/-- The local coordinate `(ii, jj, kk)` of model_acoustic.c (lines 53-55). -/
def localCoord (NX NY NZ : Int) (POS : Int → Int) (i j k : Int) : Int × Int × Int :=
  (i - POS 1 * NX, j - POS 2 * NY, k - POS 3 * NZ)

/-- The array `POS[4]` holding the rank triple `(p1, p2, p3)` at indices 1..3. -/
def posOf (p1 p2 p3 : Int) : Int → Int :=
  fun n => if n = 1 then p1 else if n = 2 then p2 else if n = 3 then p3 else 0

/-- Function `model_acoustic` of model_acoustic.c, lines 29-62 (the output of
the model files that follows is not part of the embedding): the arrays `rho`
and `pi` after the triple loop. -/
def model_acoustic [Field α] (NX NY NZ NXG NYG NZG : Int) (POS : Int → Int)
    (rho pi : Arr3 α) : Except Err (Arr3 α × Arr3 α) :=
  forLoop 1 NYG (rho, pi) fun j st =>
    forLoop 1 NXG st fun i st =>
      forLoop 1 NZG st fun k st => do
        let Vp : α := 3500
        let Rhov : α := 2000
        let piv := Vp * Vp * Rhov
        -- only the PE which belongs to the current global gridpoint
        -- is saving model parameters in his local arrays
        if owns NX NY NZ POS i j k then
          let (ii, jj, kk) := localCoord NX NY NZ POS i j k
          let rho ← st.1.write jj ii kk Rhov
          let pi ← st.2.write jj ii kk piv
          return (rho, pi)
        else
          return st

/-! ## seismo_ssg.c -/

/-- Library function `fabs`. -/
def fabs [LinearOrderedField α] (x : α) : α := abs x

/-- Modelled from the spec: function `fsign`, which fd.h declares and whose
definition is not among the sources; the spec calls it `sign(x)`, the sign of
`x`: -1 for a negative, 1 for a positive argument and 0 at zero. -/
def fsign [LinearOrderedField α] (x : α) : α :=
  if x < 0 then -1 else if 0 < x then 1 else 0

/-- The three components of the particle velocity (type `Velocity`). -/
structure Velocity (α : Type) where
  x : Arr3 α
  y : Arr3 α
  z : Arr3 α

/-- The diagonal of the stress tensor (the fields of type `Tensor3d` that
`seismo` reads). -/
structure Tensor3d (α : Type) where
  xx : Arr3 α
  yy : Arr3 α
  zz : Arr3 α

/-- The six seismogram sections that `seismo` writes. -/
structure Sections (α : Type) where
  sectionvx : Arr2 α
  sectionvy : Arr2 α
  sectionvz : Arr2 α
  sectiondiv : Arr2 α
  sectioncurl : Arr2 α
  sectionp : Arr2 α

/-- Function `seismo` of seismo_ssg.c.  `SEISMO`, `DX`, `DY`, `DZ` are the
global variables it reads, `sqrt` is the library square root, `sec` holds the
six section matrices. -/
def seismo [LinearOrderedField α] (sqrt : α → α) (SEISMO : Int) (DX DY DZ : α)
    (lsamp ntr : Int) (recpos : Arr2 Int) (sec : Sections α)
    (v : Velocity α) (s : Tensor3d α) (pi u : Arr3 α) : Except Err (Sections α) :=
  let vx := v.x
  let vy := v.y
  let vz := v.z
  let sxx := s.xx
  let syy := s.yy
  let szz := s.zz
  let ins := lsamp
  let dh24x := 1 / DX
  let dh24y := 1 / DY
  let dh24z := 1 / DZ
  forLoop 1 ntr sec fun itr sec => do
    let nxrec ← recpos.read 1 itr
    let nyrec ← recpos.read 2 itr
    let nzrec ← recpos.read 3 itr
    if SEISMO = 1 then
      -- particle velocities
      let sec := { sec with sectionvx := (← sec.sectionvx.write itr ins (← vx.read nyrec nxrec nzrec)) }
      let sec := { sec with sectionvy := (← sec.sectionvy.write itr ins (← vy.read nyrec nxrec nzrec)) }
      let sec := { sec with sectionvz := (← sec.sectionvz.write itr ins (← vz.read nyrec nxrec nzrec)) }
      return sec
    else if SEISMO = 2 then
      -- pressure
      let sec := { sec with sectionp := (← sec.sectionp.write itr ins
        ((-(← sxx.read nyrec nxrec nzrec) - (← syy.read nyrec nxrec nzrec)
          - (← szz.read nyrec nxrec nzrec)) / 3)) }
      return sec
    else if SEISMO = 3 then
      -- curl + div
      let i := nxrec
      let j := nyrec
      let k := nzrec
      let vxy := ((← vx.read (j + 1) i k) - (← vx.read j i k)) * dh24y
      let vxz := ((← vx.read j i (k + 1)) - (← vx.read j i k)) * dh24z
      let vyx := ((← vy.read j (i + 1) k) - (← vy.read j i k)) * dh24x
      let vyz := ((← vy.read j i (k + 1)) - (← vy.read j i k)) * dh24z
      let vzx := ((← vz.read j (i + 1) k) - (← vz.read j i k)) * dh24x
      let vzy := ((← vz.read (j + 1) i k) - (← vz.read j i k)) * dh24y
      let amp := (← u.read j i k) * ((vyz - vzy) * fabs (vyz - vzy)
        + (vzx - vxz) * fabs (vzx - vxz) + (vxy - vyx) * fabs (vxy - vyx))
      let sec := { sec with sectioncurl := (← sec.sectioncurl.write itr ins
        (fsign amp * sqrt (fabs amp))) }
      let vxx := ((← vx.read j i k) - (← vx.read j (i - 1) k)) * dh24x
      let vyy := ((← vy.read j i k) - (← vy.read (j - 1) i k)) * dh24y
      let vzz := ((← vz.read j i k) - (← vz.read j i (k - 1))) * dh24z
      let sec := { sec with sectiondiv := (← sec.sectiondiv.write itr ins
        ((vxx + vyy + vzz) * sqrt (← pi.read j i k))) }
      return sec
    else if SEISMO = 4 then
      -- all
      let sec := { sec with sectionvx := (← sec.sectionvx.write itr ins (← vx.read nyrec nxrec nzrec)) }
      let sec := { sec with sectionvy := (← sec.sectionvy.write itr ins (← vy.read nyrec nxrec nzrec)) }
      let sec := { sec with sectionvz := (← sec.sectionvz.write itr ins (← vz.read nyrec nxrec nzrec)) }
      let sec := { sec with sectionp := (← sec.sectionp.write itr ins
        ((-(← sxx.read nyrec nxrec nzrec) - (← syy.read nyrec nxrec nzrec)
          - (← szz.read nyrec nxrec nzrec)) / 3)) }
      let i := nxrec
      let j := nyrec
      let k := nzrec
      let vxy := ((← vx.read (j + 1) i k) - (← vx.read j i k)) * dh24y
      let vxz := ((← vx.read j i (k + 1)) - (← vx.read j i k)) * dh24z
      let vyx := ((← vy.read j (i + 1) k) - (← vy.read j i k)) * dh24x
      let vyz := ((← vy.read j i (k + 1)) - (← vy.read j i k)) * dh24z
      let vzx := ((← vz.read j (i + 1) k) - (← vz.read j i k)) * dh24x
      let vzy := ((← vz.read (j + 1) i k) - (← vz.read j i k)) * dh24y
      let amp := (← u.read j i k) * ((vyz - vzy) * fabs (vyz - vzy)
        + (vzx - vxz) * fabs (vzx - vxz) + (vxy - vyx) * fabs (vxy - vyx))
      let sec := { sec with sectioncurl := (← sec.sectioncurl.write itr ins
        (fsign amp * sqrt (fabs amp))) }
      let vxx := ((← vx.read j i k) - (← vx.read j (i - 1) k)) * dh24x
      let vyy := ((← vy.read j i k) - (← vy.read (j - 1) i k)) * dh24y
      let vzz := ((← vz.read j i k) - (← vz.read j i (k - 1))) * dh24z
      let sec := { sec with sectiondiv := (← sec.sectiondiv.write itr ins
        ((vxx + vyy + vzz) * sqrt (← pi.read j i k))) }
      return sec
    else
      return sec

/-! ## Vocabulary of the specifications -/

/-- The run of `m` from `h` returns, with a result and final heap satisfying `Q`. -/
def Ok {β : Type} (m : M α β) (h : Heap α) (Q : β → Heap α → Prop) : Prop :=
  ∃ b h1, m h = .ok (b, h1) ∧ Q b h1

/-- The heap `h` with its cells replaced by `c`. -/
def Heap.withCells (h : Heap α) (c : Nat → Int → Word α) : Heap α :=
  { h with cell := c }

/-- The cells `c` after writing `w` at `p`. -/
def upd (c : Nat → Int → Word α) (p : Ptr) (w : Word α) : Nat → Int → Word α :=
  fun b o => if b = p.blk ∧ o = p.off then w else c b o

/-- Row pointers: element `1 + a` of block `b` points into block `b1` at
offset `base + a * stride`, for `0 ≤ a < n`. -/
def Rows (c : Nat → Int → Word α) (b b1 : Nat) (base stride n : Int) : Prop :=
  ∀ a o r, 0 ≤ a → a < n → o = 1 + a → r = base + a * stride → c b o = .ptr (some ⟨b1, r⟩)

/-- Elements `1 .. n` of block `b` all hold `w`. -/
def Filled (c : Nat → Int → Word α) (b : Nat) (w : Word α) (n : Int) : Prop :=
  ∀ f o, 0 ≤ f → f < n → o = 1 + f → c b o = w

/-- Element `v[i]` of a vector, as stored. -/
def elem1 (v : Ptr) (i : Int) : M α (Word α) :=
  load (v + i)

/-- Element `m[i][j]` of a matrix, as stored. -/
def elem2 (m : Ptr) (i j : Int) : M α (Word α) := do
  load (← at2 m i j)

/-- Element `t[i][j][d]` of a 3-tensor, as stored. -/
def elem3 (t : Ptr) (i j d : Int) : M α (Word α) := do
  load (← at3 t i j d)

/-- Element `t[i][j][d][v]` of a 4-tensor, as stored. -/
def elem4 (t : Ptr) (i j d v : Int) : M α (Word α) := do
  load (← at4 t i j d v)

/-- The state of one process when it enters `MPI_Allreduce`, as
`catseisSend` leaves it: the returned addresses `r.1` and the heap `r.2`. -/
def SendRel [Zero α] (ntr ns : Int) (p : Proc α) (r : (Ptr × Ptr × Ptr) × Heap α) : Prop :=
  ∃ fb fo c,
    fb ≠ p.fulldata.blk ∧
    (∀ i, 1 ≤ i → i ≤ ntr → p.heap.inb (p.fulldata + i) ∧
      p.heap.cell p.fulldata.blk (p.fulldata.off + i) = .ptr (some ⟨fb, fo + (i - 1) * ns⟩)) ∧
    (∀ f, 0 ≤ f → f < ntr * ns → p.heap.inb ⟨fb, fo + 1 + f⟩) ∧
    r.1 = (⟨p.heap.next, 0⟩, ⟨p.heap.next + 1, 1⟩, ⟨fb, fo + 1⟩) ∧
    r.2 = ((p.heap.alloc (ntr - 1 + 1 + 1)).alloc
      ((ntr - 1 + 1) * (ns - 1 + 1) + 1)).withCells c ∧
    Rows c p.heap.next (p.heap.next + 1) 0 ns ntr ∧
    (∀ i j o, 1 ≤ i → i ≤ ntr → 1 ≤ j → j ≤ ns → o = 1 + ((i - 1) * ns + (j - 1)) →
      c (p.heap.next + 1) o = .flt (scatter p.heap p.data p.recswitch i j)) ∧
    (∀ f o, 0 ≤ f → f < ntr * ns → o = 1 + f → ∃ a, c (p.heap.next + 1) o = .flt a) ∧
    (∀ b, b ≠ p.heap.next → b ≠ p.heap.next + 1 → ∀ o, c b o = p.heap.cell b o) ∧
    p.heap.wf

/-- The `n` floats of the send buffer of a process entering `MPI_Allreduce`. -/
def sendList [Zero α] (n : Nat) (r : (Ptr × Ptr × Ptr) × Heap α) : List α :=
  (List.range n).map (fun f : Nat => r.2.fltAt ⟨r.1.2.1.blk, r.1.2.1.off + f⟩)

/-- The heap of a process after `MPI_Allreduce` has written `total` to its
receive buffer. -/
def recvHeap [Zero α] (total : List α) (r : (Ptr × Ptr × Ptr) × Heap α) : Heap α :=
  r.2.withCells (writeCells r.2.cell r.1.2.2.blk r.1.2.2.off total)

/-- The heap `h1` after `free_matrix(fulldata2, ...)` on the heap `h0`: same
cells, and what was addressable outside the two freed blocks still is. -/
def FreedRel (r : (Ptr × Ptr × Ptr) × Heap α) (h0 h1 : Heap α) : Prop :=
  h1.cell = h0.cell ∧
    ∀ p : Ptr, p.blk ≠ r.1.1.blk → p.blk ≠ r.1.2.1.blk → h0.inb p → h1.inb p

/-- The accumulator `A` of the curl output at local coordinate `(i, j, k)`:
`u[j][i][k] * (d1*|d1| + d2*|d2| + d3*|d3|)` with `d1 = vyz - vzy`,
`d2 = vzx - vxz`, `d3 = vxy - vyx`, the mixed derivatives being the differences
of seismo_ssg.c (lines 53-58). -/
def curlAccum [LinearOrderedField α] (DX DY DZ : α) (v : Velocity α) (u : Arr3 α)
    (i j k : Int) : α :=
  let vxy := (v.x.val (j + 1) i k - v.x.val j i k) * (1 / DY)
  let vxz := (v.x.val j i (k + 1) - v.x.val j i k) * (1 / DZ)
  let vyx := (v.y.val j (i + 1) k - v.y.val j i k) * (1 / DX)
  let vyz := (v.y.val j i (k + 1) - v.y.val j i k) * (1 / DZ)
  let vzx := (v.z.val j (i + 1) k - v.z.val j i k) * (1 / DX)
  let vzy := (v.z.val (j + 1) i k - v.z.val j i k) * (1 / DY)
  let d1 := vyz - vzy
  let d2 := vzx - vxz
  let d3 := vxy - vyx
  u.val j i k * (d1 * |d1| + d2 * |d2| + d3 * |d3|)

/-- The sum `vxx + vyy + vzz` of the normal derivatives of seismo_ssg.c
(lines 68-70) at local coordinate `(i, j, k)`. -/
def divSum [LinearOrderedField α] (DX DY DZ : α) (v : Velocity α) (i j k : Int) : α :=
  (v.x.val j i k - v.x.val j (i - 1) k) * (1 / DX)
    + (v.y.val j i k - v.y.val (j - 1) i k) * (1 / DY)
    + (v.z.val j i k - v.z.val j i (k - 1)) * (1 / DZ)

/-- Every array access that `seismo` makes for receiver `itr` in mode `SEISMO`
is inside the arrays. -/
def ReceiverOk (SEISMO lsamp itr : Int) (recpos : Arr2 Int) (sec : Sections α)
    (v : Velocity α) (s : Tensor3d α) (pi u : Arr3 α) : Prop :=
  recpos.inb 1 itr = true ∧ recpos.inb 2 itr = true ∧ recpos.inb 3 itr = true ∧
  ((SEISMO = 1 ∨ SEISMO = 4) →
    v.x.inb (recpos.val 2 itr) (recpos.val 1 itr) (recpos.val 3 itr) = true ∧
    v.y.inb (recpos.val 2 itr) (recpos.val 1 itr) (recpos.val 3 itr) = true ∧
    v.z.inb (recpos.val 2 itr) (recpos.val 1 itr) (recpos.val 3 itr) = true ∧
    sec.sectionvx.inb itr lsamp = true ∧ sec.sectionvy.inb itr lsamp = true ∧
    sec.sectionvz.inb itr lsamp = true) ∧
  ((SEISMO = 2 ∨ SEISMO = 4) →
    s.xx.inb (recpos.val 2 itr) (recpos.val 1 itr) (recpos.val 3 itr) = true ∧
    s.yy.inb (recpos.val 2 itr) (recpos.val 1 itr) (recpos.val 3 itr) = true ∧
    s.zz.inb (recpos.val 2 itr) (recpos.val 1 itr) (recpos.val 3 itr) = true ∧
    sec.sectionp.inb itr lsamp = true) ∧
  ((SEISMO = 3 ∨ SEISMO = 4) →
    v.x.inb (recpos.val 2 itr + 1) (recpos.val 1 itr) (recpos.val 3 itr) = true ∧
    v.x.inb (recpos.val 2 itr) (recpos.val 1 itr) (recpos.val 3 itr) = true ∧
    v.x.inb (recpos.val 2 itr) (recpos.val 1 itr) (recpos.val 3 itr + 1) = true ∧
    v.x.inb (recpos.val 2 itr) (recpos.val 1 itr - 1) (recpos.val 3 itr) = true ∧
    v.y.inb (recpos.val 2 itr) (recpos.val 1 itr + 1) (recpos.val 3 itr) = true ∧
    v.y.inb (recpos.val 2 itr) (recpos.val 1 itr) (recpos.val 3 itr) = true ∧
    v.y.inb (recpos.val 2 itr) (recpos.val 1 itr) (recpos.val 3 itr + 1) = true ∧
    v.y.inb (recpos.val 2 itr - 1) (recpos.val 1 itr) (recpos.val 3 itr) = true ∧
    v.z.inb (recpos.val 2 itr) (recpos.val 1 itr + 1) (recpos.val 3 itr) = true ∧
    v.z.inb (recpos.val 2 itr) (recpos.val 1 itr) (recpos.val 3 itr) = true ∧
    v.z.inb (recpos.val 2 itr + 1) (recpos.val 1 itr) (recpos.val 3 itr) = true ∧
    v.z.inb (recpos.val 2 itr) (recpos.val 1 itr) (recpos.val 3 itr - 1) = true ∧
    u.inb (recpos.val 2 itr) (recpos.val 1 itr) (recpos.val 3 itr) = true ∧
    pi.inb (recpos.val 2 itr) (recpos.val 1 itr) (recpos.val 3 itr) = true ∧
    sec.sectioncurl.inb itr lsamp = true ∧ sec.sectiondiv.inb itr lsamp = true)

/-- The matrix `a1` is `a` with the cells selected by `P` possibly rewritten. -/
def Arr2.SameExcept (a a1 : Arr2 α) (P : Int → Int → Prop) : Prop :=
  a1.inb = a.inb ∧ ∀ r c, ¬ P r c → a1.val r c = a.val r c

/-- What one call of `seismo` leaves in the section matrices, for one receiver
row `itr` of the sample column `lsamp`. -/
def RowDone [LinearOrderedField α] (sqrt : α → α) (SEISMO : Int) (DX DY DZ : α) (lsamp : Int)
    (recpos : Arr2 Int) (v : Velocity α) (s : Tensor3d α) (pi u : Arr3 α)
    (sec1 : Sections α) (itr : Int) : Prop :=
  ((SEISMO = 1 ∨ SEISMO = 4) →
    sec1.sectionvx.val itr lsamp
      = v.x.val (recpos.val 2 itr) (recpos.val 1 itr) (recpos.val 3 itr) ∧
    sec1.sectionvy.val itr lsamp
      = v.y.val (recpos.val 2 itr) (recpos.val 1 itr) (recpos.val 3 itr) ∧
    sec1.sectionvz.val itr lsamp
      = v.z.val (recpos.val 2 itr) (recpos.val 1 itr) (recpos.val 3 itr)) ∧
  ((SEISMO = 2 ∨ SEISMO = 4) →
    sec1.sectionp.val itr lsamp
      = (-s.xx.val (recpos.val 2 itr) (recpos.val 1 itr) (recpos.val 3 itr)
          - s.yy.val (recpos.val 2 itr) (recpos.val 1 itr) (recpos.val 3 itr)
          - s.zz.val (recpos.val 2 itr) (recpos.val 1 itr) (recpos.val 3 itr)) / 3) ∧
  ((SEISMO = 3 ∨ SEISMO = 4) →
    sec1.sectioncurl.val itr lsamp
      = fsign (curlAccum DX DY DZ v u (recpos.val 1 itr) (recpos.val 2 itr) (recpos.val 3 itr))
        * sqrt (fabs (curlAccum DX DY DZ v u (recpos.val 1 itr) (recpos.val 2 itr)
            (recpos.val 3 itr))) ∧
    sec1.sectiondiv.val itr lsamp
      = divSum DX DY DZ v (recpos.val 1 itr) (recpos.val 2 itr) (recpos.val 3 itr)
        * sqrt (pi.val (recpos.val 2 itr) (recpos.val 1 itr) (recpos.val 3 itr)))

/-- The section matrices `sec1` are `sec` with only cells of rows `1..n-1` of
column `lsamp` possibly rewritten. -/
def SecFrame (lsamp n : Int) (sec sec1 : Sections α) : Prop :=
  sec.sectionvx.SameExcept sec1.sectionvx (fun r c => c = lsamp ∧ 1 ≤ r ∧ r < n) ∧
  sec.sectionvy.SameExcept sec1.sectionvy (fun r c => c = lsamp ∧ 1 ≤ r ∧ r < n) ∧
  sec.sectionvz.SameExcept sec1.sectionvz (fun r c => c = lsamp ∧ 1 ≤ r ∧ r < n) ∧
  sec.sectiondiv.SameExcept sec1.sectiondiv (fun r c => c = lsamp ∧ 1 ≤ r ∧ r < n) ∧
  sec.sectioncurl.SameExcept sec1.sectioncurl (fun r c => c = lsamp ∧ 1 ≤ r ∧ r < n) ∧
  sec.sectionp.SameExcept sec1.sectionp (fun r c => c = lsamp ∧ 1 ≤ r ∧ r < n)

/-- The matrix `a1` is `a` with at most the cell `(k, lsamp)` rewritten. -/
def Arr2.Touch (a a1 : Arr2 α) (k lsamp : Int) : Prop :=
  a1.inb = a.inb ∧ ∀ r c, ¬ (r = k ∧ c = lsamp) → a1.val r c = a.val r c

/-- The section matrices that the mode `SEISMO` does not select are unchanged. -/
def SecUntouched (SEISMO : Int) (sec sec1 : Sections α) : Prop :=
  (¬ (SEISMO = 1 ∨ SEISMO = 4) → sec1.sectionvx = sec.sectionvx ∧
    sec1.sectionvy = sec.sectionvy ∧ sec1.sectionvz = sec.sectionvz) ∧
  (¬ (SEISMO = 2 ∨ SEISMO = 4) → sec1.sectionp = sec.sectionp) ∧
  (¬ (SEISMO = 3 ∨ SEISMO = 4) → sec1.sectiondiv = sec.sectiondiv ∧
    sec1.sectioncurl = sec.sectioncurl)

/-- First-order forward difference of `f` at `c` for the grid spacing `h`:
`(f(c+1) - f(c)) * (1/h)`. -/
def fwdDiff [LinearOrderedField α] (f : Int → α) (h : α) (c : Int) : α :=
  (f (c + 1) - f c) * (1 / h)

/-- First-order backward difference of `f` at `c` for the grid spacing `h`:
`(f(c) - f(c-1)) * (1/h)`. -/
def bwdDiff [LinearOrderedField α] (f : Int → α) (h : α) (c : Int) : α :=
  (f c - f (c - 1)) * (1 / h)

/-- The sum of the three normal derivatives at local coordinate `(i, j, k)` taken
as forward differences along their axes, as the forward-difference reading of
the divergence has it. -/
def divForward [LinearOrderedField α] (DX DY DZ : α) (v : Velocity α) (i j k : Int) : α :=
  fwdDiff (fun x => v.x.val j x k) DX i + fwdDiff (fun y => v.y.val y i k) DY j
    + fwdDiff (fun z => v.z.val j i z) DZ k

/-- An index displacement of at most one step along one axis: the point itself
or one of its six neighbours. -/
def Reach (dj di dk : Int) : Prop :=
  dj.natAbs + di.natAbs + dk.natAbs ≤ 1

instance (dj di dk : Int) : Decidable (Reach dj di dk) := by
  unfold Reach; infer_instance

/-- The heap after a successful `free(p)`. -/
def Heap.release (h : Heap α) (p : Ptr) : Heap α :=
  { h with freed := p :: h.freed,
           size := fun b => if b = p.blk then 0 else h.size b }

/-- Row-major position of `m[i][j]` in a matrix with lower bounds `nrl`, `ncl`
and `ncol` columns: `(i-nrl)*ncol + (j-ncl)`. -/
def flat2 (nrl ncl ncol i j : Int) : Int :=
  (i - nrl) * ncol + (j - ncl)

/-- Row-major position of `t[i][j][d]` in a 3-tensor:
`((i-nrl)*ncol + (j-ncl))*ndep + (d-ndl)`. -/
def flat3 (nrl ncl ndl ncol ndep i j d : Int) : Int :=
  ((i - nrl) * ncol + (j - ncl)) * ndep + (d - ndl)

/-- Row-major position of `t[i][j][d][v]` in a 4-tensor:
`(((i-nrl)*ncol + (j-ncl))*ndep + (d-ndl))*nval + (v-nvl)`. -/
def flat4 (nrl ncl ndl nvl ncol ndep nval i j d v : Int) : Int :=
  (((i - nrl) * ncol + (j - ncl)) * ndep + (d - ndl)) * nval + (v - nvl)

/-- The characters `pat` stand at the beginning of `s`. -/
def startsWith : List Char → List Char → Bool
  | [], _ => true
  | _ :: _, [] => false
  | a :: pat, b :: s => a == b && startsWith pat s

/-- The characters `pat` occur somewhere in `s`. -/
def occursIn (pat : List Char) : List Char → Bool
  | [] => pat.isEmpty
  | b :: s => startsWith pat (b :: s) || occursIn pat s

/-- The diagnostic `msg` names the function `fn`: it contains `function fn()`. -/
def namesFunction (msg fn : String) : Bool :=
  occursIn ("function " ++ fn ++ "()").data msg.data

/-- The diagnostic with which a run aborted through `err`, if it did. -/
def abortMessage {β : Type} : Except Err β → Option String
  | .error (.abort msg) => some msg
  | _ => none

/-- The matrix `m` with bounds `[nrl..nrh][ncl..nch]` lies row by row in one
block of `h1`: `&m[nrl][ncl]` is element `NR_END` of a block of
`nrow*ncol + NR_END` elements, `&m[i][j]` is `flat2 i j` elements further, inside
the block, and different index pairs have different addresses. -/
def Layout2 (nrl nrh ncl nch : Int) (m : Ptr) (h1 : Heap α) : Prop :=
  ∃ base : Ptr, at2 m nrl ncl h1 = .ok (base, h1) ∧ base.off = NR_END ∧
    h1.size base.blk = (nrh - nrl + 1) * (nch - ncl + 1) + NR_END ∧
    (∀ i j, nrl ≤ i → i ≤ nrh → ncl ≤ j → j ≤ nch →
      at2 m i j h1 = .ok (base + flat2 nrl ncl (nch - ncl + 1) i j, h1) ∧
      h1.inb (base + flat2 nrl ncl (nch - ncl + 1) i j)) ∧
    ∀ i j i1 j1, nrl ≤ i → i ≤ nrh → ncl ≤ j → j ≤ nch →
      nrl ≤ i1 → i1 ≤ nrh → ncl ≤ j1 → j1 ≤ nch →
      at2 m i j h1 = at2 m i1 j1 h1 → i = i1 ∧ j = j1

/-- The 3-tensor `t` with bounds `[nrl..nrh][ncl..nch][ndl..ndh]` lies in
row-major order in one block of `h1`: `&t[nrl][ncl][ndl]` is element `NR_END` of
a block of `nrow*ncol*ndep + NR_END` elements, `&t[i][j][d]` is `flat3 i j d`
elements further, inside the block, and different index triples have different
addresses. -/
def Layout3 (nrl nrh ncl nch ndl ndh : Int) (t : Ptr) (h1 : Heap α) : Prop :=
  ∃ base : Ptr, at3 t nrl ncl ndl h1 = .ok (base, h1) ∧ base.off = NR_END ∧
    h1.size base.blk = (nrh - nrl + 1) * (nch - ncl + 1) * (ndh - ndl + 1) + NR_END ∧
    (∀ i j d, nrl ≤ i → i ≤ nrh → ncl ≤ j → j ≤ nch → ndl ≤ d → d ≤ ndh →
      at3 t i j d h1
        = .ok (base + flat3 nrl ncl ndl (nch - ncl + 1) (ndh - ndl + 1) i j d, h1) ∧
      h1.inb (base + flat3 nrl ncl ndl (nch - ncl + 1) (ndh - ndl + 1) i j d)) ∧
    ∀ i j d i1 j1 d1, nrl ≤ i → i ≤ nrh → ncl ≤ j → j ≤ nch → ndl ≤ d → d ≤ ndh →
      nrl ≤ i1 → i1 ≤ nrh → ncl ≤ j1 → j1 ≤ nch → ndl ≤ d1 → d1 ≤ ndh →
      at3 t i j d h1 = at3 t i1 j1 d1 h1 → i = i1 ∧ j = j1 ∧ d = d1

/-- The local index triple `[jj][ii][kk]` lies in the block
`[1..NY] x [1..NX] x [1..NZ]` that a process owns. -/
def InBlock (NX NY NZ jj ii kk : Int) : Prop :=
  1 ≤ jj ∧ jj ≤ NY ∧ 1 ≤ ii ∧ ii ≤ NX ∧ 1 ≤ kk ∧ kk ≤ NZ

instance (NX NY NZ jj ii kk : Int) : Decidable (InBlock NX NY NZ jj ii kk) := by
  unfold InBlock; infer_instance

/-- The global point `(gi, gj, gk)` comes before `(i, j, k)` in the order in
which the triple loop of `model_acoustic` runs (`j` outermost, then `i`, then
`k`). -/
def Before (gj gi gk j i k : Int) : Prop :=
  gj < j ∨ (gj = j ∧ (gi < i ∨ (gi = i ∧ gk < k)))

/-- The state of the arrays `(rho, pi)` of `model_acoustic` when its triple loop
stands before the global point `(i, j, k)`: the local cells of the owned block
whose global point came before hold the model values, all other cells hold what
`rho0` and `pi0` held, and the index ranges are those of `rho0` and `pi0`. -/
def ModelInv [Field α] (NX NY NZ : Int) (POS : Int → Int) (rho0 pi0 : Arr3 α)
    (j i k : Int) (st : Arr3 α × Arr3 α) : Prop :=
  st.1.inb = rho0.inb ∧ st.2.inb = pi0.inb ∧
  ∀ jj ii kk,
    ((InBlock NX NY NZ jj ii kk ∧
        Before (jj + POS 2 * NY) (ii + POS 1 * NX) (kk + POS 3 * NZ) j i k) →
      st.1.val jj ii kk = 2000 ∧ st.2.val jj ii kk = 3500 * 3500 * 2000) ∧
    (¬ (InBlock NX NY NZ jj ii kk ∧
        Before (jj + POS 2 * NY) (ii + POS 1 * NX) (kk + POS 3 * NZ) j i k) →
      st.1.val jj ii kk = rho0.val jj ii kk ∧ st.2.val jj ii kk = pi0.val jj ii kk)

/-! ## Sample data -/

/-- A wavefield array with index range `[0..3]^3` holding
`a*j + b*i + c*k + d` at `[j][i][k]`. -/
def sampleField (a b c d : ℚ) : Arr3 ℚ :=
  { inb := fun j i k => decide (0 ≤ j ∧ j ≤ 3 ∧ 0 ≤ i ∧ i ≤ 3 ∧ 0 ≤ k ∧ k ≤ 3)
    val := fun j i k => a * j + b * i + c * k + d }

/-- A receiver table `recpos[1..3][1..2]`: receiver 1 at `(x,y,z) = (1,1,1)`,
receiver 2 at `(2,1,2)`. -/
def sampleRecpos : Arr2 Int :=
  { inb := fun r c => decide (1 ≤ r ∧ r ≤ 3 ∧ 1 ≤ c ∧ c ≤ 2)
    val := fun r c => if c = 1 then 1 else if r = 2 then 1 else 2 }

/-- A section matrix with rows `1..2` and columns `1..5`, all zero. -/
def sampleSection : Arr2 ℚ :=
  { inb := fun r c => decide (1 ≤ r ∧ r ≤ 2 ∧ 1 ≤ c ∧ c ≤ 5)
    val := fun _ _ => 0 }

/-- Six zero section matrices. -/
def sampleSections : Sections ℚ :=
  ⟨sampleSection, sampleSection, sampleSection, sampleSection, sampleSection, sampleSection⟩

/-- A velocity field: `vx = j + 2i + 3k`, `vy = 2j - i + k + 1`, `vz = 5k - j`. -/
def sampleVelocity : Velocity ℚ :=
  ⟨sampleField 1 2 3 0, sampleField 2 (-1) 1 1, sampleField (-1) 0 5 0⟩

/-- A stress tensor whose diagonal is `(3, 3, 3)` everywhere. -/
def sampleStress : Tensor3d ℚ :=
  ⟨sampleField 0 0 0 3, sampleField 0 0 0 3, sampleField 0 0 0 3⟩

/-- A heap without any allocation in which all memory that `malloc` will hand
out holds the integer 7, and every `malloc` succeeds. -/
def junkHeap : Heap Int :=
  { next := 0, size := fun _ => 0, cell := fun _ _ => .int 7, oom := fun _ => false, freed := [] }

/-- A process of the collector example (`ntr_glob = 4`, `ns = 2`), its memory
laid out as `ivector(1,4)` and `fmatrix` lay out their results: block 0 is
`recswitch[1..4]` holding `flags`; blocks 1 and 2 are `data` (two row pointers,
then the samples `rows`, one row after the other); blocks 3 and 4 are
`fulldata[1..4][1..2]`, whose elements hold 99 before the call. -/
def sampleProc (flags rows : List Int) : Proc Int :=
  { heap :=
      { next := 5
        size := fun b =>
          if b = 0 then 5 else if b = 1 then 3 else if b = 2 then 5
          else if b = 3 then 5 else if b = 4 then 9 else 0
        cell := fun b o =>
          if b = 0 then .int (flags.getD (o - 1).toNat 0)
          else if b = 1 then .ptr (some ⟨2, (o - 1) * 2⟩)
          else if b = 2 then .flt (rows.getD (o - 1).toNat 0)
          else if b = 3 then .ptr (some ⟨4, (o - 1) * 2⟩)
          else .flt 99
        oom := fun _ => false
        freed := [] }
    data := ⟨1, 0⟩
    fulldata := ⟨3, 0⟩
    recswitch := ⟨0, 0⟩ }

/-- Process A of the collector example: flags `[1,0,0,1]`, rows `[[1,2],[7,8]]`. -/
def sampleProcA : Proc Int := sampleProc [1, 0, 0, 1] [1, 2, 7, 8]

/-- Process B of the collector example: flags `[0,1,1,0]`, rows `[[3,4],[5,6]]`. -/
def sampleProcB : Proc Int := sampleProc [0, 1, 1, 0] [3, 4, 5, 6]

/-- Process C of the collector example: flags `[0,1,0,1]`, rows `[[3,4],[5,6]]`.
Together with process A, index 3 is flagged by nobody and index 4 by both. -/
def sampleProcC : Proc Int := sampleProc [0, 1, 0, 1] [3, 4, 5, 6]

/-- The matrix `m[1..4][1..2]` as read in heap `h`. -/
def readSample (m : Ptr) (h : Heap Int) : List (List (Option Int)) :=
  [1, 2, 3, 4].map fun i => [1, 2].map fun j => h.matAt m i j

/-- A wavefield array with index range `[0..3]^3` holding `i*i` at `[j][i][k]`. -/
def sampleSquare : Arr3 ℚ :=
  { inb := fun j i k => decide (0 ≤ j ∧ j ≤ 3 ∧ 0 ≤ i ∧ i ≤ 3 ∧ 0 ≤ k ∧ k ≤ 3)
    val := fun _ i _ => i * i }

/-- A wavefield array whose only elements are `[1][1][1]` and its six
neighbours along the axes, holding `a*j + b*i + c*k + d` at `[j][i][k]`. -/
def sampleCross (a b c d : ℚ) : Arr3 ℚ :=
  { inb := fun j i k => decide (Reach (j - 1) (i - 1) (k - 1))
    val := fun j i k => a * j + b * i + c * k + d }

/-- A velocity field with `vx = i*i` and `vy = vz = 0`. -/
def sampleSquareVelocity : Velocity ℚ :=
  ⟨sampleSquare, sampleField 0 0 0 0, sampleField 0 0 0 0⟩

/-- A heap like `junkHeap` in which the `malloc` call number `k` (counted from
0) returns `NULL`. -/
def failAt (k : Nat) : Heap Int :=
  { junkHeap with oom := fun n => decide (n = k) }

/-- The process `sampleProc flags rows` with other memory contents where
`catseis` does not read: the elements of `fulldata` hold -5 before the call and
the memory that `malloc` will hand out holds the integer 7. -/
def sampleProcOther (flags rows : List Int) : Proc Int :=
  { heap :=
      { (sampleProc flags rows).heap with
        cell := fun b o =>
          if b < 4 then (sampleProc flags rows).heap.cell b o
          else if b = 4 then .flt (-5) else .int 7 }
    data := ⟨1, 0⟩
    fulldata := ⟨3, 0⟩
    recswitch := ⟨0, 0⟩ }

/-- A process whose arguments exist nowhere but where `catseis` is to read
them: block 0 is `recswitch[1..4]` (four integers, the flags `[1,0,0,1]`),
block 1 is `data[1..2]` (two row pointers), blocks 2 and 3 are the rows
`data[1][1..2] = [1,2]` and `data[2][1..2] = [7,8]` (two floats each); blocks 4
and 5 are `fulldata[1..4][1..2]`. -/
def sampleProcTight : Proc Int :=
  { heap :=
      { next := 6
        size := fun b =>
          if b = 0 then 4 else if b = 1 then 2 else if b = 2 then 2
          else if b = 3 then 2 else if b = 4 then 5 else if b = 5 then 9 else 0
        cell := fun b o =>
          if b = 0 then .int ([1, 0, 0, 1].getD o.toNat 0)
          else if b = 1 then .ptr (some ⟨2 + o.toNat, -1⟩)
          else if b = 2 then .flt ([1, 2].getD o.toNat 0)
          else if b = 3 then .flt ([7, 8].getD o.toNat 0)
          else if b = 4 then .ptr (some ⟨5, (o - 1) * 2⟩)
          else .flt 99
        oom := fun _ => false
        freed := [] }
    data := ⟨1, -1⟩
    fulldata := ⟨4, 0⟩
    recswitch := ⟨0, -1⟩ }

/-- A model array with index range `[1..2] x [1..3] x [1..2]` holding 7
everywhere. -/
def sampleModel : Arr3 ℚ :=
  { inb := fun j i k => decide (1 ≤ j ∧ j ≤ 2 ∧ 1 ≤ i ∧ i ≤ 3 ∧ 1 ≤ k ∧ k ≤ 2)
    val := fun _ _ _ => 7 }


/-! # Theorems -/

/-! ## Basic facts about runs -/

section Basic

variable {α β γ : Type}

theorem bind_ok {m : M α β} {f : β → M α γ} {h h1 : Heap α} {a : β}
    (hm : m h = .ok (a, h1)) : (m >>= f) h = f a h1 := by
  show StateT.bind m f h = _
  simp only [StateT.bind]
  show (m h >>= _) = _
  rw [hm]; rfl

theorem bind_err {m : M α β} {f : β → M α γ} {h : Heap α} {e : Err}
    (hm : m h = .error e) : (m >>= f) h = .error e := by
  show StateT.bind m f h = _
  simp only [StateT.bind]
  show (m h >>= _) = _
  rw [hm]; rfl

theorem pure_run (a : β) (h : Heap α) : (pure a : M α β) h = .ok (a, h) := rfl

theorem load_ok {h : Heap α} {p : Ptr} (hin : h.inb p) :
    load p h = .ok (h.cell p.blk p.off, h) := by
  simp [load, hin]

theorem store_ok {h : Heap α} {p : Ptr} (w : Word α) (hin : h.inb p) :
    store p w h = .ok ((), h.set p w) := by
  simp [store, hin]

theorem loadPtr_ok {h : Heap α} {p q : Ptr} (hin : h.inb p)
    (hc : h.cell p.blk p.off = .ptr (some q)) : loadPtr p h = .ok (q, h) := by
  simp [loadPtr, hin, hc]

theorem loadPtrOpt_ok {h : Heap α} {p : Ptr} {q : Option Ptr} (hin : h.inb p)
    (hc : h.cell p.blk p.off = .ptr q) : loadPtrOpt p h = .ok (q, h) := by
  simp [loadPtrOpt, hin, hc]

theorem loadFlt_ok {h : Heap α} {p : Ptr} {a : α} (hin : h.inb p)
    (hc : h.cell p.blk p.off = .flt a) : loadFlt p h = .ok (a, h) := by
  simp [loadFlt, hin, hc]

theorem loadInt_ok {h : Heap α} {p : Ptr} {n : Int} (hin : h.inb p)
    (hc : h.cell p.blk p.off = .int n) : loadInt p h = .ok (n, h) := by
  simp [loadInt, hin, hc]

theorem malloc_ok {h : Heap α} {n : Int} (ho : h.oom h.next = false) (hn : 0 ≤ n) :
    malloc n h = .ok (some ⟨h.next, 0⟩, h.alloc n) := by
  simp [malloc, ho, not_lt.mpr hn]

/-- Invariant rule for counted loops in the heap monad: the loop returns, and
an invariant kept by every round holds at the end. -/
theorem forRange_inv {σ : Type} (body : Int → σ → M α σ) (I : Int → σ → Heap α → Prop) :
    ∀ (n : Nat) (lo : Int) (s : σ) (h : Heap α), I lo s h →
      (∀ k s h, lo ≤ k → k < lo + n → I k s h →
        ∃ s1 h1, body k s h = .ok (s1, h1) ∧ I (k + 1) s1 h1) →
      ∃ s1 h1, forRange body lo n s h = .ok (s1, h1) ∧ I (lo + n) s1 h1 := by
  intro n
  induction n with
  | zero => intro lo s h hI _; exact ⟨s, h, rfl, by simpa using hI⟩
  | succ n ih =>
    intro lo s h hI hstep
    obtain ⟨s1, h1, hb, hI1⟩ := hstep lo s h le_rfl (by push_cast; omega) hI
    obtain ⟨s2, h2, hr, hI2⟩ := ih (lo + 1) s1 h1 hI1 (fun k s' h' hk1 hk2 hIk =>
      hstep k s' h' (by omega) (by push_cast; omega) hIk)
    refine ⟨s2, h2, ?_, ?_⟩
    · show (body lo s >>= forRange body (lo + 1) n) h = _
      rw [bind_ok hb]; exact hr
    · have : lo + ((n + 1 : Nat) : Int) = lo + 1 + n := by push_cast; ring
      rw [this]; exact hI2

theorem forLoop_inv {σ : Type} (body : Int → σ → M α σ) (I : Int → σ → Heap α → Prop)
    (lo hi : Int) (s : σ) (h : Heap α) (hle : lo ≤ hi + 1) (hI : I lo s h)
    (hstep : ∀ k s h, lo ≤ k → k ≤ hi → I k s h →
      ∃ s1 h1, body k s h = .ok (s1, h1) ∧ I (k + 1) s1 h1) :
    ∃ s1 h1, forLoop lo hi s body h = .ok (s1, h1) ∧ I (hi + 1) s1 h1 := by
  obtain ⟨s1, h1, hr, hI1⟩ := forRange_inv body I (hi + 1 - lo).toNat lo s h hI
    (fun k s' h' hk1 hk2 hIk => hstep k s' h' hk1 (by omega) hIk)
  refine ⟨s1, h1, hr, ?_⟩
  have : lo + ((hi + 1 - lo).toNat : Int) = hi + 1 := by omega
  rw [this] at hI1; exact hI1

theorem forEach_inv (body : Int → M α Unit) (I : Int → Heap α → Prop)
    (lo hi : Int) (h : Heap α) (hle : lo ≤ hi + 1) (hI : I lo h)
    (hstep : ∀ k h, lo ≤ k → k ≤ hi → I k h → ∃ h1, body k h = .ok ((), h1) ∧ I (k + 1) h1) :
    ∃ h1, forEach lo hi body h = .ok ((), h1) ∧ I (hi + 1) h1 := by
  obtain ⟨_, h1, hr, hI1⟩ := forLoop_inv (fun i _ => body i) (fun k _ h => I k h)
    lo hi () h hle hI (fun k _ h' hk1 hk2 hIk => by
      obtain ⟨h1, hb, hI1⟩ := hstep k h' hk1 hk2 hIk
      exact ⟨(), h1, hb, hI1⟩)
  exact ⟨h1, hr, hI1⟩

end Basic

/-! ## Grid partition (model_acoustic.c) -/

theorem tdiv_block {i NX : Int} (hi : 1 ≤ i) (hN : 1 ≤ NX) :
    0 ≤ (i - 1).tdiv NX ∧ 1 ≤ i - (i - 1).tdiv NX * NX ∧ i - (i - 1).tdiv NX * NX ≤ NX := by
  rw [Int.tdiv_eq_ediv (by omega) (by omega)]
  have h1 := Int.emod_add_ediv (i - 1) NX
  have h2 := Int.emod_nonneg (i - 1) (show NX ≠ 0 by omega)
  have h3 := Int.emod_lt_of_pos (i - 1) (show 0 < NX by omega)
  have h4 : 0 ≤ (i - 1) / NX := Int.ediv_nonneg (by omega) (by omega)
  have h5 : (i - 1) / NX * NX = NX * ((i - 1) / NX) := mul_comm _ _
  refine ⟨h4, ?_, ?_⟩ <;> omega

theorem tdiv_lt_count {i NX PX : Int} (hi : 1 ≤ i) (hN : 1 ≤ NX) (hle : i ≤ PX * NX) :
    (i - 1).tdiv NX < PX := by
  rw [Int.tdiv_eq_ediv (by omega) (by omega)]
  exact Int.ediv_lt_of_lt_mul (by omega) (by omega)

theorem owns_iff (NX NY NZ : Int) (POS : Int → Int) (i j k : Int) :
    owns NX NY NZ POS i j k = true ↔
      POS 1 = (i - 1).tdiv NX ∧ POS 2 = (j - 1).tdiv NY ∧ POS 3 = (k - 1).tdiv NZ := by
  simp [owns, and_assoc]

/-- C3. Partition totality and disjointness: with `NXG = PX*NX`, `NYG = PY*NY`,
`NZG = PZ*NZ` and all extents and process counts at least 1, every global
coordinate `(i,j,k)` of the grid passes the ownership test of `model_acoustic`
for exactly one rank triple of `[0,PX) x [0,PY) x [0,PZ)`. -/
theorem partition_total_disjoint (NX NY NZ PX PY PZ NXG NYG NZG i j k : Int)
    (hNX : 1 ≤ NX) (hNY : 1 ≤ NY) (hNZ : 1 ≤ NZ)
    (_hPX : 1 ≤ PX) (_hPY : 1 ≤ PY) (_hPZ : 1 ≤ PZ)
    (hXG : NXG = PX * NX) (hYG : NYG = PY * NY) (hZG : NZG = PZ * NZ)
    (hi : 1 ≤ i) (hi2 : i ≤ NXG) (hj : 1 ≤ j) (hj2 : j ≤ NYG) (hk : 1 ≤ k) (hk2 : k ≤ NZG) :
    ∃! p : Int × Int × Int,
      (0 ≤ p.1 ∧ p.1 < PX ∧ 0 ≤ p.2.1 ∧ p.2.1 < PY ∧ 0 ≤ p.2.2 ∧ p.2.2 < PZ) ∧
      owns NX NY NZ (posOf p.1 p.2.1 p.2.2) i j k = true := by
  subst hXG hYG hZG
  refine ⟨((i - 1).tdiv NX, (j - 1).tdiv NY, (k - 1).tdiv NZ), ⟨⟨?_, ?_, ?_, ?_, ?_, ?_⟩, ?_⟩, ?_⟩
  · exact (tdiv_block hi hNX).1
  · exact tdiv_lt_count hi hNX hi2
  · exact (tdiv_block hj hNY).1
  · exact tdiv_lt_count hj hNY hj2
  · exact (tdiv_block hk hNZ).1
  · exact tdiv_lt_count hk hNZ hk2
  · simp [owns_iff, posOf]
  · rintro ⟨p1, p2, p3⟩ ⟨_, ho⟩
    simp only [owns_iff, posOf] at ho
    simp at ho
    obtain ⟨h1, h2, h3⟩ := ho
    simp [h1, h2, h3]

theorem partition_total_disjoint_witness :
    ∃! p : Int × Int × Int,
      (0 ≤ p.1 ∧ p.1 < 2 ∧ 0 ≤ p.2.1 ∧ p.2.1 < 3 ∧ 0 ≤ p.2.2 ∧ p.2.2 < 1) ∧
      owns 4 2 5 (posOf p.1 p.2.1 p.2.2) 5 6 5 = true :=
  partition_total_disjoint 4 2 5 2 3 1 8 6 5 5 6 5 (by decide) (by decide) (by decide)
    (by decide) (by decide) (by decide) (by decide) (by decide) (by decide)
    (by decide) (by decide) (by decide) (by decide) (by decide) (by decide)

/-- C4. Partition round trip: when the ownership test of `model_acoustic` holds
for a global coordinate `(i,j,k)` with `i,j,k ≥ 1` and extents at least 1, the
local coordinate `(ii,jj,kk)` computed there lies in
`[1..NX] x [1..NY] x [1..NZ]` and `global = local + rank_coord * extent` holds
on every axis. -/
theorem partition_round_trip (NX NY NZ : Int) (POS : Int → Int) (i j k : Int)
    (hNX : 1 ≤ NX) (hNY : 1 ≤ NY) (hNZ : 1 ≤ NZ) (hi : 1 ≤ i) (hj : 1 ≤ j) (hk : 1 ≤ k)
    (ho : owns NX NY NZ POS i j k = true) :
    (1 ≤ (localCoord NX NY NZ POS i j k).1 ∧ (localCoord NX NY NZ POS i j k).1 ≤ NX) ∧
    (1 ≤ (localCoord NX NY NZ POS i j k).2.1 ∧ (localCoord NX NY NZ POS i j k).2.1 ≤ NY) ∧
    (1 ≤ (localCoord NX NY NZ POS i j k).2.2 ∧ (localCoord NX NY NZ POS i j k).2.2 ≤ NZ) ∧
    i = (localCoord NX NY NZ POS i j k).1 + POS 1 * NX ∧
    j = (localCoord NX NY NZ POS i j k).2.1 + POS 2 * NY ∧
    k = (localCoord NX NY NZ POS i j k).2.2 + POS 3 * NZ := by
  obtain ⟨h1, h2, h3⟩ := (owns_iff NX NY NZ POS i j k).mp ho
  simp only [localCoord, h1, h2, h3]
  have a := tdiv_block hi hNX
  have b := tdiv_block hj hNY
  have c := tdiv_block hk hNZ
  refine ⟨⟨a.2.1, a.2.2⟩, ⟨b.2.1, b.2.2⟩, ⟨c.2.1, c.2.2⟩, ?_, ?_, ?_⟩ <;> ring

theorem partition_round_trip_witness :
    (1 ≤ (localCoord 4 2 5 (posOf 1 2 0) 5 6 5).1 ∧ (localCoord 4 2 5 (posOf 1 2 0) 5 6 5).1 ≤ 4) ∧
    (1 ≤ (localCoord 4 2 5 (posOf 1 2 0) 5 6 5).2.1 ∧
      (localCoord 4 2 5 (posOf 1 2 0) 5 6 5).2.1 ≤ 2) ∧
    (1 ≤ (localCoord 4 2 5 (posOf 1 2 0) 5 6 5).2.2 ∧
      (localCoord 4 2 5 (posOf 1 2 0) 5 6 5).2.2 ≤ 5) ∧
    (5 : Int) = (localCoord 4 2 5 (posOf 1 2 0) 5 6 5).1 + posOf 1 2 0 1 * 4 ∧
    (6 : Int) = (localCoord 4 2 5 (posOf 1 2 0) 5 6 5).2.1 + posOf 1 2 0 2 * 2 ∧
    (5 : Int) = (localCoord 4 2 5 (posOf 1 2 0) 5 6 5).2.2 + posOf 1 2 0 3 * 5 :=
  partition_round_trip 4 2 5 (posOf 1 2 0) 5 6 5 (by decide) (by decide) (by decide)
    (by decide) (by decide) (by decide) (by decide)

/-! ## Total-correctness rules for the heap monad -/

section Rules

variable {α β γ : Type}

theorem ok_bind {m : M α β} {f : β → M α γ} {h : Heap α} {Q : γ → Heap α → Prop}
    (hm : Ok m h (fun b h1 => Ok (f b) h1 Q)) : Ok (m >>= f) h Q := by
  obtain ⟨b, h1, hb, c, h2, hc, hQ⟩ := hm
  exact ⟨c, h2, by rw [bind_ok hb]; exact hc, hQ⟩

theorem ok_pure {a : β} {h : Heap α} {Q : β → Heap α → Prop} (hQ : Q a h) :
    Ok (pure a : M α β) h Q := ⟨a, h, rfl, hQ⟩

theorem ok_mono {m : M α β} {h : Heap α} {Q R : β → Heap α → Prop}
    (hm : Ok m h Q) (hQR : ∀ b h1, Q b h1 → R b h1) : Ok m h R := by
  obtain ⟨b, h1, hb, hQ⟩ := hm
  exact ⟨b, h1, hb, hQR b h1 hQ⟩

theorem ok_store {h : Heap α} {p : Ptr} {w : Word α} {Q : Unit → Heap α → Prop}
    (hin : h.inb p) (hQ : Q () (h.set p w)) : Ok (store p w) h Q :=
  ⟨(), _, store_ok w hin, hQ⟩

theorem ok_load {h : Heap α} {p : Ptr} {Q : Word α → Heap α → Prop}
    (hin : h.inb p) (hQ : Q (h.cell p.blk p.off) h) : Ok (load p) h Q :=
  ⟨_, _, load_ok hin, hQ⟩

theorem ok_loadPtr {h : Heap α} {p : Ptr} (q : Ptr) {Q : Ptr → Heap α → Prop}
    (hin : h.inb p) (hc : h.cell p.blk p.off = .ptr (some q)) (hQ : Q q h) :
    Ok (loadPtr p) h Q :=
  ⟨_, _, loadPtr_ok hin hc, hQ⟩

theorem ok_loadPtrOpt {h : Heap α} {p : Ptr} (q : Option Ptr) {Q : Option Ptr → Heap α → Prop}
    (hin : h.inb p) (hc : h.cell p.blk p.off = .ptr q) (hQ : Q q h) :
    Ok (loadPtrOpt p) h Q :=
  ⟨_, _, loadPtrOpt_ok hin hc, hQ⟩

theorem ok_loadFlt {h : Heap α} {p : Ptr} (a : α) {Q : α → Heap α → Prop}
    (hin : h.inb p) (hc : h.cell p.blk p.off = .flt a) (hQ : Q a h) :
    Ok (loadFlt p) h Q :=
  ⟨_, _, loadFlt_ok hin hc, hQ⟩

theorem ok_loadInt {h : Heap α} {p : Ptr} (n : Int) {Q : Int → Heap α → Prop}
    (hin : h.inb p) (hc : h.cell p.blk p.off = .int n) (hQ : Q n h) :
    Ok (loadInt p) h Q :=
  ⟨_, _, loadInt_ok hin hc, hQ⟩

theorem ok_malloc {h : Heap α} {n : Int} {Q : Option Ptr → Heap α → Prop}
    (ho : h.oom h.next = false) (hn : 0 ≤ n) (hQ : Q (some ⟨h.next, 0⟩) (h.alloc n)) :
    Ok (malloc n) h Q :=
  ⟨_, _, malloc_ok ho hn, hQ⟩

theorem ok_forEach {body : Int → M α Unit} (I : Int → Heap α → Prop)
    {lo hi : Int} {h : Heap α} {Q : Unit → Heap α → Prop} (hle : lo ≤ hi + 1) (hI : I lo h)
    (hstep : ∀ k h, lo ≤ k → k ≤ hi → I k h → Ok (body k) h (fun _ h1 => I (k + 1) h1))
    (hQ : ∀ h1, I (hi + 1) h1 → Q () h1) :
    Ok (forEach lo hi body) h Q := by
  obtain ⟨h1, hr, hI1⟩ := forEach_inv body I lo hi h hle hI (fun k h' hk1 hk2 hIk => by
    obtain ⟨_, h1, hb, hI1⟩ := hstep k h' hk1 hk2 hIk
    exact ⟨h1, hb, hI1⟩)
  exact ⟨(), h1, hr, hQ h1 hI1⟩

theorem ok_forLoop {σ : Type} {body : Int → σ → M α σ} (I : Int → σ → Heap α → Prop)
    {lo hi : Int} {s : σ} {h : Heap α} {Q : σ → Heap α → Prop} (hle : lo ≤ hi + 1)
    (hI : I lo s h)
    (hstep : ∀ k s h, lo ≤ k → k ≤ hi → I k s h → Ok (body k s) h (fun s1 h1 => I (k + 1) s1 h1))
    (hQ : ∀ s1 h1, I (hi + 1) s1 h1 → Q s1 h1) :
    Ok (forLoop lo hi s body) h Q := by
  obtain ⟨s1, h1, hr, hI1⟩ := forLoop_inv body I lo hi s h hle hI hstep
  exact ⟨s1, h1, hr, hQ s1 h1 hI1⟩

theorem ok_at2 {h : Heap α} {t : Ptr} {i j : Int} (q : Ptr) {Q : Ptr → Heap α → Prop}
    (hin : h.inb (t + i)) (hc : h.cell (t + i).blk (t + i).off = .ptr (some q))
    (hQ : Q (q + j) h) : Ok (at2 t i j) h Q := by
  unfold at2
  apply ok_bind
  apply ok_loadPtr q hin hc
  exact ok_pure hQ

theorem ok_bind_store {h : Heap α} {p : Ptr} {w : Word α} {f : Unit → M α γ}
    {Q : γ → Heap α → Prop} (hin : h.inb p) (hQ : Ok (f ()) (h.set p w) Q) :
    Ok (store p w >>= f) h Q :=
  ok_bind (ok_store hin hQ)

theorem ok_bind_loadPtr {h : Heap α} {p : Ptr} (q : Ptr) {f : Ptr → M α γ}
    {Q : γ → Heap α → Prop} (hin : h.inb p) (hc : h.cell p.blk p.off = .ptr (some q))
    (hQ : Ok (f q) h Q) : Ok (loadPtr p >>= f) h Q :=
  ok_bind (ok_loadPtr q hin hc hQ)

theorem ok_bind_loadPtrOpt {h : Heap α} {p : Ptr} (q : Option Ptr) {f : Option Ptr → M α γ}
    {Q : γ → Heap α → Prop} (hin : h.inb p) (hc : h.cell p.blk p.off = .ptr q)
    (hQ : Ok (f q) h Q) : Ok (loadPtrOpt p >>= f) h Q :=
  ok_bind (ok_loadPtrOpt q hin hc hQ)

theorem ok_bind_loadFlt {h : Heap α} {p : Ptr} (a : α) {f : α → M α γ}
    {Q : γ → Heap α → Prop} (hin : h.inb p) (hc : h.cell p.blk p.off = .flt a)
    (hQ : Ok (f a) h Q) : Ok (loadFlt p >>= f) h Q :=
  ok_bind (ok_loadFlt a hin hc hQ)

theorem ok_bind_loadInt {h : Heap α} {p : Ptr} (n : Int) {f : Int → M α γ}
    {Q : γ → Heap α → Prop} (hin : h.inb p) (hc : h.cell p.blk p.off = .int n)
    (hQ : Ok (f n) h Q) : Ok (loadInt p >>= f) h Q :=
  ok_bind (ok_loadInt n hin hc hQ)

theorem ok_bind_malloc {h : Heap α} {n : Int} {f : Option Ptr → M α γ}
    {Q : γ → Heap α → Prop} (ho : h.oom h.next = false) (hn : 0 ≤ n)
    (hQ : Ok (f (some ⟨h.next, 0⟩)) (h.alloc n) Q) : Ok (malloc n >>= f) h Q :=
  ok_bind (ok_malloc ho hn hQ)

theorem ok_bind_at2 {h : Heap α} {t : Ptr} {i j : Int} (q : Ptr) {f : Ptr → M α γ}
    {Q : γ → Heap α → Prop}
    (hin : h.inb (t + i)) (hc : h.cell (t + i).blk (t + i).off = .ptr (some q))
    (hQ : Ok (f (q + j)) h Q) : Ok (at2 t i j >>= f) h Q :=
  ok_bind (ok_at2 q hin hc hQ)

theorem ok_bind_pure {a : β} {h : Heap α} {f : β → M α γ} {Q : γ → Heap α → Prop}
    (hQ : Ok (f a) h Q) : Ok ((pure a : M α β) >>= f) h Q :=
  ok_bind (ok_pure hQ)

theorem ok_bind_forEach {body : Int → M α Unit} (I : Int → Heap α → Prop)
    {lo hi : Int} {h : Heap α} {f : Unit → M α γ} {Q : γ → Heap α → Prop}
    (hle : lo ≤ hi + 1) (hI : I lo h)
    (hstep : ∀ k h, lo ≤ k → k ≤ hi → I k h → Ok (body k) h (fun _ h1 => I (k + 1) h1))
    (hQ : ∀ h1, I (hi + 1) h1 → Ok (f ()) h1 Q) :
    Ok (forEach lo hi body >>= f) h Q :=
  ok_bind (ok_forEach I hle hI hstep hQ)

theorem withCells_set (h : Heap α) (c : Nat → Int → Word α) (p : Ptr) (w : Word α) :
    (h.withCells c).set p w = h.withCells (upd c p w) := rfl

theorem withCells_inb (h : Heap α) (c : Nat → Int → Word α) (p : Ptr) :
    (h.withCells c).inb p ↔ h.inb p := Iff.rfl

theorem withCells_cell (h : Heap α) (c : Nat → Int → Word α) :
    (h.withCells c).cell = c := rfl

theorem withCells_self (h : Heap α) : h.withCells h.cell = h := rfl

theorem alloc_next (h : Heap α) (n : Int) : (h.alloc n).next = h.next + 1 := rfl

theorem ok_bind_store0 {h : Heap α} {p : Ptr} {w : Word α} {f : Unit → M α γ}
    {Q : γ → Heap α → Prop} (hin : h.inb p)
    (hQ : Ok (f ()) (h.withCells (upd h.cell p w)) Q) : Ok (store p w >>= f) h Q :=
  ok_bind (ok_store hin hQ)

theorem ok_bind_storeC {h : Heap α} {c : Nat → Int → Word α} {b : Nat} {o : Int} {w : Word α}
    {f : Unit → M α γ} {Q : γ → Heap α → Prop} (hin : h.inb ⟨b, o⟩)
    (hQ : Ok (f ()) (h.withCells (upd c ⟨b, o⟩ w)) Q) :
    Ok (store ⟨b, o⟩ w >>= f) (h.withCells c) Q :=
  ok_bind (ok_store hin hQ)

theorem ok_storeC {h : Heap α} {c : Nat → Int → Word α} {b : Nat} {o : Int} {w : Word α}
    {Q : Unit → Heap α → Prop} (hin : h.inb ⟨b, o⟩)
    (hQ : Q () (h.withCells (upd c ⟨b, o⟩ w))) : Ok (store ⟨b, o⟩ w) (h.withCells c) Q :=
  ok_store hin hQ

theorem ok_bind_loadPtrC {h : Heap α} {c : Nat → Int → Word α} {b : Nat} {o : Int} (q : Ptr)
    {f : Ptr → M α γ} {Q : γ → Heap α → Prop} (hin : h.inb ⟨b, o⟩)
    (hc : c b o = .ptr (some q)) (hQ : Ok (f q) (h.withCells c) Q) :
    Ok (loadPtr ⟨b, o⟩ >>= f) (h.withCells c) Q :=
  ok_bind (ok_loadPtr q hin hc hQ)

theorem ok_bind_loadPtrOptC {h : Heap α} {c : Nat → Int → Word α} {b : Nat} {o : Int}
    (q : Option Ptr) {f : Option Ptr → M α γ} {Q : γ → Heap α → Prop} (hin : h.inb ⟨b, o⟩)
    (hc : c b o = .ptr q) (hQ : Ok (f q) (h.withCells c) Q) :
    Ok (loadPtrOpt ⟨b, o⟩ >>= f) (h.withCells c) Q :=
  ok_bind (ok_loadPtrOpt q hin hc hQ)

theorem ok_bind_loadFltC {h : Heap α} {c : Nat → Int → Word α} {b : Nat} {o : Int} (a : α)
    {f : α → M α γ} {Q : γ → Heap α → Prop} (hin : h.inb ⟨b, o⟩)
    (hc : c b o = .flt a) (hQ : Ok (f a) (h.withCells c) Q) :
    Ok (loadFlt ⟨b, o⟩ >>= f) (h.withCells c) Q :=
  ok_bind (ok_loadFlt a hin hc hQ)

theorem ok_bind_loadIntC {h : Heap α} {c : Nat → Int → Word α} {b : Nat} {o : Int} (n : Int)
    {f : Int → M α γ} {Q : γ → Heap α → Prop} (hin : h.inb ⟨b, o⟩)
    (hc : c b o = .int n) (hQ : Ok (f n) (h.withCells c) Q) :
    Ok (loadInt ⟨b, o⟩ >>= f) (h.withCells c) Q :=
  ok_bind (ok_loadInt n hin hc hQ)

theorem ok_bind_at2C {h : Heap α} {c : Nat → Int → Word α} {b : Nat} {o i j : Int}
    (b1 : Nat) (o1 : Int) {f : Ptr → M α γ} {Q : γ → Heap α → Prop} (hin : h.inb ⟨b, o + i⟩)
    (hc : c b (o + i) = .ptr (some ⟨b1, o1⟩)) (hQ : Ok (f ⟨b1, o1 + j⟩) (h.withCells c) Q) :
    Ok (at2 ⟨b, o⟩ i j >>= f) (h.withCells c) Q :=
  ok_bind (ok_at2 ⟨b1, o1⟩ hin hc hQ)

theorem ok_bind_at3C {h : Heap α} {c : Nat → Int → Word α} {b : Nat} {o i j d : Int}
    (b1 : Nat) (o1 : Int) (b2 : Nat) (o2 : Int) {f : Ptr → M α γ} {Q : γ → Heap α → Prop}
    (hin : h.inb ⟨b, o + i⟩) (hc : c b (o + i) = .ptr (some ⟨b1, o1⟩))
    (hin1 : h.inb ⟨b1, o1 + j⟩) (hc1 : c b1 (o1 + j) = .ptr (some ⟨b2, o2⟩))
    (hQ : Ok (f ⟨b2, o2 + d⟩) (h.withCells c) Q) :
    Ok (at3 ⟨b, o⟩ i j d >>= f) (h.withCells c) Q := by
  unfold at3
  apply ok_bind
  apply ok_bind_at2C b1 o1 hin hc
  apply ok_bind_loadPtrC ⟨b2, o2⟩ hin1 hc1
  exact ok_pure hQ

theorem ok_loadC {h : Heap α} {c : Nat → Int → Word α} {b : Nat} {o : Int}
    {Q : Word α → Heap α → Prop} (hin : h.inb ⟨b, o⟩) (hQ : Q (c b o) (h.withCells c)) :
    Ok (load ⟨b, o⟩) (h.withCells c) Q :=
  ok_load hin hQ

theorem ok_eq {m : M α β} {h h0 : Heap α} {a : β}
    (hm : Ok m h (fun b h1 => b = a ∧ h1 = h0)) : m h = .ok (a, h0) := by
  obtain ⟨b, h1, hb, rfl, rfl⟩ := hm
  exact hb

theorem ok_bind_forLoop {σ : Type} {body : Int → σ → M α σ} (I : Int → σ → Heap α → Prop)
    {lo hi : Int} {s : σ} {h : Heap α} {f : σ → M α γ} {Q : γ → Heap α → Prop}
    (hle : lo ≤ hi + 1) (hI : I lo s h)
    (hstep : ∀ k s h, lo ≤ k → k ≤ hi → I k s h → Ok (body k s) h (fun s1 h1 => I (k + 1) s1 h1))
    (hQ : ∀ s1 h1, I (hi + 1) s1 h1 → Ok (f s1) h1 Q) :
    Ok (forLoop lo hi s body >>= f) h Q :=
  ok_bind (ok_forLoop I hle hI hstep hQ)

theorem ok_bind_mallocC {h : Heap α} {c : Nat → Int → Word α} {n : Int}
    {f : Option Ptr → M α γ} {Q : γ → Heap α → Prop} (ho : h.oom h.next = false) (hn : 0 ≤ n)
    (hQ : Ok (f (some ⟨h.next, 0⟩)) ((h.alloc n).withCells c) Q) :
    Ok (malloc n >>= f) (h.withCells c) Q :=
  ok_bind (ok_malloc ho hn hQ)

/-- Continue with any cells satisfying an intermediate assertion. -/
theorem ok_of_cells {m : M α β} {h : Heap α} {c : Nat → Int → Word α}
    {Q : β → Heap α → Prop} (P : (Nat → Int → Word α) → Prop) (hP : P c)
    (hQ : ∀ c, P c → Ok m (h.withCells c) Q) : Ok m (h.withCells c) Q :=
  hQ c hP

theorem upd_upd_same (c : Nat → Int → Word α) (p : Ptr) (w1 w2 : Word α) :
    upd (upd c p w1) p w2 = upd c p w2 := by
  funext b o
  unfold upd
  split <;> rfl

theorem upd_same (c : Nat → Int → Word α) (b : Nat) (o o1 : Int) (w : Word α) (ho : o1 = o) :
    upd c ⟨b, o⟩ w b o1 = w := by
  simp [upd, ho]

theorem upd_other (c : Nat → Int → Word α) (p : Ptr) (w : Word α) (b : Nat) (o : Int)
    (hne : b ≠ p.blk ∨ o ≠ p.off) : upd c p w b o = c b o := by
  unfold upd
  rw [if_neg]
  rintro ⟨h1, h2⟩
  rcases hne with h | h
  · exact h h1
  · exact h h2

theorem ptr_add (b : Nat) (o i : Int) : (⟨b, o⟩ : Ptr) + i = ⟨b, o + i⟩ := rfl

theorem ptr_sub (b : Nat) (o i : Int) : (⟨b, o⟩ : Ptr) - i = ⟨b, o - i⟩ := rfl

theorem alloc_inb (h : Heap α) (n : Int) (o : Int) (h0 : 0 ≤ o) (h1 : o < n) :
    (h.alloc n).inb ⟨h.next, o⟩ := by
  refine ⟨?_, h0, ?_⟩
  · show h.next < h.next + 1
    omega
  · show o < (if h.next = h.next then n else h.size h.next)
    simpa using h1

theorem alloc_inb_old (h : Heap α) (n : Int) (p : Ptr) (hp : h.inb p) : (h.alloc n).inb p := by
  obtain ⟨h1, h2, h3⟩ := hp
  refine ⟨?_, h2, ?_⟩
  · show p.blk < h.next + 1
    omega
  · show p.off < (if p.blk = h.next then n else h.size p.blk)
    rw [if_neg (by omega)]; exact h3

theorem free_ok {h : Heap α} {p : Ptr} (hoff : p.off = 0) (hlt : p.blk < h.next)
    (hnf : p ∉ h.freed) :
    free p h = .ok ((), { h with freed := p :: h.freed,
                                 size := fun b => if b = p.blk then 0 else h.size b }) := by
  unfold free
  rw [if_pos ⟨hoff, hlt, hnf⟩]

theorem ok_free {h : Heap α} {p : Ptr} {Q : Unit → Heap α → Prop} (hoff : p.off = 0)
    (hlt : p.blk < h.next) (hnf : p ∉ h.freed) (hQ : Q () (h.release p)) : Ok (free p) h Q :=
  ⟨(), _, free_ok hoff hlt hnf, hQ⟩

theorem ok_bind_free {h : Heap α} {p : Ptr} {f : Unit → M α γ} {Q : γ → Heap α → Prop}
    (hoff : p.off = 0) (hlt : p.blk < h.next) (hnf : p ∉ h.freed)
    (hQ : Ok (f ()) (h.release p) Q) : Ok (free p >>= f) h Q :=
  ok_bind (ok_free hoff hlt hnf hQ)

theorem release_inb {h : Heap α} {p q : Ptr} (hq : h.inb q) (hne : q.blk ≠ p.blk) :
    (h.release p).inb q := by
  obtain ⟨h1, h2, h3⟩ := hq
  refine ⟨h1, h2, ?_⟩
  show q.off < (if q.blk = p.blk then 0 else h.size q.blk)
  rw [if_neg hne]
  exact h3

theorem release_cell (h : Heap α) (p : Ptr) : (h.release p).cell = h.cell := rfl

theorem release_freed (h : Heap α) (p : Ptr) : (h.release p).freed = p :: h.freed := rfl

theorem release_next (h : Heap α) (p : Ptr) : (h.release p).next = h.next := rfl

end Rules

/-! ## Allocators of util.c -/

section Alloc

variable {α : Type}

/-- What `vectorOf` does: it returns `v - nl + NR_END` for the base `v` of a
fresh block of `nh-nl+1+NR_END` elements, all of them `zero`; nothing else
changes. -/
theorem vectorOf_spec (zero : Word α) (msg : String) (nl nh : Int) (h : Heap α)
    (ho : h.oom h.next = false) (hle : nl ≤ nh) :
    Ok (vectorOf zero msg nl nh) h (fun v h1 =>
      v = ⟨h.next, 0 - nl + NR_END⟩ ∧
      ∃ c, h1 = (h.alloc (nh - nl + 1 + NR_END)).withCells c ∧
        (∀ o, 0 ≤ o → o < nh - nl + 1 + NR_END → c h.next o = zero) ∧
        (∀ b, b ≠ h.next → ∀ o, c b o = h.cell b o)) := by
  unfold vectorOf
  apply ok_bind
  apply ok_malloc ho (by unfold NR_END; omega)
  apply ok_bind
  apply ok_forEach (fun k h1 => ∃ c, h1 = (h.alloc (nh - nl + 1 + NR_END)).withCells c ∧
        (∀ o, 0 ≤ o → o < k → c h.next o = zero) ∧
        (∀ b, b ≠ h.next → ∀ o, c b o = h.cell b o))
  · unfold NR_END; omega
  · exact ⟨_, (withCells_self _).symm, fun o h0 h1 => absurd h1 (by omega), fun b _ o => rfl⟩
  · rintro k h1 hk0 hk1 ⟨c, rfl, hz, hfr⟩
    apply ok_store
    · rw [withCells_inb]; exact alloc_inb h _ _ (by simpa using hk0) (by simp; omega)
    · refine ⟨_, withCells_set _ _ _ _, ?_, ?_⟩
      · intro o h0 h1
        by_cases hok : o = k
        · subst hok; exact upd_same _ _ _ _ _ (by simp)
        · rw [upd_other _ _ _ _ _ (Or.inr (by simpa [ptr_add] using hok))]
          exact hz o h0 (by omega)
      · intro b hb o
        rw [upd_other _ _ _ _ _ (Or.inl (by simpa [ptr_add] using hb))]
        exact hfr b hb o
  · rintro h1 ⟨c, rfl, hz, hfr⟩
    apply ok_pure
    exact ⟨rfl, c, rfl, fun o h0 h1 => hz o h0 (by omega), hfr⟩

/-- Every element `v[nl..nh]` of the vector made by `vectorOf` reads as `zero`. -/
theorem vectorOf_zero (zero : Word α) (msg : String) (nl nh : Int) (h : Heap α)
    (ho : h.oom h.next = false) (hle : nl ≤ nh) :
    Ok (vectorOf zero msg nl nh) h (fun v h1 =>
      ∀ i, nl ≤ i → i ≤ nh → load (v + i) h1 = .ok (zero, h1)) := by
  apply ok_mono (vectorOf_spec zero msg nl nh h ho hle)
  rintro v h1 ⟨rfl, c, rfl, hz, -⟩ i hi1 hi2
  have hin : ((h.alloc (nh - nl + 1 + NR_END)).withCells c).inb ((⟨h.next, 0 - nl + NR_END⟩ : Ptr) + i) := by
    rw [withCells_inb, ptr_add]
    exact alloc_inb h _ _ (by unfold NR_END; omega) (by unfold NR_END; omega)
  rw [load_ok hin]
  have : c h.next (0 - nl + NR_END + i) = zero := hz _ (by unfold NR_END; omega) (by unfold NR_END; omega)
  simp only [ptr_add, withCells_cell, this]

end Alloc

section AllocMatrix

variable {α : Type}

theorem nr_end : NR_END = 1 := rfl

theorem flat_bound {a n b c : Int} (ha : 0 ≤ a) (han : a < n) (hb : 0 ≤ b) (hbc : b < c) :
    0 ≤ a * c + b ∧ a * c + b < n * c := by
  have h1 : 0 ≤ a * c := mul_nonneg ha (by omega)
  have h2 : (a + 1) * c ≤ n * c := mul_le_mul_of_nonneg_right (by omega) (by omega)
  have h3 : (a + 1) * c = a * c + c := by ring
  constructor <;> omega

theorem flat_inj {a a1 b b1 c : Int} (hb : 0 ≤ b) (hbc : b < c) (hb1 : 0 ≤ b1) (hb1c : b1 < c)
    (he : a * c + b = a1 * c + b1) : a = a1 ∧ b = b1 := by
  have hc : 0 < c := by omega
  rcases lt_trichotomy a a1 with hlt | heq | hgt
  · exfalso
    have h2 : (a + 1) * c ≤ a1 * c := mul_le_mul_of_nonneg_right (by omega) (by omega)
    have h3 : (a + 1) * c = a * c + c := by ring
    omega
  · subst heq; exact ⟨rfl, by omega⟩
  · exfalso
    have h2 : (a1 + 1) * c ≤ a * c := mul_le_mul_of_nonneg_right (by omega) (by omega)
    have h3 : (a1 + 1) * c = a1 * c + c := by ring
    omega

theorem upd_keep (c : Nat → Int → Word α) (p : Ptr) (w : Word α) (b : Nat) (o : Int)
    (hc : c b o = w) : upd c p w b o = w := by
  unfold upd
  split
  · rfl
  · exact hc

theorem alloc2_inb0 (h : Heap α) (n n1 o : Int) (h0 : 0 ≤ o) (h1 : o < n) :
    ((h.alloc n).alloc n1).inb ⟨h.next, o⟩ :=
  alloc_inb_old _ _ _ (alloc_inb h n o h0 h1)

theorem alloc2_inb1 (h : Heap α) (n n1 o : Int) (h0 : 0 ≤ o) (h1 : o < n1) :
    ((h.alloc n).alloc n1).inb ⟨h.next + 1, o⟩ :=
  alloc_inb (h.alloc n) n1 o h0 h1

theorem Rows.rows_other {c : Nat → Int → Word α} {b b1 : Nat} {base stride n : Int}
    (hr : Rows c b b1 base stride n) (p : Ptr) (w : Word α) (hne : b ≠ p.blk) :
    Rows (upd c p w) b b1 base stride n := by
  intro a o r h1 h2 ho hr1
  rw [upd_other _ _ _ _ _ (Or.inl hne)]
  exact hr a o r h1 h2 ho hr1

theorem Rows.rows_mono {c : Nat → Int → Word α} {b b1 : Nat} {base stride n n1 : Int}
    (hr : Rows c b b1 base stride n) (hle : n1 ≤ n) : Rows c b b1 base stride n1 :=
  fun a o r h1 h2 ho hr1 => hr a o r h1 (by omega) ho hr1

theorem Filled.filled_mono {c : Nat → Int → Word α} {b : Nat} {w : Word α} {n n1 : Int}
    (hf : Filled c b w n) (hle : n1 ≤ n) : Filled c b w n1 :=
  fun f o h1 h2 ho => hf f o h1 (by omega) ho

/-- Extending a row of pointers by one entry written at its end. -/
theorem Rows.rows_snoc {c : Nat → Int → Word α} {b b1 : Nat} {base stride n : Int}
    (hr : Rows c b b1 base stride n) (o r : Int) (ho : o = 1 + n) (hr1 : r = base + n * stride) :
    Rows (upd c ⟨b, o⟩ (.ptr (some ⟨b1, r⟩))) b b1 base stride (n + 1) := by
  intro a o1 r1 h1 h2 ho1 hr2
  by_cases ha : a = n
  · subst ha
    rw [upd_same _ _ _ _ _ (by omega), hr1, hr2]
  · rw [upd_other _ _ _ _ _ (Or.inr (by simp only []; omega))]
    exact hr a o1 r1 h1 (by omega) ho1 hr2

/-- Extending a filled range by one element written at its end. -/
theorem Filled.filled_snoc {c : Nat → Int → Word α} {b : Nat} {w : Word α} {n : Int}
    (hf : Filled c b w n) (o : Int) (ho : o = 1 + n) :
    Filled (upd c ⟨b, o⟩ w) b w (n + 1) := by
  intro f o1 h1 h2 ho1
  by_cases ha : f = n
  · subst ha
    exact upd_same _ _ _ _ _ (by omega)
  · exact upd_keep _ _ _ _ _ (hf f o1 h1 (by omega) ho1)

/-- What `matrixOf` does (also for an empty column range `nch = ncl - 1`): two
fresh blocks; the row pointers `m[nrl..nrh]` are
elements `1..nrow` of the first and point into the second at stride `ncol`;
elements `1..nrow*ncol` of the second are `zero`; no cell of another block
changes. -/
theorem matrixOf_spec (zero : Word α) (msg1 msg2 : String) (nrl nrh ncl nch : Int) (h : Heap α)
    (ho : h.oom h.next = false) (ho1 : h.oom (h.next + 1) = false)
    (hr : nrl ≤ nrh) (hc : ncl ≤ nch + 1) :
    Ok (matrixOf zero msg1 msg2 nrl nrh ncl nch) h (fun m h1 =>
      m = ⟨h.next, 0 + 1 - nrl⟩ ∧
      ∃ c, h1 = ((h.alloc (nrh - nrl + 1 + 1)).alloc
          ((nrh - nrl + 1) * (nch - ncl + 1) + 1)).withCells c ∧
        Rows c h.next (h.next + 1) (1 - ncl) (nch - ncl + 1) (nrh - nrl + 1) ∧
        Filled c (h.next + 1) zero ((nrh - nrl + 1) * (nch - ncl + 1)) ∧
        (∀ b, b ≠ h.next → b ≠ h.next + 1 → ∀ o, c b o = h.cell b o)) := by
  have hsz : 0 ≤ (nrh - nrl + 1) * (nch - ncl + 1) := mul_nonneg (by omega) (by omega)
  unfold matrixOf
  simp only [nr_end]
  apply ok_bind_malloc ho (by omega)
  simp only [ptr_add, ptr_sub]
  apply ok_bind_malloc ho1 (by omega)
  have hin0 : ∀ o, 1 ≤ o → o ≤ nrh - nrl + 1 →
      ((h.alloc (nrh - nrl + 1 + 1)).alloc ((nrh - nrl + 1) * (nch - ncl + 1) + 1)).inb
        ⟨h.next, o⟩ := fun o h1 h2 => alloc2_inb0 _ _ _ _ (by omega) (by omega)
  have hin1 : ∀ o, 1 ≤ o → o ≤ (nrh - nrl + 1) * (nch - ncl + 1) →
      ((h.alloc (nrh - nrl + 1 + 1)).alloc ((nrh - nrl + 1) * (nch - ncl + 1) + 1)).inb
        ⟨h.next + 1, o⟩ := fun o h1 h2 => alloc2_inb1 _ _ _ _ (by omega) (by omega)
  generalize hB : (h.alloc (nrh - nrl + 1 + 1)).alloc ((nrh - nrl + 1) * (nch - ncl + 1) + 1) = B
    at hin0 hin1 ⊢
  have hBc : ∀ b o, B.cell b o = h.cell b o := by subst hB; intro b o; rfl
  have hb01 : h.next ≠ h.next + 1 := by omega
  simp only [alloc_next]
  apply ok_bind_store0 (hin0 _ (by omega) (by omega))
  apply ok_bind_loadPtrOptC _ (hin0 _ (by omega) (by omega)) (upd_same _ _ _ _ _ rfl)
  simp only [Option.isNone_some, Bool.false_eq_true, ↓reduceIte]
  apply ok_bind_pure
  apply ok_bind_loadPtrC _ (hin0 _ (by omega) (by omega)) (upd_same _ _ _ _ _ rfl)
  apply ok_bind_storeC (hin0 _ (by omega) (by omega))
  apply ok_bind_loadPtrC _ (hin0 _ (by omega) (by omega)) (upd_same _ _ _ _ _ rfl)
  apply ok_bind_storeC (hin0 _ (by omega) (by omega))
  simp only [ptr_add, ptr_sub]
  -- the row pointers
  apply ok_bind_forEach (fun k h1 => ∃ c, h1 = B.withCells c ∧
      Rows c h.next (h.next + 1) (1 - ncl) (nch - ncl + 1) (k - nrl) ∧
      (∀ b, b ≠ h.next → ∀ o, c b o = h.cell b o))
  · omega
  · refine ⟨_, rfl, ?_, ?_⟩
    · intro a o r h1 h2 ho hr
      obtain rfl : a = 0 := by omega
      rw [upd_same _ _ _ _ _ (by omega)]
      have : r = 0 + 1 - ncl := by rw [hr]; ring
      rw [this]
    · intro b hb o
      rw [upd_other _ _ _ _ _ (Or.inl hb), upd_other _ _ _ _ _ (Or.inl hb),
        upd_other _ _ _ _ _ (Or.inl hb), hBc]
  · rintro k h1 hk1 hk2 ⟨c, rfl, hrow, hfr⟩
    apply ok_bind_loadPtrC ⟨h.next + 1, 1 - ncl + (k - 1 - nrl) * (nch - ncl + 1)⟩
      (hin0 _ (by omega) (by omega)) (hrow (k - 1 - nrl) _ _ (by omega) (by omega) (by omega) rfl)
    apply ok_storeC (hin0 _ (by omega) (by omega))
    refine ⟨_, rfl, ?_, ?_⟩
    · have e : k + 1 - nrl = (k - nrl) + 1 := by ring
      rw [e, ptr_add]
      exact hrow.rows_snoc _ _ (by omega) (by ring)
    · intro b hb o
      rw [upd_other _ _ _ _ _ (Or.inl hb)]
      exact hfr b hb o
  -- the elements
  rintro h1 ⟨c, rfl, hrow, hfr⟩
  have e1 : nrh + 1 - nrl = nrh - nrl + 1 := by ring
  rw [e1] at hrow
  apply ok_bind_forEach (fun k h1 => ∃ c, h1 = B.withCells c ∧
      Rows c h.next (h.next + 1) (1 - ncl) (nch - ncl + 1) (nrh - nrl + 1) ∧
      Filled c (h.next + 1) zero ((k - nrl) * (nch - ncl + 1)) ∧
      (∀ b, b ≠ h.next → b ≠ h.next + 1 → ∀ o, c b o = h.cell b o))
  · omega
  · refine ⟨c, rfl, hrow, fun f o h1 h2 => absurd h2 (by simp; omega), fun b hb _ o => hfr b hb o⟩
  · rintro k h1 hk1 hk2 ⟨c, rfl, hrow, hz, hfr⟩
    apply ok_forEach (fun l h1 => ∃ c, h1 = B.withCells c ∧
      Rows c h.next (h.next + 1) (1 - ncl) (nch - ncl + 1) (nrh - nrl + 1) ∧
      Filled c (h.next + 1) zero ((k - nrl) * (nch - ncl + 1) + (l - ncl)) ∧
      (∀ b, b ≠ h.next → b ≠ h.next + 1 → ∀ o, c b o = h.cell b o))
    · omega
    · exact ⟨c, rfl, hrow, hz.filled_mono (by omega), hfr⟩
    · rintro l h1 hl1 hl2 ⟨c, rfl, hrow, hz, hfr⟩
      have hb := flat_bound (show 0 ≤ k - nrl by omega) (show k - nrl < nrh - nrl + 1 by omega)
        (show 0 ≤ l - ncl by omega) (show l - ncl < nch - ncl + 1 by omega)
      apply ok_bind_at2C (h.next + 1) (1 - ncl + (k - nrl) * (nch - ncl + 1))
        (hin0 _ (by omega) (by omega)) (hrow (k - nrl) _ _ (by omega) (by omega) (by omega) rfl)
      apply ok_storeC (hin1 _ (by omega) (by omega))
      refine ⟨_, rfl, hrow.rows_other _ _ hb01, ?_, ?_⟩
      · have e : (k - nrl) * (nch - ncl + 1) + (l + 1 - ncl)
            = (k - nrl) * (nch - ncl + 1) + (l - ncl) + 1 := by ring
        rw [e]
        exact hz.filled_snoc _ (by omega)
      · intro b hb0 hb1 o
        rw [upd_other _ _ _ _ _ (Or.inl hb1)]
        exact hfr b hb0 hb1 o
    · rintro h1 ⟨c, rfl, hrow, hz, hfr⟩
      refine ⟨c, rfl, hrow, ?_, hfr⟩
      have e : (k + 1 - nrl) * (nch - ncl + 1)
          = (k - nrl) * (nch - ncl + 1) + (nch + 1 - ncl) := by ring
      rw [e]; exact hz
  rintro h1 ⟨c, rfl, hrow, hz, hfr⟩
  apply ok_pure
  rw [e1] at hz
  exact ⟨rfl, c, rfl, hrow, hz, hfr⟩

end AllocMatrix

section AllocTensor3

variable {α : Type}

theorem Filled.filled_other {c : Nat → Int → Word α} {b : Nat} {w : Word α} {n : Int}
    (hf : Filled c b w n) (p : Ptr) (w1 : Word α) (hne : b ≠ p.blk) :
    Filled (upd c p w1) b w n := by
  intro f o h1 h2 ho
  rw [upd_other _ _ _ _ _ (Or.inl hne)]
  exact hf f o h1 h2 ho

theorem Rows.rows_nil (c : Nat → Int → Word α) (b b1 : Nat) (base stride : Int) :
    Rows c b b1 base stride 0 :=
  fun _ _ _ h1 h2 => absurd h2 (by omega)

theorem Filled.filled_nil (c : Nat → Int → Word α) (b : Nat) (w : Word α) : Filled c b w 0 :=
  fun _ _ h1 h2 => absurd h2 (by omega)

/-- The first entry of a row of pointers. -/
theorem Rows.one (c : Nat → Int → Word α) (b b1 : Nat) (base stride o r : Int)
    (ho : o = 1) (hr : r = base) :
    Rows (upd c ⟨b, o⟩ (.ptr (some ⟨b1, r⟩))) b b1 base stride 1 := by
  have := (Rows.rows_nil c b b1 base stride).rows_snoc o r (by omega) (by rw [hr]; ring)
  simpa using this

theorem alloc3_inb0 (h : Heap α) (n n1 n2 o : Int) (h0 : 0 ≤ o) (h1 : o < n) :
    (((h.alloc n).alloc n1).alloc n2).inb ⟨h.next, o⟩ :=
  alloc_inb_old _ _ _ (alloc2_inb0 h n n1 o h0 h1)

theorem alloc3_inb1 (h : Heap α) (n n1 n2 o : Int) (h0 : 0 ≤ o) (h1 : o < n1) :
    (((h.alloc n).alloc n1).alloc n2).inb ⟨h.next + 1, o⟩ :=
  alloc_inb_old _ _ _ (alloc2_inb1 h n n1 o h0 h1)

theorem alloc3_inb2 (h : Heap α) (n n1 n2 o : Int) (h0 : 0 ≤ o) (h1 : o < n2) :
    (((h.alloc n).alloc n1).alloc n2).inb ⟨h.next + 2, o⟩ :=
  alloc_inb ((h.alloc n).alloc n1) n2 o h0 h1

/-- What `tensor3Of` does: three fresh blocks; `t[nrl..nrh]` are elements
`1..nrow` of the first and point into the second at stride `ncol`; the
`nrow*ncol` pointers `t[i][j]` are elements `1..nrow*ncol` of the second and
point into the third at stride `ndep`; elements `1..nrow*ncol*ndep` of the third
are `zero`; no cell of another block changes. -/
theorem tensor3Of_spec (zero : Word α) (msg1 msg2 msg3 : String)
    (nrl nrh ncl nch ndl ndh : Int) (h : Heap α)
    (ho : h.oom h.next = false) (ho1 : h.oom (h.next + 1) = false)
    (ho2 : h.oom (h.next + 2) = false)
    (hr : nrl ≤ nrh) (hc : ncl ≤ nch) (hd : ndl ≤ ndh) :
    Ok (tensor3Of zero msg1 msg2 msg3 nrl nrh ncl nch ndl ndh) h (fun t h1 =>
      t = ⟨h.next, 0 + 1 - nrl⟩ ∧
      ∃ c, h1 = (((h.alloc (nrh - nrl + 1 + 1)).alloc
          ((nrh - nrl + 1) * (nch - ncl + 1) + 1)).alloc
          ((nrh - nrl + 1) * (nch - ncl + 1) * (ndh - ndl + 1) + 1)).withCells c ∧
        Rows c h.next (h.next + 1) (1 - ncl) (nch - ncl + 1) (nrh - nrl + 1) ∧
        Rows c (h.next + 1) (h.next + 2) (1 - ndl) (ndh - ndl + 1)
          ((nrh - nrl + 1) * (nch - ncl + 1)) ∧
        Filled c (h.next + 2) zero ((nrh - nrl + 1) * (nch - ncl + 1) * (ndh - ndl + 1)) ∧
        (∀ b, b ≠ h.next → b ≠ h.next + 1 → b ≠ h.next + 2 → ∀ o, c b o = h.cell b o)) := by
  have hsz : 0 < (nrh - nrl + 1) * (nch - ncl + 1) := mul_pos (by omega) (by omega)
  have hsz3 : 0 < (nrh - nrl + 1) * (nch - ncl + 1) * (ndh - ndl + 1) :=
    mul_pos hsz (by omega)
  have hb01 : h.next ≠ h.next + 1 := by omega
  have hb02 : h.next ≠ h.next + 2 := by omega
  have hb12 : h.next + 1 ≠ h.next + 2 := by omega
  unfold tensor3Of
  simp only [nr_end]
  apply ok_bind_malloc ho (by omega)
  simp only [ptr_add, ptr_sub]
  apply ok_bind_malloc ho1 (by omega)
  simp only [alloc_next]
  apply ok_bind_store0 (alloc2_inb0 _ _ _ _ (by omega) (by omega))
  apply ok_bind_loadPtrOptC _ (alloc2_inb0 _ _ _ _ (by omega) (by omega)) (upd_same _ _ _ _ _ rfl)
  simp only [Option.isNone_some, Bool.false_eq_true, ↓reduceIte]
  apply ok_bind_pure
  apply ok_bind_loadPtrC _ (alloc2_inb0 _ _ _ _ (by omega) (by omega)) (upd_same _ _ _ _ _ rfl)
  apply ok_bind_storeC (alloc2_inb0 _ _ _ _ (by omega) (by omega))
  apply ok_bind_loadPtrC _ (alloc2_inb0 _ _ _ _ (by omega) (by omega)) (upd_same _ _ _ _ _ rfl)
  apply ok_bind_storeC (alloc2_inb0 _ _ _ _ (by omega) (by omega))
  simp only [ptr_add, ptr_sub, upd_upd_same]
  refine ok_of_cells (fun c => Rows c h.next (h.next + 1) (1 - ncl) (nch - ncl + 1) 1 ∧
      ∀ b, b ≠ h.next → ∀ o, c b o = h.cell b o) ⟨?_, ?_⟩ ?_
  · exact Rows.one _ _ _ _ _ _ _ (by omega) (by omega)
  · intro b hb o
    rw [upd_other _ _ _ _ _ (Or.inl hb)]; rfl
  rintro c ⟨hrow, hfr⟩
  -- t[nrl][ncl] = malloc(...)
  apply ok_bind_at2C (h.next + 1) (1 - ncl + 0 * (nch - ncl + 1))
    (alloc2_inb0 _ _ _ _ (by omega) (by omega)) (hrow 0 _ _ le_rfl (by omega) (by omega) rfl)
  apply ok_bind_mallocC ho2 (by omega)
  have hin0 : ∀ o, 1 ≤ o → o ≤ nrh - nrl + 1 →
      (((h.alloc (nrh - nrl + 1 + 1)).alloc ((nrh - nrl + 1) * (nch - ncl + 1) + 1)).alloc
        ((nrh - nrl + 1) * (nch - ncl + 1) * (ndh - ndl + 1) + 1)).inb ⟨h.next, o⟩ :=
    fun o h1 h2 => alloc3_inb0 _ _ _ _ _ (by omega) (by omega)
  have hin1 : ∀ o, 1 ≤ o → o ≤ (nrh - nrl + 1) * (nch - ncl + 1) →
      (((h.alloc (nrh - nrl + 1 + 1)).alloc ((nrh - nrl + 1) * (nch - ncl + 1) + 1)).alloc
        ((nrh - nrl + 1) * (nch - ncl + 1) * (ndh - ndl + 1) + 1)).inb ⟨h.next + 1, o⟩ :=
    fun o h1 h2 => alloc3_inb1 _ _ _ _ _ (by omega) (by omega)
  have hin2 : ∀ o, 1 ≤ o → o ≤ (nrh - nrl + 1) * (nch - ncl + 1) * (ndh - ndl + 1) →
      (((h.alloc (nrh - nrl + 1 + 1)).alloc ((nrh - nrl + 1) * (nch - ncl + 1) + 1)).alloc
        ((nrh - nrl + 1) * (nch - ncl + 1) * (ndh - ndl + 1) + 1)).inb ⟨h.next + 2, o⟩ :=
    fun o h1 h2 => alloc3_inb2 _ _ _ _ _ (by omega) (by omega)
  generalize hB : ((h.alloc (nrh - nrl + 1 + 1)).alloc
    ((nrh - nrl + 1) * (nch - ncl + 1) + 1)).alloc
      ((nrh - nrl + 1) * (nch - ncl + 1) * (ndh - ndl + 1) + 1) = B at hin0 hin1 hin2 ⊢
  simp only [alloc_next]
  apply ok_bind_storeC (hin1 _ (by omega) (by omega))
  apply ok_bind_at2C (h.next + 1) (1 - ncl + 0 * (nch - ncl + 1)) (hin0 _ (by omega) (by omega))
    ((hrow.rows_other _ _ hb01) 0 _ _ le_rfl (by omega) (by omega) rfl)
  apply ok_bind_loadPtrOptC _ (hin1 _ (by omega) (by omega)) (upd_same _ _ _ _ _ rfl)
  simp only [Option.isNone_some, Bool.false_eq_true, ↓reduceIte]
  apply ok_bind_pure
  apply ok_bind_at2C (h.next + 1) (1 - ncl + 0 * (nch - ncl + 1)) (hin0 _ (by omega) (by omega))
    ((hrow.rows_other _ _ hb01) 0 _ _ le_rfl (by omega) (by omega) rfl)
  apply ok_bind_at2C (h.next + 1) (1 - ncl + 0 * (nch - ncl + 1)) (hin0 _ (by omega) (by omega))
    ((hrow.rows_other _ _ hb01) 0 _ _ le_rfl (by omega) (by omega) rfl)
  apply ok_bind_loadPtrC _ (hin1 _ (by omega) (by omega)) (upd_same _ _ _ _ _ rfl)
  apply ok_bind_storeC (hin1 _ (by omega) (by omega))
  simp only [upd_upd_same]
  apply ok_bind_at2C (h.next + 1) (1 - ncl + 0 * (nch - ncl + 1)) (hin0 _ (by omega) (by omega))
    ((hrow.rows_other _ _ hb01) 0 _ _ le_rfl (by omega) (by omega) rfl)
  apply ok_bind_at2C (h.next + 1) (1 - ncl + 0 * (nch - ncl + 1)) (hin0 _ (by omega) (by omega))
    ((hrow.rows_other _ _ hb01) 0 _ _ le_rfl (by omega) (by omega) rfl)
  apply ok_bind_loadPtrC _ (hin1 _ (by omega) (by omega)) (upd_same _ _ _ _ _ rfl)
  apply ok_bind_storeC (hin1 _ (by omega) (by omega))
  simp only [upd_upd_same, ptr_add, ptr_sub]
  refine ok_of_cells (fun c => Rows c h.next (h.next + 1) (1 - ncl) (nch - ncl + 1) 1 ∧
      Rows c (h.next + 1) (h.next + 2) (1 - ndl) (ndh - ndl + 1) 1 ∧
      ∀ b, b ≠ h.next → b ≠ h.next + 1 → ∀ o, c b o = h.cell b o) ⟨?_, ?_, ?_⟩ ?_
  · exact hrow.rows_other _ _ hb01
  · exact Rows.one _ _ _ _ _ _ _ (by omega) (by omega)
  · intro b hb hb1 o
    rw [upd_other _ _ _ _ _ (Or.inl hb1)]; exact hfr b hb o
  clear hrow hfr c
  rintro c ⟨hrow, hrow2, hfr⟩
  -- t[nrl][j], j > ncl
  apply ok_bind_forEach (fun k h1 => ∃ c, h1 = B.withCells c ∧
      Rows c h.next (h.next + 1) (1 - ncl) (nch - ncl + 1) 1 ∧
      Rows c (h.next + 1) (h.next + 2) (1 - ndl) (ndh - ndl + 1) (k - ncl) ∧
      ∀ b, b ≠ h.next → b ≠ h.next + 1 → ∀ o, c b o = h.cell b o)
  · omega
  · have e : ncl + 1 - ncl = 1 := by ring
    rw [e]
    exact ⟨c, rfl, hrow, hrow2, hfr⟩
  · clear hrow hrow2 hfr c
    rintro k h1 hk1 hk2 ⟨c, rfl, hrow, hrow2, hfr⟩
    have hb := flat_bound (le_refl (0 : Int)) (show (0 : Int) < nrh - nrl + 1 by omega)
      (show 0 ≤ k - ncl by omega) (show k - ncl < nch - ncl + 1 by omega)
    apply ok_bind_at2C (h.next + 1) (1 - ncl + 0 * (nch - ncl + 1))
      (hin0 _ (by omega) (by omega)) (hrow 0 _ _ le_rfl (by omega) (by omega) rfl)
    apply ok_bind_at2C (h.next + 1) (1 - ncl + 0 * (nch - ncl + 1))
      (hin0 _ (by omega) (by omega)) (hrow 0 _ _ le_rfl (by omega) (by omega) rfl)
    apply ok_bind_loadPtrC ⟨h.next + 2, 1 - ndl + (k - 1 - ncl) * (ndh - ndl + 1)⟩
      (hin1 _ (by omega) (by omega))
      (hrow2 (k - 1 - ncl) _ _ (by omega) (by omega) (by omega) rfl)
    apply ok_storeC (hin1 _ (by omega) (by omega))
    refine ⟨_, rfl, hrow.rows_other _ _ hb01, ?_, ?_⟩
    · have e : k + 1 - ncl = (k - ncl) + 1 := by ring
      rw [e, ptr_add]
      exact hrow2.rows_snoc _ _ (by omega) (by ring)
    · intro b hb0 hb1 o
      rw [upd_other _ _ _ _ _ (Or.inl hb1)]; exact hfr b hb0 hb1 o
  clear hrow hrow2 hfr c
  rintro h1 ⟨c, rfl, hrow, hrow2, hfr⟩
  -- t[i], t[i][j], i > nrl
  apply ok_bind_forEach (fun k h1 => ∃ c, h1 = B.withCells c ∧
      Rows c h.next (h.next + 1) (1 - ncl) (nch - ncl + 1) (k - nrl) ∧
      Rows c (h.next + 1) (h.next + 2) (1 - ndl) (ndh - ndl + 1)
        ((k - nrl) * (nch - ncl + 1)) ∧
      ∀ b, b ≠ h.next → b ≠ h.next + 1 → ∀ o, c b o = h.cell b o)
  · omega
  · have e : nrl + 1 - nrl = 1 := by ring
    have e2 : (1 : Int) * (nch - ncl + 1) = nch + 1 - ncl := by ring
    rw [e, e2]
    exact ⟨c, rfl, hrow, hrow2, hfr⟩
  · clear hrow hrow2 hfr c
    rintro k h1 hk1 hk2 ⟨c, rfl, hrow, hrow2, hfr⟩
    have e0 : (k - nrl) * (nch - ncl + 1) = (k - 1 - nrl) * (nch - ncl + 1) + (nch - ncl + 1) := by
      ring
    have e1 : 0 ≤ (k - 1 - nrl) * (nch - ncl + 1) := mul_nonneg (by omega) (by omega)
    have hb := flat_bound (show 0 ≤ k - nrl by omega) (show k - nrl < nrh - nrl + 1 by omega)
      (le_refl (0 : Int)) (show (0 : Int) < nch - ncl + 1 by omega)
    apply ok_bind_loadPtrC ⟨h.next + 1, 1 - ncl + (k - 1 - nrl) * (nch - ncl + 1)⟩
      (hin0 _ (by omega) (by omega)) (hrow (k - 1 - nrl) _ _ (by omega) (by omega) (by omega) rfl)
    apply ok_bind_storeC (hin0 _ (by omega) (by omega))
    rw [ptr_add]
    refine ok_of_cells (fun c =>
      Rows c h.next (h.next + 1) (1 - ncl) (nch - ncl + 1) (k - nrl + 1) ∧
      Rows c (h.next + 1) (h.next + 2) (1 - ndl) (ndh - ndl + 1)
        ((k - nrl) * (nch - ncl + 1)) ∧
      ∀ b, b ≠ h.next → b ≠ h.next + 1 → ∀ o, c b o = h.cell b o) ⟨?_, ?_, ?_⟩ ?_
    · exact hrow.rows_snoc _ _ (by omega) (by ring)
    · exact hrow2.rows_other _ _ (Ne.symm hb01)
    · intro b hb0 hb1 o
      rw [upd_other _ _ _ _ _ (Or.inl hb0)]; exact hfr b hb0 hb1 o
    clear hrow hrow2 hfr c
    rintro c ⟨hrow, hrow2, hfr⟩
    apply ok_bind_at2C (h.next + 1) (1 - ncl + (k - nrl) * (nch - ncl + 1))
      (hin0 _ (by omega) (by omega)) (hrow (k - nrl) _ _ (by omega) (by omega) (by omega) rfl)
    apply ok_bind_at2C (h.next + 1) (1 - ncl + (k - 1 - nrl) * (nch - ncl + 1))
      (hin0 _ (by omega) (by omega)) (hrow (k - 1 - nrl) _ _ (by omega) (by omega) (by omega) rfl)
    apply ok_bind_loadPtrC
      ⟨h.next + 2, 1 - ndl + ((k - 1 - nrl) * (nch - ncl + 1)) * (ndh - ndl + 1)⟩
      (hin1 _ (by omega) (by omega))
      (hrow2 ((k - 1 - nrl) * (nch - ncl + 1)) _ _ (by omega) (by omega) (by omega) rfl)
    apply ok_bind_storeC (hin1 _ (by omega) (by omega))
    rw [ptr_add]
    refine ok_of_cells (fun c =>
      Rows c h.next (h.next + 1) (1 - ncl) (nch - ncl + 1) (k - nrl + 1) ∧
      Rows c (h.next + 1) (h.next + 2) (1 - ndl) (ndh - ndl + 1)
        ((k - nrl) * (nch - ncl + 1) + 1) ∧
      ∀ b, b ≠ h.next → b ≠ h.next + 1 → ∀ o, c b o = h.cell b o) ⟨?_, ?_, ?_⟩ ?_
    · exact hrow.rows_other _ _ hb01
    · exact hrow2.rows_snoc _ _ (by omega) (by ring)
    · intro b hb0 hb1 o
      rw [upd_other _ _ _ _ _ (Or.inl hb1)]; exact hfr b hb0 hb1 o
    clear hrow hrow2 hfr c
    rintro c ⟨hrow, hrow2, hfr⟩
    apply ok_forEach (fun l h1 => ∃ c, h1 = B.withCells c ∧
      Rows c h.next (h.next + 1) (1 - ncl) (nch - ncl + 1) (k - nrl + 1) ∧
      Rows c (h.next + 1) (h.next + 2) (1 - ndl) (ndh - ndl + 1)
        ((k - nrl) * (nch - ncl + 1) + (l - ncl)) ∧
      ∀ b, b ≠ h.next → b ≠ h.next + 1 → ∀ o, c b o = h.cell b o)
    · omega
    · have e : ncl + 1 - ncl = 1 := by ring
      rw [e]
      exact ⟨c, rfl, hrow, hrow2, hfr⟩
    · clear hrow hrow2 hfr c
      rintro l h1 hl1 hl2 ⟨c, rfl, hrow, hrow2, hfr⟩
      have hbl := flat_bound (show 0 ≤ k - nrl by omega) (show k - nrl < nrh - nrl + 1 by omega)
        (show 0 ≤ l - ncl by omega) (show l - ncl < nch - ncl + 1 by omega)
      apply ok_bind_at2C (h.next + 1) (1 - ncl + (k - nrl) * (nch - ncl + 1))
        (hin0 _ (by omega) (by omega)) (hrow (k - nrl) _ _ (by omega) (by omega) (by omega) rfl)
      apply ok_bind_at2C (h.next + 1) (1 - ncl + (k - nrl) * (nch - ncl + 1))
        (hin0 _ (by omega) (by omega)) (hrow (k - nrl) _ _ (by omega) (by omega) (by omega) rfl)
      apply ok_bind_loadPtrC
        ⟨h.next + 2, 1 - ndl + ((k - nrl) * (nch - ncl + 1) + (l - 1 - ncl)) * (ndh - ndl + 1)⟩
        (hin1 _ (by omega) (by omega))
        (hrow2 ((k - nrl) * (nch - ncl + 1) + (l - 1 - ncl)) _ _ (by omega) (by omega)
          (by omega) rfl)
      apply ok_storeC (hin1 _ (by omega) (by omega))
      refine ⟨_, rfl, hrow.rows_other _ _ hb01, ?_, ?_⟩
      · have e : (k - nrl) * (nch - ncl + 1) + (l + 1 - ncl)
            = (k - nrl) * (nch - ncl + 1) + (l - ncl) + 1 := by ring
        rw [e, ptr_add]
        exact hrow2.rows_snoc _ _ (by omega) (by ring)
      · intro b hb0 hb1 o
        rw [upd_other _ _ _ _ _ (Or.inl hb1)]; exact hfr b hb0 hb1 o
    · clear hrow hrow2 hfr c
      rintro h1 ⟨c, rfl, hrow, hrow2, hfr⟩
      have e : k + 1 - nrl = k - nrl + 1 := by ring
      have e2 : (k - nrl + 1) * (nch - ncl + 1)
          = (k - nrl) * (nch - ncl + 1) + (nch + 1 - ncl) := by ring
      rw [e, e2]
      exact ⟨c, rfl, hrow, hrow2, hfr⟩
  clear hrow hrow2 hfr c
  rintro h1 ⟨c, rfl, hrow, hrow2, hfr⟩
  have e1 : nrh + 1 - nrl = nrh - nrl + 1 := by ring
  rw [e1] at hrow hrow2
  -- the elements
  apply ok_bind_forEach (fun k h1 => ∃ c, h1 = B.withCells c ∧
      Rows c h.next (h.next + 1) (1 - ncl) (nch - ncl + 1) (nrh - nrl + 1) ∧
      Rows c (h.next + 1) (h.next + 2) (1 - ndl) (ndh - ndl + 1)
        ((nrh - nrl + 1) * (nch - ncl + 1)) ∧
      Filled c (h.next + 2) zero ((k - nrl) * (nch - ncl + 1) * (ndh - ndl + 1)) ∧
      ∀ b, b ≠ h.next → b ≠ h.next + 1 → b ≠ h.next + 2 → ∀ o, c b o = h.cell b o)
  · omega
  · refine ⟨c, rfl, hrow, hrow2, ?_, fun b hb0 hb1 _ o => hfr b hb0 hb1 o⟩
    have e : (nrl - nrl) * (nch - ncl + 1) * (ndh - ndl + 1) = 0 := by ring
    rw [e]; exact Filled.filled_nil _ _ _
  · clear hrow hrow2 hfr c
    rintro k h1 hk1 hk2 ⟨c, rfl, hrow, hrow2, hz, hfr⟩
    apply ok_forEach (fun l h1 => ∃ c, h1 = B.withCells c ∧
      Rows c h.next (h.next + 1) (1 - ncl) (nch - ncl + 1) (nrh - nrl + 1) ∧
      Rows c (h.next + 1) (h.next + 2) (1 - ndl) (ndh - ndl + 1)
        ((nrh - nrl + 1) * (nch - ncl + 1)) ∧
      Filled c (h.next + 2) zero
        (((k - nrl) * (nch - ncl + 1) + (l - ncl)) * (ndh - ndl + 1)) ∧
      ∀ b, b ≠ h.next → b ≠ h.next + 1 → b ≠ h.next + 2 → ∀ o, c b o = h.cell b o)
    · omega
    · have e : ((k - nrl) * (nch - ncl + 1) + (ncl - ncl)) * (ndh - ndl + 1)
          = (k - nrl) * (nch - ncl + 1) * (ndh - ndl + 1) := by ring
      rw [e]
      exact ⟨c, rfl, hrow, hrow2, hz, hfr⟩
    · clear hrow hrow2 hz hfr c
      rintro l h1 hl1 hl2 ⟨c, rfl, hrow, hrow2, hz, hfr⟩
      have hbl := flat_bound (show 0 ≤ k - nrl by omega) (show k - nrl < nrh - nrl + 1 by omega)
        (show 0 ≤ l - ncl by omega) (show l - ncl < nch - ncl + 1 by omega)
      apply ok_forEach (fun d h1 => ∃ c, h1 = B.withCells c ∧
        Rows c h.next (h.next + 1) (1 - ncl) (nch - ncl + 1) (nrh - nrl + 1) ∧
        Rows c (h.next + 1) (h.next + 2) (1 - ndl) (ndh - ndl + 1)
          ((nrh - nrl + 1) * (nch - ncl + 1)) ∧
        Filled c (h.next + 2) zero
          (((k - nrl) * (nch - ncl + 1) + (l - ncl)) * (ndh - ndl + 1) + (d - ndl)) ∧
        ∀ b, b ≠ h.next → b ≠ h.next + 1 → b ≠ h.next + 2 → ∀ o, c b o = h.cell b o)
      · omega
      · exact ⟨c, rfl, hrow, hrow2, hz.filled_mono (by omega), hfr⟩
      · clear hrow hrow2 hz hfr c
        rintro d h1 hd1 hd2 ⟨c, rfl, hrow, hrow2, hz, hfr⟩
        have hbd := flat_bound hbl.1 hbl.2
          (show 0 ≤ d - ndl by omega) (show d - ndl < ndh - ndl + 1 by omega)
        apply ok_bind_at3C (h.next + 1) (1 - ncl + (k - nrl) * (nch - ncl + 1))
          (h.next + 2)
          (1 - ndl + ((k - nrl) * (nch - ncl + 1) + (l - ncl)) * (ndh - ndl + 1))
          (hin0 _ (by omega) (by omega))
          (hrow (k - nrl) _ _ (by omega) (by omega) (by omega) rfl)
          (hin1 _ (by omega) (by omega))
          (hrow2 ((k - nrl) * (nch - ncl + 1) + (l - ncl)) _ _ (by omega) (by omega)
            (by omega) rfl)
        apply ok_storeC (hin2 _ (by omega) (by omega))
        refine ⟨_, rfl, hrow.rows_other _ _ hb02, hrow2.rows_other _ _ hb12, ?_, ?_⟩
        · have e : ((k - nrl) * (nch - ncl + 1) + (l - ncl)) * (ndh - ndl + 1) + (d + 1 - ndl)
              = ((k - nrl) * (nch - ncl + 1) + (l - ncl)) * (ndh - ndl + 1) + (d - ndl) + 1 := by
            ring
          rw [e]
          exact hz.filled_snoc _ (by omega)
        · intro b hb0 hb1 hb2 o
          rw [upd_other _ _ _ _ _ (Or.inl hb2)]; exact hfr b hb0 hb1 hb2 o
      · clear hrow hrow2 hz hfr c
        rintro h1 ⟨c, rfl, hrow, hrow2, hz, hfr⟩
        refine ⟨c, rfl, hrow, hrow2, ?_, hfr⟩
        have e : ((k - nrl) * (nch - ncl + 1) + (l + 1 - ncl)) * (ndh - ndl + 1)
            = ((k - nrl) * (nch - ncl + 1) + (l - ncl)) * (ndh - ndl + 1) + (ndh + 1 - ndl) := by
          ring
        rw [e]; exact hz
    · clear hrow hrow2 hz hfr c
      rintro h1 ⟨c, rfl, hrow, hrow2, hz, hfr⟩
      refine ⟨c, rfl, hrow, hrow2, ?_, hfr⟩
      have e : (k + 1 - nrl) * (nch - ncl + 1) * (ndh - ndl + 1)
          = ((k - nrl) * (nch - ncl + 1) + (nch + 1 - ncl)) * (ndh - ndl + 1) := by ring
      rw [e]; exact hz
  clear hrow hrow2 hfr c
  rintro h1 ⟨c, rfl, hrow, hrow2, hz, hfr⟩
  apply ok_pure
  rw [e1] at hz
  exact ⟨rfl, c, rfl, hrow, hrow2, hz, hfr⟩

end AllocTensor3

section ZeroInit

variable {α : Type}

theorem vectorOf_elems (zero : Word α) (msg : String) (nl nh : Int) (h : Heap α)
    (ho : h.mallocOk 1) (hle : nl ≤ nh) :
    Ok (vectorOf zero msg nl nh) h (fun v h1 =>
      ∀ i, nl ≤ i → i ≤ nh → elem1 v i h1 = .ok (zero, h1)) :=
  vectorOf_zero zero msg nl nh h (ho _ le_rfl (by omega)) hle

theorem matrixOf_elems (zero : Word α) (msg1 msg2 : String) (nrl nrh ncl nch : Int) (h : Heap α)
    (ho : h.mallocOk 2) (hr : nrl ≤ nrh) (hc : ncl ≤ nch) :
    Ok (matrixOf zero msg1 msg2 nrl nrh ncl nch) h (fun m h1 =>
      ∀ i j, nrl ≤ i → i ≤ nrh → ncl ≤ j → j ≤ nch → elem2 m i j h1 = .ok (zero, h1)) := by
  apply ok_mono (matrixOf_spec zero msg1 msg2 nrl nrh ncl nch h (ho _ le_rfl (by omega))
    (ho _ (by omega) (by omega)) hr (by omega))
  rintro m h1 ⟨rfl, c, rfl, hrow, hz, -⟩ i j hi1 hi2 hj1 hj2
  have hb := flat_bound (show 0 ≤ i - nrl by omega) (show i - nrl < nrh - nrl + 1 by omega)
    (show 0 ≤ j - ncl by omega) (show j - ncl < nch - ncl + 1 by omega)
  have hsz : 0 ≤ (nrh - nrl + 1) * (nch - ncl + 1) := mul_nonneg (by omega) (by omega)
  apply ok_eq
  unfold elem2
  apply ok_bind_at2C (h.next + 1) (1 - ncl + (i - nrl) * (nch - ncl + 1))
    (alloc2_inb0 _ _ _ _ (by omega) (by omega))
    (hrow (i - nrl) _ _ (by omega) (by omega) (by omega) rfl)
  apply ok_loadC (alloc2_inb1 _ _ _ _ (by omega) (by omega))
  exact ⟨hz ((i - nrl) * (nch - ncl + 1) + (j - ncl)) _ (by omega) (by omega) (by omega), rfl⟩

theorem tensor3Of_elems (zero : Word α) (msg1 msg2 msg3 : String)
    (nrl nrh ncl nch ndl ndh : Int) (h : Heap α)
    (ho : h.mallocOk 3) (hr : nrl ≤ nrh) (hc : ncl ≤ nch) (hd : ndl ≤ ndh) :
    Ok (tensor3Of zero msg1 msg2 msg3 nrl nrh ncl nch ndl ndh) h (fun t h1 =>
      ∀ i j d, nrl ≤ i → i ≤ nrh → ncl ≤ j → j ≤ nch → ndl ≤ d → d ≤ ndh →
        elem3 t i j d h1 = .ok (zero, h1)) := by
  apply ok_mono (tensor3Of_spec zero msg1 msg2 msg3 nrl nrh ncl nch ndl ndh h
    (ho _ le_rfl (by omega)) (ho _ (by omega) (by omega)) (ho _ (by omega) (by omega)) hr hc hd)
  rintro t h1 ⟨rfl, c, rfl, hrow, hrow2, hz, -⟩ i j d hi1 hi2 hj1 hj2 hd1 hd2
  have hb := flat_bound (show 0 ≤ i - nrl by omega) (show i - nrl < nrh - nrl + 1 by omega)
    (show 0 ≤ j - ncl by omega) (show j - ncl < nch - ncl + 1 by omega)
  have hbd := flat_bound hb.1 hb.2
    (show 0 ≤ d - ndl by omega) (show d - ndl < ndh - ndl + 1 by omega)
  apply ok_eq
  unfold elem3
  apply ok_bind_at3C (h.next + 1) (1 - ncl + (i - nrl) * (nch - ncl + 1)) (h.next + 2)
    (1 - ndl + ((i - nrl) * (nch - ncl + 1) + (j - ncl)) * (ndh - ndl + 1))
    (alloc3_inb0 _ _ _ _ _ (by omega) (by omega))
    (hrow (i - nrl) _ _ (by omega) (by omega) (by omega) rfl)
    (alloc3_inb1 _ _ _ _ _ (by omega) (by omega))
    (hrow2 ((i - nrl) * (nch - ncl + 1) + (j - ncl)) _ _ (by omega) (by omega) (by omega) rfl)
  apply ok_loadC (alloc3_inb2 _ _ _ _ _ (by omega) (by omega))
  exact ⟨hz (((i - nrl) * (nch - ncl + 1) + (j - ncl)) * (ndh - ndl + 1) + (d - ndl)) _
    (by omega) (by omega) (by omega), rfl⟩

theorem mallocOk_mono {h : Heap α} {k k1 : Nat} (hm : h.mallocOk k) (hle : k1 ≤ k) :
    h.mallocOk k1 :=
  fun n h1 h2 => hm n h1 (by omega)

theorem junkHeap_mallocOk (k : Nat) : junkHeap.mallocOk k := fun _ _ _ => rfl

/-- C5. Zero initialisation of the 1-, 2- and 3-dimensional numeric allocators:
whenever lower bounds do not exceed upper bounds and the `malloc` calls succeed,
each of `vector`, `ivector`, `usvector`, `lvector`, `dvector`, `fmatrix`,
`dmatrix`, `imatrix`, `usmatrix`, `f3tensor`, `i3tensor` returns, and every
in-bounds element of the array it returns then reads as zero, whatever the heap
`h` (hence the malloc'd memory) contained before. -/
theorem zero_init_allocators [Zero α] (h : Heap α) (nl nh nrl nrh ncl nch ndl ndh : Int)
    (hm : h.mallocOk 3) (hv : nl ≤ nh) (hr : nrl ≤ nrh) (hc : ncl ≤ nch) (hd : ndl ≤ ndh) :
    Ok (vector nl nh) h (fun v h1 =>
      ∀ i, nl ≤ i → i ≤ nh → elem1 v i h1 = .ok (.flt 0, h1)) ∧
    Ok (ivector nl nh) h (fun v h1 =>
      ∀ i, nl ≤ i → i ≤ nh → elem1 v i h1 = .ok (.int 0, h1)) ∧
    Ok (usvector nl nh) h (fun v h1 =>
      ∀ i, nl ≤ i → i ≤ nh → elem1 v i h1 = .ok (.int 0, h1)) ∧
    Ok (lvector nl nh) h (fun v h1 =>
      ∀ i, nl ≤ i → i ≤ nh → elem1 v i h1 = .ok (.int 0, h1)) ∧
    Ok (dvector nl nh) h (fun v h1 =>
      ∀ i, nl ≤ i → i ≤ nh → elem1 v i h1 = .ok (.flt 0, h1)) ∧
    Ok (fmatrix nrl nrh ncl nch) h (fun m h1 =>
      ∀ i j, nrl ≤ i → i ≤ nrh → ncl ≤ j → j ≤ nch → elem2 m i j h1 = .ok (.flt 0, h1)) ∧
    Ok (dmatrix nrl nrh ncl nch) h (fun m h1 =>
      ∀ i j, nrl ≤ i → i ≤ nrh → ncl ≤ j → j ≤ nch → elem2 m i j h1 = .ok (.flt 0, h1)) ∧
    Ok (imatrix nrl nrh ncl nch) h (fun m h1 =>
      ∀ i j, nrl ≤ i → i ≤ nrh → ncl ≤ j → j ≤ nch → elem2 m i j h1 = .ok (.int 0, h1)) ∧
    Ok (usmatrix nrl nrh ncl nch) h (fun m h1 =>
      ∀ i j, nrl ≤ i → i ≤ nrh → ncl ≤ j → j ≤ nch → elem2 m i j h1 = .ok (.int 0, h1)) ∧
    Ok (f3tensor nrl nrh ncl nch ndl ndh) h (fun t h1 =>
      ∀ i j d, nrl ≤ i → i ≤ nrh → ncl ≤ j → j ≤ nch → ndl ≤ d → d ≤ ndh →
        elem3 t i j d h1 = .ok (.flt 0, h1)) ∧
    Ok (i3tensor nrl nrh ncl nch ndl ndh) h (fun t h1 =>
      ∀ i j d, nrl ≤ i → i ≤ nrh → ncl ≤ j → j ≤ nch → ndl ≤ d → d ≤ ndh →
        elem3 t i j d h1 = .ok (.int 0, h1)) :=
  ⟨vectorOf_elems _ _ nl nh h (mallocOk_mono hm (by omega)) hv,
   vectorOf_elems _ _ nl nh h (mallocOk_mono hm (by omega)) hv,
   vectorOf_elems _ _ nl nh h (mallocOk_mono hm (by omega)) hv,
   vectorOf_elems _ _ nl nh h (mallocOk_mono hm (by omega)) hv,
   vectorOf_elems _ _ nl nh h (mallocOk_mono hm (by omega)) hv,
   matrixOf_elems _ _ _ nrl nrh ncl nch h (mallocOk_mono hm (by omega)) hr hc,
   matrixOf_elems _ _ _ nrl nrh ncl nch h (mallocOk_mono hm (by omega)) hr hc,
   matrixOf_elems _ _ _ nrl nrh ncl nch h (mallocOk_mono hm (by omega)) hr hc,
   matrixOf_elems _ _ _ nrl nrh ncl nch h (mallocOk_mono hm (by omega)) hr hc,
   tensor3Of_elems _ _ _ _ nrl nrh ncl nch ndl ndh h hm hr hc hd,
   tensor3Of_elems _ _ _ _ nrl nrh ncl nch ndl ndh h hm hr hc hd⟩

theorem zero_init_allocators_witness :
    (junkHeap.mallocOk 3 ∧ (1 : Int) ≤ 3 ∧ (-1 : Int) ≤ 1 ∧ (0 : Int) ≤ 2 ∧ (1 : Int) ≤ 1) ∧
    (Ok (vector 1 3) junkHeap (fun v h1 =>
      ∀ i, 1 ≤ i → i ≤ 3 → elem1 v i h1 = .ok (.flt 0, h1)) ∧
    Ok (ivector 1 3) junkHeap (fun v h1 =>
      ∀ i, 1 ≤ i → i ≤ 3 → elem1 v i h1 = .ok (.int 0, h1)) ∧
    Ok (usvector 1 3) junkHeap (fun v h1 =>
      ∀ i, 1 ≤ i → i ≤ 3 → elem1 v i h1 = .ok (.int 0, h1)) ∧
    Ok (lvector 1 3) junkHeap (fun v h1 =>
      ∀ i, 1 ≤ i → i ≤ 3 → elem1 v i h1 = .ok (.int 0, h1)) ∧
    Ok (dvector 1 3) junkHeap (fun v h1 =>
      ∀ i, 1 ≤ i → i ≤ 3 → elem1 v i h1 = .ok (.flt 0, h1)) ∧
    Ok (fmatrix (-1) 1 0 2) junkHeap (fun m h1 =>
      ∀ i j, -1 ≤ i → i ≤ 1 → 0 ≤ j → j ≤ 2 → elem2 m i j h1 = .ok (.flt 0, h1)) ∧
    Ok (dmatrix (-1) 1 0 2) junkHeap (fun m h1 =>
      ∀ i j, -1 ≤ i → i ≤ 1 → 0 ≤ j → j ≤ 2 → elem2 m i j h1 = .ok (.flt 0, h1)) ∧
    Ok (imatrix (-1) 1 0 2) junkHeap (fun m h1 =>
      ∀ i j, -1 ≤ i → i ≤ 1 → 0 ≤ j → j ≤ 2 → elem2 m i j h1 = .ok (.int 0, h1)) ∧
    Ok (usmatrix (-1) 1 0 2) junkHeap (fun m h1 =>
      ∀ i j, -1 ≤ i → i ≤ 1 → 0 ≤ j → j ≤ 2 → elem2 m i j h1 = .ok (.int 0, h1)) ∧
    Ok (f3tensor (-1) 1 0 2 1 1) junkHeap (fun t h1 =>
      ∀ i j d, -1 ≤ i → i ≤ 1 → 0 ≤ j → j ≤ 2 → 1 ≤ d → d ≤ 1 →
        elem3 t i j d h1 = .ok (.flt 0, h1)) ∧
    Ok (i3tensor (-1) 1 0 2 1 1) junkHeap (fun t h1 =>
      ∀ i j d, -1 ≤ i → i ≤ 1 → 0 ≤ j → j ≤ 2 → 1 ≤ d → d ≤ 1 →
        elem3 t i j d h1 = .ok (.int 0, h1))) :=
  ⟨⟨junkHeap_mallocOk 3, by decide, by decide, by decide, by decide⟩,
   zero_init_allocators junkHeap 1 3 (-1) 1 0 2 1 1 (junkHeap_mallocOk 3)
     (by decide) (by decide) (by decide) (by decide)⟩

/-- C6. `cvector` does not write the elements of the vector it returns: on a
heap whose free memory holds the value 7, `cvector(1, 3)` returns and each of
`v[1]`, `v[2]`, `v[3]` still reads as 7, not as zero. -/
theorem cvector_not_zeroed :
    ∃ v h1, (cvector 1 3 : M Int Ptr) junkHeap = .ok (v, h1) ∧
      elem1 v 1 h1 = .ok (.int 7, h1) ∧ elem1 v 2 h1 = .ok (.int 7, h1) ∧
      elem1 v 3 h1 = .ok (.int 7, h1) :=
  ⟨_, _, rfl, rfl, rfl, rfl⟩

/-- C7. `f4tensor` does not zero its elements.  With all bounds equal to 1 the
innermost initialisation loop `for (v=nvl;d<=nvh;v++)` never ends by its
condition: the run writes `t[1][1][1][2]` outside the allocation (or exhausts
any iteration budget below 2) and does not return.  With bounds
`[1..1][1..1][2..2][1..1]` the body of that loop is never run: `f4tensor`
returns and `t[1][1][2][1]` still reads as the 7 that the memory held. -/
theorem f4tensor_not_zeroed :
    (∀ fuel, (f4tensor fuel 1 1 1 1 1 1 1 1 : M Int Ptr) junkHeap
      = .error (if fuel < 2 then .fuel else .fault)) ∧
    (∀ fuel, ∃ t h1, (f4tensor fuel 1 1 1 1 2 2 1 1 : M Int Ptr) junkHeap = .ok (t, h1) ∧
      elem4 t 1 1 2 1 h1 = .ok (.int 7, h1)) := by
  constructor
  · intro fuel
    match fuel with
    | 0 => rfl
    | 1 => rfl
    | n + 2 => rfl
  · intro fuel
    match fuel with
    | 0 => exact ⟨_, _, rfl, rfl⟩
    | n + 1 => exact ⟨_, _, rfl, rfl⟩

end ZeroInit
/-! ## util.c: address formulas of the matrices and 3-tensors -/

section Layout

theorem flat2_bound {nrl nrh ncl nch i j : Int} (hi1 : nrl ≤ i) (hi2 : i ≤ nrh)
    (hj1 : ncl ≤ j) (hj2 : j ≤ nch) :
    0 ≤ flat2 nrl ncl (nch - ncl + 1) i j ∧
      flat2 nrl ncl (nch - ncl + 1) i j < (nrh - nrl + 1) * (nch - ncl + 1) :=
  flat_bound (by omega) (by omega) (by omega) (by omega)

theorem flat2_inj {nrl ncl nch i j i1 j1 : Int}
    (hj1 : ncl ≤ j) (hj2 : j ≤ nch) (hk1 : ncl ≤ j1) (hk2 : j1 ≤ nch)
    (he : flat2 nrl ncl (nch - ncl + 1) i j = flat2 nrl ncl (nch - ncl + 1) i1 j1) :
    i = i1 ∧ j = j1 := by
  have := flat_inj (show 0 ≤ j - ncl by omega) (show j - ncl < nch - ncl + 1 by omega)
    (show 0 ≤ j1 - ncl by omega) (show j1 - ncl < nch - ncl + 1 by omega) he
  omega

/-- Every position of `[0, nrow*ncol)` is the row-major position of an index
pair inside the bounds. -/
theorem flat2_surj {nrl nrh ncl nch f : Int} (hc : ncl ≤ nch) (hf0 : 0 ≤ f)
    (hf1 : f < (nrh - nrl + 1) * (nch - ncl + 1)) :
    ∃ i j, nrl ≤ i ∧ i ≤ nrh ∧ ncl ≤ j ∧ j ≤ nch ∧ flat2 nrl ncl (nch - ncl + 1) i j = f := by
  have hpos : 0 < nch - ncl + 1 := by omega
  have h1 : 0 ≤ f / (nch - ncl + 1) := Int.ediv_nonneg hf0 (by omega)
  have h2 : f / (nch - ncl + 1) < nrh - nrl + 1 := Int.ediv_lt_of_lt_mul hpos hf1
  have h3 : 0 ≤ f % (nch - ncl + 1) := Int.emod_nonneg _ (by omega)
  have h4 : f % (nch - ncl + 1) < nch - ncl + 1 := Int.emod_lt_of_pos _ hpos
  have h5 : (nch - ncl + 1) * (f / (nch - ncl + 1)) + f % (nch - ncl + 1) = f :=
    Int.ediv_add_emod f (nch - ncl + 1)
  refine ⟨nrl + f / (nch - ncl + 1), ncl + f % (nch - ncl + 1), by omega, by omega, by omega,
    by omega, ?_⟩
  unfold flat2
  have e : (nrl + f / (nch - ncl + 1) - nrl) * (nch - ncl + 1)
      + (ncl + f % (nch - ncl + 1) - ncl)
      = (nch - ncl + 1) * (f / (nch - ncl + 1)) + f % (nch - ncl + 1) := by ring
  rw [e, h5]

theorem flat3_bound {nrl nrh ncl nch ndl ndh i j d : Int} (hi1 : nrl ≤ i) (hi2 : i ≤ nrh)
    (hj1 : ncl ≤ j) (hj2 : j ≤ nch) (hd1 : ndl ≤ d) (hd2 : d ≤ ndh) :
    0 ≤ flat3 nrl ncl ndl (nch - ncl + 1) (ndh - ndl + 1) i j d ∧
      flat3 nrl ncl ndl (nch - ncl + 1) (ndh - ndl + 1) i j d
        < (nrh - nrl + 1) * (nch - ncl + 1) * (ndh - ndl + 1) := by
  have hb := flat2_bound hi1 hi2 hj1 hj2
  exact flat_bound hb.1 hb.2 (by omega) (by omega)

theorem flat3_inj {nrl ncl nch ndl ndh i j d i1 j1 d1 : Int}
    (hj1 : ncl ≤ j) (hj2 : j ≤ nch) (hd1 : ndl ≤ d) (hd2 : d ≤ ndh)
    (hk1 : ncl ≤ j1) (hk2 : j1 ≤ nch) (he1 : ndl ≤ d1) (he2 : d1 ≤ ndh)
    (he : flat3 nrl ncl ndl (nch - ncl + 1) (ndh - ndl + 1) i j d
      = flat3 nrl ncl ndl (nch - ncl + 1) (ndh - ndl + 1) i1 j1 d1) :
    i = i1 ∧ j = j1 ∧ d = d1 := by
  have h1 := flat_inj (show 0 ≤ d - ndl by omega) (show d - ndl < ndh - ndl + 1 by omega)
    (show 0 ≤ d1 - ndl by omega) (show d1 - ndl < ndh - ndl + 1 by omega) he
  have h2 := flat2_inj hj1 hj2 hk1 hk2 h1.1
  exact ⟨h2.1, h2.2, by omega⟩

/-- Where `matrixOf` puts its elements: `m[i][j]` is element
`NR_END + flat2 i j` of the second block it allocates, which has
`nrow*ncol + NR_END` elements. -/
theorem matrixOf_layout (zero : Word α) (msg1 msg2 : String) (nrl nrh ncl nch : Int)
    (h : Heap α) (ho : h.mallocOk 2) (hr : nrl ≤ nrh) (hc : ncl ≤ nch) :
    Ok (matrixOf zero msg1 msg2 nrl nrh ncl nch) h (fun m h1 =>
      h1.size (h.next + 1) = (nrh - nrl + 1) * (nch - ncl + 1) + NR_END ∧
      ∀ i j, nrl ≤ i → i ≤ nrh → ncl ≤ j → j ≤ nch →
        at2 m i j h1
          = .ok (⟨h.next + 1, NR_END + flat2 nrl ncl (nch - ncl + 1) i j⟩, h1) ∧
        h1.inb ⟨h.next + 1, NR_END + flat2 nrl ncl (nch - ncl + 1) i j⟩) := by
  apply ok_mono (matrixOf_spec zero msg1 msg2 nrl nrh ncl nch h (ho _ le_rfl (by omega))
    (ho _ (by omega) (by omega)) hr (by omega))
  rintro m h1 ⟨rfl, c, rfl, hrow, -, -⟩
  refine ⟨?_, fun i j hi1 hi2 hj1 hj2 => ?_⟩
  · show (if h.next + 1 = h.next + 1 then _ else _) = _
    rw [if_pos rfl]
    rfl
  · have hb := @flat2_bound nrl nrh ncl nch i j hi1 hi2 hj1 hj2
    have hin : (((h.alloc (nrh - nrl + 1 + 1)).alloc
        ((nrh - nrl + 1) * (nch - ncl + 1) + 1)).withCells c).inb
        ⟨h.next + 1, NR_END + flat2 nrl ncl (nch - ncl + 1) i j⟩ :=
      alloc2_inb1 _ _ _ _ (by unfold NR_END; omega) (by unfold NR_END; omega)
    refine ⟨?_, hin⟩
    apply ok_eq
    refine ok_at2 ⟨h.next + 1, 1 - ncl + (i - nrl) * (nch - ncl + 1)⟩
      (alloc2_inb0 h _ _ (0 + 1 - nrl + i) (by omega) (by omega))
      (hrow (i - nrl) _ _ (by omega) (by omega) (by show (0 + 1 - nrl + i : Int) = _; omega) rfl)
      ⟨?_, rfl⟩
    rw [ptr_add]
    congr 1
    unfold NR_END flat2
    ring

/-- Where `tensor3Of` puts its elements: `t[i][j][d]` is element
`NR_END + flat3 i j d` of the third block it allocates, which has
`nrow*ncol*ndep + NR_END` elements. -/
theorem tensor3Of_layout (zero : Word α) (msg1 msg2 msg3 : String)
    (nrl nrh ncl nch ndl ndh : Int) (h : Heap α)
    (ho : h.mallocOk 3) (hr : nrl ≤ nrh) (hc : ncl ≤ nch) (hd : ndl ≤ ndh) :
    Ok (tensor3Of zero msg1 msg2 msg3 nrl nrh ncl nch ndl ndh) h (fun t h1 =>
      h1.size (h.next + 2)
        = (nrh - nrl + 1) * (nch - ncl + 1) * (ndh - ndl + 1) + NR_END ∧
      ∀ i j d, nrl ≤ i → i ≤ nrh → ncl ≤ j → j ≤ nch → ndl ≤ d → d ≤ ndh →
        at3 t i j d h1
          = .ok (⟨h.next + 2,
              NR_END + flat3 nrl ncl ndl (nch - ncl + 1) (ndh - ndl + 1) i j d⟩, h1) ∧
        h1.inb ⟨h.next + 2,
          NR_END + flat3 nrl ncl ndl (nch - ncl + 1) (ndh - ndl + 1) i j d⟩) := by
  apply ok_mono (tensor3Of_spec zero msg1 msg2 msg3 nrl nrh ncl nch ndl ndh h
    (ho _ le_rfl (by omega)) (ho _ (by omega) (by omega)) (ho _ (by omega) (by omega)) hr hc hd)
  rintro t h1 ⟨rfl, c, rfl, hrow, hrow1, -, -⟩
  refine ⟨?_, fun i j d hi1 hi2 hj1 hj2 hd1 hd2 => ?_⟩
  · show (if h.next + 2 = h.next + 1 + 1 then _ else _) = _
    rw [if_pos rfl]
    rfl
  · have hb := @flat2_bound nrl nrh ncl nch i j hi1 hi2 hj1 hj2
    have hb3 := @flat3_bound nrl nrh ncl nch ndl ndh i j d hi1 hi2 hj1 hj2 hd1 hd2
    unfold flat2 at hb
    have hin : ((((h.alloc (nrh - nrl + 1 + 1)).alloc
        ((nrh - nrl + 1) * (nch - ncl + 1) + 1)).alloc
        ((nrh - nrl + 1) * (nch - ncl + 1) * (ndh - ndl + 1) + 1)).withCells c).inb
        ⟨h.next + 2, NR_END + flat3 nrl ncl ndl (nch - ncl + 1) (ndh - ndl + 1) i j d⟩ :=
      alloc3_inb2 _ _ _ _ _ (by unfold NR_END; omega) (by unfold NR_END; omega)
    refine ⟨?_, hin⟩
    apply ok_eq
    unfold at3
    apply ok_bind_at2C (h.next + 1) (1 - ncl + (i - nrl) * (nch - ncl + 1))
      (alloc3_inb0 _ _ _ _ _ (by omega) (by omega))
      (hrow (i - nrl) _ _ (by omega) (by omega) (by omega) rfl)
    apply ok_bind_loadPtrC
      ⟨h.next + 2, 1 - ndl + ((i - nrl) * (nch - ncl + 1) + (j - ncl)) * (ndh - ndl + 1)⟩
      (alloc3_inb1 _ _ _ _ _ (by omega) (by omega))
      (hrow1 ((i - nrl) * (nch - ncl + 1) + (j - ncl)) _ _ (by omega) (by omega)
        (by omega) rfl)
    refine ok_pure ⟨?_, rfl⟩
    rw [ptr_add]
    congr 1
    unfold NR_END flat3
    ring

theorem ok_pair_inj {β : Type} {a b : β} {h : Heap α}
    (he : (Except.ok (a, h) : Except Err (β × Heap α)) = .ok (b, h)) : a = b := by
  injection he with he
  exact (Prod.mk.inj he).1

/-- The result of `matrixOf` is laid out row by row in one block. -/
theorem matrixOf_address (zero : Word α) (msg1 msg2 : String) (nrl nrh ncl nch : Int)
    (h : Heap α) (ho : h.mallocOk 2) (hr : nrl ≤ nrh) (hc : ncl ≤ nch) :
    Ok (matrixOf zero msg1 msg2 nrl nrh ncl nch) h (Layout2 nrl nrh ncl nch) := by
  apply ok_mono (matrixOf_layout zero msg1 msg2 nrl nrh ncl nch h ho hr hc)
  rintro m h1 ⟨hsz, hat⟩
  have e0 : flat2 nrl ncl (nch - ncl + 1) nrl ncl = 0 := by unfold flat2; ring
  have hbase := (hat nrl ncl le_rfl hr le_rfl hc).1
  rw [e0] at hbase
  refine ⟨⟨h.next + 1, NR_END + 0⟩, hbase, by show NR_END + 0 = NR_END; omega, hsz,
    fun i j hi1 hi2 hj1 hj2 => ?_, fun i j i1 j1 hi1 hi2 hj1 hj2 hk1 hk2 hl1 hl2 he => ?_⟩
  · have e : (⟨h.next + 1, NR_END + 0⟩ : Ptr) + flat2 nrl ncl (nch - ncl + 1) i j
        = ⟨h.next + 1, NR_END + flat2 nrl ncl (nch - ncl + 1) i j⟩ := by
      rw [ptr_add]
      congr 1
    rw [e]
    exact hat i j hi1 hi2 hj1 hj2
  · rw [(hat i j hi1 hi2 hj1 hj2).1, (hat i1 j1 hk1 hk2 hl1 hl2).1] at he
    have hp := ok_pair_inj he
    have ho : NR_END + flat2 nrl ncl (nch - ncl + 1) i j
        = NR_END + flat2 nrl ncl (nch - ncl + 1) i1 j1 := congrArg Ptr.off hp
    exact @flat2_inj nrl ncl nch i j i1 j1 hj1 hj2 hl1 hl2 (by omega)

/-- The result of `tensor3Of` is laid out in row-major order in one block. -/
theorem tensor3Of_address (zero : Word α) (msg1 msg2 msg3 : String)
    (nrl nrh ncl nch ndl ndh : Int) (h : Heap α)
    (ho : h.mallocOk 3) (hr : nrl ≤ nrh) (hc : ncl ≤ nch) (hd : ndl ≤ ndh) :
    Ok (tensor3Of zero msg1 msg2 msg3 nrl nrh ncl nch ndl ndh) h
      (Layout3 nrl nrh ncl nch ndl ndh) := by
  apply ok_mono (tensor3Of_layout zero msg1 msg2 msg3 nrl nrh ncl nch ndl ndh h ho hr hc hd)
  rintro t h1 ⟨hsz, hat⟩
  have e0 : flat3 nrl ncl ndl (nch - ncl + 1) (ndh - ndl + 1) nrl ncl ndl = 0 := by
    unfold flat3; ring
  have hbase := (hat nrl ncl ndl le_rfl hr le_rfl hc le_rfl hd).1
  rw [e0] at hbase
  refine ⟨⟨h.next + 2, NR_END + 0⟩, hbase, by show NR_END + 0 = NR_END; omega, hsz,
    fun i j d hi1 hi2 hj1 hj2 hd1 hd2 => ?_,
    fun i j d i1 j1 d1 hi1 hi2 hj1 hj2 hd1 hd2 hk1 hk2 hl1 hl2 hm1 hm2 he => ?_⟩
  · have e : (⟨h.next + 2, NR_END + 0⟩ : Ptr)
          + flat3 nrl ncl ndl (nch - ncl + 1) (ndh - ndl + 1) i j d
        = ⟨h.next + 2, NR_END + flat3 nrl ncl ndl (nch - ncl + 1) (ndh - ndl + 1) i j d⟩ := by
      rw [ptr_add]
      congr 1
    rw [e]
    exact hat i j d hi1 hi2 hj1 hj2 hd1 hd2
  · rw [(hat i j d hi1 hi2 hj1 hj2 hd1 hd2).1, (hat i1 j1 d1 hk1 hk2 hl1 hl2 hm1 hm2).1] at he
    have hp := ok_pair_inj he
    have ho : NR_END + flat3 nrl ncl ndl (nch - ncl + 1) (ndh - ndl + 1) i j d
        = NR_END + flat3 nrl ncl ndl (nch - ncl + 1) (ndh - ndl + 1) i1 j1 d1 :=
      congrArg Ptr.off hp
    exact @flat3_inj nrl ncl nch ndl ndh i j d i1 j1 d1 hj1 hj2 hd1 hd2 hl1 hl2 hm1 hm2
      (by omega)

end Layout
/-! ## util.c: allocation followed by release -/

section RoundTrip

/-- A pointer of a block that is not allocated yet was never freed. -/
theorem wf_not_freed {h : Heap α} (hwf : h.wf) {b : Nat} (hb : h.next ≤ b) (o : Int) :
    (⟨b, o⟩ : Ptr) ∉ h.freed := fun hmem => by
  have := hwf _ hmem
  simp only at this
  omega

theorem not_mem_cons_blk {p q : Ptr} {l : List Ptr} (hne : p.blk ≠ q.blk) (hl : p ∉ l) :
    p ∉ q :: l := fun hmem => by
  rcases List.mem_cons.mp hmem with he | hm
  · exact hne (congrArg Ptr.blk he)
  · exact hl hm

/-- The body shared by `free_vector`, `free_ivector` and `free_dvector`, run on
a vector `v` whose block `b0` is live: `free` gets the base of `b0`. -/
theorem free_vector_log (h : Heap α) (v : Ptr) (nl nh : Int) (b0 : Nat)
    (e0 : v + nl - NR_END = ⟨b0, 0⟩) (l0 : b0 < h.next) (n0 : ∀ o, (⟨b0, o⟩ : Ptr) ∉ h.freed) :
    Ok (free_vector v nl nh) h (fun _ h1 => h1.freed = ⟨b0, 0⟩ :: h.freed) := by
  unfold free_vector
  rw [e0]
  exact ok_free rfl l0 (n0 0) rfl

/-- The body shared by `free_matrix`, `free_imatrix` and `free_usmatrix`, run on
a matrix `m` whose row pointer `m[nrl]` is `q1`: `free` gets the base of the
element block, then the base of the pointer block. -/
theorem free_matrix_log (h : Heap α) (m q1 : Ptr) (nrl nrh ncl nch : Int) (b0 b1 : Nat)
    (hin0 : h.inb (m + nrl)) (hc0 : h.cell (m + nrl).blk (m + nrl).off = .ptr (some q1))
    (e0 : m + nrl - NR_END = ⟨b0, 0⟩) (e1 : q1 + ncl - NR_END = ⟨b1, 0⟩)
    (h01 : b0 ≠ b1) (l0 : b0 < h.next) (l1 : b1 < h.next)
    (n0 : ∀ o, (⟨b0, o⟩ : Ptr) ∉ h.freed) (n1 : ∀ o, (⟨b1, o⟩ : Ptr) ∉ h.freed) :
    Ok (free_matrix m nrl nrh ncl nch) h (fun _ h1 =>
      h1.freed = ⟨b0, 0⟩ :: ⟨b1, 0⟩ :: h.freed) := by
  unfold free_matrix
  apply ok_bind
  apply ok_loadPtr q1 hin0 hc0
  rw [e1, e0]
  apply ok_bind_free rfl l1 (n1 0)
  exact ok_free rfl l0 (not_mem_cons_blk h01 (n0 0)) rfl

/-- The body shared by `free_f3tensor` and `free_i3tensor`, run on a tensor `t`
with `t[nrl] = q1` and `t[nrl][ncl] = q2`: `free` gets the bases of the three
blocks, the element block first. -/
theorem free_f3tensor_log (h : Heap α) (t q1 q2 : Ptr) (nrl nrh ncl nch ndl ndh : Int)
    (b0 b1 b2 : Nat)
    (hin0 : h.inb (t + nrl)) (hc0 : h.cell (t + nrl).blk (t + nrl).off = .ptr (some q1))
    (hin1 : h.inb (q1 + ncl)) (hc1 : h.cell (q1 + ncl).blk (q1 + ncl).off = .ptr (some q2))
    (e0 : t + nrl - NR_END = ⟨b0, 0⟩) (e1 : q1 + ncl - NR_END = ⟨b1, 0⟩)
    (e2 : q2 + ndl - NR_END = ⟨b2, 0⟩)
    (h01 : b0 ≠ b1) (h02 : b0 ≠ b2) (h12 : b1 ≠ b2)
    (l0 : b0 < h.next) (l1 : b1 < h.next) (l2 : b2 < h.next)
    (n0 : ∀ o, (⟨b0, o⟩ : Ptr) ∉ h.freed) (n1 : ∀ o, (⟨b1, o⟩ : Ptr) ∉ h.freed)
    (n2 : ∀ o, (⟨b2, o⟩ : Ptr) ∉ h.freed) :
    Ok (free_f3tensor t nrl nrh ncl nch ndl ndh) h (fun _ h1 =>
      h1.freed = ⟨b0, 0⟩ :: ⟨b1, 0⟩ :: ⟨b2, 0⟩ :: h.freed) := by
  have hb0 : (t + nrl).blk = b0 := congrArg Ptr.blk e0
  unfold free_f3tensor
  apply ok_bind
  apply ok_at2 q1 hin0 hc0
  apply ok_bind
  apply ok_loadPtr q2 hin1 hc1
  rw [e2, e0]
  apply ok_bind_free rfl l2 (n2 0)
  apply ok_bind
  apply ok_loadPtr q1 (release_inb hin0 (by rw [hb0]; exact h02)) hc0
  rw [e1]
  apply ok_bind_free rfl l1 (not_mem_cons_blk h12 (n1 0))
  exact ok_free rfl l0 (not_mem_cons_blk h01 (not_mem_cons_blk h02 (n0 0))) rfl

/-- Allocation by `vectorOf` followed by `free_vector` with the same lower bound:
`free` is called once, with the base that `malloc` returned. -/
theorem vectorOf_round_trip (zero : Word α) (msg : String) (nl nh : Int) (h : Heap α)
    (ho : h.mallocOk 1) (hwf : h.wf) (hle : nl ≤ nh) :
    Ok (vectorOf zero msg nl nh >>= fun v => free_vector v nl nh) h (fun _ h1 =>
      h1.freed = ⟨h.next, 0⟩ :: h.freed) := by
  apply ok_bind
  apply ok_mono (vectorOf_spec zero msg nl nh h (ho _ le_rfl (by omega)) hle)
  rintro v h1 ⟨rfl, c, rfl, -, -⟩
  exact free_vector_log _ _ nl nh h.next
    (by rw [ptr_add, ptr_sub]; congr 1; unfold NR_END; ring)
    (by show h.next < h.next + 1; omega) (fun o => wf_not_freed hwf le_rfl o)

/-- Allocation by `matrixOf` followed by `free_matrix` with the same lower
bounds: `free` is called twice, with the two bases that `malloc` returned. -/
theorem matrixOf_round_trip (zero : Word α) (msg1 msg2 : String) (nrl nrh ncl nch : Int)
    (h : Heap α) (ho : h.mallocOk 2) (hwf : h.wf) (hr : nrl ≤ nrh) (hc : ncl ≤ nch) :
    Ok (matrixOf zero msg1 msg2 nrl nrh ncl nch >>= fun m => free_matrix m nrl nrh ncl nch) h
      (fun _ h1 => h1.freed = ⟨h.next, 0⟩ :: ⟨h.next + 1, 0⟩ :: h.freed) := by
  apply ok_bind
  apply ok_mono (matrixOf_spec zero msg1 msg2 nrl nrh ncl nch h (ho _ le_rfl (by omega))
    (ho _ (by omega) (by omega)) hr (by omega))
  rintro m h1 ⟨rfl, c, rfl, hrow, -, -⟩
  exact free_matrix_log _ _ ⟨h.next + 1, 1 - ncl + 0 * (nch - ncl + 1)⟩ nrl nrh ncl nch
    h.next (h.next + 1)
    (alloc2_inb0 h _ _ (0 + 1 - nrl + nrl) (by omega) (by omega))
    (hrow 0 _ _ le_rfl (by omega) (by show (0 + 1 - nrl + nrl : Int) = _; omega) rfl)
    (by rw [ptr_add, ptr_sub]; congr 1; unfold NR_END; ring)
    (by rw [ptr_add, ptr_sub]; congr 1; unfold NR_END; ring)
    (by omega) (by show h.next < h.next + 1 + 1; omega)
    (by show h.next + 1 < h.next + 1 + 1; omega)
    (fun o => wf_not_freed hwf le_rfl o) (fun o => wf_not_freed hwf (by omega) o)

/-- Allocation by `tensor3Of` followed by `free_f3tensor` with the same lower
bounds: `free` is called three times, with the three bases that `malloc`
returned. -/
theorem tensor3Of_round_trip (zero : Word α) (msg1 msg2 msg3 : String)
    (nrl nrh ncl nch ndl ndh : Int) (h : Heap α) (ho : h.mallocOk 3) (hwf : h.wf)
    (hr : nrl ≤ nrh) (hc : ncl ≤ nch) (hd : ndl ≤ ndh) :
    Ok (tensor3Of zero msg1 msg2 msg3 nrl nrh ncl nch ndl ndh >>= fun t =>
        free_f3tensor t nrl nrh ncl nch ndl ndh) h
      (fun _ h1 => h1.freed = ⟨h.next, 0⟩ :: ⟨h.next + 1, 0⟩ :: ⟨h.next + 2, 0⟩ :: h.freed) := by
  have hsz : 0 < (nrh - nrl + 1) * (nch - ncl + 1) := mul_pos (by omega) (by omega)
  apply ok_bind
  apply ok_mono (tensor3Of_spec zero msg1 msg2 msg3 nrl nrh ncl nch ndl ndh h
    (ho _ le_rfl (by omega)) (ho _ (by omega) (by omega)) (ho _ (by omega) (by omega)) hr hc hd)
  rintro t h1 ⟨rfl, c, rfl, hrow, hrow1, -, -⟩
  exact free_f3tensor_log _ _ ⟨h.next + 1, 1 - ncl + 0 * (nch - ncl + 1)⟩
    ⟨h.next + 2, 1 - ndl + 0 * (ndh - ndl + 1)⟩ nrl nrh ncl nch ndl ndh
    h.next (h.next + 1) (h.next + 2)
    (alloc3_inb0 h _ _ _ (0 + 1 - nrl + nrl) (by omega) (by omega))
    (hrow 0 _ _ le_rfl (by omega) (by show (0 + 1 - nrl + nrl : Int) = _; omega) rfl)
    (alloc3_inb1 h _ _ _ (1 - ncl + 0 * (nch - ncl + 1) + ncl) (by omega) (by omega))
    (hrow1 0 _ _ le_rfl hsz
      (by show (1 - ncl + 0 * (nch - ncl + 1) + ncl : Int) = _; omega) rfl)
    (by rw [ptr_add, ptr_sub]; congr 1; unfold NR_END; ring)
    (by rw [ptr_add, ptr_sub]; congr 1; unfold NR_END; ring)
    (by rw [ptr_add, ptr_sub]; congr 1; unfold NR_END; ring)
    (by omega) (by omega) (by omega)
    (by show h.next < h.next + 1 + 1 + 1; omega)
    (by show h.next + 1 < h.next + 1 + 1 + 1; omega)
    (by show h.next + 2 < h.next + 1 + 1 + 1; omega)
    (fun o => wf_not_freed hwf le_rfl o) (fun o => wf_not_freed hwf (by omega) o)
    (fun o => wf_not_freed hwf (by omega) o)

end RoundTrip
/-! ## util.c: release, diagnostics and address formulas -/

section UtilClaims

/-- Create/destroy round trip of the vector, matrix and 3-tensor pairs: for
valid bounds and successful allocation, the free routine called on the
allocator's result with the same bounds returns, and the calls of `free` it has
made are, once each, the bases that the allocator got from `malloc` (block
`h.next`, then `h.next + 1`, then `h.next + 2`). -/
theorem round_trip_pairs [Zero α] (nrl nrh ncl nch ndl ndh : Int) (h : Heap α)
    (hm : h.mallocOk 3) (hwf : h.wf) (hr : nrl ≤ nrh) (hc : ncl ≤ nch) (hd : ndl ≤ ndh) :
    Ok (vector nrl nrh >>= fun v => free_vector v nrl nrh) h
      (fun _ h1 => h1.freed = ⟨h.next, 0⟩ :: h.freed) ∧
    Ok (ivector nrl nrh >>= fun v => free_ivector v nrl nrh) h
      (fun _ h1 => h1.freed = ⟨h.next, 0⟩ :: h.freed) ∧
    Ok (dvector nrl nrh >>= fun v => free_dvector v nrl nrh) h
      (fun _ h1 => h1.freed = ⟨h.next, 0⟩ :: h.freed) ∧
    Ok (fmatrix nrl nrh ncl nch >>= fun m => free_matrix m nrl nrh ncl nch) h
      (fun _ h1 => h1.freed = ⟨h.next, 0⟩ :: ⟨h.next + 1, 0⟩ :: h.freed) ∧
    Ok (imatrix nrl nrh ncl nch >>= fun m => free_imatrix m nrl nrh ncl nch) h
      (fun _ h1 => h1.freed = ⟨h.next, 0⟩ :: ⟨h.next + 1, 0⟩ :: h.freed) ∧
    Ok (usmatrix nrl nrh ncl nch >>= fun m => free_usmatrix m nrl nrh ncl nch) h
      (fun _ h1 => h1.freed = ⟨h.next, 0⟩ :: ⟨h.next + 1, 0⟩ :: h.freed) ∧
    Ok (f3tensor nrl nrh ncl nch ndl ndh >>= fun t =>
        free_f3tensor t nrl nrh ncl nch ndl ndh) h
      (fun _ h1 => h1.freed
        = ⟨h.next, 0⟩ :: ⟨h.next + 1, 0⟩ :: ⟨h.next + 2, 0⟩ :: h.freed) ∧
    Ok (i3tensor nrl nrh ncl nch ndl ndh >>= fun t =>
        free_i3tensor t nrl nrh ncl nch ndl ndh) h
      (fun _ h1 => h1.freed
        = ⟨h.next, 0⟩ :: ⟨h.next + 1, 0⟩ :: ⟨h.next + 2, 0⟩ :: h.freed) :=
  have h1 : h.mallocOk 1 := mallocOk_mono hm (by omega)
  have h2 : h.mallocOk 2 := mallocOk_mono hm (by omega)
  ⟨vectorOf_round_trip _ _ nrl nrh h h1 hwf hr,
   vectorOf_round_trip _ _ nrl nrh h h1 hwf hr,
   vectorOf_round_trip _ _ nrl nrh h h1 hwf hr,
   matrixOf_round_trip _ _ _ nrl nrh ncl nch h h2 hwf hr hc,
   matrixOf_round_trip _ _ _ nrl nrh ncl nch h h2 hwf hr hc,
   matrixOf_round_trip _ _ _ nrl nrh ncl nch h h2 hwf hr hc,
   tensor3Of_round_trip _ _ _ _ nrl nrh ncl nch ndl ndh h hm hwf hr hc hd,
   tensor3Of_round_trip _ _ _ _ nrl nrh ncl nch ndl ndh h hm hwf hr hc hd⟩

/-- C14. The pair `f4tensor`, `free_f4tensor` has no round trip at the valid
bounds `[1..1][1..1][1..1][1..1]`: the initialisation loop of `f4tensor`
(`for (v=nvl;d<=nvh;v++)`) runs out of the allocation, so there is no result to
release and `free` is never called.  With bounds `[1..1][1..1][2..2][1..1]`,
where that loop does not run, `free_f4tensor` passes the four bases to `free`,
once each. -/
theorem f4tensor_no_round_trip :
    (∀ fuel, ((f4tensor fuel 1 1 1 1 1 1 1 1 >>= fun t =>
        free_f4tensor t 1 1 1 1 1 1 1 1 : M Int Unit) junkHeap)
      = .error (if fuel < 2 then .fuel else .fault)) ∧
    (∀ fuel, ∃ h1, ((f4tensor fuel 1 1 1 1 2 2 1 1 >>= fun t =>
        free_f4tensor t 1 1 1 1 2 2 1 1 : M Int Unit) junkHeap) = .ok ((), h1) ∧
      h1.freed = [⟨0, 0⟩, ⟨1, 0⟩, ⟨2, 0⟩, ⟨3, 0⟩]) := by
  constructor
  · intro fuel
    match fuel with
    | 0 => rfl
    | 1 => rfl
    | n + 2 => rfl
  · intro fuel
    match fuel with
    | 0 => exact ⟨_, rfl, rfl⟩
    | n + 1 => exact ⟨_, rfl, rfl⟩

/-- C15. The diagnostic of `dmatrix` for a failure of its first `malloc` does
not name `dmatrix`: it is `allocation failure 1 in function matrix() `.  Every
other failing `malloc` of the allocators of util.c (tried at small bounds, each
call made to fail in turn) ends the run in `err` with a diagnostic that names
the allocator. -/
theorem dmatrix_diagnostic_names_matrix :
    abortMessage ((dmatrix 1 2 1 2 : M Int Ptr) (failAt 0))
      = some "allocation failure 1 in function matrix() " ∧
    namesFunction "allocation failure 1 in function matrix() " "dmatrix" = false ∧
    namesFunction "allocation failure 1 in function matrix() " "matrix" = true ∧
    (∀ x ∈ [(abortMessage ((vector 1 2 : M Int Ptr) (failAt 0)), "vector"),
        (abortMessage ((ivector 1 2 : M Int Ptr) (failAt 0)), "ivector"),
        (abortMessage ((usvector 1 2 : M Int Ptr) (failAt 0)), "usvector"),
        (abortMessage ((cvector 1 2 : M Int Ptr) (failAt 0)), "cvector"),
        (abortMessage ((lvector 1 2 : M Int Ptr) (failAt 0)), "lvector"),
        (abortMessage ((dvector 1 2 : M Int Ptr) (failAt 0)), "dvector"),
        (abortMessage ((fmatrix 1 2 1 2 : M Int Ptr) (failAt 0)), "fmatrix"),
        (abortMessage ((fmatrix 1 2 1 2 : M Int Ptr) (failAt 1)), "fmatrix"),
        (abortMessage ((dmatrix 1 2 1 2 : M Int Ptr) (failAt 1)), "dmatrix"),
        (abortMessage ((imatrix 1 2 1 2 : M Int Ptr) (failAt 0)), "imatrix"),
        (abortMessage ((imatrix 1 2 1 2 : M Int Ptr) (failAt 1)), "imatrix"),
        (abortMessage ((usmatrix 1 2 1 2 : M Int Ptr) (failAt 0)), "usmatrix"),
        (abortMessage ((usmatrix 1 2 1 2 : M Int Ptr) (failAt 1)), "usmatrix"),
        (abortMessage ((f3tensor 1 2 1 2 1 2 : M Int Ptr) (failAt 0)), "f3tensor"),
        (abortMessage ((f3tensor 1 2 1 2 1 2 : M Int Ptr) (failAt 1)), "f3tensor"),
        (abortMessage ((f3tensor 1 2 1 2 1 2 : M Int Ptr) (failAt 2)), "f3tensor"),
        (abortMessage ((i3tensor 1 2 1 2 1 2 : M Int Ptr) (failAt 0)), "i3tensor"),
        (abortMessage ((i3tensor 1 2 1 2 1 2 : M Int Ptr) (failAt 1)), "i3tensor"),
        (abortMessage ((i3tensor 1 2 1 2 1 2 : M Int Ptr) (failAt 2)), "i3tensor"),
        (abortMessage ((f4tensor 0 1 2 1 2 1 2 1 2 : M Int Ptr) (failAt 0)), "f4tensor"),
        (abortMessage ((f4tensor 0 1 2 1 2 1 2 1 2 : M Int Ptr) (failAt 1)), "f4tensor"),
        (abortMessage ((f4tensor 0 1 2 1 2 1 2 1 2 : M Int Ptr) (failAt 2)), "f4tensor"),
        (abortMessage ((f4tensor 0 1 2 1 2 1 2 1 2 : M Int Ptr) (failAt 3)), "f4tensor")],
      x.1.map (fun msg => namesFunction msg x.2) = some true) := by
  refine ⟨rfl, rfl, rfl, ?_⟩
  decide

/-- C17. Address formula of `f3tensor` and `i3tensor`: for valid bounds and
successful allocation the tensor returned has `&t[nrl][ncl][ndl]` at element
`NR_END` of one block of `nrow*ncol*ndep + NR_END` elements, every in-bounds
`t[i][j][d]` at offset `((i-nrl)*ncol + (j-ncl))*ndep + (d-ndl)` from it inside
that block, and different in-bounds index triples at different addresses. -/
theorem f3tensor_address [Zero α] (nrl nrh ncl nch ndl ndh : Int) (h : Heap α)
    (hm : h.mallocOk 3) (hr : nrl ≤ nrh) (hc : ncl ≤ nch) (hd : ndl ≤ ndh) :
    Ok (f3tensor nrl nrh ncl nch ndl ndh) h (Layout3 nrl nrh ncl nch ndl ndh) ∧
    Ok (i3tensor nrl nrh ncl nch ndl ndh) h (Layout3 nrl nrh ncl nch ndl ndh) ∧
    ∀ i j d, nrl ≤ i → i ≤ nrh → ncl ≤ j → j ≤ nch → ndl ≤ d → d ≤ ndh →
      0 ≤ flat3 nrl ncl ndl (nch - ncl + 1) (ndh - ndl + 1) i j d ∧
      flat3 nrl ncl ndl (nch - ncl + 1) (ndh - ndl + 1) i j d
        < (nrh - nrl + 1) * (nch - ncl + 1) * (ndh - ndl + 1) :=
  ⟨tensor3Of_address _ _ _ _ nrl nrh ncl nch ndl ndh h hm hr hc hd,
   tensor3Of_address _ _ _ _ nrl nrh ncl nch ndl ndh h hm hr hc hd,
   fun _ _ _ hi1 hi2 hj1 hj2 hd1 hd2 => flat3_bound hi1 hi2 hj1 hj2 hd1 hd2⟩

theorem f3tensor_address_witness :
    (junkHeap.mallocOk 3 ∧ (-1 : Int) ≤ 1 ∧ (0 : Int) ≤ 2 ∧ (1 : Int) ≤ 2) ∧
    (Ok (f3tensor (-1) 1 0 2 1 2) junkHeap (Layout3 (-1) 1 0 2 1 2) ∧
     Ok (i3tensor (-1) 1 0 2 1 2) junkHeap (Layout3 (-1) 1 0 2 1 2) ∧
     ∀ i j d, -1 ≤ i → i ≤ 1 → 0 ≤ j → j ≤ 2 → 1 ≤ d → d ≤ 2 →
      0 ≤ flat3 (-1) 0 1 (2 - 0 + 1) (2 - 1 + 1) i j d ∧
      flat3 (-1) 0 1 (2 - 0 + 1) (2 - 1 + 1) i j d
        < (1 - -1 + 1) * (2 - 0 + 1) * (2 - 1 + 1)) :=
  ⟨⟨junkHeap_mallocOk 3, by decide, by decide, by decide⟩,
   f3tensor_address (-1) 1 0 2 1 2 junkHeap (junkHeap_mallocOk 3)
     (by decide) (by decide) (by decide)⟩

/-- C18. `f4tensor` leaves row pointers unassigned.  With the valid bounds
`[1..1][1..2][2..2][1..1]` it returns, and `t[1][2]` still holds what the memory
held before (the loop that would set `t[nrl][j]` is commented out), so the
address of the in-bounds element `t[1][2][2][1]` cannot be formed.  With bounds
`[1..2][1..1][2..3][1..1]` it returns and `t[2][1][3]` is unassigned
(`t[i][ncl][d]` is set for `d = ndl` only when `i > nrl`). -/
theorem f4tensor_pointers_unassigned :
    (∀ fuel, ∃ t h1, (f4tensor fuel 1 1 1 2 2 2 1 1 : M Int Ptr) junkHeap = .ok (t, h1) ∧
      elem2 t 1 2 h1 = .ok (.int 7, h1) ∧ at4 t 1 2 2 1 h1 = .error .fault) ∧
    (∀ fuel, ∃ t h1, (f4tensor fuel 1 2 1 1 2 3 1 1 : M Int Ptr) junkHeap = .ok (t, h1) ∧
      elem3 t 2 1 3 h1 = .ok (.int 7, h1) ∧ at4 t 2 1 3 1 h1 = .error .fault) := by
  constructor
  · intro fuel
    match fuel with
    | 0 => exact ⟨_, _, rfl, rfl, rfl⟩
    | n + 1 => exact ⟨_, _, rfl, rfl, rfl⟩
  · intro fuel
    match fuel with
    | 0 => exact ⟨_, _, rfl, rfl, rfl⟩
    | n + 1 => exact ⟨_, _, rfl, rfl, rfl⟩

end UtilClaims

/-! ## Receiver sampling (seismo_ssg.c) -/

section Seismo

variable {α : Type}

theorem except_ok_bind {β γ : Type} (a : β) (f : β → Except Err γ) :
    (Except.ok a >>= f) = f a := rfl

theorem except_pure {β : Type} (a : β) : (pure a : Except Err β) = .ok a := rfl

/-- Invariant rule for counted loops in the failure monad. -/
theorem forRangeE_inv {σ : Type} (body : Int → σ → Except Err σ) (I : Int → σ → Prop) :
    ∀ (n : Nat) (lo : Int) (s : σ), I lo s →
      (∀ k s, lo ≤ k → k < lo + n → I k s → ∃ s1, body k s = .ok s1 ∧ I (k + 1) s1) →
      ∃ s1, forRange body lo n s = .ok s1 ∧ I (lo + n) s1 := by
  intro n
  induction n with
  | zero => intro lo s hI _; exact ⟨s, rfl, by simpa using hI⟩
  | succ n ih =>
    intro lo s hI hstep
    obtain ⟨s1, hb, hI1⟩ := hstep lo s le_rfl (by push_cast; omega) hI
    obtain ⟨s2, hr, hI2⟩ := ih (lo + 1) s1 hI1 (fun k s' hk1 hk2 hIk =>
      hstep k s' (by omega) (by push_cast; omega) hIk)
    refine ⟨s2, ?_, ?_⟩
    · show (body lo s >>= forRange body (lo + 1) n) = _
      rw [hb]; exact hr
    · have : lo + ((n + 1 : Nat) : Int) = lo + 1 + n := by push_cast; ring
      rw [this]; exact hI2

theorem forLoopE_inv {σ : Type} (body : Int → σ → Except Err σ) (I : Int → σ → Prop)
    (lo hi : Int) (s : σ) (hle : lo ≤ hi + 1) (hI : I lo s)
    (hstep : ∀ k s, lo ≤ k → k ≤ hi → I k s → ∃ s1, body k s = .ok s1 ∧ I (k + 1) s1) :
    ∃ s1, forLoop lo hi s body = .ok s1 ∧ I (hi + 1) s1 := by
  obtain ⟨s1, hr, hI1⟩ := forRangeE_inv body I (hi + 1 - lo).toNat lo s hI
    (fun k s' hk1 hk2 hIk => hstep k s' hk1 (by omega) hIk)
  refine ⟨s1, hr, ?_⟩
  have : lo + ((hi + 1 - lo).toNat : Int) = hi + 1 := by omega
  rw [this] at hI1; exact hI1

theorem forLoopE_rule {σ : Type} (body : Int → σ → Except Err σ) (I : Int → σ → Prop)
    (Q : σ → Prop) (lo hi : Int) (s : σ) (hle : lo ≤ hi + 1) (hI : I lo s)
    (hstep : ∀ k s, lo ≤ k → k ≤ hi → I k s → ∃ s1, body k s = .ok s1 ∧ I (k + 1) s1)
    (hQ : ∀ s1, I (hi + 1) s1 → Q s1) :
    ∃ s1, forLoop lo hi s body = .ok s1 ∧ Q s1 := by
  obtain ⟨s1, hr, hI1⟩ := forLoopE_inv body I lo hi s hle hI hstep
  exact ⟨s1, hr, hQ s1 hI1⟩

theorem forLoopE_empty {σ : Type} (body : Int → σ → Except Err σ) (lo hi : Int) (s : σ)
    (hlt : hi < lo) : forLoop lo hi s body = .ok s := by
  unfold forLoop
  have : (hi + 1 - lo).toNat = 0 := by omega
  rw [this]; rfl

theorem Arr2.SameExcept.same_refl (a : Arr2 α) (P : Int → Int → Prop) : a.SameExcept a P :=
  ⟨rfl, fun _ _ _ => rfl⟩

theorem Arr2.Touch.touch_refl (a : Arr2 α) (k lsamp : Int) : a.Touch a k lsamp :=
  ⟨rfl, fun _ _ _ => rfl⟩

theorem Arr2.Touch.write (a : Arr2 α) (k lsamp : Int) (x : α) :
    a.Touch { inb := a.inb, val := fun i1 j1 => if i1 = k ∧ j1 = lsamp then x else a.val i1 j1 }
      k lsamp :=
  ⟨rfl, fun _ _ hn => if_neg hn⟩

theorem Arr2.SameExcept.touch {a a1 a2 : Arr2 α} {lsamp k : Int}
    (h : a.SameExcept a1 (fun r c => c = lsamp ∧ 1 ≤ r ∧ r < k)) (ht : a1.Touch a2 k lsamp)
    (hk : 1 ≤ k) : a.SameExcept a2 (fun r c => c = lsamp ∧ 1 ≤ r ∧ r < k + 1) := by
  refine ⟨ht.1.trans h.1, fun r c hn => ?_⟩
  rw [ht.2 r c (by rintro ⟨rfl, rfl⟩; exact hn ⟨rfl, hk, by omega⟩)]
  exact h.2 r c (fun ⟨h1, h2, h3⟩ => hn ⟨h1, h2, by omega⟩)

end Seismo

section SeismoMain

variable {α : Type}

theorem RowDone.of_same [LinearOrderedField α] {sqrt : α → α} {SEISMO : Int} {DX DY DZ : α}
    {lsamp : Int} {recpos : Arr2 Int} {v : Velocity α} {s : Tensor3d α} {pi u : Arr3 α}
    {sec1 sec2 : Sections α} {itr : Int}
    (h : RowDone sqrt SEISMO DX DY DZ lsamp recpos v s pi u sec1 itr)
    (h1 : sec2.sectionvx.val itr lsamp = sec1.sectionvx.val itr lsamp)
    (h2 : sec2.sectionvy.val itr lsamp = sec1.sectionvy.val itr lsamp)
    (h3 : sec2.sectionvz.val itr lsamp = sec1.sectionvz.val itr lsamp)
    (h4 : sec2.sectiondiv.val itr lsamp = sec1.sectiondiv.val itr lsamp)
    (h5 : sec2.sectioncurl.val itr lsamp = sec1.sectioncurl.val itr lsamp)
    (h6 : sec2.sectionp.val itr lsamp = sec1.sectionp.val itr lsamp) :
    RowDone sqrt SEISMO DX DY DZ lsamp recpos v s pi u sec2 itr := by
  unfold RowDone at *
  rw [h1, h2, h3, h4, h5, h6]
  exact h

/-- Closing one round of the receiver loop: a state `s1` that differs from `st`
at most in the cells `(k, lsamp)` keeps the frame and the rows done before. -/
theorem seismo_round [LinearOrderedField α] {sqrt : α → α} {SEISMO : Int} {DX DY DZ : α}
    {lsamp : Int} {recpos : Arr2 Int} {v : Velocity α} {s : Tensor3d α} {pi u : Arr3 α}
    {sec st s1 : Sections α} {k : Int} (hk : 1 ≤ k)
    (hfr : SecFrame lsamp k sec st)
    (hdone : ∀ itr, 1 ≤ itr → itr < k →
      RowDone sqrt SEISMO DX DY DZ lsamp recpos v s pi u st itr)
    (t1 : st.sectionvx.Touch s1.sectionvx k lsamp)
    (t2 : st.sectionvy.Touch s1.sectionvy k lsamp)
    (t3 : st.sectionvz.Touch s1.sectionvz k lsamp)
    (t4 : st.sectiondiv.Touch s1.sectiondiv k lsamp)
    (t5 : st.sectioncurl.Touch s1.sectioncurl k lsamp)
    (t6 : st.sectionp.Touch s1.sectionp k lsamp)
    (hun : SecUntouched SEISMO sec s1)
    (hnew : RowDone sqrt SEISMO DX DY DZ lsamp recpos v s pi u s1 k) :
    SecFrame lsamp (k + 1) sec s1 ∧ SecUntouched SEISMO sec s1 ∧
      ∀ itr, 1 ≤ itr → itr < k + 1 →
        RowDone sqrt SEISMO DX DY DZ lsamp recpos v s pi u s1 itr := by
  obtain ⟨f1, f2, f3, f4, f5, f6⟩ := hfr
  refine ⟨⟨f1.touch t1 hk, f2.touch t2 hk, f3.touch t3 hk, f4.touch t4 hk, f5.touch t5 hk,
    f6.touch t6 hk⟩, hun, fun itr h1 h2 => ?_⟩
  by_cases hik : itr = k
  · subst hik; exact hnew
  · have hne : ¬ (itr = k ∧ lsamp = lsamp) := fun h => hik h.1
    exact (hdone itr h1 (by omega)).of_same (t1.2 _ _ hne) (t2.2 _ _ hne) (t3.2 _ _ hne)
      (t4.2 _ _ hne) (t5.2 _ _ hne) (t6.2 _ _ hne)

/-- What `seismo` does when every access of every receiver `1..ntr` is inside
the arrays: it returns; in the section matrices only cells of rows `1..ntr` of
column `lsamp` may differ from before, matrices of quantities that the mode does
not select are unchanged, and each row `1..ntr` of the selected ones holds the
sampled value. -/
theorem seismo_spec [LinearOrderedField α] (sqrt : α → α) (SEISMO : Int) (DX DY DZ : α)
    (lsamp ntr : Int) (recpos : Arr2 Int) (sec : Sections α)
    (v : Velocity α) (s : Tensor3d α) (pi u : Arr3 α)
    (hok : ∀ itr, 1 ≤ itr → itr ≤ ntr → ReceiverOk SEISMO lsamp itr recpos sec v s pi u) :
    ∃ sec1, seismo sqrt SEISMO DX DY DZ lsamp ntr recpos sec v s pi u = .ok sec1 ∧
      SecFrame lsamp (ntr + 1) sec sec1 ∧ SecUntouched SEISMO sec sec1 ∧
      ∀ itr, 1 ≤ itr → itr ≤ ntr →
        RowDone sqrt SEISMO DX DY DZ lsamp recpos v s pi u sec1 itr := by
  unfold seismo
  by_cases hn : ntr < 0
  · refine ⟨sec, forLoopE_empty _ _ _ _ (by omega), ?_, ?_, fun itr h1 h2 => absurd h2 (by omega)⟩
    · exact ⟨Arr2.SameExcept.same_refl _ _, Arr2.SameExcept.same_refl _ _, Arr2.SameExcept.same_refl _ _,
        Arr2.SameExcept.same_refl _ _, Arr2.SameExcept.same_refl _ _, Arr2.SameExcept.same_refl _ _⟩
    · exact ⟨fun _ => ⟨rfl, rfl, rfl⟩, fun _ => rfl, fun _ => ⟨rfl, rfl⟩⟩
  refine forLoopE_rule _
    (fun k st => SecFrame lsamp k sec st ∧ SecUntouched SEISMO sec st ∧
      ∀ itr, 1 ≤ itr → itr < k → RowDone sqrt SEISMO DX DY DZ lsamp recpos v s pi u st itr)
    _ 1 ntr sec (by omega)
    ⟨⟨Arr2.SameExcept.same_refl _ _, Arr2.SameExcept.same_refl _ _, Arr2.SameExcept.same_refl _ _,
        Arr2.SameExcept.same_refl _ _, Arr2.SameExcept.same_refl _ _, Arr2.SameExcept.same_refl _ _⟩,
      ⟨fun _ => ⟨rfl, rfl, rfl⟩, fun _ => rfl, fun _ => ⟨rfl, rfl⟩⟩,
      fun itr h1 h2 => absurd h2 (by omega)⟩ ?_
    (fun sec1 ⟨hfr, hun, hdone⟩ => ⟨hfr, hun, fun itr h1 h2 => hdone itr h1 (by omega)⟩)
  rintro k st hk1 hk2 ⟨hfr, hun, hdone⟩
  obtain ⟨hr1, hr2, hr3, hm1, hm2, hm3⟩ := hok k hk1 hk2
  have f := hfr
  obtain ⟨f1, f2, f3, f4, f5, f6⟩ := f
  obtain ⟨u1, u2, u3⟩ := hun
  by_cases h1 : SEISMO = 1
  · obtain ⟨a1, a2, a3, a4, a5, a6⟩ := hm1 (Or.inl h1)
    rw [← f1.1] at a4
    rw [← f2.1] at a5
    rw [← f3.1] at a6
    simp only [Arr2.read, Arr3.read, Arr2.write, hr1, hr2, hr3, if_pos h1, a1, a2, a3, a4, a5, a6,
      if_true, except_ok_bind, except_pure]
    refine ⟨_, rfl, ?_⟩
    exact seismo_round hk1 hfr hdone (Arr2.Touch.write _ _ _ _) (Arr2.Touch.write _ _ _ _)
      (Arr2.Touch.write _ _ _ _) (Arr2.Touch.touch_refl _ _ _) (Arr2.Touch.touch_refl _ _ _)
      (Arr2.Touch.touch_refl _ _ _) 
      ⟨fun hh => absurd (Or.inl h1) hh, fun hh => u2 hh, fun hh => u3 hh⟩
      (by simp [RowDone, h1])
  by_cases h2 : SEISMO = 2
  · obtain ⟨a1, a2, a3, a4⟩ := hm2 (Or.inl h2)
    rw [← f6.1] at a4
    simp only [Arr2.read, Arr3.read, Arr2.write, hr1, hr2, hr3, if_neg h1, if_pos h2,
      a1, a2, a3, a4, if_true, except_ok_bind, except_pure]
    refine ⟨_, rfl, ?_⟩
    exact seismo_round hk1 hfr hdone (Arr2.Touch.touch_refl _ _ _) (Arr2.Touch.touch_refl _ _ _)
      (Arr2.Touch.touch_refl _ _ _) (Arr2.Touch.touch_refl _ _ _) (Arr2.Touch.touch_refl _ _ _)
      (Arr2.Touch.write _ _ _ _) 
      ⟨fun hh => u1 hh, fun hh => absurd (Or.inl h2) hh, fun hh => u3 hh⟩
      (by simp [RowDone, h2])
  by_cases h3 : SEISMO = 3
  · obtain ⟨b1, b2, b3, b4, b5, b6, b7, b8, b9, b10, b11, b12, b13, b14, b15, b16⟩ :=
      hm3 (Or.inl h3)
    rw [← f5.1] at b15
    rw [← f4.1] at b16
    simp only [Arr2.read, Arr3.read, Arr2.write, hr1, hr2, hr3, if_neg h1, if_neg h2, if_pos h3,
      b1, b2, b3, b4, b5, b6, b7, b8, b9, b10, b11, b12, b13, b14, b15, b16,
      if_true, except_ok_bind, except_pure]
    refine ⟨_, rfl, ?_⟩
    exact seismo_round hk1 hfr hdone (Arr2.Touch.touch_refl _ _ _) (Arr2.Touch.touch_refl _ _ _)
      (Arr2.Touch.touch_refl _ _ _) (Arr2.Touch.write _ _ _ _) (Arr2.Touch.write _ _ _ _)
      (Arr2.Touch.touch_refl _ _ _) 
      ⟨fun hh => u1 hh, fun hh => u2 hh, fun hh => absurd (Or.inl h3) hh⟩
      ⟨fun hh => absurd hh (by omega), fun hh => absurd hh (by omega), fun _ => ⟨by
        show (if k = k ∧ lsamp = lsamp then _ else _) = _
        rw [if_pos ⟨rfl, rfl⟩]; rfl, by
        show (if k = k ∧ lsamp = lsamp then _ else _) = _
        rw [if_pos ⟨rfl, rfl⟩]; rfl⟩⟩
  by_cases h4 : SEISMO = 4
  · obtain ⟨a1, a2, a3, a4, a5, a6⟩ := hm1 (Or.inr h4)
    obtain ⟨c1, c2, c3, c4⟩ := hm2 (Or.inr h4)
    obtain ⟨b1, b2, b3, b4, b5, b6, b7, b8, b9, b10, b11, b12, b13, b14, b15, b16⟩ :=
      hm3 (Or.inr h4)
    rw [← f1.1] at a4
    rw [← f2.1] at a5
    rw [← f3.1] at a6
    rw [← f6.1] at c4
    rw [← f5.1] at b15
    rw [← f4.1] at b16
    simp only [Arr2.read, Arr3.read, Arr2.write, hr1, hr2, hr3, if_neg h1, if_neg h2, if_neg h3,
      if_pos h4, a1, a2, a3, a4, a5, a6, c1, c2, c3, c4,
      b1, b2, b3, b4, b5, b6, b7, b8, b9, b10, b11, b12, b13, b14, b15, b16,
      if_true, except_ok_bind, except_pure]
    refine ⟨_, rfl, ?_⟩
    exact seismo_round hk1 hfr hdone (Arr2.Touch.write _ _ _ _) (Arr2.Touch.write _ _ _ _)
      (Arr2.Touch.write _ _ _ _) (Arr2.Touch.write _ _ _ _) (Arr2.Touch.write _ _ _ _)
      (Arr2.Touch.write _ _ _ _) 
      ⟨fun hh => absurd (Or.inr h4) hh, fun hh => absurd (Or.inr h4) hh,
      fun hh => absurd (Or.inr h4) hh⟩
      ⟨fun _ => ⟨by
        show (if k = k ∧ lsamp = lsamp then _ else _) = _
        rw [if_pos ⟨rfl, rfl⟩], by
        show (if k = k ∧ lsamp = lsamp then _ else _) = _
        rw [if_pos ⟨rfl, rfl⟩], by
        show (if k = k ∧ lsamp = lsamp then _ else _) = _
        rw [if_pos ⟨rfl, rfl⟩]⟩, fun _ => by
        show (if k = k ∧ lsamp = lsamp then _ else _) = _
        rw [if_pos ⟨rfl, rfl⟩], fun _ => ⟨by
        show (if k = k ∧ lsamp = lsamp then _ else _) = _
        rw [if_pos ⟨rfl, rfl⟩]; rfl, by
        show (if k = k ∧ lsamp = lsamp then _ else _) = _
        rw [if_pos ⟨rfl, rfl⟩]; rfl⟩⟩
  · simp only [Arr2.read, hr1, hr2, hr3, if_neg h1, if_neg h2, if_neg h3, if_neg h4,
      if_true, except_ok_bind, except_pure]
    refine ⟨_, rfl, ?_⟩
    exact seismo_round hk1 hfr hdone (Arr2.Touch.touch_refl _ _ _) (Arr2.Touch.touch_refl _ _ _)
      (Arr2.Touch.touch_refl _ _ _) (Arr2.Touch.touch_refl _ _ _) (Arr2.Touch.touch_refl _ _ _)
      (Arr2.Touch.touch_refl _ _ _) 
      ⟨fun hh => u1 hh, fun hh => u2 hh, fun hh => u3 hh⟩
      (by simp [RowDone, h1, h2, h3, h4])

end SeismoMain

section SeismoClaims

variable {α : Type}

theorem sample_receivers_ok (SEISMO : Int) :
    ∀ itr, 1 ≤ itr → itr ≤ 2 →
      ReceiverOk SEISMO 1 itr sampleRecpos sampleSections sampleVelocity sampleStress
        (sampleField 0 0 0 4) (sampleField 0 0 0 2) := by
  intro itr h1 h2
  have : itr = 1 ∨ itr = 2 := by omega
  rcases this with rfl | rfl
  · exact ⟨rfl, rfl, rfl, fun _ => ⟨rfl, rfl, rfl, rfl, rfl, rfl⟩, fun _ => ⟨rfl, rfl, rfl, rfl⟩,
      fun _ => ⟨rfl, rfl, rfl, rfl, rfl, rfl, rfl, rfl, rfl, rfl, rfl, rfl, rfl, rfl, rfl, rfl⟩⟩
  · exact ⟨rfl, rfl, rfl, fun _ => ⟨rfl, rfl, rfl, rfl, rfl, rfl⟩, fun _ => ⟨rfl, rfl, rfl, rfl⟩,
      fun _ => ⟨rfl, rfl, rfl, rfl, rfl, rfl, rfl, rfl, rfl, rfl, rfl, rfl, rfl, rfl, rfl, rfl⟩⟩

/-- C8. Pressure extraction: in modes 2 and 4, when every access of the
receivers `1..ntr` is inside the arrays, `seismo` returns and for every receiver
`itr` in `1..ntr` with local coordinate `(x,y,z) = (recpos[1][itr],
recpos[2][itr], recpos[3][itr])` it has set
`sectionp[itr][lsamp] = -(sxx[y][x][z] + syy[y][x][z] + szz[y][x][z]) / 3`;
a stress diagonal `(3,3,3)` gives `-3`. -/
theorem pressure_extraction [LinearOrderedField α] (sqrt : α → α) (SEISMO : Int) (DX DY DZ : α)
    (lsamp ntr : Int) (recpos : Arr2 Int) (sec : Sections α)
    (v : Velocity α) (s : Tensor3d α) (pi u : Arr3 α)
    (hmode : SEISMO = 2 ∨ SEISMO = 4)
    (hok : ∀ itr, 1 ≤ itr → itr ≤ ntr → ReceiverOk SEISMO lsamp itr recpos sec v s pi u) :
    ∃ sec1, seismo sqrt SEISMO DX DY DZ lsamp ntr recpos sec v s pi u = .ok sec1 ∧
      ∀ itr, 1 ≤ itr → itr ≤ ntr →
        sec1.sectionp.val itr lsamp
          = -(s.xx.val (recpos.val 2 itr) (recpos.val 1 itr) (recpos.val 3 itr)
              + s.yy.val (recpos.val 2 itr) (recpos.val 1 itr) (recpos.val 3 itr)
              + s.zz.val (recpos.val 2 itr) (recpos.val 1 itr) (recpos.val 3 itr)) / 3 ∧
        (s.xx.val (recpos.val 2 itr) (recpos.val 1 itr) (recpos.val 3 itr) = 3 →
          s.yy.val (recpos.val 2 itr) (recpos.val 1 itr) (recpos.val 3 itr) = 3 →
          s.zz.val (recpos.val 2 itr) (recpos.val 1 itr) (recpos.val 3 itr) = 3 →
          sec1.sectionp.val itr lsamp = -3) := by
  obtain ⟨sec1, hrun, -, -, hdone⟩ :=
    seismo_spec sqrt SEISMO DX DY DZ lsamp ntr recpos sec v s pi u hok
  refine ⟨sec1, hrun, fun itr h1 h2 => ?_⟩
  have hp := (hdone itr h1 h2).2.1 hmode
  refine ⟨?_, fun e1 e2 e3 => ?_⟩
  · rw [hp]; ring
  · rw [hp, e1, e2, e3]; norm_num

theorem pressure_extraction_witness :
    ((2 : Int) = 2 ∨ (2 : Int) = 4) ∧
    (∀ itr, 1 ≤ itr → itr ≤ 2 →
      ReceiverOk 2 1 itr sampleRecpos sampleSections sampleVelocity sampleStress
        (sampleField 0 0 0 4) (sampleField 0 0 0 2)) ∧
    ∃ sec1, seismo (fun x => x) 2 1 1 1 1 2 sampleRecpos sampleSections sampleVelocity
        sampleStress (sampleField 0 0 0 4) (sampleField 0 0 0 2) = .ok sec1 ∧
      ∀ itr, 1 ≤ itr → itr ≤ 2 →
        sec1.sectionp.val itr 1
          = -(sampleStress.xx.val (sampleRecpos.val 2 itr) (sampleRecpos.val 1 itr)
                (sampleRecpos.val 3 itr)
              + sampleStress.yy.val (sampleRecpos.val 2 itr) (sampleRecpos.val 1 itr)
                (sampleRecpos.val 3 itr)
              + sampleStress.zz.val (sampleRecpos.val 2 itr) (sampleRecpos.val 1 itr)
                (sampleRecpos.val 3 itr)) / 3 ∧
        (sampleStress.xx.val (sampleRecpos.val 2 itr) (sampleRecpos.val 1 itr)
            (sampleRecpos.val 3 itr) = 3 →
          sampleStress.yy.val (sampleRecpos.val 2 itr) (sampleRecpos.val 1 itr)
            (sampleRecpos.val 3 itr) = 3 →
          sampleStress.zz.val (sampleRecpos.val 2 itr) (sampleRecpos.val 1 itr)
            (sampleRecpos.val 3 itr) = 3 →
          sec1.sectionp.val itr 1 = -3) :=
  ⟨Or.inl rfl, sample_receivers_ok 2,
    pressure_extraction (fun x => x) 2 1 1 1 1 2 sampleRecpos sampleSections sampleVelocity
      sampleStress (sampleField 0 0 0 4) (sampleField 0 0 0 2) (Or.inl rfl)
      (sample_receivers_ok 2)⟩

/-- C9. Velocity sampling: in modes 1 and 4, when every access of the receivers
`1..ntr` is inside the arrays, `seismo` returns and for every receiver `itr` in
`1..ntr` it has set `sectionvx[itr][lsamp]`, `sectionvy[itr][lsamp]`,
`sectionvz[itr][lsamp]` to `vx`, `vy`, `vz` at index
`[recpos[2][itr]][recpos[1][itr]][recpos[3][itr]]`, unmodified. -/
theorem velocity_sampling [LinearOrderedField α] (sqrt : α → α) (SEISMO : Int) (DX DY DZ : α)
    (lsamp ntr : Int) (recpos : Arr2 Int) (sec : Sections α)
    (v : Velocity α) (s : Tensor3d α) (pi u : Arr3 α)
    (hmode : SEISMO = 1 ∨ SEISMO = 4)
    (hok : ∀ itr, 1 ≤ itr → itr ≤ ntr → ReceiverOk SEISMO lsamp itr recpos sec v s pi u) :
    ∃ sec1, seismo sqrt SEISMO DX DY DZ lsamp ntr recpos sec v s pi u = .ok sec1 ∧
      ∀ itr, 1 ≤ itr → itr ≤ ntr →
        sec1.sectionvx.val itr lsamp
          = v.x.val (recpos.val 2 itr) (recpos.val 1 itr) (recpos.val 3 itr) ∧
        sec1.sectionvy.val itr lsamp
          = v.y.val (recpos.val 2 itr) (recpos.val 1 itr) (recpos.val 3 itr) ∧
        sec1.sectionvz.val itr lsamp
          = v.z.val (recpos.val 2 itr) (recpos.val 1 itr) (recpos.val 3 itr) := by
  obtain ⟨sec1, hrun, -, -, hdone⟩ :=
    seismo_spec sqrt SEISMO DX DY DZ lsamp ntr recpos sec v s pi u hok
  exact ⟨sec1, hrun, fun itr h1 h2 => (hdone itr h1 h2).1 hmode⟩

theorem velocity_sampling_witness :
    ((4 : Int) = 1 ∨ (4 : Int) = 4) ∧
    (∀ itr, 1 ≤ itr → itr ≤ 2 →
      ReceiverOk 4 1 itr sampleRecpos sampleSections sampleVelocity sampleStress
        (sampleField 0 0 0 4) (sampleField 0 0 0 2)) ∧
    ∃ sec1, seismo (fun x => x) 4 1 1 1 1 2 sampleRecpos sampleSections sampleVelocity
        sampleStress (sampleField 0 0 0 4) (sampleField 0 0 0 2) = .ok sec1 ∧
      ∀ itr, 1 ≤ itr → itr ≤ 2 →
        sec1.sectionvx.val itr 1
          = sampleVelocity.x.val (sampleRecpos.val 2 itr) (sampleRecpos.val 1 itr)
              (sampleRecpos.val 3 itr) ∧
        sec1.sectionvy.val itr 1
          = sampleVelocity.y.val (sampleRecpos.val 2 itr) (sampleRecpos.val 1 itr)
              (sampleRecpos.val 3 itr) ∧
        sec1.sectionvz.val itr 1
          = sampleVelocity.z.val (sampleRecpos.val 2 itr) (sampleRecpos.val 1 itr)
              (sampleRecpos.val 3 itr) :=
  ⟨Or.inr rfl, sample_receivers_ok 4,
    velocity_sampling (fun x => x) 4 1 1 1 1 2 sampleRecpos sampleSections sampleVelocity
      sampleStress (sampleField 0 0 0 4) (sampleField 0 0 0 2) (Or.inr rfl)
      (sample_receivers_ok 4)⟩

theorem fsign_neg [LinearOrderedField α] {x : α} (hx : x < 0) : fsign x = -1 := by
  unfold fsign; rw [if_pos hx]

theorem fsign_zero [LinearOrderedField α] : fsign (0 : α) = 0 := by
  unfold fsign; simp

/-- C10. Signed square root of the curl output: in modes 3 and 4, when every
access of the receivers `1..ntr` is inside the arrays and `sqrt` is positive on
positive arguments, `seismo` returns and for every receiver `itr` in `1..ntr`,
with `A` the accumulator `u * (d1*|d1| + d2*|d2| + d3*|d3|)` at its coordinate,
`sectioncurl[itr][lsamp] = fsign(A) * sqrt(|A|)`; this value is negative when
`A` is negative and zero when `A` is zero. -/
theorem curl_signed_sqrt [LinearOrderedField α] (sqrt : α → α) (SEISMO : Int) (DX DY DZ : α)
    (lsamp ntr : Int) (recpos : Arr2 Int) (sec : Sections α)
    (v : Velocity α) (s : Tensor3d α) (pi u : Arr3 α)
    (hmode : SEISMO = 3 ∨ SEISMO = 4)
    (hsqrt : ∀ x, 0 < x → 0 < sqrt x)
    (hok : ∀ itr, 1 ≤ itr → itr ≤ ntr → ReceiverOk SEISMO lsamp itr recpos sec v s pi u) :
    ∃ sec1, seismo sqrt SEISMO DX DY DZ lsamp ntr recpos sec v s pi u = .ok sec1 ∧
      ∀ itr, 1 ≤ itr → itr ≤ ntr →
        sec1.sectioncurl.val itr lsamp
          = fsign (curlAccum DX DY DZ v u (recpos.val 1 itr) (recpos.val 2 itr)
              (recpos.val 3 itr))
            * sqrt |curlAccum DX DY DZ v u (recpos.val 1 itr) (recpos.val 2 itr)
              (recpos.val 3 itr)| ∧
        (curlAccum DX DY DZ v u (recpos.val 1 itr) (recpos.val 2 itr) (recpos.val 3 itr) < 0 →
          sec1.sectioncurl.val itr lsamp < 0) ∧
        (curlAccum DX DY DZ v u (recpos.val 1 itr) (recpos.val 2 itr) (recpos.val 3 itr) = 0 →
          sec1.sectioncurl.val itr lsamp = 0) := by
  obtain ⟨sec1, hrun, -, -, hdone⟩ :=
    seismo_spec sqrt SEISMO DX DY DZ lsamp ntr recpos sec v s pi u hok
  refine ⟨sec1, hrun, fun itr h1 h2 => ?_⟩
  have hc := ((hdone itr h1 h2).2.2 hmode).1
  refine ⟨hc, fun hneg => ?_, fun hzero => ?_⟩
  · rw [hc, fsign_neg hneg]
    have := hsqrt _ (show 0 < fabs (curlAccum DX DY DZ v u (recpos.val 1 itr)
      (recpos.val 2 itr) (recpos.val 3 itr)) from abs_pos.mpr (ne_of_lt hneg))
    linarith
  · rw [hc, hzero, fsign_zero, zero_mul]

theorem curl_signed_sqrt_witness :
    ((3 : Int) = 3 ∨ (3 : Int) = 4) ∧ (∀ x : ℚ, 0 < x → 0 < (fun y => y) x) ∧
    (∀ itr, 1 ≤ itr → itr ≤ 2 →
      ReceiverOk 3 1 itr sampleRecpos sampleSections sampleVelocity sampleStress
        (sampleField 0 0 0 4) (sampleField 0 0 0 2)) ∧
    ∃ sec1, seismo (fun y => y) 3 1 1 1 1 2 sampleRecpos sampleSections sampleVelocity
        sampleStress (sampleField 0 0 0 4) (sampleField 0 0 0 2) = .ok sec1 ∧
      ∀ itr, 1 ≤ itr → itr ≤ 2 →
        sec1.sectioncurl.val itr 1
          = fsign (curlAccum 1 1 1 sampleVelocity (sampleField 0 0 0 2)
              (sampleRecpos.val 1 itr) (sampleRecpos.val 2 itr) (sampleRecpos.val 3 itr))
            * (fun y => y) |curlAccum 1 1 1 sampleVelocity (sampleField 0 0 0 2)
              (sampleRecpos.val 1 itr) (sampleRecpos.val 2 itr) (sampleRecpos.val 3 itr)| ∧
        (curlAccum 1 1 1 sampleVelocity (sampleField 0 0 0 2)
            (sampleRecpos.val 1 itr) (sampleRecpos.val 2 itr) (sampleRecpos.val 3 itr) < 0 →
          sec1.sectioncurl.val itr 1 < 0) ∧
        (curlAccum 1 1 1 sampleVelocity (sampleField 0 0 0 2)
            (sampleRecpos.val 1 itr) (sampleRecpos.val 2 itr) (sampleRecpos.val 3 itr) = 0 →
          sec1.sectioncurl.val itr 1 = 0) :=
  ⟨Or.inl rfl, fun _ hx => hx, sample_receivers_ok 3,
    curl_signed_sqrt (fun y => y) 3 1 1 1 1 2 sampleRecpos sampleSections sampleVelocity
      sampleStress (sampleField 0 0 0 4) (sampleField 0 0 0 2) (Or.inl rfl)
      (fun _ hx => hx) (sample_receivers_ok 3)⟩

end SeismoClaims
/-! ## seismo_ssg.c: stencils, modes, reach and frame -/

section SeismoMore

variable {α : Type}

/-- A receiver whose accesses are inside the arrays in mode 4 has them inside
the arrays in every mode. -/
theorem ReceiverOk.of_all {m lsamp itr : Int} {recpos : Arr2 Int} {sec : Sections α}
    {v : Velocity α} {s : Tensor3d α} {pi u : Arr3 α}
    (h : ReceiverOk 4 lsamp itr recpos sec v s pi u) :
    ReceiverOk m lsamp itr recpos sec v s pi u :=
  ⟨h.1, h.2.1, h.2.2.1, fun _ => h.2.2.2.1 (Or.inr rfl), fun _ => h.2.2.2.2.1 (Or.inr rfl),
    fun _ => h.2.2.2.2.2 (Or.inr rfl)⟩

theorem Arr2.eq_of_fields {a b : Arr2 α} (hi : a.inb = b.inb) (hv : a.val = b.val) : a = b := by
  cases a
  cases b
  simp only at hi hv
  subst hi
  subst hv
  rfl

/-- Two matrices that both come from `a` by rewriting cells selected by `P`,
and agree on those cells, are equal. -/
theorem Arr2.SameExcept.unique {a a1 a2 : Arr2 α} {P : Int → Int → Prop}
    (h1 : a.SameExcept a1 P) (h2 : a.SameExcept a2 P)
    (hP : ∀ r c, P r c → a1.val r c = a2.val r c) : a1 = a2 := by
  refine Arr2.eq_of_fields (h1.1.trans h2.1.symm) ?_
  funext r c
  by_cases hp : P r c
  · exact hP r c hp
  · rw [h1.2 r c hp, h2.2 r c hp]

theorem sample_square_receivers_ok (SEISMO : Int) :
    ∀ itr, 1 ≤ itr → itr ≤ 2 →
      ReceiverOk SEISMO 1 itr sampleRecpos sampleSections sampleSquareVelocity sampleStress
        (sampleField 0 0 0 4) (sampleField 0 0 0 2) := by
  intro itr h1 h2
  have : itr = 1 ∨ itr = 2 := by omega
  rcases this with rfl | rfl
  · exact ⟨rfl, rfl, rfl, fun _ => ⟨rfl, rfl, rfl, rfl, rfl, rfl⟩, fun _ => ⟨rfl, rfl, rfl, rfl⟩,
      fun _ => ⟨rfl, rfl, rfl, rfl, rfl, rfl, rfl, rfl, rfl, rfl, rfl, rfl, rfl, rfl, rfl, rfl⟩⟩
  · exact ⟨rfl, rfl, rfl, fun _ => ⟨rfl, rfl, rfl, rfl, rfl, rfl⟩, fun _ => ⟨rfl, rfl, rfl, rfl⟩,
      fun _ => ⟨rfl, rfl, rfl, rfl, rfl, rfl, rfl, rfl, rfl, rfl, rfl, rfl, rfl, rfl, rfl, rfl⟩⟩

/-- C11 (amended: the normal derivatives are backward differences). Difference
stencils of `seismo`: in modes 3 and 4, when every access of the receivers
`1..ntr` is inside the arrays, `seismo` returns and for every receiver at local
coordinate `(i, j, k)` the six mixed derivatives `vxy, vxz, vyx, vyz, vzx, vzy`
that feed `sectioncurl` are first-order forward differences
`(f(c+1) - f(c)) * (1/h)` along their axes, and the three normal derivatives
`vxx, vyy, vzz` that feed `sectiondiv` are first-order backward differences
`(f(c) - f(c-1)) * (1/h)` along their axes. -/
theorem difference_stencils [LinearOrderedField α] (sqrt : α → α) (SEISMO : Int)
    (DX DY DZ : α) (lsamp ntr : Int) (recpos : Arr2 Int) (sec : Sections α)
    (v : Velocity α) (s : Tensor3d α) (pi u : Arr3 α)
    (hmode : SEISMO = 3 ∨ SEISMO = 4)
    (hok : ∀ itr, 1 ≤ itr → itr ≤ ntr → ReceiverOk SEISMO lsamp itr recpos sec v s pi u) :
    ∃ sec1, seismo sqrt SEISMO DX DY DZ lsamp ntr recpos sec v s pi u = .ok sec1 ∧
      ∀ itr, 1 ≤ itr → itr ≤ ntr →
        ∃ vxy vxz vyx vyz vzx vzy vxx vyy vzz : α,
          vxy = fwdDiff (fun y => v.x.val y (recpos.val 1 itr) (recpos.val 3 itr)) DY
            (recpos.val 2 itr) ∧
          vxz = fwdDiff (fun z => v.x.val (recpos.val 2 itr) (recpos.val 1 itr) z) DZ
            (recpos.val 3 itr) ∧
          vyx = fwdDiff (fun x => v.y.val (recpos.val 2 itr) x (recpos.val 3 itr)) DX
            (recpos.val 1 itr) ∧
          vyz = fwdDiff (fun z => v.y.val (recpos.val 2 itr) (recpos.val 1 itr) z) DZ
            (recpos.val 3 itr) ∧
          vzx = fwdDiff (fun x => v.z.val (recpos.val 2 itr) x (recpos.val 3 itr)) DX
            (recpos.val 1 itr) ∧
          vzy = fwdDiff (fun y => v.z.val y (recpos.val 1 itr) (recpos.val 3 itr)) DY
            (recpos.val 2 itr) ∧
          vxx = bwdDiff (fun x => v.x.val (recpos.val 2 itr) x (recpos.val 3 itr)) DX
            (recpos.val 1 itr) ∧
          vyy = bwdDiff (fun y => v.y.val y (recpos.val 1 itr) (recpos.val 3 itr)) DY
            (recpos.val 2 itr) ∧
          vzz = bwdDiff (fun z => v.z.val (recpos.val 2 itr) (recpos.val 1 itr) z) DZ
            (recpos.val 3 itr) ∧
          sec1.sectioncurl.val itr lsamp
            = fsign (u.val (recpos.val 2 itr) (recpos.val 1 itr) (recpos.val 3 itr)
                * ((vyz - vzy) * fabs (vyz - vzy) + (vzx - vxz) * fabs (vzx - vxz)
                  + (vxy - vyx) * fabs (vxy - vyx)))
              * sqrt (fabs (u.val (recpos.val 2 itr) (recpos.val 1 itr) (recpos.val 3 itr)
                * ((vyz - vzy) * fabs (vyz - vzy) + (vzx - vxz) * fabs (vzx - vxz)
                  + (vxy - vyx) * fabs (vxy - vyx)))) ∧
          sec1.sectiondiv.val itr lsamp
            = (vxx + vyy + vzz)
              * sqrt (pi.val (recpos.val 2 itr) (recpos.val 1 itr) (recpos.val 3 itr)) := by
  obtain ⟨sec1, hrun, -, -, hdone⟩ :=
    seismo_spec sqrt SEISMO DX DY DZ lsamp ntr recpos sec v s pi u hok
  refine ⟨sec1, hrun, fun itr h1 h2 => ?_⟩
  obtain ⟨hcurl, hdiv⟩ := (hdone itr h1 h2).2.2 hmode
  exact ⟨_, _, _, _, _, _, _, _, _, rfl, rfl, rfl, rfl, rfl, rfl, rfl, rfl, rfl, hcurl, hdiv⟩

theorem difference_stencils_witness :
    ((3 : Int) = 3 ∨ (3 : Int) = 4) ∧
    (∀ itr, 1 ≤ itr → itr ≤ 2 →
      ReceiverOk 3 1 itr sampleRecpos sampleSections sampleSquareVelocity sampleStress
        (sampleField 0 0 0 4) (sampleField 0 0 0 2)) ∧
    ∃ sec1, seismo (fun x => x) 3 1 1 1 1 2 sampleRecpos sampleSections sampleSquareVelocity
        sampleStress (sampleField 0 0 0 4) (sampleField 0 0 0 2) = .ok sec1 ∧
      ∀ itr, 1 ≤ itr → itr ≤ 2 →
        ∃ vxy vxz vyx vyz vzx vzy vxx vyy vzz : ℚ,
          vxy = fwdDiff (fun y => sampleSquareVelocity.x.val y (sampleRecpos.val 1 itr)
            (sampleRecpos.val 3 itr)) 1 (sampleRecpos.val 2 itr) ∧
          vxz = fwdDiff (fun z => sampleSquareVelocity.x.val (sampleRecpos.val 2 itr)
            (sampleRecpos.val 1 itr) z) 1 (sampleRecpos.val 3 itr) ∧
          vyx = fwdDiff (fun x => sampleSquareVelocity.y.val (sampleRecpos.val 2 itr) x
            (sampleRecpos.val 3 itr)) 1 (sampleRecpos.val 1 itr) ∧
          vyz = fwdDiff (fun z => sampleSquareVelocity.y.val (sampleRecpos.val 2 itr)
            (sampleRecpos.val 1 itr) z) 1 (sampleRecpos.val 3 itr) ∧
          vzx = fwdDiff (fun x => sampleSquareVelocity.z.val (sampleRecpos.val 2 itr) x
            (sampleRecpos.val 3 itr)) 1 (sampleRecpos.val 1 itr) ∧
          vzy = fwdDiff (fun y => sampleSquareVelocity.z.val y (sampleRecpos.val 1 itr)
            (sampleRecpos.val 3 itr)) 1 (sampleRecpos.val 2 itr) ∧
          vxx = bwdDiff (fun x => sampleSquareVelocity.x.val (sampleRecpos.val 2 itr) x
            (sampleRecpos.val 3 itr)) 1 (sampleRecpos.val 1 itr) ∧
          vyy = bwdDiff (fun y => sampleSquareVelocity.y.val y (sampleRecpos.val 1 itr)
            (sampleRecpos.val 3 itr)) 1 (sampleRecpos.val 2 itr) ∧
          vzz = bwdDiff (fun z => sampleSquareVelocity.z.val (sampleRecpos.val 2 itr)
            (sampleRecpos.val 1 itr) z) 1 (sampleRecpos.val 3 itr) ∧
          sec1.sectioncurl.val itr 1
            = fsign ((sampleField 0 0 0 2).val (sampleRecpos.val 2 itr) (sampleRecpos.val 1 itr)
                  (sampleRecpos.val 3 itr)
                * ((vyz - vzy) * fabs (vyz - vzy) + (vzx - vxz) * fabs (vzx - vxz)
                  + (vxy - vyx) * fabs (vxy - vyx)))
              * (fun x => x) (fabs ((sampleField 0 0 0 2).val (sampleRecpos.val 2 itr)
                  (sampleRecpos.val 1 itr) (sampleRecpos.val 3 itr)
                * ((vyz - vzy) * fabs (vyz - vzy) + (vzx - vxz) * fabs (vzx - vxz)
                  + (vxy - vyx) * fabs (vxy - vyx)))) ∧
          sec1.sectiondiv.val itr 1
            = (vxx + vyy + vzz)
              * (fun x => x) ((sampleField 0 0 0 4).val (sampleRecpos.val 2 itr)
                  (sampleRecpos.val 1 itr) (sampleRecpos.val 3 itr)) :=
  ⟨Or.inl rfl, sample_square_receivers_ok 3,
    difference_stencils (fun x => x) 3 1 1 1 1 2 sampleRecpos sampleSections
      sampleSquareVelocity sampleStress (sampleField 0 0 0 4) (sampleField 0 0 0 2) (Or.inl rfl)
      (sample_square_receivers_ok 3)⟩

/-- C11 as stated fails: with `vx = i*i`, `vy = vz = 0`, `pi = 4`, unit spacings
and the identity for `sqrt`, receiver 1 at `(1,1,1)` gets in mode 3
`sectiondiv[1][1] = (vx[1][1][1] - vx[1][0][1]) * 4 = 4`, while forward
differences of the normal derivatives would give
`(vx[1][2][1] - vx[1][1][1]) * 4 = 12`. -/
theorem normal_derivatives_not_forward :
    ∃ sec1, seismo (fun x => x) 3 1 1 1 1 2 sampleRecpos sampleSections sampleSquareVelocity
        sampleStress (sampleField 0 0 0 4) (sampleField 0 0 0 2) = .ok sec1 ∧
      sec1.sectiondiv.val 1 1 = 4 ∧
      divForward 1 1 1 sampleSquareVelocity (sampleRecpos.val 1 1) (sampleRecpos.val 2 1)
          (sampleRecpos.val 3 1)
        * (fun x => x) ((sampleField 0 0 0 4).val (sampleRecpos.val 2 1) (sampleRecpos.val 1 1)
          (sampleRecpos.val 3 1)) = 12 ∧
      sec1.sectiondiv.val 1 1 ≠
        divForward 1 1 1 sampleSquareVelocity (sampleRecpos.val 1 1) (sampleRecpos.val 2 1)
            (sampleRecpos.val 3 1)
          * (fun x => x) ((sampleField 0 0 0 4).val (sampleRecpos.val 2 1)
            (sampleRecpos.val 1 1) (sampleRecpos.val 3 1)) := by
  obtain ⟨sec1, hrun, -, -, hdone⟩ :=
    seismo_spec (fun x : ℚ => x) 3 1 1 1 1 2 sampleRecpos sampleSections sampleSquareVelocity
      sampleStress (sampleField 0 0 0 4) (sampleField 0 0 0 2) (sample_square_receivers_ok 3)
  have hdiv := ((hdone 1 (by decide) (by decide)).2.2 (Or.inl rfl)).2
  have h4 : sec1.sectiondiv.val 1 1 = 4 := by
    rw [hdiv]
    simp only [divSum, sampleSquareVelocity, sampleSquare, sampleField, sampleRecpos]
    norm_num
  have h12 : divForward 1 1 1 sampleSquareVelocity (sampleRecpos.val 1 1) (sampleRecpos.val 2 1)
          (sampleRecpos.val 3 1)
        * (fun x => x) ((sampleField 0 0 0 4).val (sampleRecpos.val 2 1) (sampleRecpos.val 1 1)
          (sampleRecpos.val 3 1)) = (12 : ℚ) := by
    simp only [divForward, fwdDiff, sampleSquareVelocity, sampleSquare, sampleField, sampleRecpos]
    norm_num
  refine ⟨sec1, hrun, h4, h12, ?_⟩
  rw [h4, h12]
  norm_num

/-- C12. Mode 4 is the union of the other modes: when every access of the
receivers `1..ntr` in mode 4 is inside the arrays, `seismo` returns in each of
the modes 1, 2, 3 and 4 from the same starting state, and mode 4 leaves the
matrices `sectionvx`, `sectionvy`, `sectionvz` as mode 1 does, `sectionp` as
mode 2 does, and `sectiondiv`, `sectioncurl` as mode 3 does. -/
theorem mode_all_is_union [LinearOrderedField α] (sqrt : α → α) (DX DY DZ : α)
    (lsamp ntr : Int) (recpos : Arr2 Int) (sec : Sections α)
    (v : Velocity α) (s : Tensor3d α) (pi u : Arr3 α)
    (hok : ∀ itr, 1 ≤ itr → itr ≤ ntr → ReceiverOk 4 lsamp itr recpos sec v s pi u) :
    ∃ sec1 sec2 sec3 sec4,
      seismo sqrt 1 DX DY DZ lsamp ntr recpos sec v s pi u = .ok sec1 ∧
      seismo sqrt 2 DX DY DZ lsamp ntr recpos sec v s pi u = .ok sec2 ∧
      seismo sqrt 3 DX DY DZ lsamp ntr recpos sec v s pi u = .ok sec3 ∧
      seismo sqrt 4 DX DY DZ lsamp ntr recpos sec v s pi u = .ok sec4 ∧
      sec4.sectionvx = sec1.sectionvx ∧ sec4.sectionvy = sec1.sectionvy ∧
      sec4.sectionvz = sec1.sectionvz ∧ sec4.sectionp = sec2.sectionp ∧
      sec4.sectiondiv = sec3.sectiondiv ∧ sec4.sectioncurl = sec3.sectioncurl := by
  obtain ⟨sec1, hrun1, hf1, -, hd1⟩ :=
    seismo_spec sqrt 1 DX DY DZ lsamp ntr recpos sec v s pi u
      (fun itr h1 h2 => (hok itr h1 h2).of_all)
  obtain ⟨sec2, hrun2, hf2, -, hd2⟩ :=
    seismo_spec sqrt 2 DX DY DZ lsamp ntr recpos sec v s pi u
      (fun itr h1 h2 => (hok itr h1 h2).of_all)
  obtain ⟨sec3, hrun3, hf3, -, hd3⟩ :=
    seismo_spec sqrt 3 DX DY DZ lsamp ntr recpos sec v s pi u
      (fun itr h1 h2 => (hok itr h1 h2).of_all)
  obtain ⟨sec4, hrun4, hf4, -, hd4⟩ :=
    seismo_spec sqrt 4 DX DY DZ lsamp ntr recpos sec v s pi u hok
  obtain ⟨a1, a2, a3, -, -, -⟩ := hf1
  obtain ⟨-, -, -, -, -, b6⟩ := hf2
  obtain ⟨-, -, -, c4, c5, -⟩ := hf3
  obtain ⟨d1, d2, d3, d4, d5, d6⟩ := hf4
  refine ⟨sec1, sec2, sec3, sec4, hrun1, hrun2, hrun3, hrun4, ?_, ?_, ?_, ?_, ?_, ?_⟩
  · refine d1.unique a1 (fun r c hp => ?_)
    obtain ⟨rfl, h1, h2⟩ := hp
    rw [((hd4 r h1 (by omega)).1 (Or.inr rfl)).1, ((hd1 r h1 (by omega)).1 (Or.inl rfl)).1]
  · refine d2.unique a2 (fun r c hp => ?_)
    obtain ⟨rfl, h1, h2⟩ := hp
    rw [((hd4 r h1 (by omega)).1 (Or.inr rfl)).2.1, ((hd1 r h1 (by omega)).1 (Or.inl rfl)).2.1]
  · refine d3.unique a3 (fun r c hp => ?_)
    obtain ⟨rfl, h1, h2⟩ := hp
    rw [((hd4 r h1 (by omega)).1 (Or.inr rfl)).2.2, ((hd1 r h1 (by omega)).1 (Or.inl rfl)).2.2]
  · refine d6.unique b6 (fun r c hp => ?_)
    obtain ⟨rfl, h1, h2⟩ := hp
    rw [(hd4 r h1 (by omega)).2.1 (Or.inr rfl), (hd2 r h1 (by omega)).2.1 (Or.inl rfl)]
  · refine d4.unique c4 (fun r c hp => ?_)
    obtain ⟨rfl, h1, h2⟩ := hp
    rw [((hd4 r h1 (by omega)).2.2 (Or.inr rfl)).2, ((hd3 r h1 (by omega)).2.2 (Or.inl rfl)).2]
  · refine d5.unique c5 (fun r c hp => ?_)
    obtain ⟨rfl, h1, h2⟩ := hp
    rw [((hd4 r h1 (by omega)).2.2 (Or.inr rfl)).1, ((hd3 r h1 (by omega)).2.2 (Or.inl rfl)).1]

theorem mode_all_is_union_witness :
    (∀ itr, 1 ≤ itr → itr ≤ 2 →
      ReceiverOk 4 1 itr sampleRecpos sampleSections sampleVelocity sampleStress
        (sampleField 0 0 0 4) (sampleField 0 0 0 2)) ∧
    ∃ sec1 sec2 sec3 sec4,
      seismo (fun x => x) 1 1 1 1 1 2 sampleRecpos sampleSections sampleVelocity sampleStress
        (sampleField 0 0 0 4) (sampleField 0 0 0 2) = .ok sec1 ∧
      seismo (fun x => x) 2 1 1 1 1 2 sampleRecpos sampleSections sampleVelocity sampleStress
        (sampleField 0 0 0 4) (sampleField 0 0 0 2) = .ok sec2 ∧
      seismo (fun x => x) 3 1 1 1 1 2 sampleRecpos sampleSections sampleVelocity sampleStress
        (sampleField 0 0 0 4) (sampleField 0 0 0 2) = .ok sec3 ∧
      seismo (fun x => x) 4 1 1 1 1 2 sampleRecpos sampleSections sampleVelocity sampleStress
        (sampleField 0 0 0 4) (sampleField 0 0 0 2) = .ok sec4 ∧
      sec4.sectionvx = sec1.sectionvx ∧ sec4.sectionvy = sec1.sectionvy ∧
      sec4.sectionvz = sec1.sectionvz ∧ sec4.sectionp = sec2.sectionp ∧
      sec4.sectiondiv = sec3.sectiondiv ∧ sec4.sectioncurl = sec3.sectioncurl :=
  ⟨sample_receivers_ok 4,
    mode_all_is_union (fun x => x) 1 1 1 1 2 sampleRecpos sampleSections sampleVelocity
      sampleStress (sampleField 0 0 0 4) (sampleField 0 0 0 2) (sample_receivers_ok 4)⟩

theorem sampleCross_receiver_reach (a : Arr3 ℚ)
    (ha : a ∈ [sampleCross 1 2 3 0, sampleCross 2 (-1) 1 1, sampleCross (-1) 0 5 0,
      sampleCross 0 0 0 3, sampleCross 0 0 0 3, sampleCross 0 0 0 3,
      sampleCross 0 0 0 4, sampleCross 0 0 0 2])
    (dj di dk : Int) (hr : Reach dj di dk) :
    a.inb (sampleRecpos.val 2 1 + dj) (sampleRecpos.val 1 1 + di) (sampleRecpos.val 3 1 + dk)
      = true := by
  have key : ∀ p q r t : ℚ, (sampleCross p q r t).inb ((1 : Int) + dj) (1 + di) (1 + dk)
      = true := by
    intro p q r t
    show decide (Reach ((1 : Int) + dj - 1) (1 + di - 1) (1 + dk - 1)) = true
    have e1 : (1 : Int) + dj - 1 = dj := by ring
    have e2 : (1 : Int) + di - 1 = di := by ring
    have e3 : (1 : Int) + dk - 1 = dk := by ring
    rw [e1, e2, e3]
    exact decide_eq_true hr
  simp only [List.mem_cons, List.mem_singleton, List.not_mem_nil, or_false] at ha
  rcases ha with rfl | rfl | rfl | rfl | rfl | rfl | rfl | rfl <;> exact key _ _ _ _

/-- C19. Stencil reach: when for every receiver `1..ntr` with local coordinate
`c = (i, j, k)` each of `vx, vy, vz, sxx, syy, szz, pi, u` is defined at `c` and
at `c` displaced by one step along a single axis (and `recpos` and the section
cells of the receiver are inside their matrices), `seismo` returns in every
mode: since a read outside an array is a fault, each of its wavefield and
material reads is at `c` or at such a neighbour, and arrays defined on the box
`[j-1..j+1] x [i-1..i+1] x [k-1..k+1]` suffice. -/
theorem stencil_reach [LinearOrderedField α] (sqrt : α → α) (SEISMO : Int) (DX DY DZ : α)
    (lsamp ntr : Int) (recpos : Arr2 Int) (sec : Sections α)
    (v : Velocity α) (s : Tensor3d α) (pi u : Arr3 α)
    (hrec : ∀ itr, 1 ≤ itr → itr ≤ ntr →
      recpos.inb 1 itr = true ∧ recpos.inb 2 itr = true ∧ recpos.inb 3 itr = true ∧
      sec.sectionvx.inb itr lsamp = true ∧ sec.sectionvy.inb itr lsamp = true ∧
      sec.sectionvz.inb itr lsamp = true ∧ sec.sectiondiv.inb itr lsamp = true ∧
      sec.sectioncurl.inb itr lsamp = true ∧ sec.sectionp.inb itr lsamp = true)
    (hreach : ∀ itr, 1 ≤ itr → itr ≤ ntr →
      ∀ a ∈ [v.x, v.y, v.z, s.xx, s.yy, s.zz, pi, u], ∀ dj di dk : Int, Reach dj di dk →
        a.inb (recpos.val 2 itr + dj) (recpos.val 1 itr + di) (recpos.val 3 itr + dk) = true) :
    (∀ itr, 1 ≤ itr → itr ≤ ntr → ReceiverOk SEISMO lsamp itr recpos sec v s pi u) ∧
    ∃ sec1, seismo sqrt SEISMO DX DY DZ lsamp ntr recpos sec v s pi u = .ok sec1 := by
  have hok : ∀ itr, 1 ≤ itr → itr ≤ ntr →
      ReceiverOk SEISMO lsamp itr recpos sec v s pi u := by
    intro itr h1 h2
    obtain ⟨r1, r2, r3, w1, w2, w3, w4, w5, w6⟩ := hrec itr h1 h2
    have key : ∀ a ∈ [v.x, v.y, v.z, s.xx, s.yy, s.zz, pi, u], ∀ dj di dk : Int,
        Reach dj di dk → ∀ j1 i1 k1 : Int, j1 = recpos.val 2 itr + dj →
        i1 = recpos.val 1 itr + di → k1 = recpos.val 3 itr + dk → a.inb j1 i1 k1 = true := by
      intro a ha dj di dk hr j1 i1 k1 e1 e2 e3
      subst e1
      subst e2
      subst e3
      exact hreach itr h1 h2 a ha dj di dk hr
    have mx : v.x ∈ [v.x, v.y, v.z, s.xx, s.yy, s.zz, pi, u] := by simp
    have my : v.y ∈ [v.x, v.y, v.z, s.xx, s.yy, s.zz, pi, u] := by simp
    have mz : v.z ∈ [v.x, v.y, v.z, s.xx, s.yy, s.zz, pi, u] := by simp
    have mxx : s.xx ∈ [v.x, v.y, v.z, s.xx, s.yy, s.zz, pi, u] := by simp
    have myy : s.yy ∈ [v.x, v.y, v.z, s.xx, s.yy, s.zz, pi, u] := by simp
    have mzz : s.zz ∈ [v.x, v.y, v.z, s.xx, s.yy, s.zz, pi, u] := by simp
    have mpi : pi ∈ [v.x, v.y, v.z, s.xx, s.yy, s.zz, pi, u] := by simp
    have mu : u ∈ [v.x, v.y, v.z, s.xx, s.yy, s.zz, pi, u] := by simp
    refine ⟨r1, r2, r3, fun _ => ⟨?_, ?_, ?_, w1, w2, w3⟩, fun _ => ⟨?_, ?_, ?_, w6⟩,
      fun _ => ⟨?_, ?_, ?_, ?_, ?_, ?_, ?_, ?_, ?_, ?_, ?_, ?_, ?_, ?_, w5, w4⟩⟩
    · exact key _ mx 0 0 0 (by decide) _ _ _ (by omega) (by omega) (by omega)
    · exact key _ my 0 0 0 (by decide) _ _ _ (by omega) (by omega) (by omega)
    · exact key _ mz 0 0 0 (by decide) _ _ _ (by omega) (by omega) (by omega)
    · exact key _ mxx 0 0 0 (by decide) _ _ _ (by omega) (by omega) (by omega)
    · exact key _ myy 0 0 0 (by decide) _ _ _ (by omega) (by omega) (by omega)
    · exact key _ mzz 0 0 0 (by decide) _ _ _ (by omega) (by omega) (by omega)
    · exact key _ mx 1 0 0 (by decide) _ _ _ (by omega) (by omega) (by omega)
    · exact key _ mx 0 0 0 (by decide) _ _ _ (by omega) (by omega) (by omega)
    · exact key _ mx 0 0 1 (by decide) _ _ _ (by omega) (by omega) (by omega)
    · exact key _ mx 0 (-1) 0 (by decide) _ _ _ (by omega) (by omega) (by omega)
    · exact key _ my 0 1 0 (by decide) _ _ _ (by omega) (by omega) (by omega)
    · exact key _ my 0 0 0 (by decide) _ _ _ (by omega) (by omega) (by omega)
    · exact key _ my 0 0 1 (by decide) _ _ _ (by omega) (by omega) (by omega)
    · exact key _ my (-1) 0 0 (by decide) _ _ _ (by omega) (by omega) (by omega)
    · exact key _ mz 0 1 0 (by decide) _ _ _ (by omega) (by omega) (by omega)
    · exact key _ mz 0 0 0 (by decide) _ _ _ (by omega) (by omega) (by omega)
    · exact key _ mz 1 0 0 (by decide) _ _ _ (by omega) (by omega) (by omega)
    · exact key _ mz 0 0 (-1) (by decide) _ _ _ (by omega) (by omega) (by omega)
    · exact key _ mu 0 0 0 (by decide) _ _ _ (by omega) (by omega) (by omega)
    · exact key _ mpi 0 0 0 (by decide) _ _ _ (by omega) (by omega) (by omega)
  obtain ⟨sec1, hrun, -⟩ := seismo_spec sqrt SEISMO DX DY DZ lsamp ntr recpos sec v s pi u hok
  exact ⟨hok, sec1, hrun⟩

theorem stencil_reach_witness :
    ((∀ itr : Int, 1 ≤ itr → itr ≤ 1 →
      sampleRecpos.inb 1 itr = true ∧ sampleRecpos.inb 2 itr = true ∧
      sampleRecpos.inb 3 itr = true ∧
      sampleSections.sectionvx.inb itr 1 = true ∧ sampleSections.sectionvy.inb itr 1 = true ∧
      sampleSections.sectionvz.inb itr 1 = true ∧ sampleSections.sectiondiv.inb itr 1 = true ∧
      sampleSections.sectioncurl.inb itr 1 = true ∧ sampleSections.sectionp.inb itr 1 = true) ∧
     (∀ itr : Int, 1 ≤ itr → itr ≤ 1 →
      ∀ a ∈ [sampleCross 1 2 3 0, sampleCross 2 (-1) 1 1, sampleCross (-1) 0 5 0,
        sampleCross 0 0 0 3, sampleCross 0 0 0 3, sampleCross 0 0 0 3,
        sampleCross 0 0 0 4, sampleCross 0 0 0 2], ∀ dj di dk : Int, Reach dj di dk →
        a.inb (sampleRecpos.val 2 itr + dj) (sampleRecpos.val 1 itr + di)
          (sampleRecpos.val 3 itr + dk) = true) ∧
     (sampleCross 1 2 3 0).inb 2 2 1 = false ∧ (sampleCross 1 2 3 0).inb 3 1 1 = false) ∧
    ((∀ itr : Int, 1 ≤ itr → itr ≤ 1 →
      ReceiverOk 4 1 itr sampleRecpos sampleSections
        ⟨sampleCross 1 2 3 0, sampleCross 2 (-1) 1 1, sampleCross (-1) 0 5 0⟩
        ⟨sampleCross 0 0 0 3, sampleCross 0 0 0 3, sampleCross 0 0 0 3⟩
        (sampleCross 0 0 0 4) (sampleCross 0 0 0 2)) ∧
     ∃ sec1, seismo (fun x => x) 4 1 1 1 1 1 sampleRecpos sampleSections
        ⟨sampleCross 1 2 3 0, sampleCross 2 (-1) 1 1, sampleCross (-1) 0 5 0⟩
        ⟨sampleCross 0 0 0 3, sampleCross 0 0 0 3, sampleCross 0 0 0 3⟩
        (sampleCross 0 0 0 4) (sampleCross 0 0 0 2) = .ok sec1) :=
  have hrec : ∀ itr : Int, 1 ≤ itr → itr ≤ 1 →
      sampleRecpos.inb 1 itr = true ∧ sampleRecpos.inb 2 itr = true ∧
      sampleRecpos.inb 3 itr = true ∧
      sampleSections.sectionvx.inb itr 1 = true ∧ sampleSections.sectionvy.inb itr 1 = true ∧
      sampleSections.sectionvz.inb itr 1 = true ∧ sampleSections.sectiondiv.inb itr 1 = true ∧
      sampleSections.sectioncurl.inb itr 1 = true ∧ sampleSections.sectionp.inb itr 1 = true :=
    fun itr h1 h2 => by
      have e : itr = 1 := by omega
      subst e
      exact ⟨rfl, rfl, rfl, rfl, rfl, rfl, rfl, rfl, rfl⟩
  have hreach : ∀ itr : Int, 1 ≤ itr → itr ≤ 1 →
      ∀ a ∈ [sampleCross 1 2 3 0, sampleCross 2 (-1) 1 1, sampleCross (-1) 0 5 0,
        sampleCross 0 0 0 3, sampleCross 0 0 0 3, sampleCross 0 0 0 3,
        sampleCross 0 0 0 4, sampleCross 0 0 0 2], ∀ dj di dk : Int, Reach dj di dk →
        a.inb (sampleRecpos.val 2 itr + dj) (sampleRecpos.val 1 itr + di)
          (sampleRecpos.val 3 itr + dk) = true :=
    fun itr h1 h2 a ha dj di dk hr => by
      have e : itr = 1 := by omega
      subst e
      exact sampleCross_receiver_reach a ha dj di dk hr
  ⟨⟨hrec, hreach, by decide, by decide⟩,
    stencil_reach (fun x => x) 4 1 1 1 1 1 sampleRecpos sampleSections
      ⟨sampleCross 1 2 3 0, sampleCross 2 (-1) 1 1, sampleCross (-1) 0 5 0⟩
      ⟨sampleCross 0 0 0 3, sampleCross 0 0 0 3, sampleCross 0 0 0 3⟩
      (sampleCross 0 0 0 4) (sampleCross 0 0 0 2) hrec hreach⟩

theorem Sections.eq_of_sections {a b : Sections α} (h1 : a.sectionvx = b.sectionvx)
    (h2 : a.sectionvy = b.sectionvy) (h3 : a.sectionvz = b.sectionvz)
    (h4 : a.sectiondiv = b.sectiondiv) (h5 : a.sectioncurl = b.sectioncurl)
    (h6 : a.sectionp = b.sectionp) : a = b := by
  cases a
  cases b
  simp only at h1 h2 h3 h4 h5 h6
  subst h1
  subst h2
  subst h3
  subst h4
  subst h5
  subst h6
  rfl

/-- C20. Frame of `seismo`: when every access of the receivers `1..ntr` is
inside the arrays, one call `seismo(lsamp, ntr, ...)` returns section matrices
that differ from those before the call at most in the cells `[r][lsamp]` with
`1 ≤ r ≤ ntr`; the matrices of the quantities that the mode does not select
(mode 1: `vx, vy, vz`; 2: `p`; 3: `div, curl`; 4: all six) are unchanged, and
for `SEISMO` outside `1..4` all six are.  The wavefield and material arrays are
arguments that `seismo` only reads. -/
theorem seismo_frame [LinearOrderedField α] (sqrt : α → α) (SEISMO : Int) (DX DY DZ : α)
    (lsamp ntr : Int) (recpos : Arr2 Int) (sec : Sections α)
    (v : Velocity α) (s : Tensor3d α) (pi u : Arr3 α)
    (hok : ∀ itr, 1 ≤ itr → itr ≤ ntr → ReceiverOk SEISMO lsamp itr recpos sec v s pi u) :
    ∃ sec1, seismo sqrt SEISMO DX DY DZ lsamp ntr recpos sec v s pi u = .ok sec1 ∧
      (∀ m ∈ [(sec.sectionvx, sec1.sectionvx), (sec.sectionvy, sec1.sectionvy),
          (sec.sectionvz, sec1.sectionvz), (sec.sectiondiv, sec1.sectiondiv),
          (sec.sectioncurl, sec1.sectioncurl), (sec.sectionp, sec1.sectionp)],
        m.2.inb = m.1.inb ∧
          ∀ r c, ¬ (c = lsamp ∧ 1 ≤ r ∧ r ≤ ntr) → m.2.val r c = m.1.val r c) ∧
      (¬ (SEISMO = 1 ∨ SEISMO = 4) → sec1.sectionvx = sec.sectionvx ∧
        sec1.sectionvy = sec.sectionvy ∧ sec1.sectionvz = sec.sectionvz) ∧
      (¬ (SEISMO = 2 ∨ SEISMO = 4) → sec1.sectionp = sec.sectionp) ∧
      (¬ (SEISMO = 3 ∨ SEISMO = 4) → sec1.sectiondiv = sec.sectiondiv ∧
        sec1.sectioncurl = sec.sectioncurl) ∧
      ((SEISMO < 1 ∨ 4 < SEISMO) → sec1 = sec) := by
  obtain ⟨sec1, hrun, hfr, hun, -⟩ :=
    seismo_spec sqrt SEISMO DX DY DZ lsamp ntr recpos sec v s pi u hok
  obtain ⟨f1, f2, f3, f4, f5, f6⟩ := hfr
  have conv : ∀ a a1 : Arr2 α, a.SameExcept a1 (fun r c => c = lsamp ∧ 1 ≤ r ∧ r < ntr + 1) →
      a1.inb = a.inb ∧ ∀ r c, ¬ (c = lsamp ∧ 1 ≤ r ∧ r ≤ ntr) → a1.val r c = a.val r c :=
    fun a a1 h => ⟨h.1, fun r c hn => h.2 r c (fun hp => hn ⟨hp.1, hp.2.1, by omega⟩)⟩
  refine ⟨sec1, hrun, ?_, hun.1, hun.2.1, hun.2.2, fun hout => ?_⟩
  · intro m hm
    simp only [List.mem_cons, List.mem_singleton, List.not_mem_nil, or_false] at hm
    rcases hm with rfl | rfl | rfl | rfl | rfl | rfl
    · exact conv _ _ f1
    · exact conv _ _ f2
    · exact conv _ _ f3
    · exact conv _ _ f4
    · exact conv _ _ f5
    · exact conv _ _ f6
  · obtain ⟨e1, e2, e3⟩ := hun.1 (by omega)
    have e6 := hun.2.1 (by omega)
    obtain ⟨e4, e5⟩ := hun.2.2 (by omega)
    exact Sections.eq_of_sections e1 e2 e3 e4 e5 e6

theorem seismo_frame_witness :
    (∀ itr, 1 ≤ itr → itr ≤ 2 →
      ReceiverOk 3 1 itr sampleRecpos sampleSections sampleVelocity sampleStress
        (sampleField 0 0 0 4) (sampleField 0 0 0 2)) ∧
    ∃ sec1, seismo (fun x => x) 3 1 1 1 1 2 sampleRecpos sampleSections sampleVelocity
        sampleStress (sampleField 0 0 0 4) (sampleField 0 0 0 2) = .ok sec1 ∧
      (∀ m ∈ [(sampleSections.sectionvx, sec1.sectionvx),
          (sampleSections.sectionvy, sec1.sectionvy),
          (sampleSections.sectionvz, sec1.sectionvz),
          (sampleSections.sectiondiv, sec1.sectiondiv),
          (sampleSections.sectioncurl, sec1.sectioncurl),
          (sampleSections.sectionp, sec1.sectionp)],
        m.2.inb = m.1.inb ∧
          ∀ r c, ¬ (c = 1 ∧ 1 ≤ r ∧ r ≤ 2) → m.2.val r c = m.1.val r c) ∧
      (¬ ((3 : Int) = 1 ∨ (3 : Int) = 4) → sec1.sectionvx = sampleSections.sectionvx ∧
        sec1.sectionvy = sampleSections.sectionvy ∧
        sec1.sectionvz = sampleSections.sectionvz) ∧
      (¬ ((3 : Int) = 2 ∨ (3 : Int) = 4) → sec1.sectionp = sampleSections.sectionp) ∧
      (¬ ((3 : Int) = 3 ∨ (3 : Int) = 4) → sec1.sectiondiv = sampleSections.sectiondiv ∧
        sec1.sectioncurl = sampleSections.sectioncurl) ∧
      (((3 : Int) < 1 ∨ (4 : Int) < 3) → sec1 = sampleSections) :=
  ⟨sample_receivers_ok 3,
    seismo_frame (fun x => x) 3 1 1 1 1 2 sampleRecpos sampleSections sampleVelocity
      sampleStress (sampleField 0 0 0 4) (sampleField 0 0 0 2) (sample_receivers_ok 3)⟩

end SeismoMore
/-! ## model_acoustic.c: the owned block -/

section Model

variable {α : Type}

/-- On one axis the ownership test holds exactly for the global indices whose
local index lies in `1..NX`. -/
theorem owned_axis {i NX p : Int} (hN : 1 ≤ NX) (hi : 1 ≤ i) :
    p = (i - 1).tdiv NX ↔ (1 ≤ i - p * NX ∧ i - p * NX ≤ NX) := by
  obtain ⟨h0, h1, h2⟩ := tdiv_block hi hN
  constructor
  · rintro rfl
    exact ⟨h1, h2⟩
  · rintro ⟨h3, h4⟩
    generalize (i - 1).tdiv NX = q at h0 h1 h2
    rcases lt_trichotomy p q with hlt | heq | hgt
    · exfalso
      have h5 : (p + 1) * NX ≤ q * NX := mul_le_mul_of_nonneg_right (by omega) (by omega)
      have e : (p + 1) * NX = p * NX + NX := by ring
      omega
    · exact heq
    · exfalso
      have h5 : (q + 1) * NX ≤ p * NX := mul_le_mul_of_nonneg_right (by omega) (by omega)
      have e : (q + 1) * NX = q * NX + NX := by ring
      omega

theorem Arr3.write_ok (a : Arr3 α) (i j k : Int) (x : α) (h : a.inb i j k = true) :
    a.write i j k x = .ok { a with val := fun i1 j1 k1 =>
      if i1 = i ∧ j1 = j ∧ k1 = k then x else a.val i1 j1 k1 } := by
  unfold Arr3.write
  rw [if_pos h]

/-- The invariant only depends on which cells of the block came before. -/
theorem ModelInv.move [Field α] {NX NY NZ : Int} {POS : Int → Int} {rho0 pi0 : Arr3 α}
    {j i k j1 i1 k1 : Int} {st : Arr3 α × Arr3 α}
    (h : ModelInv NX NY NZ POS rho0 pi0 j i k st)
    (hiff : ∀ jj ii kk, InBlock NX NY NZ jj ii kk →
      (Before (jj + POS 2 * NY) (ii + POS 1 * NX) (kk + POS 3 * NZ) j i k ↔
        Before (jj + POS 2 * NY) (ii + POS 1 * NX) (kk + POS 3 * NZ) j1 i1 k1)) :
    ModelInv NX NY NZ POS rho0 pi0 j1 i1 k1 st := by
  obtain ⟨h1, h2, h3⟩ := h
  refine ⟨h1, h2, fun jj ii kk => ⟨fun ha => ?_, fun hna => ?_⟩⟩
  · exact (h3 jj ii kk).1 ⟨ha.1, (hiff jj ii kk ha.1).mpr ha.2⟩
  · exact (h3 jj ii kk).2 (fun ha => hna ⟨ha.1, (hiff jj ii kk ha.1).mp ha.2⟩)

/-- One round of the innermost loop of `model_acoustic`. -/
theorem model_round [Field α] (NX NY NZ : Int) (POS : Int → Int) (rho0 pi0 : Arr3 α)
    (hNX : 1 ≤ NX) (hNY : 1 ≤ NY) (hNZ : 1 ≤ NZ)
    (hrho : ∀ jj ii kk, InBlock NX NY NZ jj ii kk → rho0.inb jj ii kk = true)
    (hpi : ∀ jj ii kk, InBlock NX NY NZ jj ii kk → pi0.inb jj ii kk = true)
    (j i k : Int) (hj : 1 ≤ j) (hi : 1 ≤ i) (hk : 1 ≤ k) (st : Arr3 α × Arr3 α)
    (hinv : ModelInv NX NY NZ POS rho0 pi0 j i k st) :
    ∃ st1, (do
        let Vp : α := 3500
        let Rhov : α := 2000
        let piv := Vp * Vp * Rhov
        if owns NX NY NZ POS i j k then
          let (ii, jj, kk) := localCoord NX NY NZ POS i j k
          let rho ← st.1.write jj ii kk Rhov
          let pi ← st.2.write jj ii kk piv
          return (rho, pi)
        else
          return st : Except Err (Arr3 α × Arr3 α)) = .ok st1 ∧
      ModelInv NX NY NZ POS rho0 pi0 j i (k + 1) st1 := by
  obtain ⟨h1, h2, h3⟩ := hinv
  have hax := owned_axis (p := POS 1) hNX hi
  have hay := owned_axis (p := POS 2) hNY hj
  have haz := owned_axis (p := POS 3) hNZ hk
  by_cases hown : owns NX NY NZ POS i j k = true
  · obtain ⟨o1, o2, o3⟩ := (owns_iff NX NY NZ POS i j k).mp hown
    obtain ⟨x1, x2⟩ := hax.mp o1
    obtain ⟨y1, y2⟩ := hay.mp o2
    obtain ⟨z1, z2⟩ := haz.mp o3
    have hblk : InBlock NX NY NZ (j - POS 2 * NY) (i - POS 1 * NX) (k - POS 3 * NZ) :=
      ⟨y1, y2, x1, x2, z1, z2⟩
    have hw1 := Arr3.write_ok st.1 (j - POS 2 * NY) (i - POS 1 * NX) (k - POS 3 * NZ)
      (2000 : α) (by rw [h1]; exact hrho _ _ _ hblk)
    have hw2 := Arr3.write_ok st.2 (j - POS 2 * NY) (i - POS 1 * NX) (k - POS 3 * NZ)
      ((3500 : α) * 3500 * 2000) (by rw [h2]; exact hpi _ _ _ hblk)
    refine ⟨({ st.1 with
        val := fun i1 j1 k1 =>
          if i1 = j - POS 2 * NY ∧ j1 = i - POS 1 * NX ∧ k1 = k - POS 3 * NZ then (2000 : α)
          else st.1.val i1 j1 k1 },
      { st.2 with
        val := fun i1 j1 k1 =>
          if i1 = j - POS 2 * NY ∧ j1 = i - POS 1 * NX ∧ k1 = k - POS 3 * NZ then
            ((3500 : α) * 3500 * 2000)
          else st.2.val i1 j1 k1 }), ?_, ?_⟩
    · rw [if_pos hown]
      show (st.1.write (j - POS 2 * NY) (i - POS 1 * NX) (k - POS 3 * NZ) (2000 : α) >>=
        fun rho => st.2.write (j - POS 2 * NY) (i - POS 1 * NX) (k - POS 3 * NZ)
          ((3500 : α) * 3500 * 2000) >>= fun pi => pure (rho, pi)) = _
      rw [hw1]
      show (st.2.write (j - POS 2 * NY) (i - POS 1 * NX) (k - POS 3 * NZ)
          ((3500 : α) * 3500 * 2000) >>= fun pi => pure (_, pi)) = _
      rw [hw2]
      rfl
    · refine ⟨h1, h2, fun jj ii kk => ?_⟩
      by_cases hc : jj = j - POS 2 * NY ∧ ii = i - POS 1 * NX ∧ kk = k - POS 3 * NZ
      · obtain ⟨rfl, rfl, rfl⟩ := hc
        refine ⟨fun _ => ?_, fun hna => absurd ⟨hblk, ?_⟩ hna⟩
        · exact ⟨if_pos ⟨rfl, rfl, rfl⟩, if_pos ⟨rfl, rfl, rfl⟩⟩
        · unfold Before
          omega
      · have hv1 : ({ st.1 with
            val := fun i1 j1 k1 =>
              if i1 = j - POS 2 * NY ∧ j1 = i - POS 1 * NX ∧ k1 = k - POS 3 * NZ then (2000 : α)
              else st.1.val i1 j1 k1 } : Arr3 α).val jj ii kk = st.1.val jj ii kk :=
          if_neg hc
        have hv2 : ({ st.2 with
            val := fun i1 j1 k1 =>
              if i1 = j - POS 2 * NY ∧ j1 = i - POS 1 * NX ∧ k1 = k - POS 3 * NZ then
                ((3500 : α) * 3500 * 2000)
              else st.2.val i1 j1 k1 } : Arr3 α).val jj ii kk = st.2.val jj ii kk :=
          if_neg hc
        have hiff : Before (jj + POS 2 * NY) (ii + POS 1 * NX) (kk + POS 3 * NZ) j i (k + 1) ↔
            Before (jj + POS 2 * NY) (ii + POS 1 * NX) (kk + POS 3 * NZ) j i k := by
          unfold Before
          omega
        show (_ → _ ∧ _) ∧ (_ → _ ∧ _)
        rw [hv1, hv2, hiff]
        exact h3 jj ii kk
  · refine ⟨st, ?_, ?_⟩
    · rw [if_neg hown]
      rfl
    · refine ModelInv.move ⟨h1, h2, h3⟩ (fun jj ii kk hb => ?_)
      obtain ⟨b1, b2, b3, b4, b5, b6⟩ := hb
      have hne : ¬ (jj + POS 2 * NY = j ∧ ii + POS 1 * NX = i ∧ kk + POS 3 * NZ = k) := by
        rintro ⟨e1, e2, e3⟩
        apply hown
        rw [owns_iff]
        exact ⟨hax.mpr (by omega), hay.mpr (by omega), haz.mpr (by omega)⟩
      unfold Before
      omega

/-- The row of the innermost loop: all of `k = 1..NZG` at fixed `j`, `i`. -/
theorem model_row [Field α] (NX NY NZ NZG : Int) (POS : Int → Int) (rho0 pi0 : Arr3 α)
    (hNX : 1 ≤ NX) (hNY : 1 ≤ NY) (hNZ : 1 ≤ NZ) (hP3 : 0 ≤ POS 3)
    (hZ : (POS 3 + 1) * NZ ≤ NZG)
    (hrho : ∀ jj ii kk, InBlock NX NY NZ jj ii kk → rho0.inb jj ii kk = true)
    (hpi : ∀ jj ii kk, InBlock NX NY NZ jj ii kk → pi0.inb jj ii kk = true)
    (j i : Int) (hj : 1 ≤ j) (hi : 1 ≤ i) (st : Arr3 α × Arr3 α)
    (hinv : ModelInv NX NY NZ POS rho0 pi0 j i 1 st) :
    ∃ st1, (forLoop 1 NZG st fun k st => do
        let Vp : α := 3500
        let Rhov : α := 2000
        let piv := Vp * Vp * Rhov
        if owns NX NY NZ POS i j k then
          let (ii, jj, kk) := localCoord NX NY NZ POS i j k
          let rho ← st.1.write jj ii kk Rhov
          let pi ← st.2.write jj ii kk piv
          return (rho, pi)
        else
          return st : Except Err (Arr3 α × Arr3 α)) = .ok st1 ∧
      ModelInv NX NY NZ POS rho0 pi0 j (i + 1) 1 st1 := by
  have p3 : 0 ≤ POS 3 * NZ := mul_nonneg hP3 (by omega)
  have e3 : (POS 3 + 1) * NZ = POS 3 * NZ + NZ := by ring
  refine forLoopE_rule _ (fun k st => ModelInv NX NY NZ POS rho0 pi0 j i k st) _ 1 NZG st
    (by omega) hinv ?_ ?_
  · intro k st1 hk1 _ hI
    exact model_round NX NY NZ POS rho0 pi0 hNX hNY hNZ hrho hpi j i k hj hi hk1 st1 hI
  · intro st1 hI
    refine ModelInv.move hI (fun jj ii kk hb => ?_)
    obtain ⟨b1, b2, b3, b4, b5, b6⟩ := hb
    unfold Before
    omega

/-- The plane of the middle loop: all of `i = 1..NXG` at fixed `j`. -/
theorem model_plane [Field α] (NX NY NZ NXG NZG : Int) (POS : Int → Int) (rho0 pi0 : Arr3 α)
    (hNX : 1 ≤ NX) (hNY : 1 ≤ NY) (hNZ : 1 ≤ NZ) (hP1 : 0 ≤ POS 1) (hP3 : 0 ≤ POS 3)
    (hX : (POS 1 + 1) * NX ≤ NXG) (hZ : (POS 3 + 1) * NZ ≤ NZG)
    (hrho : ∀ jj ii kk, InBlock NX NY NZ jj ii kk → rho0.inb jj ii kk = true)
    (hpi : ∀ jj ii kk, InBlock NX NY NZ jj ii kk → pi0.inb jj ii kk = true)
    (j : Int) (hj : 1 ≤ j) (st : Arr3 α × Arr3 α)
    (hinv : ModelInv NX NY NZ POS rho0 pi0 j 1 1 st) :
    ∃ st1, (forLoop 1 NXG st fun i st =>
        forLoop 1 NZG st fun k st => do
          let Vp : α := 3500
          let Rhov : α := 2000
          let piv := Vp * Vp * Rhov
          if owns NX NY NZ POS i j k then
            let (ii, jj, kk) := localCoord NX NY NZ POS i j k
            let rho ← st.1.write jj ii kk Rhov
            let pi ← st.2.write jj ii kk piv
            return (rho, pi)
          else
            return st : Except Err (Arr3 α × Arr3 α)) = .ok st1 ∧
      ModelInv NX NY NZ POS rho0 pi0 (j + 1) 1 1 st1 := by
  have p1 : 0 ≤ POS 1 * NX := mul_nonneg hP1 (by omega)
  have e1 : (POS 1 + 1) * NX = POS 1 * NX + NX := by ring
  have p3 : 0 ≤ POS 3 * NZ := mul_nonneg hP3 (by omega)
  refine forLoopE_rule _ (fun i st => ModelInv NX NY NZ POS rho0 pi0 j i 1 st) _ 1 NXG st
    (by omega) hinv ?_ ?_
  · intro i st1 hi1 _ hI
    exact model_row NX NY NZ NZG POS rho0 pi0 hNX hNY hNZ hP3 hZ hrho hpi j i hj hi1 st1 hI
  · intro st1 hI
    refine ModelInv.move hI (fun jj ii kk hb => ?_)
    obtain ⟨b1, b2, b3, b4, b5, b6⟩ := hb
    unfold Before
    omega

/-- C22. For extents `NX, NY, NZ ≥ 1` and rank coordinates `POS[1..3] ≥ 0` with
`(POS[n]+1) * N ≤ NG` on every axis, `model_acoustic` returns, on arrays that
need not exist anywhere but on the local block `[1..NY] x [1..NX] x [1..NZ]`
(a write outside it would fault); afterwards every cell of the block holds
`rho = 2000` and `pi = 3500*3500*2000` (exact arithmetic), and every cell
outside the block holds what it held before. -/
theorem model_acoustic_fills_block [Field α] (NX NY NZ NXG NYG NZG : Int) (POS : Int → Int)
    (rho pi : Arr3 α)
    (hNX : 1 ≤ NX) (hNY : 1 ≤ NY) (hNZ : 1 ≤ NZ)
    (hP1 : 0 ≤ POS 1) (hP2 : 0 ≤ POS 2) (hP3 : 0 ≤ POS 3)
    (hX : (POS 1 + 1) * NX ≤ NXG) (hY : (POS 2 + 1) * NY ≤ NYG)
    (hZ : (POS 3 + 1) * NZ ≤ NZG)
    (hrho : ∀ jj ii kk, InBlock NX NY NZ jj ii kk → rho.inb jj ii kk = true)
    (hpi : ∀ jj ii kk, InBlock NX NY NZ jj ii kk → pi.inb jj ii kk = true) :
    ∃ rho1 pi1, model_acoustic NX NY NZ NXG NYG NZG POS rho pi = .ok (rho1, pi1) ∧
      rho1.inb = rho.inb ∧ pi1.inb = pi.inb ∧
      (∀ jj ii kk, InBlock NX NY NZ jj ii kk →
        rho1.val jj ii kk = 2000 ∧ pi1.val jj ii kk = 3500 * 3500 * 2000) ∧
      (∀ jj ii kk, ¬ InBlock NX NY NZ jj ii kk →
        rho1.val jj ii kk = rho.val jj ii kk ∧ pi1.val jj ii kk = pi.val jj ii kk) := by
  have p1 : 0 ≤ POS 1 * NX := mul_nonneg hP1 (by omega)
  have p2 : 0 ≤ POS 2 * NY := mul_nonneg hP2 (by omega)
  have e2 : (POS 2 + 1) * NY = POS 2 * NY + NY := by ring
  have p3 : 0 ≤ POS 3 * NZ := mul_nonneg hP3 (by omega)
  have h0 : ModelInv NX NY NZ POS rho pi 1 1 1 (rho, pi) := by
    refine ⟨rfl, rfl, fun jj ii kk => ⟨fun ha => ?_, fun _ => ⟨rfl, rfl⟩⟩⟩
    obtain ⟨⟨b1, b2, b3, b4, b5, b6⟩, hb⟩ := ha
    unfold Before at hb
    omega
  obtain ⟨st1, hrun, hfin⟩ := forLoopE_inv
    (fun j st => forLoop 1 NXG st fun i st =>
        forLoop 1 NZG st fun k st => do
          let Vp : α := 3500
          let Rhov : α := 2000
          let piv := Vp * Vp * Rhov
          if owns NX NY NZ POS i j k then
            let (ii, jj, kk) := localCoord NX NY NZ POS i j k
            let rho ← st.1.write jj ii kk Rhov
            let pi ← st.2.write jj ii kk piv
            return (rho, pi)
          else
            return st)
    (fun j st => ModelInv NX NY NZ POS rho pi j 1 1 st) 1 NYG (rho, pi) (by omega) h0
    (fun j st1 hj1 _ hI =>
      model_plane NX NY NZ NXG NZG POS rho pi hNX hNY hNZ hP1 hP3 hX hZ hrho hpi j hj1 st1 hI)
  obtain ⟨g1, g2, g3⟩ := hfin
  refine ⟨st1.1, st1.2, hrun, g1, g2, fun jj ii kk hb => ?_, fun jj ii kk hnb => ?_⟩
  · refine (g3 jj ii kk).1 ⟨hb, ?_⟩
    obtain ⟨b1, b2, b3, b4, b5, b6⟩ := hb
    unfold Before
    omega
  · exact (g3 jj ii kk).2 (fun ha => hnb ha.1)

/-- Witness of `model_acoustic_fills_block`: the rank `(1, 0, 0)` of a
`6 x 4 x 2` grid cut into blocks of `3 x 2 x 2`, on arrays that exist only on
the local block. -/
theorem model_acoustic_fills_block_witness :
    ((1 : Int) ≤ 3 ∧ (1 : Int) ≤ 2 ∧ 0 ≤ posOf 1 0 0 1 ∧ (posOf 1 0 0 1 + 1) * 3 ≤ 6 ∧
      (posOf 1 0 0 2 + 1) * 2 ≤ 4 ∧ (posOf 1 0 0 3 + 1) * 2 ≤ 2 ∧
      sampleModel.inb 0 1 1 = false ∧ sampleModel.inb 1 4 1 = false) ∧
    ∃ rho1 pi1, model_acoustic 3 2 2 6 4 2 (posOf 1 0 0) sampleModel sampleModel =
        .ok (rho1, pi1) ∧
      rho1.inb = sampleModel.inb ∧ pi1.inb = sampleModel.inb ∧
      (∀ jj ii kk, InBlock 3 2 2 jj ii kk →
        rho1.val jj ii kk = 2000 ∧ pi1.val jj ii kk = 3500 * 3500 * 2000) ∧
      (∀ jj ii kk, ¬ InBlock 3 2 2 jj ii kk →
        rho1.val jj ii kk = sampleModel.val jj ii kk ∧
          pi1.val jj ii kk = sampleModel.val jj ii kk) :=
  ⟨by decide,
    model_acoustic_fills_block 3 2 2 6 4 2 (posOf 1 0 0) sampleModel sampleModel
      (by decide) (by decide) (by decide) (by decide) (by decide) (by decide)
      (by decide) (by decide) (by decide)
      (fun jj ii kk hb => by
        obtain ⟨b1, b2, b3, b4, b5, b6⟩ := hb
        exact decide_eq_true ⟨b1, b2, b3, b4, b5, b6⟩)
      (fun jj ii kk hb => by
        obtain ⟨b1, b2, b3, b4, b5, b6⟩ := hb
        exact decide_eq_true ⟨b1, b2, b3, b4, b5, b6⟩)⟩

end Model

/-! ## Seismogram collection (catseis.c) -/

section CatseisSend

variable {α : Type}

theorem countFlags_step (flag : Int → Int) (k : Int) (hk : 1 ≤ k) :
    countFlags flag k.toNat = countFlags flag (k - 1).toNat + (if flag k ≠ 0 then 1 else 0) := by
  have h1 : k.toNat = (k - 1).toNat + 1 := by omega
  have h2 : (((k - 1).toNat : Nat) : Int) + 1 = k := by omega
  rw [h1]
  show countFlags flag (k - 1).toNat
      + (if flag ((((k - 1).toNat : Nat) : Int) + 1) ≠ 0 then 1 else 0) = _
  rw [h2]

theorem countFlags_nonneg (flag : Int → Int) (n : Nat) : 0 ≤ countFlags flag n := by
  induction n with
  | zero => exact le_refl _
  | succ n ih =>
    show 0 ≤ countFlags flag n + (if flag ((n : Int) + 1) ≠ 0 then 1 else 0)
    split <;> omega

theorem countFlags_succ_le (flag : Int → Int) (n : Nat) :
    countFlags flag n ≤ countFlags flag (n + 1) := by
  show countFlags flag n ≤ countFlags flag n + (if flag ((n : Int) + 1) ≠ 0 then 1 else 0)
  split <;> omega

theorem countFlags_mono (flag : Int → Int) {n m : Nat} (hnm : n ≤ m) :
    countFlags flag n ≤ countFlags flag m := by
  induction hnm with
  | refl => exact le_refl _
  | step _ ih => exact le_trans ih (countFlags_succ_le flag _)

/-- The cells behind a successful read of `m[i][j]`. -/
theorem matAt_cells {h : Heap α} {mb : Nat} {mo i j : Int}
    (hs : (h.matAt ⟨mb, mo⟩ i j).isSome = true) :
    ∃ rb ro a, h.inb ⟨mb, mo + i⟩ ∧ h.cell mb (mo + i) = .ptr (some ⟨rb, ro⟩) ∧
      h.inb ⟨rb, ro + j⟩ ∧ h.cell rb (ro + j) = .flt a ∧ h.matAt ⟨mb, mo⟩ i j = some a := by
  by_cases hin : h.inb ⟨mb, mo + i⟩
  · cases hc : h.cell mb (mo + i) with
    | flt a =>
      have : h.matAt ⟨mb, mo⟩ i j = none := by
        simp [Heap.matAt, getFlt2, at2, loadPtr, ptr_add, hin, hc, bind, StateT.bind, Except.bind]
      rw [this] at hs; cases hs
    | int n =>
      have : h.matAt ⟨mb, mo⟩ i j = none := by
        simp [Heap.matAt, getFlt2, at2, loadPtr, ptr_add, hin, hc, bind, StateT.bind, Except.bind]
      rw [this] at hs; cases hs
    | ptr q =>
      cases q with
      | none =>
        have : h.matAt ⟨mb, mo⟩ i j = none := by
          simp [Heap.matAt, getFlt2, at2, loadPtr, ptr_add, hin, hc, bind, StateT.bind,
            Except.bind]
        rw [this] at hs; cases hs
      | some r =>
        obtain ⟨rb, ro⟩ := r
        have hat : (at2 ⟨mb, mo⟩ i j : M α Ptr) h = .ok (⟨rb, ro + j⟩, h) :=
          ok_eq (ok_at2 ⟨rb, ro⟩ hin hc ⟨rfl, rfl⟩)
        by_cases hin2 : h.inb ⟨rb, ro + j⟩
        · cases hc2 : h.cell rb (ro + j) with
          | flt a =>
            refine ⟨rb, ro, a, hin, rfl, hin2, hc2, ?_⟩
            unfold Heap.matAt getFlt2
            rw [bind_ok hat, loadFlt_ok hin2 hc2]
          | int n =>
            have : h.matAt ⟨mb, mo⟩ i j = none := by
              unfold Heap.matAt getFlt2
              rw [bind_ok hat]
              simp [loadFlt, hin2, hc2]
            rw [this] at hs; cases hs
          | ptr q =>
            have : h.matAt ⟨mb, mo⟩ i j = none := by
              unfold Heap.matAt getFlt2
              rw [bind_ok hat]
              simp [loadFlt, hin2, hc2]
            rw [this] at hs; cases hs
        · have : h.matAt ⟨mb, mo⟩ i j = none := by
            unfold Heap.matAt getFlt2
            rw [bind_ok hat]
            simp [loadFlt, hin2]
          rw [this] at hs; cases hs
  · have : h.matAt ⟨mb, mo⟩ i j = none := by
      simp [Heap.matAt, getFlt2, at2, loadPtr, ptr_add, hin, bind, StateT.bind, Except.bind]
    rw [this] at hs; cases hs

/-- A read of `m[i][j]` through given cells. -/
theorem matAt_of_cells {h : Heap α} {mb : Nat} {mo i j : Int} {rb : Nat} {ro : Int} {a : α}
    (hin : h.inb ⟨mb, mo + i⟩) (hc : h.cell mb (mo + i) = .ptr (some ⟨rb, ro⟩))
    (hin2 : h.inb ⟨rb, ro + j⟩) (hc2 : h.cell rb (ro + j) = .flt a) :
    h.matAt ⟨mb, mo⟩ i j = some a := by
  have hat : (at2 ⟨mb, mo⟩ i j : M α Ptr) h = .ok (⟨rb, ro + j⟩, h) :=
    ok_eq (ok_at2 ⟨rb, ro⟩ hin hc ⟨rfl, rfl⟩)
  unfold Heap.matAt getFlt2
  rw [bind_ok hat, loadFlt_ok hin2 hc2]

theorem intAt_of_cell {h : Heap α} {p : Ptr} {n : Int} (hc : h.cell p.blk p.off = .int n) :
    h.intAt p = n := by
  unfold Heap.intAt; rw [hc]

end CatseisSend

section CatseisSendSpec

variable {α : Type}

/-- What `catseis` has done on one process when it calls `MPI_Allreduce`: the
scratch matrix `fulldata2` is laid out over two fresh blocks, its row `i` holds
the local row `data[k]` (`k` the number of set flags up to `i`) when
`recswitch[i]` is set and zeros otherwise, the send buffer starts at the first
element, and no cell of an older block has changed. -/
theorem catseisSend_spec [Zero α] (h : Heap α) (data fulldata recswitch : Ptr) (ntr ns : Int)
    (hn : 1 ≤ ntr) (hs : 0 ≤ ns) (hm : h.mallocOk 2)
    (hflags : FlagsOk h recswitch ntr)
    (hdata : DataOk h data (countFlags (fun l => h.intAt (recswitch + l)) ntr.toNat) ns)
    (fb : Nat) (fo : Int) (hfin : h.inb (fulldata + (1 : Int)))
    (hfc : h.cell fulldata.blk (fulldata.off + 1) = .ptr (some ⟨fb, fo⟩)) :
    Ok (catseisSend data fulldata recswitch ntr ns) h (fun r h1 =>
      r = (⟨h.next, 0⟩, ⟨h.next + 1, 1⟩, ⟨fb, fo + 1⟩) ∧
      ∃ c, h1 = ((h.alloc (ntr - 1 + 1 + 1)).alloc
          ((ntr - 1 + 1) * (ns - 1 + 1) + 1)).withCells c ∧
        Rows c h.next (h.next + 1) 0 ns ntr ∧
        (∀ i j o, 1 ≤ i → i ≤ ntr → 1 ≤ j → j ≤ ns → o = 1 + ((i - 1) * ns + (j - 1)) →
          c (h.next + 1) o = .flt (scatter h data recswitch i j)) ∧
        (∀ f o, 0 ≤ f → f < ntr * ns → o = 1 + f → ∃ a, c (h.next + 1) o = .flt a) ∧
        (∀ b, b ≠ h.next → b ≠ h.next + 1 → ∀ o, c b o = h.cell b o)) := by
  have ho := hm h.next le_rfl (by omega)
  have ho1 := hm (h.next + 1) (by omega) (by omega)
  have hsz : 0 ≤ ntr * ns := mul_nonneg (by omega) hs
  have hb01 : h.next ≠ h.next + 1 := by omega
  obtain ⟨fdb, fdo⟩ := fulldata
  obtain ⟨db, dof⟩ := data
  obtain ⟨rb, rof⟩ := recswitch
  unfold catseisSend fmatrix
  apply ok_bind
  apply ok_mono (matrixOf_spec (.flt 0) _ _ 1 ntr 1 ns h ho ho1 hn (by omega))
  rintro m h1 ⟨rfl, c, rfl, hrow, hz, hfr⟩
  have e1 : ntr - 1 + 1 = ntr := by ring
  have e2 : ns - 1 + 1 = ns := by ring
  have e3 : (1 : Int) - 1 = 0 := by ring
  have e4 : (0 : Int) + 1 - 1 = 0 := by ring
  rw [e1, e2, e3] at hrow
  rw [e1, e2] at hz
  have hin0 : ∀ o, 1 ≤ o → o ≤ ntr →
      ((h.alloc (ntr - 1 + 1 + 1)).alloc ((ntr - 1 + 1) * (ns - 1 + 1) + 1)).inb
        ⟨h.next, o⟩ := fun o h1 h2 => alloc2_inb0 _ _ _ _ (by omega) (by omega)
  have hin1 : ∀ o, 1 ≤ o → o ≤ ntr * ns →
      ((h.alloc (ntr - 1 + 1 + 1)).alloc ((ntr - 1 + 1) * (ns - 1 + 1) + 1)).inb
        ⟨h.next + 1, o⟩ := fun o h1 h2 => alloc2_inb1 _ _ _ _ (by omega) (by rw [e1, e2]; omega)
  have hold : ∀ p, h.inb p →
      ((h.alloc (ntr - 1 + 1 + 1)).alloc ((ntr - 1 + 1) * (ns - 1 + 1) + 1)).inb p :=
    fun p hp => alloc_inb_old _ _ _ (alloc_inb_old _ _ _ hp)
  generalize hB : (h.alloc (ntr - 1 + 1 + 1)).alloc ((ntr - 1 + 1) * (ns - 1 + 1) + 1) = B
    at hin0 hin1 hold ⊢
  rw [e4]
  -- the scatter loop
  apply ok_bind_forLoop (fun k kk h1 =>
      kk = countFlags (fun l => h.intAt ((⟨rb, rof⟩ : Ptr) + l)) (k - 1).toNat ∧
      ∃ c, h1 = B.withCells c ∧ Rows c h.next (h.next + 1) 0 ns ntr ∧
        (∀ i j o, 1 ≤ i → i < k → 1 ≤ j → j ≤ ns → o = 1 + ((i - 1) * ns + (j - 1)) →
          c (h.next + 1) o = .flt (scatter h ⟨db, dof⟩ (⟨rb, rof⟩ : Ptr) i j)) ∧
        (∀ i j o, k ≤ i → i ≤ ntr → 1 ≤ j → j ≤ ns → o = 1 + ((i - 1) * ns + (j - 1)) →
          c (h.next + 1) o = .flt 0) ∧
        (∀ f o, 0 ≤ f → f < ntr * ns → o = 1 + f → ∃ a, c (h.next + 1) o = .flt a) ∧
        (∀ b, b ≠ h.next → b ≠ h.next + 1 → ∀ o, c b o = h.cell b o))
  · omega
  · refine ⟨rfl, c, rfl, hrow, fun i j o h1 h2 => absurd h2 (by omega), ?_, ?_, hfr⟩
    · intro i j o h1 h2 h3 h4 ho
      have hb := flat_bound (show 0 ≤ i - 1 by omega) (show i - 1 < ntr by omega)
        (show 0 ≤ j - 1 by omega) (show j - 1 < ns by omega)
      exact hz _ o hb.1 hb.2 ho
    · intro f o h1 h2 ho
      exact ⟨0, hz f o h1 h2 ho⟩
  · clear hrow hz hfr c
    rintro k kk h1 hk1 hk2 ⟨rfl, c, rfl, hrow, hdone, htodo, hflt, hfr⟩
    obtain ⟨hfin_k, m, hfm⟩ := hflags k hk1 hk2
    have hrlt : rb < h.next := hfin_k.1
    have hflag : h.intAt ((⟨rb, rof⟩ : Ptr) + k) = m := intAt_of_cell hfm
    have hstep := countFlags_step (fun l => h.intAt ((⟨rb, rof⟩ : Ptr) + l)) k hk1
    apply ok_bind_loadIntC m (hold _ hfin_k)
      (by rw [hfr rb (by omega) (by omega)]; exact hfm)
    by_cases hm0 : m = 0
    · -- flag not set: the row stays zero
      rw [if_neg (by simpa using hm0)]
      apply ok_pure
      refine ⟨?_, c, rfl, hrow, ?_, fun i j o h1 h2 => htodo i j o (by omega) h2, hflt, hfr⟩
      · have e : k + 1 - 1 = k := by ring
        have hkk0 : countFlags (fun l => h.intAt ((⟨rb, rof⟩ : Ptr) + l)) k.toNat
            = countFlags (fun l => h.intAt ((⟨rb, rof⟩ : Ptr) + l)) (k - 1).toNat := by
          rw [hstep]
          show _ + (if h.intAt ((⟨rb, rof⟩ : Ptr) + k) ≠ 0 then (1 : Int) else 0) = _
          rw [hflag, if_neg (by simpa using hm0)]; ring
        rw [e, hkk0]
      · intro i j o h1 h2 h3 h4 ho
        by_cases hik : i = k
        · subst hik
          have hsc : scatter h ⟨db, dof⟩ (⟨rb, rof⟩ : Ptr) i j = 0 := by
            unfold scatter
            rw [hflag, if_neg (by simpa using hm0)]
          rw [hsc]
          exact htodo i j o le_rfl hk2 h3 h4 ho
        · exact hdone i j o h1 (by omega) h3 h4 ho
    · -- flag set: copy local row kk+1 to row k
      rw [if_pos hm0]
      have hkk : countFlags (fun l => h.intAt ((⟨rb, rof⟩ : Ptr) + l)) k.toNat
          = countFlags (fun l => h.intAt ((⟨rb, rof⟩ : Ptr) + l)) (k - 1).toNat + 1 := by
        rw [hstep]
        show _ + (if h.intAt ((⟨rb, rof⟩ : Ptr) + k) ≠ 0 then (1 : Int) else 0) = _
        rw [hflag, if_pos hm0]
      have hkk1 : 1 ≤ countFlags (fun l => h.intAt ((⟨rb, rof⟩ : Ptr) + l)) (k - 1).toNat + 1 := by
        have := countFlags_nonneg (fun l => h.intAt ((⟨rb, rof⟩ : Ptr) + l)) (k - 1).toNat
        omega
      have hkk2 : countFlags (fun l => h.intAt ((⟨rb, rof⟩ : Ptr) + l)) (k - 1).toNat + 1
          ≤ countFlags (fun l => h.intAt ((⟨rb, rof⟩ : Ptr) + l)) ntr.toNat := by
        rw [← hkk]
        exact countFlags_mono _ (by omega)
      generalize hkv : countFlags (fun l => h.intAt ((⟨rb, rof⟩ : Ptr) + l)) (k - 1).toNat = kk
        at hkk hkk1 hkk2 ⊢
      have hsc : ∀ j, scatter h ⟨db, dof⟩ (⟨rb, rof⟩ : Ptr) k j
          = (h.matAt ⟨db, dof⟩ (kk + 1) j).getD 0 := by
        intro j
        unfold scatter
        rw [hflag, if_pos hm0, hkk]
      apply ok_bind_forEach (fun l h1 => ∃ c, h1 = B.withCells c ∧
        Rows c h.next (h.next + 1) 0 ns ntr ∧
        (∀ i j o, 1 ≤ i → i < k → 1 ≤ j → j ≤ ns → o = 1 + ((i - 1) * ns + (j - 1)) →
          c (h.next + 1) o = .flt (scatter h ⟨db, dof⟩ (⟨rb, rof⟩ : Ptr) i j)) ∧
        (∀ i j o, k + 1 ≤ i → i ≤ ntr → 1 ≤ j → j ≤ ns → o = 1 + ((i - 1) * ns + (j - 1)) →
          c (h.next + 1) o = .flt 0) ∧
        (∀ j o, 1 ≤ j → j < l → o = 1 + ((k - 1) * ns + (j - 1)) →
          c (h.next + 1) o = .flt (scatter h ⟨db, dof⟩ (⟨rb, rof⟩ : Ptr) k j)) ∧
        (∀ f o, 0 ≤ f → f < ntr * ns → o = 1 + f → ∃ a, c (h.next + 1) o = .flt a) ∧
        (∀ b, b ≠ h.next → b ≠ h.next + 1 → ∀ o, c b o = h.cell b o))
      · omega
      · exact ⟨c, rfl, hrow, hdone, fun i j o h1 h2 => htodo i j o (by omega) h2,
          fun j o h1 h2 => absurd h2 (by omega), hflt, hfr⟩
      · clear hrow hdone htodo hflt hfr c
        rintro l h1 hl1 hl2 ⟨c, rfl, hrow, hdone, htodo, hrowk, hflt, hfr⟩
        obtain ⟨qb, qo, a, d1, d2, d3, d4, d5⟩ := matAt_cells (hdata (kk + 1) l hkk1 hkk2 hl1 hl2)
        have hdlt : db < h.next := d1.1
        have hqlt : qb < h.next := d3.1
        have hbk := flat_bound (show 0 ≤ k - 1 by omega) (show k - 1 < ntr by omega)
          (show 0 ≤ l - 1 by omega) (show l - 1 < ns by omega)
        apply ok_bind_at2C (h.next + 1) (0 + (k - 1) * ns) (hin0 _ (by omega) (by omega))
          (hrow (k - 1) _ _ (by omega) (by omega) (by omega) rfl)
        apply ok_bind_at2C qb qo (hold _ d1) (by rw [hfr db (by omega) (by omega)]; exact d2)
        apply ok_bind_loadFltC a (hold _ d3) (by rw [hfr qb (by omega) (by omega)]; exact d4)
        apply ok_storeC (hin1 _ (by omega) (by omega))
        refine ⟨_, rfl, hrow.rows_other _ _ hb01, ?_, ?_, ?_, ?_, ?_⟩
        · intro i j o h1 h2 h3 h4 ho
          have hbi := flat_bound (show 0 ≤ i - 1 by omega) (show i - 1 < k - 1 by omega)
            (show 0 ≤ j - 1 by omega) (show j - 1 < ns by omega)
          rw [upd_other _ _ _ _ _ (Or.inr (by simp only []; omega))]
          exact hdone i j o h1 h2 h3 h4 ho
        · intro i j o h1 h2 h3 h4 ho
          have hbi := flat_bound (show 0 ≤ k - 1 by omega) (show k - 1 < i - 1 by omega)
            (show 0 ≤ l - 1 by omega) (show l - 1 < ns by omega)
          have hbj : 0 ≤ (i - 1) * ns := mul_nonneg (by omega) hs
          rw [upd_other _ _ _ _ _ (Or.inr (by simp only []; omega))]
          exact htodo i j o h1 h2 h3 h4 ho
        · intro j o h1 h2 ho
          by_cases hjl : j = l
          · subst hjl
            rw [upd_same _ _ _ _ _ (by omega), hsc, d5]; rfl
          · rw [upd_other _ _ _ _ _ (Or.inr (by simp only []; omega))]
            exact hrowk j o h1 (by omega) ho
        · intro f o h1 h2 ho
          by_cases hfe : o = 0 + (k - 1) * ns + l
          · exact ⟨a, upd_same _ _ _ _ _ hfe⟩
          · rw [upd_other _ _ _ _ _ (Or.inr hfe)]
            exact hflt f o h1 h2 ho
        · intro b hb0 hb1 o
          rw [upd_other _ _ _ _ _ (Or.inl hb1)]; exact hfr b hb0 hb1 o
      · clear hrow hdone htodo hflt hfr c
        rintro h1 ⟨c, rfl, hrow, hdone, htodo, hrowk, hflt, hfr⟩
        apply ok_pure
        refine ⟨?_, c, rfl, hrow, ?_, htodo, hflt, hfr⟩
        · have e : k + 1 - 1 = k := by ring
          rw [e, hkk]
        · intro i j o h1 h2 h3 h4 ho
          by_cases hik : i = k
          · subst hik; exact hrowk j o h3 (by omega) ho
          · exact hdone i j o h1 (by omega) h3 h4 ho
  -- the two buffer addresses
  clear hrow hz hfr c
  rintro kk h1 ⟨-, c, rfl, hrow, hdone, -, hflt, hfr⟩
  have hflt1 : fdb < h.next := hfin.1
  simp only [ptr_add] at hfin hfc
  apply ok_bind_at2C (h.next + 1) (0 + 0 * ns) (hin0 _ (by omega) (by omega))
    (hrow 0 _ _ le_rfl (by omega) (by omega) rfl)
  apply ok_bind_at2C fb fo (hold _ hfin) (by rw [hfr fdb (by omega) (by omega)]; exact hfc)
  apply ok_pure
  refine ⟨?_, c, rfl, hrow, fun i j o h1 h2 => hdone i j o h1 (by omega), hflt, hfr⟩
  have e : (0 : Int) + 0 * ns + 1 = 1 := by ring
  rw [e]

end CatseisSendSpec

section Buffers

variable {α : Type}

theorem fltAt_of_cell [Zero α] {h : Heap α} {p : Ptr} {a : α}
    (hc : h.cell p.blk p.off = .flt a) : h.fltAt p = a := by
  unfold Heap.fltAt; rw [hc]

/-- Reading a message buffer of `n` floats. -/
theorem readBuf_spec [Zero α] (h : Heap α) (b : Nat) :
    ∀ (n : Nat) (o : Int),
      (∀ f : Nat, f < n → h.inb ⟨b, o + f⟩ ∧ ∃ a, h.cell b (o + f) = .flt a) →
      readBuf ⟨b, o⟩ n h = .ok ((List.range n).map (fun f : Nat => h.fltAt ⟨b, o + f⟩), h) := by
  intro n
  induction n with
  | zero => intro o _; rfl
  | succ n ih =>
    intro o hcells
    obtain ⟨hin, a, ha⟩ := hcells 0 (by omega)
    simp only [Nat.cast_zero, add_zero] at hin ha
    have hrest := ih (o + 1) (fun f hf => by
      obtain ⟨h1, a1, h2⟩ := hcells (f + 1) (by omega)
      have e : o + ((f + 1 : Nat) : Int) = o + 1 + f := by push_cast; ring
      rw [e] at h1 h2
      exact ⟨h1, a1, h2⟩)
    show (loadFlt ⟨b, o⟩ >>= fun a => readBuf ((⟨b, o⟩ : Ptr) + (1 : Int)) n >>= fun rest =>
      pure (a :: rest)) h = _
    rw [bind_ok (loadFlt_ok hin ha), ptr_add, bind_ok hrest]
    show Except.ok (a :: _, h) = _
    rw [List.range_succ_eq_map, List.map_cons, List.map_map]
    have h0 : h.fltAt ⟨b, o + ((0 : Nat) : Int)⟩ = a := by
      apply fltAt_of_cell
      simpa using ha
    have hmap : List.map (fun f : Nat => h.fltAt ⟨b, o + 1 + f⟩) (List.range n)
        = List.map ((fun f : Nat => h.fltAt ⟨b, o + f⟩) ∘ Nat.succ) (List.range n) := by
      apply List.map_congr_left
      intro f _
      show h.fltAt ⟨b, o + 1 + f⟩ = h.fltAt ⟨b, o + ((f + 1 : Nat) : Int)⟩
      have e : o + ((f + 1 : Nat) : Int) = o + 1 + f := by push_cast; ring
      rw [e]
    rw [h0, hmap]

/-- Writing a message buffer: the floats land in consecutive cells and no
other cell changes. -/
theorem writeBuf_spec [Zero α] (b : Nat) :
    ∀ (xs : List α) (o : Int) (h : Heap α),
      (∀ f : Nat, f < xs.length → h.inb ⟨b, o + f⟩) →
      writeBuf ⟨b, o⟩ xs h = .ok ((), h.withCells (writeCells h.cell b o xs)) := by
  intro xs
  induction xs with
  | nil =>
    intro o h _
    show Except.ok ((), h) = _
    congr 2
    show h = h.withCells _
    have : writeCells h.cell b o ([] : List α) = h.cell := by
      funext b1 o1
      unfold writeCells
      rw [if_neg]
      rintro ⟨-, h1, h2⟩
      simp at h2
      omega
    rw [this]; rfl
  | cons a rest ih =>
    intro o h hcells
    have hin := hcells 0 (by simp)
    simp only [Nat.cast_zero, add_zero] at hin
    have hrest := ih (o + 1) (h.set ⟨b, o⟩ (.flt a)) (fun f hf => by
      have h1 := hcells (f + 1) (by simp; omega)
      have e : o + ((f + 1 : Nat) : Int) = o + 1 + f := by push_cast; ring
      rw [e] at h1
      exact h1)
    show (store ⟨b, o⟩ (.flt a) >>= fun _ => writeBuf ((⟨b, o⟩ : Ptr) + (1 : Int)) rest) h = _
    rw [bind_ok (store_ok _ hin), ptr_add, hrest]
    congr 2
    show (h.withCells (upd h.cell ⟨b, o⟩ (.flt a))).withCells _ = _
    show h.withCells _ = h.withCells _
    congr 1
    funext b1 o1
    show writeCells (upd h.cell ⟨b, o⟩ (.flt a)) b (o + 1) rest b1 o1
      = writeCells h.cell b o (a :: rest) b1 o1
    unfold writeCells upd
    have hlen : ((a :: rest).length : Int) = rest.length + 1 := by simp
    by_cases hb : b1 = b
    · subst hb
      by_cases h0 : o1 = o
      · subst h0
        rw [if_neg (by omega), if_pos ⟨rfl, rfl⟩, if_pos ⟨rfl, le_refl _, by omega⟩]
        simp
      · by_cases hr : o + 1 ≤ o1 ∧ o1 < o + 1 + rest.length
        · rw [if_pos ⟨rfl, hr⟩, if_pos ⟨rfl, by omega, by omega⟩]
          have e : (o1 - o).toNat = (o1 - (o + 1)).toNat + 1 := by omega
          rw [e, List.getD_cons_succ]
        · rw [if_neg (fun hh => hr hh.2), if_neg (fun hh => h0 hh.2),
            if_neg (fun hh => hr ⟨by omega, by omega⟩)]
    · rw [if_neg (fun hh => hb hh.1), if_neg (fun hh => hb hh.1), if_neg (fun hh => hb hh.1)]

theorem zipWith_add_map [Add α] {β : Type} (g1 g2 : β → α) (l : List β) :
    List.zipWith (fun x y => x + y) (l.map g1) (l.map g2) = l.map (fun f => g1 f + g2 f) := by
  induction l with
  | nil => rfl
  | cons x xs ih =>
    show (g1 x + g2 x) :: List.zipWith _ (xs.map g1) (xs.map g2) = _
    rw [ih]; rfl

theorem replicate_eq_map [Zero α] (n : Nat) :
    List.replicate n (0 : α) = (List.range n).map (fun _ => (0 : α)) := by
  induction n with
  | zero => rfl
  | succ n ih =>
    rw [List.replicate_succ, List.range_succ_eq_map, List.map_cons, List.map_map, ih]
    rfl

/-- The element-wise sum of buffers given as functions of the position. -/
theorem sumBufs_map [AddCommMonoid α] {β : Type} (n : Nat) (l : List β) (g : β → Nat → α) :
    sumBufs n (l.map (fun x => (List.range n).map (g x)))
      = (List.range n).map (fun f => (l.map (fun x => g x f)).sum) := by
  unfold sumBufs
  induction l with
  | nil =>
    show List.replicate n 0 = _
    rw [replicate_eq_map]; rfl
  | cons x xs ih =>
    show List.zipWith (fun x y => x + y) ((List.range n).map (g x))
      (List.foldr _ _ (xs.map _)) = _
    rw [ih, zipWith_add_map]
    rfl

/-- A sum in which exactly one term, that of an element selected by `p`, can
be non-zero. -/
theorem sum_unique_owner [AddCommMonoid α] {β : Type} (p : β → Bool) (v : β → α) :
    ∀ (l : List β), l.countP p = 1 → ∀ q ∈ l, p q = true →
      (l.map (fun x => if p x = true then v x else 0)).sum = v q := by
  intro l
  induction l with
  | nil => intro h1; simp at h1
  | cons x xs ih =>
    intro h1 q hq hpq
    rw [List.map_cons, List.sum_cons]
    by_cases hpx : p x = true
    · rw [List.countP_cons_of_pos _ _ hpx] at h1
      have h0 : xs.countP p = 0 := by omega
      have hall : ∀ y ∈ xs, ¬ p y = true := List.countP_eq_zero.mp h0
      have hsum : (xs.map (fun x => if p x = true then v x else 0)).sum = 0 := by
        apply List.sum_eq_zero
        intro z hz
        obtain ⟨y, hy, rfl⟩ := List.mem_map.mp hz
        rw [if_neg (hall y hy)]
      rw [hsum, add_zero, if_pos hpx]
      rcases List.mem_cons.mp hq with rfl | hq1
      · rfl
      · exact absurd hpq (hall q hq1)
    · rw [List.countP_cons_of_neg _ _ hpx] at h1
      rw [if_neg hpx, zero_add]
      rcases List.mem_cons.mp hq with rfl | hq1
      · exact absurd hpq hpx
      · exact ih h1 q hq1 hpq

/-- All runs succeed when each does. -/
theorem allOk_map_eq {β γ : Type} (f : β → Except Err γ) (g : β → γ) :
    ∀ (l : List β), (∀ x ∈ l, f x = .ok (g x)) → allOk (l.map f) = .ok (l.map g) := by
  intro l
  induction l with
  | nil => intro _; rfl
  | cons x xs ih =>
    intro hl
    have h1 := hl x (List.mem_cons_self _ _)
    have h2 := ih (fun y hy => hl y (List.mem_cons_of_mem _ hy))
    show (f x >>= fun a => allOk (xs.map f) >>= fun rest => pure (a :: rest)) = _
    rw [h1, h2]; rfl

theorem allOk_map_rel {β γ : Type} (f : β → Except Err γ) (R : β → γ → Prop) :
    ∀ (l : List β), (∀ x ∈ l, ∃ r, f x = .ok r ∧ R x r) →
      ∃ rs, allOk (l.map f) = .ok rs ∧ List.Forall₂ R l rs := by
  intro l
  induction l with
  | nil => intro _; exact ⟨[], rfl, List.Forall₂.nil⟩
  | cons x xs ih =>
    intro hl
    obtain ⟨r, h1, hr⟩ := hl x (List.mem_cons_self _ _)
    obtain ⟨rs, h2, hrs⟩ := ih (fun y hy => hl y (List.mem_cons_of_mem _ hy))
    refine ⟨r :: rs, ?_, List.Forall₂.cons hr hrs⟩
    show (f x >>= fun a => allOk (xs.map f) >>= fun rest => pure (a :: rest)) = _
    rw [h1, h2]; rfl

theorem forall₂_comp {β γ δ : Type} {R : β → γ → Prop} {S : γ → δ → Prop} {T : β → δ → Prop}
    (hT : ∀ a b c, R a b → S b c → T a c) :
    ∀ {l1 : List β} {l2 : List γ} {l3 : List δ},
      List.Forall₂ R l1 l2 → List.Forall₂ S l2 l3 → List.Forall₂ T l1 l3 := by
  intro l1 l2 l3 h12
  induction h12 generalizing l3 with
  | nil => intro h23; cases h23; exact List.Forall₂.nil
  | cons hr _ ih =>
    intro h23
    cases h23 with
    | cons hs hrest => exact List.Forall₂.cons (hT _ _ _ hr hs) (ih hrest)

theorem forall₂_mem_right {β γ : Type} {R : β → γ → Prop} :
    ∀ {l1 : List β} {l2 : List γ}, List.Forall₂ R l1 l2 →
      ∀ r ∈ l2, ∃ x ∈ l1, R x r := by
  intro l1 l2 h
  induction h with
  | nil => intro r hr; cases hr
  | cons hr _ ih =>
    intro r hmem
    rcases List.mem_cons.mp hmem with rfl | hm
    · exact ⟨_, List.mem_cons_self _ _, hr⟩
    · obtain ⟨x, hx, hR⟩ := ih r hm
      exact ⟨x, List.mem_cons_of_mem _ hx, hR⟩

theorem forall₂_map_eq {β γ δ : Type} {R : β → γ → Prop} (F : β → δ) (G : γ → δ)
    (hFG : ∀ a b, R a b → F a = G b) :
    ∀ {l1 : List β} {l2 : List γ}, List.Forall₂ R l1 l2 → l1.map F = l2.map G := by
  intro l1 l2 h
  induction h with
  | nil => rfl
  | cons hr _ ih => rw [List.map_cons, List.map_cons, hFG _ _ hr, ih]

theorem forall₂_with_mem {β γ : Type} {R : β → γ → Prop} :
    ∀ {l1 : List β} {l2 : List γ}, List.Forall₂ R l1 l2 →
      List.Forall₂ (fun a b => a ∈ l1 ∧ R a b) l1 l2 := by
  intro l1 l2 h
  induction h with
  | nil => exact List.Forall₂.nil
  | cons hr _ ih =>
    refine List.Forall₂.cons ⟨List.mem_cons_self _ _, hr⟩ ?_
    exact ih.imp (fun a b hab => ⟨List.mem_cons_of_mem _ hab.1, hab.2⟩)

end Buffers

section CatseisStages

variable {α : Type}

/-- Stage 1: each process reaches `MPI_Allreduce`. -/
theorem send_rel [Zero α] (p : Proc α) (ntr ns : Int) (hn : 1 ≤ ntr) (hs : 0 ≤ ns)
    (hp : ProcOk p ntr ns) :
    ∃ r, (catseisSend p.data p.fulldata p.recswitch ntr ns).run p.heap = .ok r ∧
      SendRel ntr ns p r := by
  obtain ⟨hwf, hm, hfl, hda, fb, fo, hne, hrows, hcells⟩ := hp
  have h1 := hrows 1 le_rfl hn
  have e : fo + (1 - 1) * ns = fo := by ring
  rw [e] at h1
  obtain ⟨r, hh, hrun, hr, c, hc, hrow, hsc, hflt, hfr⟩ :=
    catseisSend_spec p.heap p.data p.fulldata p.recswitch ntr ns hn hs hm hfl hda fb fo h1.1 h1.2
  exact ⟨(r, hh), hrun, fb, fo, c, hne, hrows, hcells, hr, hc, hrow, hsc, hflt, hfr, hwf⟩

theorem old_inb (h : Heap α) (n n1 : Int) (c : Nat → Int → Word α) (p : Ptr) (hp : h.inb p) :
    (((h.alloc n).alloc n1).withCells c).inb p :=
  alloc_inb_old _ _ _ (alloc_inb_old _ _ _ hp)

/-- Stage 2: the send buffer of a process is its scratch matrix, row by row. -/
theorem send_buffer [Zero α] (p : Proc α) (ntr ns : Int) (hn : 1 ≤ ntr) (hs : 0 ≤ ns)
    (r : (Ptr × Ptr × Ptr) × Heap α) (hr : SendRel ntr ns p r) :
    (readBuf r.1.2.1 (ntr * ns).toNat).run' r.2 = .ok (sendList (ntr * ns).toNat r) := by
  obtain ⟨fb, fo, c, hne, hrows, hcells, hr1, hr2, hrow, hsc, hflt, hfr, hwf⟩ := hr
  obtain ⟨⟨f2, sb, rv⟩, hh⟩ := r
  simp only [Prod.mk.injEq] at hr1
  obtain ⟨rfl, rfl, rfl⟩ := hr1
  simp only at hr2
  subst hr2
  have hsz : 0 ≤ ntr * ns := mul_nonneg (by omega) hs
  have hrd := readBuf_spec
    (((p.heap.alloc (ntr - 1 + 1 + 1)).alloc ((ntr - 1 + 1) * (ns - 1 + 1) + 1)).withCells c)
    (p.heap.next + 1) (ntr * ns).toNat 1 (fun f hf => by
      have e1 : ntr - 1 + 1 = ntr := by ring
      have e2 : ns - 1 + 1 = ns := by ring
      refine ⟨alloc2_inb1 _ _ _ _ (by omega) (by rw [e1, e2]; omega), ?_⟩
      exact hflt f _ (by omega) (by omega) rfl)
  show (fun x => x.1) <$> (readBuf _ _ _) = _
  rw [hrd]
  rfl

theorem getD_range_map [Zero α] (n : Nat) (t : Nat → α) (f : Nat) (hf : f < n) :
    ((List.range n).map t).getD f 0 = t f := by
  rw [List.getD_eq_getElem?_getD, List.getElem?_map, List.getElem?_range hf]
  rfl

/-- Stage 3: the receive buffer of a process takes the reduced message. -/
theorem recv_write [Zero α] (p : Proc α) (ntr ns : Int) (hn : 1 ≤ ntr) (hs : 0 ≤ ns)
    (r : (Ptr × Ptr × Ptr) × Heap α) (hr : SendRel ntr ns p r) (total : List α)
    (hlen : total.length = (ntr * ns).toNat) :
    ((writeBuf r.1.2.2 total).run r.2 |>.map Prod.snd) = .ok (recvHeap total r) := by
  obtain ⟨fb, fo, c, hne, hrows, hcells, hr1, hr2, hrow, hsc, hflt, hfr, hwf⟩ := hr
  obtain ⟨⟨f2, sb, rv⟩, hh⟩ := r
  simp only [Prod.mk.injEq] at hr1
  obtain ⟨rfl, rfl, rfl⟩ := hr1
  simp only at hr2
  subst hr2
  have hsz : 0 ≤ ntr * ns := mul_nonneg (by omega) hs
  have hwr := writeBuf_spec fb total (fo + 1)
    (((p.heap.alloc (ntr - 1 + 1 + 1)).alloc ((ntr - 1 + 1) * (ns - 1 + 1) + 1)).withCells c)
    (fun f hf => old_inb _ _ _ _ _ (hcells f (by omega) (by omega)))
  show Except.map Prod.snd (writeBuf _ _ _) = _
  rw [hwr]
  rfl

theorem writeCells_other [Zero α] (c : Nat → Int → Word α) (b : Nat) (o : Int) (xs : List α)
    (b1 : Nat) (o1 : Int) (hne : b1 ≠ b ∨ o1 < o ∨ o + xs.length ≤ o1) :
    writeCells c b o xs b1 o1 = c b1 o1 := by
  unfold writeCells
  rw [if_neg]
  rintro ⟨h1, h2, h3⟩
  rcases hne with h | h | h
  · exact h h1
  · omega
  · omega

theorem writeCells_at [Zero α] (c : Nat → Int → Word α) (b : Nat) (o : Int) (xs : List α)
    (o1 : Int) (h1 : o ≤ o1) (h2 : o1 < o + xs.length) :
    writeCells c b o xs b o1 = .flt (xs.getD (o1 - o).toNat 0) := by
  unfold writeCells
  rw [if_pos ⟨rfl, h1, h2⟩]

/-- The receive buffer lies in a block older than the scratch matrix, unless
the message is empty. -/
theorem recv_block_old [Zero α] (p : Proc α) (ntr ns : Int) (fb : Nat) (fo : Int)
    (hcells : ∀ f, 0 ≤ f → f < ntr * ns → p.heap.inb ⟨fb, fo + 1 + f⟩) (total : List α)
    (hlen : total.length = (ntr * ns).toNat) (b1 : Nat) (hb : p.heap.next ≤ b1) (o1 : Int) :
    b1 ≠ fb ∨ o1 < fo + 1 ∨ fo + 1 + total.length ≤ o1 := by
  by_cases hz : total.length = 0
  · right
    rw [hz]
    simp only [Nat.cast_zero, add_zero]
    omega
  · left
    have hpos : 0 < ntr * ns := by omega
    have := (hcells 0 le_rfl hpos).1
    simp only at this
    omega

/-- Function `free_matrix` on a matrix with bounds `[1..ntr][1..ns]` whose row
pointer block `b0` and element block `b1` are live. -/
theorem free_matrix_ok (h : Heap α) (b0 b1 : Nat) (ntr ns : Int)
    (hin : h.inb ⟨b0, 0 + 1⟩) (hc : h.cell b0 (0 + 1) = .ptr (some ⟨b1, 0 + 0 * ns⟩))
    (hb1 : b1 < h.next) (hne : b0 ≠ b1) (hnf0 : ∀ o, (⟨b0, o⟩ : Ptr) ∉ h.freed)
    (hnf1 : ∀ o, (⟨b1, o⟩ : Ptr) ∉ h.freed) :
    ∃ h1, free_matrix ⟨b0, 0⟩ 1 ntr 1 ns h = .ok ((), h1) ∧ h1.cell = h.cell ∧
      ∀ q : Ptr, q.blk ≠ b0 → q.blk ≠ b1 → h.inb q → h1.inb q := by
  refine ⟨{ h with freed := ⟨b0, 0 + 1 - 1⟩ :: ⟨b1, 0 + 0 * ns + 1 - 1⟩ :: h.freed,
                   size := fun b => if b = b0 then 0 else if b = b1 then 0 else h.size b },
    ?_, rfl, ?_⟩
  · unfold free_matrix
    simp only [ptr_add, ptr_sub, nr_end]
    rw [bind_ok (loadPtr_ok hin hc)]
    simp only [ptr_add, ptr_sub]
    rw [bind_ok (free_ok (by simp) hb1 (hnf1 _))]
    have hmem : (⟨b0, 0 + 1 - 1⟩ : Ptr) ∉
        (⟨b1, 0 + 0 * ns + 1 - 1⟩ : Ptr) :: h.freed := by
      intro hmem
      rcases List.mem_cons.mp hmem with he | hm
      · exact hne (congrArg Ptr.blk he)
      · exact hnf0 _ hm
    exact @free_ok _ { h with
        freed := (⟨b1, 0 + 0 * ns + 1 - 1⟩ : Ptr) :: h.freed,
        size := fun b => if b = b1 then 0 else h.size b } _ (by simp) hin.1 hmem
  · intro q hq0 hq1 hq
    obtain ⟨h1, h2, h3⟩ := hq
    refine ⟨h1, h2, ?_⟩
    show q.off < (if q.blk = b0 then 0 else if q.blk = b1 then 0 else h.size q.blk)
    rw [if_neg hq0, if_neg hq1]
    exact h3

/-- Stage 4: the scratch matrix is freed. -/
theorem scratch_free [Zero α] (p : Proc α) (ntr ns : Int) (hn : 1 ≤ ntr)
    (r : (Ptr × Ptr × Ptr) × Heap α) (hr : SendRel ntr ns p r) (total : List α)
    (hlen : total.length = (ntr * ns).toNat) :
    ∃ h1, ((free_matrix r.1.1 1 ntr 1 ns).run (recvHeap total r) |>.map Prod.snd) = .ok h1 ∧
      FreedRel r (recvHeap total r) h1 := by
  obtain ⟨fb, fo, c, hne, hrows, hcells, hr1, hr2, hrow, hsc, hflt, hfr, hwf⟩ := hr
  obtain ⟨⟨f2, sb, rv⟩, hh⟩ := r
  simp only [Prod.mk.injEq] at hr1
  obtain ⟨rfl, rfl, rfl⟩ := hr1
  simp only at hr2
  subst hr2
  have hnf : ∀ (b : Nat) (o : Int), p.heap.next ≤ b → (⟨b, o⟩ : Ptr) ∉ p.heap.freed :=
    fun b o hb hmem => by
      have := hwf _ hmem
      simp only at this
      omega
  have hc1 : writeCells c fb (fo + 1) total p.heap.next (0 + 1)
      = .ptr (some ⟨p.heap.next + 1, 0 + 0 * ns⟩) := by
    rw [writeCells_other _ _ _ _ _ _
      (recv_block_old p ntr ns fb fo hcells total hlen _ le_rfl _)]
    exact hrow 0 _ _ le_rfl (by omega) (by omega) rfl
  obtain ⟨h1, hrun, hcell, hinb⟩ := free_matrix_ok (recvHeap total
      ((⟨p.heap.next, 0⟩, ⟨p.heap.next + 1, 1⟩, ⟨fb, fo + 1⟩),
        ((p.heap.alloc (ntr - 1 + 1 + 1)).alloc
          ((ntr - 1 + 1) * (ns - 1 + 1) + 1)).withCells c))
      p.heap.next (p.heap.next + 1) ntr ns
      (alloc2_inb0 p.heap _ _ _ (by omega) (by omega)) hc1
      (by show p.heap.next + 1 < p.heap.next + 1 + 1; omega) (by omega)
      (fun o => hnf _ o le_rfl) (fun o => hnf _ o (by omega))
  refine ⟨h1, ?_, hcell, hinb⟩
  show Except.map Prod.snd (free_matrix _ _ _ _ _ _) = _
  rw [hrun]
  rfl

/-- Stage 5: what `fulldata[i][j]` reads after the collection, when the
reduced message was the list of the values `t`. -/
theorem collected_value [Zero α] (p : Proc α) (ntr ns : Int)
    (r : (Ptr × Ptr × Ptr) × Heap α) (hr : SendRel ntr ns p r) (t : Nat → α)
    (h1 : Heap α) (hfree : FreedRel r (recvHeap ((List.range (ntr * ns).toNat).map t) r) h1)
    (i j : Int) (hi1 : 1 ≤ i) (hi2 : i ≤ ntr) (hj1 : 1 ≤ j) (hj2 : j ≤ ns) :
    h1.matAt p.fulldata i j = some (t ((i - 1) * ns + (j - 1)).toNat) := by
  obtain ⟨fb, fo, c, hne, hrows, hcells, hr1, hr2, hrow, hsc, hflt, hfr, hwf⟩ := hr
  obtain ⟨⟨f2, sb, rv⟩, hh⟩ := r
  simp only [Prod.mk.injEq] at hr1
  obtain ⟨rfl, rfl, rfl⟩ := hr1
  simp only at hr2
  subst hr2
  obtain ⟨hcell, hinb⟩ := hfree
  generalize hfdb : p.fulldata.blk = fdb at hne
  generalize hfdo : p.fulldata.off = fdo
  have hrows : ∀ i : Int, 1 ≤ i → i ≤ ntr → p.heap.inb ⟨fdb, fdo + i⟩ ∧
      p.heap.cell fdb (fdo + i) = .ptr (some ⟨fb, fo + (i - 1) * ns⟩) := by
    intro i h1 h2
    have := hrows i h1 h2
    rw [hfdb, hfdo] at this
    refine ⟨?_, this.2⟩
    have h3 := this.1
    rw [show p.fulldata = ⟨fdb, fdo⟩ from by rw [← hfdb, ← hfdo]] at h3
    exact h3
  show h1.matAt p.fulldata i j = _
  rw [show p.fulldata = ⟨fdb, fdo⟩ from by rw [← hfdb, ← hfdo]]
  have hb := flat_bound (show 0 ≤ i - 1 by omega) (show i - 1 < ntr by omega)
    (show 0 ≤ j - 1 by omega) (show j - 1 < ns by omega)
  have hlen : ((List.range (ntr * ns).toNat).map t).length = (ntr * ns).toNat := by simp
  obtain ⟨hrin, hrc⟩ := hrows i hi1 hi2
  have hfdlt : fdb < p.heap.next := hrin.1
  have hcin := hcells ((i - 1) * ns + (j - 1)) hb.1 hb.2
  have hfblt : fb < p.heap.next := hcin.1
  refine @matAt_of_cells _ _ _ _ _ _ fb (fo + (i - 1) * ns) _ ?_ ?_ ?_ ?_
  · apply hinb _ (by simp only; omega) (by simp only; omega)
    exact old_inb _ _ _ _ _ hrin
  · rw [hcell]
    show writeCells c fb (fo + 1) _ fdb (fdo + i) = _
    rw [writeCells_other _ _ _ _ _ _ (Or.inl (Ne.symm hne)), hfr fdb (by omega) (by omega)]
    exact hrc
  · apply hinb _ (by simp only; omega) (by simp only; omega)
    have e : fo + (i - 1) * ns + j = fo + 1 + ((i - 1) * ns + (j - 1)) := by ring
    rw [e]
    exact old_inb _ _ _ _ _ hcin
  · rw [hcell]
    show writeCells c fb (fo + 1) _ fb (fo + (i - 1) * ns + j) = _
    rw [writeCells_at _ _ _ _ _ (by omega) (by rw [hlen]; omega)]
    have e : (fo + (i - 1) * ns + j - (fo + 1)).toNat = ((i - 1) * ns + (j - 1)).toNat := by
      congr 1; ring
    rw [e, getD_range_map _ _ _ (by omega)]

end CatseisStages
/-! ## catseis.c: the collective call -/

section CatseisMain

theorem zip_map_self {β γ δ : Type} (g : β → γ) (F : β × γ → δ) :
    ∀ l : List β, (l.zip (l.map g)).map F = l.map (fun r => F (r, g r)) := by
  intro l
  induction l with
  | nil => rfl
  | cons x xs ih =>
    show F (x, g x) :: (xs.zip (xs.map g)).map F = _
    rw [ih]
    rfl

/-- What one process sends at flat position `(i-1)*ns + (j-1)` of its buffer. -/
theorem sent_value [Zero α] (p : Proc α) (ntr ns : Int) (r : (Ptr × Ptr × Ptr) × Heap α)
    (hr : SendRel ntr ns p r) (i j : Int) (hi1 : 1 ≤ i) (hi2 : i ≤ ntr) (hj1 : 1 ≤ j)
    (hj2 : j ≤ ns) :
    r.2.fltAt ⟨r.1.2.1.blk, r.1.2.1.off + (((i - 1) * ns + (j - 1)).toNat : Nat)⟩
      = scatter p.heap p.data p.recswitch i j := by
  obtain ⟨fb, fo, c, hne, hrows, hcells, hr1, hr2, hrow, hsc, hflt, hfr, hwf⟩ := hr
  obtain ⟨⟨f2, sb, rv⟩, hh⟩ := r
  simp only [Prod.mk.injEq] at hr1
  obtain ⟨rfl, rfl, rfl⟩ := hr1
  simp only at hr2
  subst hr2
  have hb := flat_bound (show 0 ≤ i - 1 by omega) (show i - 1 < ntr by omega)
    (show 0 ≤ j - 1 by omega) (show j - 1 < ns by omega)
  apply fltAt_of_cell
  show c (p.heap.next + 1) (1 + (((i - 1) * ns + (j - 1)).toNat : Nat)) = _
  exact hsc i j _ hi1 hi2 hj1 hj2 (by rw [Int.toNat_of_nonneg hb.1])

/-- Function `catseis` run by all processes: every process ends with
`fulldata[i][j]` equal to the sum over the processes of what each scattered
into its scratch matrix at `[i][j]`. -/
theorem catseis_spec [AddCommMonoid α] (procs : List (Proc α)) (ntr ns : Int)
    (hn : 1 ≤ ntr) (hs : 0 ≤ ns) (hproc : ∀ P ∈ procs, ProcOk P ntr ns) :
    ∃ hs, catseis procs ntr ns = .ok hs ∧
      List.Forall₂ (fun P h1 => ∀ i j, 1 ≤ i → i ≤ ntr → 1 ≤ j → j ≤ ns →
        h1.matAt P.fulldata i j =
          some ((procs.map (fun Q => scatter Q.heap Q.data Q.recswitch i j)).sum)) procs hs := by
  obtain ⟨sent, hsent, hrel⟩ := allOk_map_rel
    (fun p : Proc α => (catseisSend p.data p.fulldata p.recswitch ntr ns).run p.heap)
    (SendRel ntr ns) procs (fun P hP => send_rel P ntr ns hn hs (hproc P hP))
  have hmem := forall₂_mem_right hrel
  have hreads : allOk ((sent.map fun r => (r.2, r.1.2.1, r.1.2.2)).map
      fun c : Heap α × Ptr × Ptr => (readBuf c.2.1 (ntr * ns).toNat).run' c.1)
      = .ok (sent.map (sendList (ntr * ns).toNat)) := by
    rw [List.map_map]
    exact allOk_map_eq _ _ sent (fun r hr => by
      obtain ⟨P, _, hP⟩ := hmem r hr
      exact send_buffer P ntr ns hn hs r hP)
  have htotal : sumBufs (ntr * ns).toNat (sent.map (sendList (ntr * ns).toNat))
      = (List.range (ntr * ns).toNat).map (fun f : Nat =>
          (sent.map (fun r => r.2.fltAt ⟨r.1.2.1.blk, r.1.2.1.off + f⟩)).sum) :=
    sumBufs_map (ntr * ns).toNat sent
      (fun r (f : Nat) => r.2.fltAt ⟨r.1.2.1.blk, r.1.2.1.off + f⟩)
  generalize hT : (fun f : Nat =>
    (sent.map (fun r : (Ptr × Ptr × Ptr) × Heap α =>
      r.2.fltAt ⟨r.1.2.1.blk, r.1.2.1.off + f⟩)).sum) = T at htotal
  have hlen : ((List.range (ntr * ns).toNat).map T).length = (ntr * ns).toNat := by simp
  have hwrites : allOk ((sent.map fun r => (r.2, r.1.2.1, r.1.2.2)).map
      fun c : Heap α × Ptr × Ptr =>
        (writeBuf c.2.2 ((List.range (ntr * ns).toNat).map T)).run c.1 |>.map Prod.snd)
      = .ok (sent.map (recvHeap ((List.range (ntr * ns).toNat).map T))) := by
    rw [List.map_map]
    exact allOk_map_eq _ _ sent (fun r hr => by
      obtain ⟨P, _, hP⟩ := hmem r hr
      exact recv_write P ntr ns hn hs r hP _ hlen)
  have hreduce : MPI_Allreduce (sent.map fun r => (r.2, r.1.2.1, r.1.2.2)) (ntr * ns)
      = .ok (sent.map (recvHeap ((List.range (ntr * ns).toNat).map T))) := by
    unfold MPI_Allreduce
    rw [hreads]
    show allOk _ = _
    rw [htotal]
    exact hwrites
  obtain ⟨hsF, hfree, hrelF⟩ := allOk_map_rel
    (fun r : (Ptr × Ptr × Ptr) × Heap α =>
      (free_matrix r.1.1 1 ntr 1 ns).run (recvHeap ((List.range (ntr * ns).toNat).map T) r)
        |>.map Prod.snd)
    (fun r h1 => FreedRel r (recvHeap ((List.range (ntr * ns).toNat).map T) r) h1) sent
    (fun r hr => by
      obtain ⟨P, _, hP⟩ := hmem r hr
      exact scratch_free P ntr ns hn r hP _ hlen)
  refine ⟨hsF, ?_, ?_⟩
  · unfold catseis
    rw [hsent]
    show (MPI_Allreduce _ _ >>= _) = _
    rw [hreduce]
    show allOk ((sent.zip (sent.map _)).map _) = _
    rw [zip_map_self]
    exact hfree
  · refine forall₂_comp (fun P r h1 hPr hrh => ?_) hrel hrelF
    intro i j hi1 hi2 hj1 hj2
    rw [collected_value P ntr ns r hPr T h1 hrh i j hi1 hi2 hj1 hj2, ← hT]
    congr 1
    show (sent.map (fun r : (Ptr × Ptr × Ptr) × Heap α => r.2.fltAt
      ⟨r.1.2.1.blk, r.1.2.1.off + (((i - 1) * ns + (j - 1)).toNat : Nat)⟩)).sum = _
    congr 1
    exact (forall₂_map_eq _ _ (fun Q q hQq =>
      (sent_value Q ntr ns q hQq i j hi1 hi2 hj1 hj2).symm) hrel).symm

end CatseisMain
/-! ## catseis.c: collector correctness and compaction order -/

section CatseisClaims

theorem countFlags_congr (flag flag1 : Int → Int) :
    ∀ n : Nat, (∀ l : Int, 1 ≤ l → l ≤ n → (flag1 l ≠ 0 ↔ flag l ≠ 0)) →
      countFlags flag1 n = countFlags flag n := by
  intro n
  induction n with
  | zero => intro _; rfl
  | succ n ih =>
    intro hl
    have h1 := ih (fun l h1 h2 => hl l h1 (by push_cast; omega))
    have h2 := hl ((n : Int) + 1) (by omega) (by push_cast; omega)
    show countFlags flag1 n + (if flag1 ((n : Int) + 1) ≠ 0 then 1 else 0)
      = countFlags flag n + (if flag ((n : Int) + 1) ≠ 0 then 1 else 0)
    rw [h1]
    by_cases hf : flag ((n : Int) + 1) ≠ 0
    · rw [if_pos hf, if_pos (h2.mpr hf)]
    · rw [if_neg hf, if_neg (fun h => hf (h2.mp h))]

theorem kthFlagged_succ (flag : Int → Int) (k : Int) (n : Nat) :
    kthFlagged flag k (n + 1) =
      match kthFlagged flag k n with
      | some i => some i
      | none =>
        if flag ((n : Int) + 1) ≠ 0 ∧ countFlags flag (n + 1) = k then some ((n : Int) + 1)
        else none := rfl

/-- What `kthFlagged` finds is a flagged index with `k` flags up to it. -/
theorem kthFlagged_some (flag : Int → Int) (k : Int) :
    ∀ (n : Nat) (i : Int), kthFlagged flag k n = some i →
      1 ≤ i ∧ i ≤ n ∧ flag i ≠ 0 ∧ countFlags flag i.toNat = k := by
  intro n
  induction n with
  | zero => intro i h; cases h
  | succ n ih =>
    intro i h
    rw [kthFlagged_succ] at h
    cases hk : kthFlagged flag k n with
    | some i0 =>
      rw [hk] at h
      obtain ⟨h1, h2, h3⟩ := ih i0 hk
      cases h
      exact ⟨h1, by push_cast; omega, h3⟩
    | none =>
      rw [hk] at h
      by_cases hc : flag ((n : Int) + 1) ≠ 0 ∧ countFlags flag (n + 1) = k
      · rw [if_pos hc] at h
        cases h
        refine ⟨by omega, by push_cast; omega, hc.1, ?_⟩
        have e : ((n : Int) + 1).toNat = n + 1 := by omega
        rw [e]
        exact hc.2
      · rw [if_neg hc] at h
        cases h

/-- Every `k` from 1 to the number of set flags has a `k`-th flagged index. -/
theorem kthFlagged_exists (flag : Int → Int) (k : Int) (hk : 1 ≤ k) :
    ∀ n : Nat, k ≤ countFlags flag n → ∃ i, kthFlagged flag k n = some i := by
  intro n
  induction n with
  | zero =>
    intro h
    have : countFlags flag 0 = 0 := rfl
    omega
  | succ n ih =>
    intro h
    rw [kthFlagged_succ]
    cases hkn : kthFlagged flag k n with
    | some i0 => exact ⟨i0, rfl⟩
    | none =>
      have hlt : ¬ k ≤ countFlags flag n := fun hle => by
        obtain ⟨i, hi⟩ := ih hle
        rw [hkn] at hi
        cases hi
      have hstep : countFlags flag (n + 1)
          = countFlags flag n + (if flag ((n : Int) + 1) ≠ 0 then 1 else 0) := rfl
      by_cases hf : flag ((n : Int) + 1) ≠ 0
      · rw [if_pos hf] at hstep
        exact ⟨(n : Int) + 1, by
          show (if flag ((n : Int) + 1) ≠ 0 ∧ countFlags flag (n + 1) = k
            then some ((n : Int) + 1) else none) = _
          rw [if_pos ⟨hf, by omega⟩]⟩
      · rw [if_neg hf] at hstep
        omega

/-- The `k`-th flagged index depends on the flags only through which indices
are flagged. -/
theorem kthFlagged_congr (flag flag1 : Int → Int) (k : Int) :
    ∀ n : Nat, (∀ l : Int, 1 ≤ l → l ≤ n → (flag1 l ≠ 0 ↔ flag l ≠ 0)) →
      kthFlagged flag1 k n = kthFlagged flag k n := by
  intro n
  induction n with
  | zero => intro _; rfl
  | succ n ih =>
    intro hl
    have h1 := ih (fun l h1 h2 => hl l h1 (by push_cast; omega))
    have h2 := hl ((n : Int) + 1) (by omega) (by push_cast; omega)
    have h3 := countFlags_congr flag flag1 (n + 1) hl
    rw [kthFlagged_succ, kthFlagged_succ, h1, h3]
    cases kthFlagged flag k n with
    | some i0 => rfl
    | none =>
      show (if flag1 ((n : Int) + 1) ≠ 0 ∧ countFlags flag (n + 1) = k
          then some ((n : Int) + 1) else none)
        = (if flag ((n : Int) + 1) ≠ 0 ∧ countFlags flag (n + 1) = k
          then some ((n : Int) + 1) else none)
      by_cases hf : flag ((n : Int) + 1) ≠ 0 ∧ countFlags flag (n + 1) = k
      · rw [if_pos hf, if_pos ⟨h2.mpr hf.1, hf.2⟩]
      · rw [if_neg hf, if_neg (fun h => hf ⟨h2.mp h.1, h.2⟩)]

/-- What `fulldata2[i][j]` reads when the process enters `MPI_Allreduce`. -/
theorem scratch_value [Zero α] (p : Proc α) (ntr ns : Int)
    (r : (Ptr × Ptr × Ptr) × Heap α) (hr : SendRel ntr ns p r)
    (i j : Int) (hi1 : 1 ≤ i) (hi2 : i ≤ ntr) (hj1 : 1 ≤ j) (hj2 : j ≤ ns) :
    r.2.matAt r.1.1 i j = some (scatter p.heap p.data p.recswitch i j) := by
  obtain ⟨fb, fo, c, hne, hrows, hcells, hr1, hr2, hrow, hsc, hflt, hfr, hwf⟩ := hr
  obtain ⟨⟨f2, sb, rv⟩, hh⟩ := r
  simp only [Prod.mk.injEq] at hr1
  obtain ⟨rfl, rfl, rfl⟩ := hr1
  simp only at hr2
  subst hr2
  have hb := flat_bound (show 0 ≤ i - 1 by omega) (show i - 1 < ntr by omega)
    (show 0 ≤ j - 1 by omega) (show j - 1 < ns by omega)
  have e1 : (ntr - 1 + 1) * (ns - 1 + 1) = ntr * ns := by ring
  refine @matAt_of_cells _ _ _ _ _ _ (p.heap.next + 1) (0 + (i - 1) * ns) _ ?_ ?_ ?_ ?_
  · exact alloc2_inb0 p.heap _ _ _ (by omega) (by omega)
  · exact hrow (i - 1) _ _ (by omega) (by omega) (by ring) rfl
  · exact alloc2_inb1 p.heap _ _ _ (by omega) (by omega)
  · exact hsc i j _ hi1 hi2 hj1 hj2 (by ring)

theorem sampleProc_ok (flags rows : List Int)
    (hrows : countFlags (sampleProc flags rows).flag 4 ≤ 2) :
    ProcOk (sampleProc flags rows) 4 2 := by
  refine ⟨?_, ?_, ?_, ?_, 4, 0, ?_, ?_, ?_⟩
  · intro p hp
    cases hp
  · intro n _ _
    rfl
  · intro i h1 h2
    have hin : (sampleProc flags rows).heap.inb ((sampleProc flags rows).recswitch + i) :=
      ⟨show 0 < 5 by decide, show (0 : Int) ≤ 0 + i by omega,
        show (0 : Int) + i < 5 by omega⟩
    have hi : i = 1 ∨ i = 2 ∨ i = 3 ∨ i = 4 := by omega
    rcases hi with rfl | rfl | rfl | rfl <;> exact ⟨hin, _, rfl⟩
  · intro k j hk1 hk2 hj1 hj2
    have hk2 : k ≤ 2 := le_trans hk2 hrows
    have hk : k = 1 ∨ k = 2 := by omega
    have hj : j = 1 ∨ j = 2 := by omega
    rcases hk with rfl | rfl <;> rcases hj with rfl | rfl <;> rfl
  · show (4 : Nat) ≠ 3
    decide
  · intro i h1 h2
    have hin : (sampleProc flags rows).heap.inb ((sampleProc flags rows).fulldata + i) :=
      ⟨show 3 < 5 by decide, show (0 : Int) ≤ 0 + i by omega,
        show (0 : Int) + i < 5 by omega⟩
    have hi : i = 1 ∨ i = 2 ∨ i = 3 ∨ i = 4 := by omega
    rcases hi with rfl | rfl | rfl | rfl <;> exact ⟨hin, rfl⟩
  · intro f h1 h2
    refine ⟨?_, ?_, ?_⟩
    · show 4 < 5
      decide
    · show 0 ≤ 0 + 1 + f
      omega
    · show 0 + 1 + f < 9
      omega

theorem sampleProcs_ok : ∀ P ∈ [sampleProcA, sampleProcB], ProcOk P 4 2 := by
  intro P hP
  rcases List.mem_cons.mp hP with rfl | hP
  · exact sampleProc_ok _ _ (by decide)
  · rcases List.mem_cons.mp hP with rfl | hP
    · exact sampleProc_ok _ _ (by decide)
    · cases hP

theorem sampleProcs_owner : ∀ i : Int, 1 ≤ i → i ≤ 4 →
    [sampleProcA, sampleProcB].countP (fun P => decide (P.flag i ≠ 0)) = 1 := by
  intro i h1 h2
  have hi : i = 1 ∨ i = 2 ∨ i = 3 ∨ i = 4 := by omega
  rcases hi with rfl | rfl | rfl | rfl <;> decide

/-- C1 (amended to `ntr_glob ≥ 1`). Collector correctness: for `ntr_glob ≥ 1`,
`ns ≥ 0` and every family of processes with valid arguments whose flags mark
each global trace index `i` in `1..ntr_glob` on exactly one process, `catseis`
(with `MPI_Allreduce` the element-wise sum of the scratch matrices) returns on
every process, and leaves `fulldata[i][j]` of every process `P` equal to
`data[k][j]` of the owner `Q` of `i`, with `k` the number of flags that `Q` set
among `1..i`. -/
theorem catseis_collects [AddCommMonoid α] (procs : List (Proc α)) (ntr_glob ns : Int)
    (hn : 1 ≤ ntr_glob) (hs : 0 ≤ ns) (hproc : ∀ P ∈ procs, ProcOk P ntr_glob ns)
    (howner : ∀ i : Int, 1 ≤ i → i ≤ ntr_glob →
      procs.countP (fun P => decide (P.flag i ≠ 0)) = 1) :
    ∃ hs, catseis procs ntr_glob ns = .ok hs ∧
      List.Forall₂ (fun P h1 => ∀ i j, 1 ≤ i → i ≤ ntr_glob → 1 ≤ j → j ≤ ns →
        ∀ Q ∈ procs, Q.flag i ≠ 0 → ∃ a, h1.matAt P.fulldata i j = some a ∧
          Q.heap.matAt Q.data (countFlags Q.flag i.toNat) j = some a) procs hs := by
  obtain ⟨hs1, hrun, hrel⟩ := catseis_spec procs ntr_glob ns hn hs hproc
  refine ⟨hs1, hrun, hrel.imp (fun P h1 hP i j hi1 hi2 hj1 hj2 Q hQ hflag => ?_)⟩
  have hsum : (procs.map (fun Q => scatter Q.heap Q.data Q.recswitch i j)).sum
      = (Q.heap.matAt Q.data (countFlags Q.flag i.toNat) j).getD 0 := by
    have := sum_unique_owner (fun P : Proc α => decide (P.flag i ≠ 0))
      (fun P => (P.heap.matAt P.data (countFlags P.flag i.toNat) j).getD 0) procs
      (howner i hi1 hi2) Q hQ (decide_eq_true hflag)
    refine Eq.trans ?_ this
    congr 1
    apply List.map_congr_left
    intro P _
    show (if P.flag i ≠ 0 then
        (P.heap.matAt P.data (countFlags P.flag i.toNat) j).getD 0 else 0)
      = (if decide (P.flag i ≠ 0) = true then
        (P.heap.matAt P.data (countFlags P.flag i.toNat) j).getD 0 else 0)
    by_cases hf : P.flag i ≠ 0
    · rw [if_pos hf, if_pos (decide_eq_true hf)]
    · rw [if_neg hf, if_neg (fun hd => hf (of_decide_eq_true hd))]
  obtain ⟨_, _, _, hda, _⟩ := hproc Q hQ
  have hk1 : 1 ≤ countFlags Q.flag i.toNat := by
    rw [countFlags_step Q.flag i hi1, if_pos hflag]
    have := countFlags_nonneg Q.flag (i - 1).toNat
    omega
  have hk2 : countFlags Q.flag i.toNat ≤ countFlags Q.flag ntr_glob.toNat :=
    countFlags_mono Q.flag (by omega)
  have hsome := hda (countFlags Q.flag i.toNat) j hk1 hk2 hj1 hj2
  obtain ⟨a, ha⟩ := Option.isSome_iff_exists.mp hsome
  refine ⟨a, ?_, ha⟩
  rw [hP i j hi1 hi2 hj1 hj2, hsum, ha]
  rfl

theorem catseis_collects_witness :
    ((1 : Int) ≤ 4 ∧ (0 : Int) ≤ 2 ∧ (∀ P ∈ [sampleProcA, sampleProcB], ProcOk P 4 2) ∧
      ∀ i : Int, 1 ≤ i → i ≤ 4 →
        [sampleProcA, sampleProcB].countP (fun P => decide (P.flag i ≠ 0)) = 1) ∧
    (∃ hs, catseis [sampleProcA, sampleProcB] 4 2 = .ok hs ∧
      List.Forall₂ (fun P h1 => ∀ i j, 1 ≤ i → i ≤ 4 → 1 ≤ j → j ≤ 2 →
        ∀ Q ∈ [sampleProcA, sampleProcB], Q.flag i ≠ 0 →
          ∃ a, h1.matAt P.fulldata i j = some a ∧
            Q.heap.matAt Q.data (countFlags Q.flag i.toNat) j = some a)
        [sampleProcA, sampleProcB] hs) ∧
    (catseis [sampleProcA, sampleProcB] 4 2).toOption.map
        (fun hs => hs.map (readSample sampleProcA.fulldata))
      = some [[[some 1, some 2], [some 3, some 4], [some 5, some 6], [some 7, some 8]],
              [[some 1, some 2], [some 3, some 4], [some 5, some 6], [some 7, some 8]]] :=
  ⟨⟨by decide, by decide, sampleProcs_ok, sampleProcs_owner⟩,
   catseis_collects [sampleProcA, sampleProcB] 4 2 (by decide) (by decide)
     sampleProcs_ok sampleProcs_owner,
   by decide⟩

/-- C1 as stated fails at `ntr_glob = 0`: for the two processes of the
collector example, whose arguments are valid for `ntr_glob = 0` and whose flags
mark every index of the empty range `1..0` exactly once, `catseis` does not
return: `fmatrix(1, 0, 1, ns)` stores the row pointer `m[1]` outside the block
of one pointer that it allocated. -/
theorem catseis_no_trace_fault :
    (0 : Int) ≤ 0 ∧ (0 : Int) ≤ 2 ∧ (∀ P ∈ [sampleProcA, sampleProcB], ProcOk P 0 2) ∧
    (∀ i : Int, 1 ≤ i → i ≤ 0 →
      [sampleProcA, sampleProcB].countP (fun P => decide (P.flag i ≠ 0)) = 1) ∧
    catseis [sampleProcA, sampleProcB] 0 2 = .error .fault ∧
    ¬ ∃ hs, catseis [sampleProcA, sampleProcB] 0 2 = .ok hs := by
  refine ⟨le_refl _, by decide, ?_, fun i h1 h2 => absurd h1 (by omega), rfl, ?_⟩
  · have hok : ∀ flags rows : List Int, ProcOk (sampleProc flags rows) 0 2 := by
      intro flags rows
      refine ⟨fun p hp => ?_, fun n _ _ => rfl, fun i h1 h2 => absurd h1 (by omega),
        fun k j h1 h2 => absurd h1 (by
          have : countFlags (sampleProc flags rows).flag (0 : Int).toNat = 0 := rfl
          omega),
        4, 0, ?_, fun i h1 h2 => absurd h1 (by omega),
        fun f h1 h2 => absurd h1 (by omega)⟩
      · cases hp
      · show (4 : Nat) ≠ 3
        decide
    intro P hP
    rcases List.mem_cons.mp hP with rfl | hP
    · exact hok _ _
    · rcases List.mem_cons.mp hP with rfl | hP
      · exact hok _ _
      · cases hP
  · rintro ⟨hs, h⟩
    have hf : catseis [sampleProcA, sampleProcB] 0 2 = .error .fault := rfl
    rw [hf] at h
    cases h

/-- C2. Compaction order in `catseis`: for a process with valid arguments and
every `k` from 1 to the number `c` of set flags in `recswitch[1..ntr_glob]`,
there is the `k`-th flagged index `i` in ascending order (a flagged index in
`1..ntr_glob` with exactly `k` flagged indices up to it; a larger `k` has a
larger index), it is the same for every flag sequence with the same set of
flagged indices, and the scatter loop of `catseis` copies the local row
`data[k]` to the scratch row `fulldata2[i]`. -/
theorem compaction_order [Zero α] (P : Proc α) (ntr_glob ns : Int) (hs : 0 ≤ ns)
    (hP : ProcOk P ntr_glob ns) (k : Int) (hk1 : 1 ≤ k)
    (hk2 : k ≤ countFlags P.flag ntr_glob.toNat) :
    ∃ i, kthFlagged P.flag k ntr_glob.toNat = some i ∧
      (1 ≤ i ∧ i ≤ ntr_glob ∧ P.flag i ≠ 0 ∧ countFlags P.flag i.toNat = k) ∧
      (∀ k1 i1, k < k1 → kthFlagged P.flag k1 ntr_glob.toNat = some i1 → i < i1) ∧
      (∀ flag1 : Int → Int,
        (∀ l : Int, 1 ≤ l → l ≤ ntr_glob → (flag1 l ≠ 0 ↔ P.flag l ≠ 0)) →
        kthFlagged flag1 k ntr_glob.toNat = some i) ∧
      ∃ r, (catseisSend P.data P.fulldata P.recswitch ntr_glob ns).run P.heap = .ok r ∧
        ∀ j, 1 ≤ j → j ≤ ns → ∃ a, r.2.matAt r.1.1 i j = some a ∧
          P.heap.matAt P.data k j = some a := by
  have hn : 1 ≤ ntr_glob := by
    by_contra hlt
    have e : ntr_glob.toNat = 0 := by omega
    rw [e] at hk2
    have : countFlags P.flag 0 = 0 := rfl
    omega
  obtain ⟨i, hi⟩ := kthFlagged_exists P.flag k hk1 ntr_glob.toNat hk2
  obtain ⟨hi1, hi2, hfl, hcnt⟩ := kthFlagged_some P.flag k _ i hi
  have hi2 : i ≤ ntr_glob := by omega
  refine ⟨i, hi, ⟨hi1, hi2, hfl, hcnt⟩, ?_, ?_, ?_⟩
  · intro k1 i1 hkk h1
    obtain ⟨h11, _, _, hc1⟩ := kthFlagged_some P.flag k1 _ i1 h1
    by_contra hle
    have := countFlags_mono P.flag (show i1.toNat ≤ i.toNat by omega)
    omega
  · intro flag1 hl
    rw [kthFlagged_congr P.flag flag1 k ntr_glob.toNat (fun l h1 h2 => hl l h1 (by omega))]
    exact hi
  · obtain ⟨r, hrun, hr⟩ := send_rel P ntr_glob ns hn hs hP
    refine ⟨r, hrun, fun j hj1 hj2 => ?_⟩
    obtain ⟨_, _, _, hda, _⟩ := hP
    obtain ⟨a, ha⟩ := Option.isSome_iff_exists.mp (hda k j hk1 hk2 hj1 hj2)
    refine ⟨a, ?_, ha⟩
    rw [scratch_value P ntr_glob ns r hr i j hi1 hi2 hj1 hj2]
    show some (if P.flag i ≠ 0 then
      (P.heap.matAt P.data (countFlags P.flag i.toNat) j).getD 0 else 0) = _
    rw [if_pos hfl, hcnt, ha]
    rfl

theorem compaction_order_witness :
    ((0 : Int) ≤ 2 ∧ ProcOk sampleProcA 4 2 ∧ (1 : Int) ≤ 2 ∧
      (2 : Int) ≤ countFlags sampleProcA.flag (4 : Int).toNat) ∧
    ∃ i, kthFlagged sampleProcA.flag 2 (4 : Int).toNat = some i ∧
      (1 ≤ i ∧ i ≤ 4 ∧ sampleProcA.flag i ≠ 0 ∧ countFlags sampleProcA.flag i.toNat = 2) ∧
      (∀ k1 i1, 2 < k1 → kthFlagged sampleProcA.flag k1 (4 : Int).toNat = some i1 → i < i1) ∧
      (∀ flag1 : Int → Int,
        (∀ l : Int, 1 ≤ l → l ≤ 4 → (flag1 l ≠ 0 ↔ sampleProcA.flag l ≠ 0)) →
        kthFlagged flag1 2 (4 : Int).toNat = some i) ∧
      ∃ r, (catseisSend sampleProcA.data sampleProcA.fulldata sampleProcA.recswitch 4 2).run
          sampleProcA.heap = .ok r ∧
        ∀ j, 1 ≤ j → j ≤ 2 → ∃ a, r.2.matAt r.1.1 i j = some a ∧
          sampleProcA.heap.matAt sampleProcA.data 2 j = some a :=
  ⟨⟨by decide, sampleProc_ok _ _ (by decide), by decide, by decide⟩,
   compaction_order sampleProcA 4 2 (by decide) (sampleProc_ok _ _ (by decide)) 2
     (by decide) (by decide)⟩

end CatseisClaims
/-! ## catseis.c: determinism and the message layout -/

section CatseisMore

theorem forall₂_lookup {β γ : Type} {R : β → γ → Prop} :
    ∀ {l1 : List β} {l2 : List γ}, List.Forall₂ R l1 l2 →
      ∀ (a : Nat) (x : β) (y : γ), l1[a]? = some x → l2[a]? = some y → R x y := by
  intro l1 l2 h
  induction h with
  | nil => intro a x y hx; simp at hx
  | cons hr _ ih =>
    intro a x y hx hy
    cases a with
    | zero =>
      simp only [List.getElem?_cons_zero, Option.some.injEq] at hx hy
      subst hx
      subst hy
      exact hr
    | succ a =>
      simp only [List.getElem?_cons_succ] at hx hy
      exact ih a x y hx hy

/-- What a process scatters depends only on its flags and on the rows of
`data` that the flags select. -/
theorem scatter_congr [Zero α] (P P1 : Proc α) (ntr ns : Int)
    (hflag : ∀ i, 1 ≤ i → i ≤ ntr → P1.flag i = P.flag i)
    (hdata : ∀ k j, 1 ≤ k → k ≤ countFlags P.flag ntr.toNat → 1 ≤ j → j ≤ ns →
      P1.heap.matAt P1.data k j = P.heap.matAt P.data k j)
    (i j : Int) (hi1 : 1 ≤ i) (hi2 : i ≤ ntr) (hj1 : 1 ≤ j) (hj2 : j ≤ ns) :
    scatter P1.heap P1.data P1.recswitch i j = scatter P.heap P.data P.recswitch i j := by
  show (if P1.flag i ≠ 0 then
      (P1.heap.matAt P1.data (countFlags P1.flag i.toNat) j).getD 0 else 0)
    = (if P.flag i ≠ 0 then
      (P.heap.matAt P.data (countFlags P.flag i.toNat) j).getD 0 else 0)
  have hcnt : countFlags P1.flag i.toNat = countFlags P.flag i.toNat :=
    countFlags_congr P.flag P1.flag i.toNat (fun l h1 h2 => by
      rw [hflag l h1 (by omega)])
  rw [hflag i hi1 hi2, hcnt]
  by_cases hf : P.flag i ≠ 0
  · rw [if_pos hf, if_pos hf]
    have hk1 : 1 ≤ countFlags P.flag i.toNat := by
      rw [countFlags_step P.flag i hi1, if_pos hf]
      have := countFlags_nonneg P.flag (i - 1).toNat
      omega
    have hk2 : countFlags P.flag i.toNat ≤ countFlags P.flag ntr.toNat :=
      countFlags_mono P.flag (by omega)
    rw [hdata _ j hk1 hk2 hj1 hj2]
  · rw [if_neg hf, if_neg hf]

/-- C13. Collector determinism: take two runs of `catseis` with the same
`ntr_glob`, `ns`, by families of processes with valid arguments that agree,
process by process, on the flags `recswitch[1..ntr_glob]` and on the rows of
`data` that the flags select, and are arbitrary otherwise (prior contents of
`fulldata`, contents of the memory that `malloc` hands out).  When
`ntr_glob ≥ 1` both runs return; and whenever both return there is one matrix
`F` such that every process of either run reads `fulldata[i][j] = F i j` for all
`1 ≤ i ≤ ntr_glob`, `1 ≤ j ≤ ns`. -/
theorem collector_deterministic [AddCommMonoid α] (procs procs1 : List (Proc α))
    (ntr_glob ns : Int) (hs : 0 ≤ ns)
    (hproc : ∀ P ∈ procs, ProcOk P ntr_glob ns)
    (hproc1 : ∀ P ∈ procs1, ProcOk P ntr_glob ns)
    (hsame : List.Forall₂ (fun P P1 =>
      (∀ i, 1 ≤ i → i ≤ ntr_glob → P1.flag i = P.flag i) ∧
      ∀ k j, 1 ≤ k → k ≤ countFlags P.flag ntr_glob.toNat → 1 ≤ j → j ≤ ns →
        P1.heap.matAt P1.data k j = P.heap.matAt P.data k j) procs procs1) :
    (1 ≤ ntr_glob → ∃ hs hs1, catseis procs ntr_glob ns = .ok hs ∧
      catseis procs1 ntr_glob ns = .ok hs1) ∧
    ∀ hs hs1, catseis procs ntr_glob ns = .ok hs → catseis procs1 ntr_glob ns = .ok hs1 →
      ∃ F : Int → Int → α,
        (∀ (a : Nat) (P : Proc α) (h1 : Heap α), procs[a]? = some P → hs[a]? = some h1 →
          ∀ i j, 1 ≤ i → i ≤ ntr_glob → 1 ≤ j → j ≤ ns →
            h1.matAt P.fulldata i j = some (F i j)) ∧
        (∀ (a : Nat) (P : Proc α) (h1 : Heap α), procs1[a]? = some P → hs1[a]? = some h1 →
          ∀ i j, 1 ≤ i → i ≤ ntr_glob → 1 ≤ j → j ≤ ns →
            h1.matAt P.fulldata i j = some (F i j)) := by
  constructor
  · intro hn
    obtain ⟨hs0, hrun, -⟩ := catseis_spec procs ntr_glob ns hn hs hproc
    obtain ⟨hs1, hrun1, -⟩ := catseis_spec procs1 ntr_glob ns hn hs hproc1
    exact ⟨hs0, hs1, hrun, hrun1⟩
  · intro hsa hsb hra hrb
    by_cases hn : 1 ≤ ntr_glob
    · obtain ⟨hs0, hrun, hrel⟩ := catseis_spec procs ntr_glob ns hn hs hproc
      obtain ⟨hs1, hrun1, hrel1⟩ := catseis_spec procs1 ntr_glob ns hn hs hproc1
      rw [hra] at hrun
      rw [hrb] at hrun1
      injection hrun with hrun
      injection hrun1 with hrun1
      subst hrun
      subst hrun1
      refine ⟨fun i j => (procs.map (fun Q => scatter Q.heap Q.data Q.recswitch i j)).sum,
        fun a P h1 hP hh i j hi1 hi2 hj1 hj2 =>
          forall₂_lookup hrel a P h1 hP hh i j hi1 hi2 hj1 hj2,
        fun a P h1 hP hh i j hi1 hi2 hj1 hj2 => ?_⟩
      rw [forall₂_lookup hrel1 a P h1 hP hh i j hi1 hi2 hj1 hj2]
      congr 2
      exact (forall₂_map_eq _ _ (fun Q Q1 hQ =>
        (scatter_congr Q Q1 ntr_glob ns hQ.1 hQ.2 i j hi1 hi2 hj1 hj2).symm) hsame).symm
    · exact ⟨fun _ _ => 0, fun a P h1 _ _ i j hi1 hi2 => absurd hi1 (by omega),
        fun a P h1 _ _ i j hi1 hi2 => absurd hi1 (by omega)⟩

theorem sampleProcOther_ok (flags rows : List Int)
    (hrows : countFlags (sampleProcOther flags rows).flag 4 ≤ 2) :
    ProcOk (sampleProcOther flags rows) 4 2 := by
  refine ⟨?_, ?_, ?_, ?_, 4, 0, ?_, ?_, ?_⟩
  · intro p hp
    cases hp
  · intro n _ _
    rfl
  · intro i h1 h2
    have hin : (sampleProcOther flags rows).heap.inb
        ((sampleProcOther flags rows).recswitch + i) :=
      ⟨show 0 < 5 by decide, show (0 : Int) ≤ 0 + i by omega,
        show (0 : Int) + i < 5 by omega⟩
    have hi : i = 1 ∨ i = 2 ∨ i = 3 ∨ i = 4 := by omega
    rcases hi with rfl | rfl | rfl | rfl <;> exact ⟨hin, _, rfl⟩
  · intro k j hk1 hk2 hj1 hj2
    have hk2 : k ≤ 2 := le_trans hk2 hrows
    have hk : k = 1 ∨ k = 2 := by omega
    have hj : j = 1 ∨ j = 2 := by omega
    rcases hk with rfl | rfl <;> rcases hj with rfl | rfl <;> rfl
  · show (4 : Nat) ≠ 3
    decide
  · intro i h1 h2
    have hin : (sampleProcOther flags rows).heap.inb
        ((sampleProcOther flags rows).fulldata + i) :=
      ⟨show 3 < 5 by decide, show (0 : Int) ≤ 0 + i by omega,
        show (0 : Int) + i < 5 by omega⟩
    have hi : i = 1 ∨ i = 2 ∨ i = 3 ∨ i = 4 := by omega
    rcases hi with rfl | rfl | rfl | rfl <;> exact ⟨hin, rfl⟩
  · intro f h1 h2
    refine ⟨?_, ?_, ?_⟩
    · show 4 < 5
      decide
    · show 0 ≤ 0 + 1 + f
      omega
    · show 0 + 1 + f < 9
      omega

theorem sampleOthers_ok :
    ∀ P ∈ [sampleProcOther [1, 0, 0, 1] [1, 2, 7, 8], sampleProcOther [0, 1, 1, 0] [3, 4, 5, 6]],
      ProcOk P 4 2 := by
  intro P hP
  rcases List.mem_cons.mp hP with rfl | hP
  · exact sampleProcOther_ok _ _ (by decide)
  · rcases List.mem_cons.mp hP with rfl | hP
    · exact sampleProcOther_ok _ _ (by decide)
    · cases hP

theorem sampleOther_same (flags rows : List Int)
    (hrows : countFlags (sampleProc flags rows).flag (4 : Int).toNat ≤ 2) :
    (∀ i : Int, 1 ≤ i → i ≤ 4 →
      (sampleProcOther flags rows).flag i = (sampleProc flags rows).flag i) ∧
    ∀ k j : Int, 1 ≤ k → k ≤ countFlags (sampleProc flags rows).flag (4 : Int).toNat →
      1 ≤ j → j ≤ 2 →
      (sampleProcOther flags rows).heap.matAt (sampleProcOther flags rows).data k j
        = (sampleProc flags rows).heap.matAt (sampleProc flags rows).data k j := by
  constructor
  · intro i h1 h2
    have hi : i = 1 ∨ i = 2 ∨ i = 3 ∨ i = 4 := by omega
    rcases hi with rfl | rfl | rfl | rfl <;> rfl
  · intro k j hk1 hk2 hj1 hj2
    have hk2 : k ≤ 2 := le_trans hk2 hrows
    have hk : k = 1 ∨ k = 2 := by omega
    have hj : j = 1 ∨ j = 2 := by omega
    rcases hk with rfl | rfl <;> rcases hj with rfl | rfl <;> rfl

theorem sampleOthers_same :
    List.Forall₂ (fun P P1 : Proc Int =>
      (∀ i, 1 ≤ i → i ≤ 4 → P1.flag i = P.flag i) ∧
      ∀ k j, 1 ≤ k → k ≤ countFlags P.flag (4 : Int).toNat → 1 ≤ j → j ≤ 2 →
        P1.heap.matAt P1.data k j = P.heap.matAt P.data k j)
      [sampleProcA, sampleProcB]
      [sampleProcOther [1, 0, 0, 1] [1, 2, 7, 8], sampleProcOther [0, 1, 1, 0] [3, 4, 5, 6]] :=
  List.Forall₂.cons (sampleOther_same _ _ (by decide))
    (List.Forall₂.cons (sampleOther_same _ _ (by decide)) List.Forall₂.nil)

theorem collector_deterministic_witness :
    ((0 : Int) ≤ 2 ∧ (∀ P ∈ [sampleProcA, sampleProcB], ProcOk P 4 2) ∧
     (∀ P ∈ [sampleProcOther [1, 0, 0, 1] [1, 2, 7, 8],
        sampleProcOther [0, 1, 1, 0] [3, 4, 5, 6]], ProcOk P 4 2) ∧
     List.Forall₂ (fun P P1 : Proc Int =>
      (∀ i, 1 ≤ i → i ≤ 4 → P1.flag i = P.flag i) ∧
      ∀ k j, 1 ≤ k → k ≤ countFlags P.flag (4 : Int).toNat → 1 ≤ j → j ≤ 2 →
        P1.heap.matAt P1.data k j = P.heap.matAt P.data k j)
      [sampleProcA, sampleProcB]
      [sampleProcOther [1, 0, 0, 1] [1, 2, 7, 8],
        sampleProcOther [0, 1, 1, 0] [3, 4, 5, 6]]) ∧
    ((1 ≤ (4 : Int) → ∃ hs hs1, catseis [sampleProcA, sampleProcB] 4 2 = .ok hs ∧
      catseis [sampleProcOther [1, 0, 0, 1] [1, 2, 7, 8],
        sampleProcOther [0, 1, 1, 0] [3, 4, 5, 6]] 4 2 = .ok hs1) ∧
    ∀ hs hs1, catseis [sampleProcA, sampleProcB] 4 2 = .ok hs →
      catseis [sampleProcOther [1, 0, 0, 1] [1, 2, 7, 8],
        sampleProcOther [0, 1, 1, 0] [3, 4, 5, 6]] 4 2 = .ok hs1 →
      ∃ F : Int → Int → Int,
        (∀ (a : Nat) (P : Proc Int) (h1 : Heap Int),
          [sampleProcA, sampleProcB][a]? = some P → hs[a]? = some h1 →
          ∀ i j, 1 ≤ i → i ≤ 4 → 1 ≤ j → j ≤ 2 →
            h1.matAt P.fulldata i j = some (F i j)) ∧
        (∀ (a : Nat) (P : Proc Int) (h1 : Heap Int),
          [sampleProcOther [1, 0, 0, 1] [1, 2, 7, 8],
            sampleProcOther [0, 1, 1, 0] [3, 4, 5, 6]][a]? = some P → hs1[a]? = some h1 →
          ∀ i j, 1 ≤ i → i ≤ 4 → 1 ≤ j → j ≤ 2 →
            h1.matAt P.fulldata i j = some (F i j))) ∧
    (catseis [sampleProcOther [1, 0, 0, 1] [1, 2, 7, 8],
        sampleProcOther [0, 1, 1, 0] [3, 4, 5, 6]] 4 2).toOption.map
        (fun hs => hs.map (readSample sampleProcA.fulldata))
      = some [[[some 1, some 2], [some 3, some 4], [some 5, some 6], [some 7, some 8]],
              [[some 1, some 2], [some 3, some 4], [some 5, some 6], [some 7, some 8]]] :=
  ⟨⟨by decide, sampleProcs_ok, sampleOthers_ok, sampleOthers_same⟩,
   collector_deterministic [sampleProcA, sampleProcB]
     [sampleProcOther [1, 0, 0, 1] [1, 2, 7, 8], sampleProcOther [0, 1, 1, 0] [3, 4, 5, 6]]
     4 2 (by decide) sampleProcs_ok sampleOthers_ok sampleOthers_same,
   by decide⟩

/-- The message that a process hands to `MPI_Allreduce`: the buffer starts at
`&fulldata2[1][1]` and the `ntr*ns` floats read from there are the entries
`fulldata2[i][j]` in row-major order. -/
theorem send_row_major [Zero α] (p : Proc α) (ntr ns : Int) (hn : 1 ≤ ntr)
    (r : (Ptr × Ptr × Ptr) × Heap α) (hr : SendRel ntr ns p r) :
    at2 r.1.1 1 1 r.2 = .ok (r.1.2.1, r.2) ∧
    (sendList (ntr * ns).toNat r).length = (ntr * ns).toNat ∧
    ∀ i j, 1 ≤ i → i ≤ ntr → 1 ≤ j → j ≤ ns →
      (r.2.matAt r.1.1 i j).isSome = true ∧
      (sendList (ntr * ns).toNat r)[(flat2 1 1 ns i j).toNat]? = r.2.matAt r.1.1 i j := by
  refine ⟨?_, by simp [sendList], fun i j hi1 hi2 hj1 hj2 => ?_⟩
  · obtain ⟨fb, fo, c, hne, hrows, hcells, hr1, hr2, hrow, hsc, hflt, hfr, hwf⟩ := hr
    obtain ⟨⟨f2, sb, rv⟩, hh⟩ := r
    simp only [Prod.mk.injEq] at hr1
    obtain ⟨rfl, rfl, rfl⟩ := hr1
    simp only at hr2
    subst hr2
    apply ok_eq
    refine ok_at2 ⟨p.heap.next + 1, 0 + 0 * ns⟩
      (alloc2_inb0 p.heap _ _ (0 + 1) (by omega) (by omega))
      (hrow 0 _ _ le_rfl (by omega) rfl rfl) ⟨?_, rfl⟩
    rw [ptr_add]
    congr 1
    ring
  · have hb := flat_bound (show 0 ≤ i - 1 by omega) (show i - 1 < ntr by omega)
      (show 0 ≤ j - 1 by omega) (show j - 1 < ns by omega)
    have hv := scratch_value p ntr ns r hr i j hi1 hi2 hj1 hj2
    refine ⟨by rw [hv]; rfl, ?_⟩
    have hf : ((i - 1) * ns + (j - 1)).toNat < (ntr * ns).toNat := by omega
    show ((List.range (ntr * ns).toNat).map _)[((i - 1) * ns + (j - 1)).toNat]? = _
    rw [List.getElem?_map, List.getElem?_range hf, hv]
    show some _ = some _
    congr 1
    exact sent_value p ntr ns r hr i j hi1 hi2 hj1 hj2

/-- C16. Row-major contiguity of `fmatrix`: for `nrl ≤ nrh`, `ncl ≤ nch` and
successful allocation, every in-bounds `m[i][j]` of the matrix returned is the
slot at offset `(i-nrl)*ncol + (j-ncl)` from `&m[nrl][ncl]` in one block; the
offsets of the in-bounds index pairs are exactly the positions `0 .. nrow*ncol-1`,
each taken once.  And a process with valid arguments (`ntr_glob ≥ 1`) reaches
`MPI_Allreduce` in `catseis` with a send buffer that starts at
`&fulldata2[1][1]` and whose `ntr_glob*ns` floats are the entries
`fulldata2[i][j]`, `1 ≤ i ≤ ntr_glob`, `1 ≤ j ≤ ns`, in row-major order. -/
theorem fmatrix_row_major [Zero α] (nrl nrh ncl nch : Int) (h : Heap α)
    (hm : h.mallocOk 2) (hr : nrl ≤ nrh) (hc : ncl ≤ nch)
    (P : Proc α) (ntr_glob ns : Int) (hn : 1 ≤ ntr_glob) (hs : 0 ≤ ns)
    (hP : ProcOk P ntr_glob ns) :
    Ok (fmatrix nrl nrh ncl nch) h (Layout2 nrl nrh ncl nch) ∧
    (∀ i j, nrl ≤ i → i ≤ nrh → ncl ≤ j → j ≤ nch →
      0 ≤ flat2 nrl ncl (nch - ncl + 1) i j ∧
      flat2 nrl ncl (nch - ncl + 1) i j < (nrh - nrl + 1) * (nch - ncl + 1)) ∧
    (∀ i j i1 j1, ncl ≤ j → j ≤ nch → ncl ≤ j1 → j1 ≤ nch →
      flat2 nrl ncl (nch - ncl + 1) i j = flat2 nrl ncl (nch - ncl + 1) i1 j1 →
      i = i1 ∧ j = j1) ∧
    (∀ f, 0 ≤ f → f < (nrh - nrl + 1) * (nch - ncl + 1) →
      ∃ i j, nrl ≤ i ∧ i ≤ nrh ∧ ncl ≤ j ∧ j ≤ nch ∧
        flat2 nrl ncl (nch - ncl + 1) i j = f) ∧
    ∃ r L, (catseisSend P.data P.fulldata P.recswitch ntr_glob ns).run P.heap = .ok r ∧
      at2 r.1.1 1 1 r.2 = .ok (r.1.2.1, r.2) ∧
      (readBuf r.1.2.1 (ntr_glob * ns).toNat).run' r.2 = .ok L ∧
      L.length = (ntr_glob * ns).toNat ∧
      ∀ i j, 1 ≤ i → i ≤ ntr_glob → 1 ≤ j → j ≤ ns →
        (r.2.matAt r.1.1 i j).isSome = true ∧
        L[(flat2 1 1 ns i j).toNat]? = r.2.matAt r.1.1 i j := by
  refine ⟨matrixOf_address _ _ _ nrl nrh ncl nch h hm hr hc,
    fun i j hi1 hi2 hj1 hj2 => flat2_bound hi1 hi2 hj1 hj2,
    fun i j i1 j1 hj1 hj2 hk1 hk2 he => flat2_inj hj1 hj2 hk1 hk2 he,
    fun f hf0 hf1 => flat2_surj hc hf0 hf1, ?_⟩
  obtain ⟨r, hrun, hrel⟩ := send_rel P ntr_glob ns hn hs hP
  obtain ⟨hat, hlen, hval⟩ := send_row_major P ntr_glob ns hn r hrel
  exact ⟨r, _, hrun, hat, send_buffer P ntr_glob ns hn hs r hrel, hlen, hval⟩

theorem fmatrix_row_major_witness :
    (junkHeap.mallocOk 2 ∧ (-1 : Int) ≤ 1 ∧ (0 : Int) ≤ 2 ∧ (1 : Int) ≤ 4 ∧ (0 : Int) ≤ 2 ∧
      ProcOk sampleProcA 4 2) ∧
    (Ok (fmatrix (-1) 1 0 2) junkHeap (Layout2 (-1) 1 0 2) ∧
    (∀ i j, -1 ≤ i → i ≤ 1 → 0 ≤ j → j ≤ 2 →
      0 ≤ flat2 (-1) 0 (2 - 0 + 1) i j ∧
      flat2 (-1) 0 (2 - 0 + 1) i j < (1 - -1 + 1) * (2 - 0 + 1)) ∧
    (∀ i j i1 j1, 0 ≤ j → j ≤ 2 → 0 ≤ j1 → j1 ≤ 2 →
      flat2 (-1) 0 (2 - 0 + 1) i j = flat2 (-1) 0 (2 - 0 + 1) i1 j1 →
      i = i1 ∧ j = j1) ∧
    (∀ f, 0 ≤ f → f < (1 - -1 + 1) * (2 - 0 + 1) →
      ∃ i j, -1 ≤ i ∧ i ≤ 1 ∧ 0 ≤ j ∧ j ≤ 2 ∧ flat2 (-1) 0 (2 - 0 + 1) i j = f) ∧
    ∃ r L, (catseisSend sampleProcA.data sampleProcA.fulldata sampleProcA.recswitch 4 2).run
        sampleProcA.heap = .ok r ∧
      at2 r.1.1 1 1 r.2 = .ok (r.1.2.1, r.2) ∧
      (readBuf r.1.2.1 ((4 : Int) * 2).toNat).run' r.2 = .ok L ∧
      L.length = ((4 : Int) * 2).toNat ∧
      ∀ i j, 1 ≤ i → i ≤ 4 → 1 ≤ j → j ≤ 2 →
        (r.2.matAt r.1.1 i j).isSome = true ∧
        L[(flat2 1 1 2 i j).toNat]? = r.2.matAt r.1.1 i j) :=
  ⟨⟨junkHeap_mallocOk 2, by decide, by decide, by decide, by decide,
      sampleProc_ok _ _ (by decide)⟩,
   fmatrix_row_major (-1) 1 0 2 junkHeap (junkHeap_mallocOk 2) (by decide) (by decide)
     sampleProcA 4 2 (by decide) (by decide) (sampleProc_ok _ _ (by decide))⟩

end CatseisMore
/-! ## catseis.c: rows of traces that a process does not own -/

section CatseisRows

variable {α : Type}

/-- A sum whose terms outside a selection are zero is the sum over the
selection. -/
theorem sum_map_ite_filter [AddCommMonoid α] {β : Type} (p : β → Bool) (v : β → α) :
    ∀ l : List β,
      (l.map (fun x => if p x = true then v x else 0)).sum = ((l.filter p).map v).sum := by
  intro l
  induction l with
  | nil => rfl
  | cons x xs ih =>
    rw [List.map_cons, List.sum_cons, ih]
    by_cases hpx : p x = true
    · rw [if_pos hpx, List.filter_cons_of_pos hpx, List.map_cons, List.sum_cons]
    · rw [if_neg hpx, List.filter_cons_of_neg hpx, zero_add]

/-- The values of a partial function along a list on which it is defined. -/
theorem forall₂_getD {β γ : Type} (f : β → Option γ) (d : γ) :
    ∀ l : List β, (∀ x ∈ l, (f x).isSome = true) →
      List.Forall₂ (fun x a => f x = some a) l (l.map fun x => (f x).getD d) := by
  intro l
  induction l with
  | nil => intro _; exact List.Forall₂.nil
  | cons x xs ih =>
    intro h
    refine List.Forall₂.cons ?_ (ih (fun y hy => h y (List.mem_cons_of_mem _ hy)))
    obtain ⟨a, ha⟩ := Option.isSome_iff_exists.mp (h x (List.mem_cons_self _ _))
    show f x = some ((f x).getD d)
    rw [ha]
    rfl

/-- The scatter loop leaves zero where the flag of the process is clear. -/
theorem scatter_unflagged [Zero α] (P : Proc α) (i j : Int) (h0 : P.flag i = 0) :
    scatter P.heap P.data P.recswitch i j = 0 := by
  unfold scatter
  exact if_neg (fun hne => hne h0)

theorem sampleRows_ok : ∀ P ∈ [sampleProcA, sampleProcC], ProcOk P 4 2 := by
  intro P hP
  rcases List.mem_cons.mp hP with rfl | hP
  · exact sampleProc_ok _ _ (by decide)
  · rcases List.mem_cons.mp hP with rfl | hP
    · exact sampleProc_ok _ _ (by decide)
    · cases hP

/-- C21. In `catseis`, run by processes with valid arguments, take a global
index `i` in `1..ntr_glob` and a sample `j` in `1..ns`. Every process reaches
the reduction, and on a process with `recswitch[i] == 0` the scratch entry
`fulldata2[i][j]`, which is the entry at row-major position `(i, j)` of the
buffer handed to `MPI_Allreduce`, is zero. The run returns on every process,
with `fulldata[i][j]` equal to the sum, over the processes `Q` that flag `i`,
of `data[k][j]` of `Q` with `k` the number of flags `Q` set among `1..i`; so it
is zero when no process flags `i`. -/
theorem unflagged_rows_zero [AddCommMonoid α] (procs : List (Proc α)) (ntr_glob ns : Int)
    (hproc : ∀ P ∈ procs, ProcOk P ntr_glob ns)
    (i j : Int) (hi1 : 1 ≤ i) (hi2 : i ≤ ntr_glob) (hj1 : 1 ≤ j) (hj2 : j ≤ ns) :
    (∀ P ∈ procs, ∃ r,
      (catseisSend P.data P.fulldata P.recswitch ntr_glob ns).run P.heap = .ok r ∧
      (P.flag i = 0 → r.2.matAt r.1.1 i j = some 0 ∧
        (sendList (ntr_glob * ns).toNat r)[(flat2 1 1 ns i j).toNat]? = some 0)) ∧
    ∃ hs vals, catseis procs ntr_glob ns = .ok hs ∧
      List.Forall₂ (fun Q a => Q.heap.matAt Q.data (countFlags Q.flag i.toNat) j = some a)
        (procs.filter (fun Q => decide (Q.flag i ≠ 0))) vals ∧
      List.Forall₂ (fun P h1 => h1.matAt P.fulldata i j = some vals.sum ∧
        ((∀ Q ∈ procs, Q.flag i = 0) → h1.matAt P.fulldata i j = some 0)) procs hs := by
  have hn : 1 ≤ ntr_glob := by omega
  have hs : 0 ≤ ns := by omega
  constructor
  · intro P hP
    obtain ⟨r, hrun, hrel⟩ := send_rel P ntr_glob ns hn hs (hproc P hP)
    refine ⟨r, hrun, fun h0 => ?_⟩
    have hv := scratch_value P ntr_glob ns r hrel i j hi1 hi2 hj1 hj2
    rw [scatter_unflagged P i j h0] at hv
    refine ⟨hv, ?_⟩
    rw [((send_row_major P ntr_glob ns hn r hrel).2.2 i j hi1 hi2 hj1 hj2).2]
    exact hv
  · obtain ⟨hs1, hrun, hrel⟩ := catseis_spec procs ntr_glob ns hn hs hproc
    have hsum : (procs.map (fun Q => scatter Q.heap Q.data Q.recswitch i j)).sum
        = ((procs.filter (fun Q => decide (Q.flag i ≠ 0))).map
            (fun Q => (Q.heap.matAt Q.data (countFlags Q.flag i.toNat) j).getD 0)).sum := by
      refine Eq.trans ?_ (sum_map_ite_filter (fun Q : Proc α => decide (Q.flag i ≠ 0))
        (fun Q => (Q.heap.matAt Q.data (countFlags Q.flag i.toNat) j).getD 0) procs)
      congr 1
      apply List.map_congr_left
      intro Q _
      show (if Q.flag i ≠ 0 then
          (Q.heap.matAt Q.data (countFlags Q.flag i.toNat) j).getD 0 else 0)
        = (if decide (Q.flag i ≠ 0) = true then
          (Q.heap.matAt Q.data (countFlags Q.flag i.toNat) j).getD 0 else 0)
      by_cases hf : Q.flag i ≠ 0
      · rw [if_pos hf, if_pos (decide_eq_true hf)]
      · rw [if_neg hf, if_neg (fun hd => hf (of_decide_eq_true hd))]
    refine ⟨hs1, _, hrun, forall₂_getD
      (fun Q : Proc α => Q.heap.matAt Q.data (countFlags Q.flag i.toNat) j) 0 _
      (fun Q hQ => ?_), hrel.imp (fun P h1 hP => ?_)⟩
    · obtain ⟨hQ1, hQ2⟩ := List.mem_filter.mp hQ
      have hflag : Q.flag i ≠ 0 := of_decide_eq_true hQ2
      obtain ⟨_, _, _, hda, _⟩ := hproc Q hQ1
      have hk1 : 1 ≤ countFlags Q.flag i.toNat := by
        rw [countFlags_step Q.flag i hi1, if_pos hflag]
        have := countFlags_nonneg Q.flag (i - 1).toNat
        omega
      have hk2 : countFlags Q.flag i.toNat ≤ countFlags Q.flag ntr_glob.toNat :=
        countFlags_mono Q.flag (by omega)
      exact hda (countFlags Q.flag i.toNat) j hk1 hk2 hj1 hj2
    · have hv := hP i j hi1 hi2 hj1 hj2
      refine ⟨by rw [hv, hsum], fun hall => ?_⟩
      rw [hv]
      congr 1
      apply List.sum_eq_zero
      intro z hz
      obtain ⟨Q, hQ, rfl⟩ := List.mem_map.mp hz
      exact scatter_unflagged Q i j (hall Q hQ)

/-- Witness of `unflagged_rows_zero`: processes A and C of the collector
example at the index `i = 3`, which neither flags; the run leaves the rows
`[1,2]` (from A), `[3,4]` (from C), `[0,0]` (nobody) and `[7+5, 8+6]` (both). -/
theorem unflagged_rows_zero_witness :
    ((∀ P ∈ [sampleProcA, sampleProcC], ProcOk P 4 2) ∧
      (1 : Int) ≤ 3 ∧ (3 : Int) ≤ 4 ∧ (1 : Int) ≤ 1 ∧ (1 : Int) ≤ 2 ∧
      ∀ Q ∈ [sampleProcA, sampleProcC], Q.flag 3 = 0) ∧
    ((∀ P ∈ [sampleProcA, sampleProcC], ∃ r,
      (catseisSend P.data P.fulldata P.recswitch 4 2).run P.heap = .ok r ∧
      (P.flag 3 = 0 → r.2.matAt r.1.1 3 1 = some 0 ∧
        (sendList ((4 : Int) * 2).toNat r)[(flat2 1 1 2 3 1).toNat]? = some 0)) ∧
    ∃ hs vals, catseis [sampleProcA, sampleProcC] 4 2 = .ok hs ∧
      List.Forall₂ (fun Q a => Q.heap.matAt Q.data (countFlags Q.flag (3 : Int).toNat) 1 = some a)
        ([sampleProcA, sampleProcC].filter (fun Q => decide (Q.flag 3 ≠ 0))) vals ∧
      List.Forall₂ (fun P h1 => h1.matAt P.fulldata 3 1 = some vals.sum ∧
        ((∀ Q ∈ [sampleProcA, sampleProcC], Q.flag 3 = 0) →
          h1.matAt P.fulldata 3 1 = some 0)) [sampleProcA, sampleProcC] hs) ∧
    (catseis [sampleProcA, sampleProcC] 4 2).toOption.map
        (fun hs => hs.map (readSample sampleProcA.fulldata))
      = some [[[some 1, some 2], [some 3, some 4], [some 0, some 0], [some 12, some 14]],
              [[some 1, some 2], [some 3, some 4], [some 0, some 0], [some 12, some 14]]] :=
  ⟨⟨sampleRows_ok, by decide, by decide, by decide, by decide, by decide⟩,
   unflagged_rows_zero [sampleProcA, sampleProcC] 4 2 sampleRows_ok 3 1
     (by decide) (by decide) (by decide) (by decide),
   by decide⟩

end CatseisRows
/-! ## catseis.c: the trace counter of the scatter loop -/

section CatseisCursor

variable {α : Type}

/-- A counted run of `n + k` rounds is a run of `n` rounds followed by a run
of `k` rounds. -/
theorem forRange_append {m : Type → Type} [Monad m] [LawfulMonad m] {σ : Type}
    (body : Int → σ → m σ) : ∀ (n k : Nat) (lo : Int) (s : σ),
      forRange body lo (n + k) s = forRange body lo n s >>= forRange body (lo + n) k := by
  intro n
  induction n with
  | zero =>
    intro k lo s
    show forRange body lo (0 + k) s = pure s >>= forRange body (lo + ((0 : Nat) : Int)) k
    rw [pure_bind, Nat.zero_add, Nat.cast_zero, add_zero]
  | succ n ih =>
    intro k lo s
    have e : n + 1 + k = (n + k) + 1 := by omega
    have e1 : lo + (((n + 1 : Nat)) : Int) = lo + 1 + (n : Int) := by push_cast; ring
    rw [e, e1]
    show body lo s >>= forRange body (lo + 1) (n + k)
      = (body lo s >>= forRange body (lo + 1) n) >>= forRange body (lo + 1 + n) k
    rw [bind_assoc]
    congr 1
    funext s1
    exact ih k (lo + 1) s1

/-- A counted loop is its rounds up to `mid` followed by the rounds after
`mid`. -/
theorem forLoop_split {m : Type → Type} [Monad m] [LawfulMonad m] {σ : Type}
    (body : Int → σ → m σ) (lo mid hi : Int) (s : σ) (h1 : lo ≤ mid + 1) (h2 : mid ≤ hi) :
    forLoop lo hi s body = forLoop lo mid s body >>= fun s1 => forLoop (mid + 1) hi s1 body := by
  unfold forLoop
  have e : (hi + 1 - lo).toNat = (mid + 1 - lo).toNat + (hi + 1 - (mid + 1)).toNat := by omega
  have e1 : lo + (((mid + 1 - lo).toNat : Nat) : Int) = mid + 1 := by omega
  rw [e, forRange_append, e1]

/-- The scatter loop of `catseis` is its first `i` rounds followed by the
rounds after `i`, which take over the trace counter. -/
theorem catseisSend_rounds [Zero α] (data fulldata recswitch : Ptr) (ntr_glob ns i : Int)
    (hi0 : 0 ≤ i) (hi2 : i ≤ ntr_glob) :
    (catseisSend data fulldata recswitch ntr_glob ns : M α (Ptr × Ptr × Ptr)) = (do
      let fulldata2 ← fmatrix 1 ntr_glob 1 ns
      let k ← scatterLoop data fulldata2 recswitch 1 i 0 ns
      let _ ← scatterLoop data fulldata2 recswitch (i + 1) ntr_glob k ns
      return (fulldata2, ← at2 fulldata2 1 1, ← at2 fulldata 1 1)) := by
  show (fmatrix 1 ntr_glob 1 ns >>= fun fulldata2 =>
      scatterLoop data fulldata2 recswitch 1 ntr_glob 0 ns >>= fun _ =>
        (do return (fulldata2, ← at2 fulldata2 1 1, ← at2 fulldata 1 1)))
    = (fmatrix 1 ntr_glob 1 ns >>= fun fulldata2 =>
      scatterLoop data fulldata2 recswitch 1 i 0 ns >>= fun k =>
        scatterLoop data fulldata2 recswitch (i + 1) ntr_glob k ns >>= fun _ =>
          (do return (fulldata2, ← at2 fulldata2 1 1, ← at2 fulldata 1 1)))
  congr 1
  funext fulldata2
  unfold scatterLoop
  rw [forLoop_split _ 1 i ntr_glob 0 (by omega) hi2, bind_assoc]

/-- The first `m` rounds of the scatter loop, run on the heap that `fmatrix`
leaves: the trace counter ends as the number of flags set among
`recswitch[1..m]`, and a cell that has changed is an element `fulldata2[i][j]`
with `1 ≤ i ≤ m`, `recswitch[i]` set and `1 ≤ j ≤ ns`. -/
theorem scatterLoop_spec [Zero α] (h : Heap α) (data recswitch : Ptr) (ntr ns : Int)
    (hs : 0 ≤ ns) (hflags : FlagsOk h recswitch ntr)
    (hdata : DataOk h data (countFlags (fun l => h.intAt (recswitch + l)) ntr.toNat) ns)
    (B : Heap α) (c : Nat → Int → Word α)
    (hin0 : ∀ o, 1 ≤ o → o ≤ ntr → B.inb ⟨h.next, o⟩)
    (hin1 : ∀ o, 1 ≤ o → o ≤ ntr * ns → B.inb ⟨h.next + 1, o⟩)
    (hold : ∀ p, h.inb p → B.inb p)
    (hrow : Rows c h.next (h.next + 1) 0 ns ntr)
    (hfr : ∀ b, b ≠ h.next → b ≠ h.next + 1 → ∀ o, c b o = h.cell b o)
    (m : Int) (hm0 : 0 ≤ m) (hm : m ≤ ntr) :
    Ok (scatterLoop data ⟨h.next, 0⟩ recswitch 1 m 0 ns) (B.withCells c) (fun k h2 =>
      k = countFlags (fun l => h.intAt (recswitch + l)) m.toNat ∧
      ∃ c2, h2 = B.withCells c2 ∧
        ∀ b o, c2 b o ≠ c b o → b = h.next + 1 ∧
          ∃ i j, 1 ≤ i ∧ i ≤ m ∧ h.intAt (recswitch + i) ≠ 0 ∧ 1 ≤ j ∧ j ≤ ns ∧
            o = 1 + ((i - 1) * ns + (j - 1))) := by
  have hb01 : h.next ≠ h.next + 1 := by omega
  obtain ⟨db, dof⟩ := data
  obtain ⟨rb, rof⟩ := recswitch
  unfold scatterLoop
  apply ok_forLoop (fun k kk h1 =>
      kk = countFlags (fun l => h.intAt ((⟨rb, rof⟩ : Ptr) + l)) (k - 1).toNat ∧
      ∃ c2, h1 = B.withCells c2 ∧
        ∀ b o, c2 b o ≠ c b o → b = h.next + 1 ∧
          ∃ i j, 1 ≤ i ∧ i < k ∧ h.intAt ((⟨rb, rof⟩ : Ptr) + i) ≠ 0 ∧ 1 ≤ j ∧ j ≤ ns ∧
            o = 1 + ((i - 1) * ns + (j - 1)))
  · omega
  · exact ⟨rfl, c, rfl, fun b o hne => absurd rfl hne⟩
  · rintro k kk h1 hk1 hk2 ⟨rfl, c2, rfl, hch⟩
    have hkn : k ≤ ntr := by omega
    have hsame : ∀ b o, b ≠ h.next + 1 → c2 b o = c b o := fun b o hb => by
      by_contra hne
      exact hb (hch b o hne).1
    have hrow2 : Rows c2 h.next (h.next + 1) 0 ns ntr := fun a o r h1 h2 ho hr => by
      rw [hsame _ _ hb01]
      exact hrow a o r h1 h2 ho hr
    have hfr2 : ∀ b, b ≠ h.next → b ≠ h.next + 1 → ∀ o, c2 b o = h.cell b o :=
      fun b hb0 hb1 o => by
        rw [hsame b o hb1]
        exact hfr b hb0 hb1 o
    obtain ⟨hfin_k, mm, hfm⟩ := hflags k hk1 hkn
    have hrlt : rb < h.next := hfin_k.1
    have hflag : h.intAt ((⟨rb, rof⟩ : Ptr) + k) = mm := intAt_of_cell hfm
    have hstep := countFlags_step (fun l => h.intAt ((⟨rb, rof⟩ : Ptr) + l)) k hk1
    apply ok_bind_loadIntC mm (hold _ hfin_k)
      (by rw [hfr2 rb (by omega) (by omega)]; exact hfm)
    by_cases hm0 : mm = 0
    · -- flag not set: the trace counter stays
      rw [if_neg (by simpa using hm0)]
      apply ok_pure
      refine ⟨?_, c2, rfl, fun b o hne => ?_⟩
      · have e : k + 1 - 1 = k := by ring
        rw [e, hstep]
        show _ = _ + (if h.intAt ((⟨rb, rof⟩ : Ptr) + k) ≠ 0 then (1 : Int) else 0)
        rw [hflag, if_neg (by simpa using hm0)]
        ring
      · obtain ⟨hb, i, j, h1, h2, h3, h4, h5, h6⟩ := hch b o hne
        exact ⟨hb, i, j, h1, by omega, h3, h4, h5, h6⟩
    · -- flag set: the trace counter advances and its row is copied
      rw [if_pos hm0]
      have hkk : countFlags (fun l => h.intAt ((⟨rb, rof⟩ : Ptr) + l)) k.toNat
          = countFlags (fun l => h.intAt ((⟨rb, rof⟩ : Ptr) + l)) (k - 1).toNat + 1 := by
        rw [hstep]
        show _ + (if h.intAt ((⟨rb, rof⟩ : Ptr) + k) ≠ 0 then (1 : Int) else 0) = _
        rw [hflag, if_pos hm0]
      have hkk1 : 1 ≤ countFlags (fun l => h.intAt ((⟨rb, rof⟩ : Ptr) + l)) (k - 1).toNat + 1 := by
        have := countFlags_nonneg (fun l => h.intAt ((⟨rb, rof⟩ : Ptr) + l)) (k - 1).toNat
        omega
      have hkk2 : countFlags (fun l => h.intAt ((⟨rb, rof⟩ : Ptr) + l)) (k - 1).toNat + 1
          ≤ countFlags (fun l => h.intAt ((⟨rb, rof⟩ : Ptr) + l)) ntr.toNat := by
        rw [← hkk]
        exact countFlags_mono _ (by omega)
      have hfk : h.intAt ((⟨rb, rof⟩ : Ptr) + k) ≠ 0 := by rw [hflag]; exact hm0
      generalize hkv : countFlags (fun l => h.intAt ((⟨rb, rof⟩ : Ptr) + l)) (k - 1).toNat = kk
        at hkk hkk1 hkk2 ⊢
      apply ok_bind_forEach (fun l h1 => ∃ c3, h1 = B.withCells c3 ∧
        ∀ b o, c3 b o ≠ c b o → b = h.next + 1 ∧
          ∃ i j, 1 ≤ i ∧ (i < k ∨ (i = k ∧ j < l)) ∧ h.intAt ((⟨rb, rof⟩ : Ptr) + i) ≠ 0 ∧
            1 ≤ j ∧ j ≤ ns ∧ o = 1 + ((i - 1) * ns + (j - 1)))
      · omega
      · refine ⟨c2, rfl, fun b o hne => ?_⟩
        obtain ⟨hb, i, j, h1, h2, h3, h4, h5, h6⟩ := hch b o hne
        exact ⟨hb, i, j, h1, Or.inl h2, h3, h4, h5, h6⟩
      · clear hrow2 hfr2 hsame hch c2
        rintro l h1 hl1 hl2 ⟨c3, rfl, hch3⟩
        have hsame : ∀ b o, b ≠ h.next + 1 → c3 b o = c b o := fun b o hb => by
          by_contra hne
          exact hb (hch3 b o hne).1
        have hrow3 : Rows c3 h.next (h.next + 1) 0 ns ntr := fun a o r h1 h2 ho hr => by
          rw [hsame _ _ hb01]
          exact hrow a o r h1 h2 ho hr
        have hfr3 : ∀ b, b ≠ h.next → b ≠ h.next + 1 → ∀ o, c3 b o = h.cell b o :=
          fun b hb0 hb1 o => by
            rw [hsame b o hb1]
            exact hfr b hb0 hb1 o
        obtain ⟨qb, qo, a, d1, d2, d3, d4, d5⟩ := matAt_cells (hdata (kk + 1) l hkk1 hkk2 hl1 hl2)
        have hdlt : db < h.next := d1.1
        have hqlt : qb < h.next := d3.1
        have hbk := flat_bound (show 0 ≤ k - 1 by omega) (show k - 1 < ntr by omega)
          (show 0 ≤ l - 1 by omega) (show l - 1 < ns by omega)
        apply ok_bind_at2C (h.next + 1) (0 + (k - 1) * ns) (hin0 _ (by omega) (by omega))
          (hrow3 (k - 1) _ _ (by omega) (by omega) (by omega) rfl)
        apply ok_bind_at2C qb qo (hold _ d1) (by rw [hfr3 db (by omega) (by omega)]; exact d2)
        apply ok_bind_loadFltC a (hold _ d3) (by rw [hfr3 qb (by omega) (by omega)]; exact d4)
        apply ok_storeC (hin1 _ (by omega) (by omega))
        refine ⟨_, rfl, fun b o hne => ?_⟩
        by_cases hloc : b = h.next + 1 ∧ o = 0 + (k - 1) * ns + l
        · exact ⟨hloc.1, k, l, hk1, Or.inr ⟨rfl, by omega⟩, hfk, hl1, hl2, by
            rw [hloc.2]; ring⟩
        · rw [upd_other _ _ _ _ _ (not_and_or.mp hloc)] at hne
          obtain ⟨hb, i, j, h1, h2, h3, h4, h5, h6⟩ := hch3 b o hne
          refine ⟨hb, i, j, h1, ?_, h3, h4, h5, h6⟩
          rcases h2 with h2 | ⟨h2, h7⟩
          · exact Or.inl h2
          · exact Or.inr ⟨h2, by omega⟩
      · clear hrow2 hfr2 hsame hch c2
        rintro h1 ⟨c3, rfl, hch3⟩
        apply ok_pure
        refine ⟨?_, c3, rfl, fun b o hne => ?_⟩
        · have e : k + 1 - 1 = k := by ring
          rw [e, hkk]
        · obtain ⟨hb, i, j, h1, h2, h3, h4, h5, h6⟩ := hch3 b o hne
          exact ⟨hb, i, j, h1, by omega, h3, h4, h5, h6⟩
  · rintro kk h1 ⟨rfl, c2, rfl, hch⟩
    have e : m + 1 - 1 = m := by ring
    refine ⟨by rw [e], c2, rfl, fun b o hne => ?_⟩
    obtain ⟨hb, i, j, h1, h2, h3, h4, h5, h6⟩ := hch b o hne
    exact ⟨hb, i, j, h1, by omega, h3, h4, h5, h6⟩

theorem sampleProcTight_ok : ProcOk sampleProcTight 4 2 := by
  refine ⟨?_, ?_, ?_, ?_, 5, 0, ?_, ?_, ?_⟩
  · intro p hp
    cases hp
  · intro n _ _
    rfl
  · intro i h1 h2
    have hin : sampleProcTight.heap.inb (sampleProcTight.recswitch + i) :=
      ⟨show 0 < 6 by decide, show (0 : Int) ≤ -1 + i by omega,
        show (-1 : Int) + i < 4 by omega⟩
    have hi : i = 1 ∨ i = 2 ∨ i = 3 ∨ i = 4 := by omega
    rcases hi with rfl | rfl | rfl | rfl <;> exact ⟨hin, _, rfl⟩
  · intro k j hk1 hk2 hj1 hj2
    have hc : countFlags sampleProcTight.flag (4 : Int).toNat = 2 := by decide
    have hk2 : k ≤ 2 := le_trans hk2 (le_of_eq hc)
    have hk : k = 1 ∨ k = 2 := by omega
    have hj : j = 1 ∨ j = 2 := by omega
    rcases hk with rfl | rfl <;> rcases hj with rfl | rfl <;> rfl
  · show (5 : Nat) ≠ 4
    decide
  · intro i h1 h2
    have hin : sampleProcTight.heap.inb (sampleProcTight.fulldata + i) :=
      ⟨show 4 < 6 by decide, show (0 : Int) ≤ 0 + i by omega,
        show (0 : Int) + i < 5 by omega⟩
    have hi : i = 1 ∨ i = 2 ∨ i = 3 ∨ i = 4 := by omega
    rcases hi with rfl | rfl | rfl | rfl <;> exact ⟨hin, rfl⟩
  · intro f h1 h2
    refine ⟨?_, ?_, ?_⟩
    · show 5 < 6
      decide
    · show 0 ≤ 0 + 1 + f
      omega
    · show 0 + 1 + f < 9
      omega

/-- C23. The trace counter of the scatter loop of `catseis`, on a process with
valid arguments (of `data` only the rows `1..c` with their samples `1..ns`
need be readable, `c` the number of flags set in `recswitch[1..ntr_glob]`;
a read of memory that is not allocated is a fault) and `ns ≥ 0`: for every
round `i` in `1..ntr_glob`, `catseis` runs `fmatrix`, then the rounds `1..i` of
the loop, then the rounds after `i`, and the rounds `1..i` return with the
trace counter `k` equal to the number of flags set among `recswitch[1..i]`, so
`0 ≤ k ≤ c`, and `1 ≤ k` in a round whose flag is set (the `k` of its reads
`data[k][j]`). A cell that these rounds have changed is an element
`fulldata2[i1][j]` with `1 ≤ i1 ≤ i` and `1 ≤ j ≤ ns`; every cell of a block
that existed before the call, so `recswitch[1..ntr_glob]` and
`data[1..c][1..ns]`, holds what it held. -/
theorem scatter_cursor_bound [Zero α] (P : Proc α) (ntr_glob ns : Int) (hs : 0 ≤ ns)
    (hP : ProcOk P ntr_glob ns) (i : Int) (hi1 : 1 ≤ i) (hi2 : i ≤ ntr_glob) :
    ∃ fulldata2 h1 k h2,
      (fmatrix 1 ntr_glob 1 ns).run P.heap = .ok (fulldata2, h1) ∧
      (scatterLoop P.data fulldata2 P.recswitch 1 i 0 ns).run h1 = .ok (k, h2) ∧
      (catseisSend P.data P.fulldata P.recswitch ntr_glob ns : M α (Ptr × Ptr × Ptr)) = (do
        let fulldata2 ← fmatrix 1 ntr_glob 1 ns
        let k ← scatterLoop P.data fulldata2 P.recswitch 1 i 0 ns
        let _ ← scatterLoop P.data fulldata2 P.recswitch (i + 1) ntr_glob k ns
        return (fulldata2, ← at2 fulldata2 1 1, ← at2 P.fulldata 1 1)) ∧
      k = countFlags P.flag i.toNat ∧ 0 ≤ k ∧ k ≤ countFlags P.flag ntr_glob.toNat ∧
      (P.flag i ≠ 0 → 1 ≤ k) ∧
      (∀ b o, h2.cell b o ≠ h1.cell b o →
        ∃ i1 j, 1 ≤ i1 ∧ i1 ≤ i ∧ 1 ≤ j ∧ j ≤ ns ∧
          at2 fulldata2 i1 j h1 = .ok (⟨b, o⟩, h1)) ∧
      (∀ b, b < P.heap.next → ∀ o, h2.cell b o = P.heap.cell b o) ∧
      (∀ l, 1 ≤ l → l ≤ ntr_glob → h2.intAt (P.recswitch + l) = P.flag l) ∧
      (∀ k1 j, 1 ≤ k1 → k1 ≤ countFlags P.flag ntr_glob.toNat → 1 ≤ j → j ≤ ns →
        h2.matAt P.data k1 j = P.heap.matAt P.data k1 j) := by
  obtain ⟨-, hm, hfl, hda, -⟩ := hP
  have hn : 1 ≤ ntr_glob := by omega
  have ho := hm P.heap.next le_rfl (by omega)
  have ho1 := hm (P.heap.next + 1) (by omega) (by omega)
  obtain ⟨f2, H1, hrun1, rfl, c, rfl, hrow, -, hfr⟩ :=
    matrixOf_spec (.flt (0 : α)) "allocation failure 1 in function fmatrix() "
      "allocation failure 2 in function fmatrix() " 1 ntr_glob 1 ns P.heap ho ho1 hn (by omega)
  have e1 : ntr_glob - 1 + 1 = ntr_glob := by ring
  have e2 : ns - 1 + 1 = ns := by ring
  have e3 : (1 : Int) - 1 = 0 := by ring
  have e4 : (0 : Int) + 1 - 1 = 0 := by ring
  rw [e1, e2, e3] at hrow
  have hin0 : ∀ o, 1 ≤ o → o ≤ ntr_glob →
      ((P.heap.alloc (ntr_glob - 1 + 1 + 1)).alloc
        ((ntr_glob - 1 + 1) * (ns - 1 + 1) + 1)).inb ⟨P.heap.next, o⟩ :=
    fun o h1 h2 => alloc2_inb0 _ _ _ _ (by omega) (by omega)
  have hin1 : ∀ o, 1 ≤ o → o ≤ ntr_glob * ns →
      ((P.heap.alloc (ntr_glob - 1 + 1 + 1)).alloc
        ((ntr_glob - 1 + 1) * (ns - 1 + 1) + 1)).inb ⟨P.heap.next + 1, o⟩ :=
    fun o h1 h2 => alloc2_inb1 _ _ _ _ (by omega) (by rw [e1, e2]; omega)
  have hold : ∀ p, P.heap.inb p →
      ((P.heap.alloc (ntr_glob - 1 + 1 + 1)).alloc
        ((ntr_glob - 1 + 1) * (ns - 1 + 1) + 1)).inb p :=
    fun p hp => alloc_inb_old _ _ _ (alloc_inb_old _ _ _ hp)
  rw [e4] at hrun1
  generalize hB : (P.heap.alloc (ntr_glob - 1 + 1 + 1)).alloc
    ((ntr_glob - 1 + 1) * (ns - 1 + 1) + 1) = B at hin0 hin1 hold hrun1 ⊢
  obtain ⟨k, H2, hrun2, hk, c2, rfl, hch⟩ :=
    scatterLoop_spec P.heap P.data P.recswitch ntr_glob ns hs hfl hda B c hin0 hin1 hold
      hrow hfr i (by omega) hi2
  have hk0 : k = countFlags P.flag i.toNat := hk
  have hold2 : ∀ b, b < P.heap.next → ∀ o, c2 b o = P.heap.cell b o := by
    intro b hb o
    have hsame : c2 b o = c b o := by
      by_contra hne
      have := (hch b o hne).1
      omega
    rw [hsame]
    exact hfr b (by omega) (by omega) o
  refine ⟨⟨P.heap.next, 0⟩, B.withCells c, k, B.withCells c2, hrun1, hrun2,
    catseisSend_rounds P.data P.fulldata P.recswitch ntr_glob ns i (by omega) hi2,
    hk0, ?_, ?_, ?_, ?_, hold2, ?_, ?_⟩
  · rw [hk0]
    exact countFlags_nonneg _ _
  · rw [hk0]
    exact countFlags_mono _ (by omega)
  · intro hf
    rw [hk0, countFlags_step P.flag i hi1, if_pos hf]
    have := countFlags_nonneg P.flag (i - 1).toNat
    omega
  · intro b o hne
    obtain ⟨hb, i1, j, h1, h2, -, h4, h5, h6⟩ := hch b o hne
    refine ⟨i1, j, h1, h2, h4, h5, ?_⟩
    apply ok_eq
    refine ok_at2 ⟨P.heap.next + 1, 0 + (i1 - 1) * ns⟩ (hin0 (0 + i1) (by omega) (by omega))
      (hrow (i1 - 1) (0 + i1) _ (by omega) (by omega) (by ring) rfl) ⟨?_, rfl⟩
    rw [ptr_add, hb, h6]
    congr 1
    ring
  · intro l hl1 hl2
    obtain ⟨hin, mm, hc⟩ := hfl l hl1 hl2
    have hlt : P.recswitch.blk < P.heap.next := hin.1
    show (B.withCells c2).intAt (P.recswitch + l) = P.heap.intAt (P.recswitch + l)
    unfold Heap.intAt
    show (match c2 P.recswitch.blk (P.recswitch.off + l) with
        | .int n => n
        | _ => 0) = _
    rw [hold2 _ hlt]
    rfl
  · intro k1 j hk1 hk2 hj1 hj2
    generalize P.data = d at hda ⊢
    obtain ⟨db, dof⟩ := d
    obtain ⟨qb, qo, a, d1, d2, d3, d4, d5⟩ := matAt_cells (hda k1 j hk1 hk2 hj1 hj2)
    rw [d5]
    exact matAt_of_cells (hold _ d1) ((hold2 db d1.1 _).trans d2) (hold _ d3)
      ((hold2 qb d3.1 _).trans d4)

/-- Witness of `scatter_cursor_bound`: the whole loop (`i = 4`) on a process
whose `recswitch` has the four flags `[1,0,0,1]` and nothing else, and whose
`data` has two rows of two samples and nothing else; above that, the trace
counter after `0..4` rounds. -/
theorem scatter_cursor_bound_witness :
    ((0 : Int) ≤ 2 ∧ ProcOk sampleProcTight 4 2 ∧ (1 : Int) ≤ 4 ∧ (4 : Int) ≤ 4 ∧
      sampleProcTight.heap.matAt sampleProcTight.data 0 1 = none ∧
      sampleProcTight.heap.matAt sampleProcTight.data 3 1 = none ∧
      sampleProcTight.heap.matAt sampleProcTight.data 1 0 = none ∧
      sampleProcTight.heap.matAt sampleProcTight.data 1 3 = none ∧
      ¬ sampleProcTight.heap.inb (sampleProcTight.recswitch + (0 : Int)) ∧
      ¬ sampleProcTight.heap.inb (sampleProcTight.recswitch + (5 : Int))) ∧
    (∃ fulldata2 h1 k h2,
      (fmatrix 1 4 1 2).run sampleProcTight.heap = .ok (fulldata2, h1) ∧
      (scatterLoop sampleProcTight.data fulldata2 sampleProcTight.recswitch 1 4 0 2).run h1
        = .ok (k, h2) ∧
      (catseisSend sampleProcTight.data sampleProcTight.fulldata sampleProcTight.recswitch 4 2
          : M Int (Ptr × Ptr × Ptr)) = (do
        let fulldata2 ← fmatrix 1 4 1 2
        let k ← scatterLoop sampleProcTight.data fulldata2 sampleProcTight.recswitch 1 4 0 2
        let _ ← scatterLoop sampleProcTight.data fulldata2 sampleProcTight.recswitch (4 + 1) 4 k 2
        return (fulldata2, ← at2 fulldata2 1 1, ← at2 sampleProcTight.fulldata 1 1)) ∧
      k = countFlags sampleProcTight.flag (4 : Int).toNat ∧ 0 ≤ k ∧
      k ≤ countFlags sampleProcTight.flag (4 : Int).toNat ∧
      (sampleProcTight.flag 4 ≠ 0 → 1 ≤ k) ∧
      (∀ b o, h2.cell b o ≠ h1.cell b o →
        ∃ i1 j, 1 ≤ i1 ∧ i1 ≤ 4 ∧ 1 ≤ j ∧ j ≤ 2 ∧
          at2 fulldata2 i1 j h1 = .ok (⟨b, o⟩, h1)) ∧
      (∀ b, b < sampleProcTight.heap.next → ∀ o, h2.cell b o = sampleProcTight.heap.cell b o) ∧
      (∀ l, 1 ≤ l → l ≤ 4 → h2.intAt (sampleProcTight.recswitch + l) = sampleProcTight.flag l) ∧
      (∀ k1 j, 1 ≤ k1 → k1 ≤ countFlags sampleProcTight.flag (4 : Int).toNat → 1 ≤ j → j ≤ 2 →
        h2.matAt sampleProcTight.data k1 j = sampleProcTight.heap.matAt sampleProcTight.data k1 j)) ∧
    ([0, 1, 2, 3, 4].map fun m : Int =>
        (((fmatrix 1 4 1 2 >>= fun fulldata2 =>
            scatterLoop sampleProcTight.data fulldata2 sampleProcTight.recswitch 1 m 0 2
            : M Int Int).run sampleProcTight.heap).toOption.map fun r => r.1))
      = [some 0, some 1, some 1, some 1, some 2] :=
  ⟨⟨by decide, sampleProcTight_ok, by decide, by decide, by decide, by decide, by decide,
      by decide, by decide, by decide⟩,
   scatter_cursor_bound sampleProcTight 4 2 (by decide) sampleProcTight_ok 4
     (by decide) (by decide),
   by decide⟩

end CatseisCursor

end ASOFI3D
